import Mathlib

/-!
# Wire codec of the Kafka client: message types of `src/`

A shallow embedding of seven request/response types of the client
(`OffsetCommitRequest`, `OffsetFetchRequest`, `OffsetCommitResponse`,
`LeaveGroupResponse`, `AddPartitionsToTxnResponse`, `CreateAclsResponse`,
`DescribeAclsResponse`) together with the primitive encoder/decoder they call.

* Go `int16`/`int32`/`int64` values are `Int`s; the wire form is the
  two's-complement bit pattern (`wrap`), read back with `signed`.
* Go `string` is a byte sequence (`GoString`), `len` is the byte count.
* A Go `map` is `Option` of an association list: `none` is the nil map, the
  list order is the order in which `range` visits the entries.
* A run of encoder calls is an `Enc`: the bytes appended to the buffer, the
  lines sent to `Logger`, and the error returned (if any).
* A decoder call returns a `Res`: a value with the rest of the cursor, an
  error, or a run-time panic.
-/

namespace Sarama

/-! ## Bytes, errors, results -/

/-- One byte of the wire. -/
abbrev Byte := Fin 256

/-- Go `string`: a sequence of bytes, not validated as UTF-8. -/
abbrev GoString := List Byte

/-- Errors returned by the codec. -/
inductive Err where
  /-- Decode ran out of bytes (`ErrInsufficientData`). -/
  | insufficientData
  /-- A negative length where only a non-negative one is legal. -/
  | invalidLength
  /-- An unsigned varint that does not fit 64 bits. -/
  | varintOverflow
  /-- The Go value `PacketEncodingError{msg}`. -/
  | packetEncoding (msg : String)
  deriving DecidableEq, Repr

/-- Outcome of a decoder call: a value, a returned error, or a Go run-time panic. -/
inductive Res (α : Type) where
  | ok (a : α)
  | error (e : Err)
  | panic
  deriving DecidableEq, Repr

/-- Sequencing of decoder calls: an error or a panic ends the run. -/
def Res.bind {α β : Type} (x : Res α) (f : α → Res β) : Res β :=
  match x with
  | Res.ok a => f a
  | Res.error e => Res.error e
  | Res.panic => Res.panic

instance : Monad Res where
  pure := Res.ok
  bind := Res.bind

/-- The call returned without error and without panicking. -/
def Res.isOk {α : Type} : Res α → Bool
  | Res.ok _ => true
  | _ => false

/-- The call returned an error value. -/
def Res.isError {α : Type} : Res α → Bool
  | Res.error _ => true
  | _ => false

/-- The effect of a run of encoder calls. -/
structure Enc where
  /-- Bytes appended to the output buffer. -/
  out : List Byte
  /-- Lines printed through `Logger.Println`. -/
  log : List String
  /-- The error returned, `none` for `nil`. -/
  err : Option Err
  deriving DecidableEq, Repr

/-- Nothing written, nothing logged, no error. -/
def Enc.skip : Enc := ⟨[], [], none⟩

/-- Write raw bytes. -/
def Enc.bytes (bs : List Byte) : Enc := ⟨bs, [], none⟩

/-- Return an error without writing. -/
def Enc.fail (e : Err) : Enc := ⟨[], [], some e⟩

/-- The call `Logger.Println(line)`. -/
def Enc.println (line : String) : Enc := ⟨[], [line], none⟩

/-- Run `a`; unless it returned an error, run `b` after it. -/
def Enc.andThen (a b : Enc) : Enc :=
  match a.err with
  | some _ => a
  | none => ⟨a.out ++ b.out, a.log ++ b.log, b.err⟩

/-- A block of statements run in order, stopping at the first error. -/
def Enc.seq : List Enc → Enc
  | [] => Enc.skip
  | a :: rest => a.andThen (Enc.seq rest)

/-- The loop `for _, x := range xs { body(x) }`, leaving at the first error. -/
def Enc.forEach {α : Type} : List α → (α → Enc) → Enc
  | [], _ => Enc.skip
  | x :: xs, body => (body x).andThen (Enc.forEach xs body)

/-! ## Fixed-width integers -/

/-- The `w` big-endian bytes of `n` (the low `8 * w` bits). -/
def beBytes : Nat → Nat → List Byte
  | 0, _ => []
  | w + 1, n => Fin.ofNat (n / 256 ^ w) :: beBytes w n

/-- The number a big-endian byte sequence denotes. -/
def beValue (bs : List Byte) : Nat :=
  bs.foldl (fun acc b => acc * 256 + b.val) 0

/-- Two's-complement bit pattern of `x` in `bits` bits. -/
def wrap (bits : Nat) (x : Int) : Nat := (x % 2 ^ bits).toNat

/-- The signed reading of a `bits`-bit pattern. -/
def signed (bits : Nat) (n : Nat) : Int :=
  if n < 2 ^ (bits - 1) then (n : Int) else (n : Int) - 2 ^ bits

/-- The value is a Go `int16`. -/
def IsInt16 (x : Int) : Prop := -32768 ≤ x ∧ x ≤ 32767

/-- The value is a Go `int32`. -/
def IsInt32 (x : Int) : Prop := -2147483648 ≤ x ∧ x ≤ 2147483647

/-- The value is a Go `int64`. -/
def IsInt64 (x : Int) : Prop := -9223372036854775808 ≤ x ∧ x ≤ 9223372036854775807

instance (x : Int) : Decidable (IsInt16 x) := by unfold IsInt16; infer_instance
instance (x : Int) : Decidable (IsInt32 x) := by unfold IsInt32; infer_instance
instance (x : Int) : Decidable (IsInt64 x) := by unfold IsInt64; infer_instance

/-- Modelled from the spec: `packetEncoder.putInt8` (the encoder is not among the
sources); "fixed-width big-endian for integers". -/
def putInt8 (x : Int) : Enc := Enc.bytes (beBytes 1 (wrap 8 x))

/-- Modelled from the spec: `packetEncoder.putInt16`, two big-endian bytes. -/
def putInt16 (x : Int) : Enc := Enc.bytes (beBytes 2 (wrap 16 x))

/-- Modelled from the spec: `packetEncoder.putInt32`, four big-endian bytes. -/
def putInt32 (x : Int) : Enc := Enc.bytes (beBytes 4 (wrap 32 x))

/-- Modelled from the spec: `packetEncoder.putInt64`, eight big-endian bytes. -/
def putInt64 (x : Int) : Enc := Enc.bytes (beBytes 8 (wrap 64 x))

/-- Modelled from the spec: `packetEncoder.putBool`; "booleans are one byte (0/1". -/
def putBool (b : Bool) : Enc := Enc.bytes [if b then 1 else 0]

/-- Read `w` big-endian bytes as a signed integer; "every get on a decode cursor
fails with an insufficient-data condition if the requested width exceeds
remaining bytes". -/
def getFixed (w : Nat) (pd : List Byte) : Res (Int × List Byte) :=
  if pd.length < w then Res.error Err.insufficientData
  else Res.ok (signed (8 * w) (beValue (pd.take w)), pd.drop w)

/-- Modelled from the spec: `packetDecoder.getInt8` (the decoder is not among the sources). -/
def getInt8 (pd : List Byte) : Res (Int × List Byte) := getFixed 1 pd

/-- Modelled from the spec: `packetDecoder.getInt16`. -/
def getInt16 (pd : List Byte) : Res (Int × List Byte) := getFixed 2 pd

/-- Modelled from the spec: `packetDecoder.getInt32`. -/
def getInt32 (pd : List Byte) : Res (Int × List Byte) := getFixed 4 pd

/-- Modelled from the spec: `packetDecoder.getInt64`. -/
def getInt64 (pd : List Byte) : Res (Int × List Byte) := getFixed 8 pd

/-- Modelled from the spec: `packetDecoder.getBool`; "anything nonzero read as true". -/
def getBool (pd : List Byte) : Res (Bool × List Byte) :=
  match pd with
  | [] => Res.error Err.insufficientData
  | b :: rest => Res.ok (decide (b ≠ 0), rest)

/-! ## Unsigned varints -/

/-- Base-128 little-endian groups of `n` with continuation bits; at most `fuel` bytes
(ten bytes hold every `uint64`). -/
def uvarintBytes : Nat → Nat → List Byte
  | 0, _ => []
  | fuel + 1, n =>
    if n < 128 then [Fin.ofNat n]
    else Fin.ofNat (n % 128 + 128) :: uvarintBytes fuel (n / 128)

/-- Modelled from the spec: `packetEncoder.putUVarint`; the argument is a `uint64`. -/
def putUVarint (n : Nat) : Enc := Enc.bytes (uvarintBytes 10 (n % 2 ^ 64))

/-- Read the groups of an unsigned varint, at most `fuel` bytes. -/
def uvarintRead : Nat → List Byte → Nat → Nat → Res (Nat × List Byte)
  | 0, _, _, _ => Res.error Err.varintOverflow
  | _ + 1, [], _, _ => Res.error Err.insufficientData
  | fuel + 1, b :: rest, shift, acc =>
    if b.val < 128 then Res.ok (acc + b.val * 2 ^ shift, rest)
    else uvarintRead fuel rest (shift + 7) (acc + (b.val - 128) * 2 ^ shift)

/-- Modelled from the spec: `packetDecoder.getUVarint`; a value beyond 64 bits is an
overflow error. -/
def getUVarint (pd : List Byte) : Res (Nat × List Byte) :=
  match uvarintRead 10 pd 0 0 with
  | Res.ok (n, rest) => if n < 2 ^ 64 then Res.ok (n, rest) else Res.error Err.varintOverflow
  | Res.error e => Res.error e
  | Res.panic => Res.panic

/-! ## Strings -/

/-- Modelled from the spec: `packetEncoder.putString`; "int16 byte-length prefix
(length ≥ 0), followed by" the bytes. A string whose length is no `int16` is refused. -/
def putString (s : GoString) : Enc :=
  if s.length > 32767 then Enc.fail (Err.packetEncoding "string too long")
  else (putInt16 s.length).andThen (Enc.bytes s)

/-- Modelled from the spec: `packetEncoder.putNullableString`; "-1 denotes null (no
bytes follow); any length ≥0 is a present string". -/
def putNullableString (s : Option GoString) : Enc :=
  match s with
  | none => putInt16 (-1)
  | some v => putString v

/-- Modelled from the spec: `packetEncoder.putCompactString`; "unsigned varint
N = len+1". -/
def putCompactString (s : GoString) : Enc :=
  (putUVarint (s.length + 1)).andThen (Enc.bytes s)

/-- Read `n` raw bytes. -/
def getRaw (n : Nat) (pd : List Byte) : Res (List Byte × List Byte) :=
  if pd.length < n then Res.error Err.insufficientData
  else Res.ok (pd.take n, pd.drop n)

/-- Modelled from the spec: `packetDecoder.getString`; the length must be ≥ 0
("negative length where only non-negative is legal" is a structural error) and
must not exceed the remaining buffer. -/
def getString (pd : List Byte) : Res (GoString × List Byte) := do
  let (n, pd) ← getInt16 pd
  if n < 0 then Res.error Err.invalidLength
  else getRaw n.toNat pd

/-- Modelled from the spec: `packetDecoder.getNullableString`; length -1 is null,
any other negative length is a structural error. -/
def getNullableString (pd : List Byte) : Res (Option GoString × List Byte) := do
  let (n, pd) ← getInt16 pd
  if n = -1 then Res.ok (none, pd)
  else if n < 0 then Res.error Err.invalidLength
  else do
    let (s, pd) ← getRaw n.toNat pd
    Res.ok (some s, pd)

/-- Modelled from the spec: `packetDecoder.getCompactString`; "N=0 is reserved for
null only in the nullable compact variant", so it is an error here. -/
def getCompactString (pd : List Byte) : Res (GoString × List Byte) := do
  let (n, pd) ← getUVarint pd
  if n = 0 then Res.error Err.invalidLength
  else getRaw (n - 1) pd

/-! ## Arrays and tagged fields -/

/-- Modelled from the spec: `packetEncoder.putArrayLength`; "int32 count prefix".
A count that is no `int32` is refused. -/
def putArrayLength (n : Nat) : Enc :=
  if n > 2147483647 then Enc.fail (Err.packetEncoding "array too long")
  else putInt32 n

/-- Modelled from the spec: `packetEncoder.putCompactArrayLength`; "unsigned varint
N = count+1". -/
def putCompactArrayLength (n : Nat) : Enc := putUVarint (n + 1)

/-- The elements of a Go slice that may be nil (`none`); the nil slice has none. -/
def elems {α : Type} (s : Option (List α)) : List α := s.getD []

/-- Modelled from the spec: `packetEncoder.putInt32Array`, a legacy array of int32: the
int32 count and the elements; the nil slice has no element and is written as the
count 0. -/
def putInt32Array (xs : Option (List Int)) : Enc :=
  (putArrayLength (elems xs).length).andThen (Enc.forEach (elems xs) putInt32)

/-- Modelled from the spec: `packetEncoder.putCompactInt32Array`, a compact array of
int32, "unsigned varint N = count+1"; the nil slice is refused: a "caller-supplied
nullable field used where the active version forbids null". -/
def putCompactInt32Array (xs : Option (List Int)) : Enc :=
  match xs with
  | none => Enc.fail (Err.packetEncoding "expected int32 array to be non null")
  | some l => (putCompactArrayLength l.length).andThen (Enc.forEach l putInt32)

/-- Modelled from the spec: `packetEncoder.putEmptyTaggedFieldArray`, "an empty
tagged-field terminator": the count 0. -/
def putEmptyTaggedFieldArray : Enc := putUVarint 0

/-- Modelled from the spec: `packetDecoder.getArrayLength`; the int32 count is
returned as read, so "-1 denotes a logically absent array"; a "length prefix
exceeding remaining buffer" is a structural error. -/
def getArrayLength (pd : List Byte) : Res (Int × List Byte) := do
  let (n, pd) ← getInt32 pd
  if n > pd.length then Res.error Err.insufficientData
  else Res.ok (n, pd)

/-- Modelled from the spec: `packetDecoder.getCompactArrayLength`; "unsigned varint
N = count+1; N=0 denotes absent, N=1 denotes present-but-empty": the count returned
is N - 1, and 0 for the absent array, which has no element to read either. -/
def getCompactArrayLength (pd : List Byte) : Res (Int × List Byte) := do
  let (n, pd) ← getUVarint pd
  if n = 0 then Res.ok (0, pd)
  else Res.ok ((n : Int) - 1, pd)

/-- Read `n` int32 values. -/
def getInt32s : Nat → List Byte → Res (List Int × List Byte)
  | 0, pd => Res.ok ([], pd)
  | n + 1, pd => do
    let (x, pd) ← getInt32 pd
    let (xs, pd) ← getInt32s n pd
    Res.ok (x :: xs, pd)

/-- Modelled from the spec: `packetDecoder.getInt32Array`; a negative count is a
structural error, and the count 0, after which no element follows, gives the nil
slice. -/
def getInt32Array (pd : List Byte) : Res (Option (List Int) × List Byte) := do
  let (n, pd) ← getInt32 pd
  if n < 0 then Res.error Err.invalidLength
  else if n = 0 then Res.ok (none, pd)
  else do
    let (xs, pd) ← getInt32s n.toNat pd
    Res.ok (some xs, pd)

/-- Modelled from the spec: `packetDecoder.getCompactInt32Array`; the slice read has
N - 1 elements and is never nil: N=0 (absent) and N=1 both give the empty slice. -/
def getCompactInt32Array (pd : List Byte) : Res (Option (List Int) × List Byte) := do
  let (n, pd) ← getUVarint pd
  let (xs, pd) ← getInt32s (n - 1) pd
  Res.ok (some xs, pd)

/-- Skip `count` tagged fields, each a `(tag, length, payload)` triple. -/
def skipTaggedFields : Nat → List Byte → Res (Unit × List Byte)
  | 0, pd => Res.ok ((), pd)
  | count + 1, pd => do
    let (_, pd) ← getUVarint pd
    let (len, pd) ← getUVarint pd
    let (_, pd) ← getRaw len pd
    skipTaggedFields count pd

/-- Modelled from the spec: `packetDecoder.getEmptyTaggedFieldArray`; "parse-and-skip
unknown tags without error". -/
def getEmptyTaggedFieldArray (pd : List Byte) : Res (Int × List Byte) := do
  let (count, pd) ← getUVarint pd
  let (_, pd) ← skipTaggedFields count pd
  Res.ok (0, pd)

/-! ## Go maps -/

/-- The assignment `m[k] = v` on the entries of a map: an existing key keeps its
place, a new key is added. -/
def mapSet {κ ν : Type} [DecidableEq κ] : List (κ × ν) → κ → ν → List (κ × ν)
  | [], k, v => [(k, v)]
  | (k', v') :: rest, k, v =>
    if k' = k then (k, v) :: rest else (k', v') :: mapSet rest k v

/-- The index expression `m[k]` on the entries of a map (`none` when `k` is missing). -/
def mapGet {κ ν : Type} [DecidableEq κ] : List (κ × ν) → κ → Option ν
  | [], _ => none
  | (k', v') :: rest, k => if k' = k then some v' else mapGet rest k

/-- The entries of a possibly nil map, in iteration order. -/
def entries {κ ν : Type} (m : Option (List (κ × ν))) : List (κ × ν) := m.getD []

/-- The entries are those of a map: no key occurs twice. -/
def Keyed {κ ν : Type} (m : List (κ × ν)) : Prop := (m.map Prod.fst).Nodup

/-- `KError`, a signed 16-bit error code. -/
abbrev KError := Int

/-! ## OffsetCommitRequest (`offset_commit_request.go`) -/

structure offsetCommitRequestBlock where
  offset : Int
  timestamp : Int
  committedLeaderEpoch : Int
  metadata : GoString
  deriving DecidableEq, Repr

/-- The zero value `offsetCommitRequestBlock{}`. -/
def offsetCommitRequestBlock.zero : offsetCommitRequestBlock := ⟨0, 0, 0, []⟩

def offsetCommitRequestBlock.encode (b : offsetCommitRequestBlock) (version : Int) : Enc :=
  Enc.seq [
    putInt64 b.offset,
    if version = 1 then putInt64 b.timestamp
    else if b.timestamp ≠ 0 then
      Enc.println "Non-zero timestamp specified for OffsetCommitRequest not v1, it will be ignored"
    else Enc.skip,
    if version ≥ 6 then putInt32 b.committedLeaderEpoch else Enc.skip,
    putString b.metadata]

def offsetCommitRequestBlock.decode (b : offsetCommitRequestBlock) (pd : List Byte)
    (version : Int) : Res (offsetCommitRequestBlock × List Byte) := do
  let (offset, pd) ← getInt64 pd
  let b := { b with offset := offset }
  let (b, pd) ← (if version = 1 then do
      let (timestamp, pd) ← getInt64 pd
      Res.ok ({ b with timestamp := timestamp }, pd)
    else Res.ok (b, pd))
  let (b, pd) ← (if version ≥ 6 then do
      let (epoch, pd) ← getInt32 pd
      Res.ok ({ b with committedLeaderEpoch := epoch }, pd)
    else Res.ok (b, pd))
  let (metadata, pd) ← getString pd
  Res.ok ({ b with metadata := metadata }, pd)

structure OffsetCommitRequest where
  ConsumerGroup : GoString
  ConsumerGroupGeneration : Int
  ConsumerID : GoString
  GroupInstanceId : Option GoString
  RetentionTime : Int
  Version : Int
  blocks : Option (List (GoString × List (Int × offsetCommitRequestBlock)))
  deriving DecidableEq, Repr

/-- The zero value `OffsetCommitRequest{}`. -/
def OffsetCommitRequest.zero : OffsetCommitRequest := ⟨[], 0, [], none, 0, 0, none⟩

def OffsetCommitRequest.encode (r : OffsetCommitRequest) : Enc :=
  if r.Version < 0 ∨ r.Version > 7 then
    Enc.fail (Err.packetEncoding "invalid or unsupported OffsetCommitRequest version field")
  else Enc.seq [
    putString r.ConsumerGroup,
    if r.Version ≥ 1 then
      Enc.seq [putInt32 r.ConsumerGroupGeneration, putString r.ConsumerID]
    else Enc.seq [
      if r.ConsumerGroupGeneration ≠ 0 then
        Enc.println "Non-zero ConsumerGroupGeneration specified for OffsetCommitRequest v0, it will be ignored"
      else Enc.skip,
      if r.ConsumerID ≠ [] then
        Enc.println "Non-empty ConsumerID specified for OffsetCommitRequest v0, it will be ignored"
      else Enc.skip],
    if r.Version ≥ 2 ∧ r.Version ≤ 4 then putInt64 r.RetentionTime
    else if r.RetentionTime ≠ 0 then
      Enc.println "Non-zero RetentionTime specified for OffsetCommitRequest version <2, it will be ignored"
    else Enc.skip,
    if r.Version ≥ 7 then putNullableString r.GroupInstanceId else Enc.skip,
    putArrayLength (entries r.blocks).length,
    Enc.forEach (entries r.blocks) (fun tp => Enc.seq [
      putString tp.1,
      putArrayLength tp.2.length,
      Enc.forEach tp.2 (fun pb => Enc.seq [putInt32 pb.1, pb.2.encode r.Version])])]

/-- The inner loop of `decode`: `j` partition entries assigned into the topic's map. -/
def OffsetCommitRequest.decodePartitions (version : Int) :
    Nat → List Byte → List (Int × offsetCommitRequestBlock) →
      Res (List (Int × offsetCommitRequestBlock) × List Byte)
  | 0, pd, m => Res.ok (m, pd)
  | j + 1, pd, m => do
    let (partition, pd) ← getInt32 pd
    let (block, pd) ← offsetCommitRequestBlock.zero.decode pd version
    OffsetCommitRequest.decodePartitions version j pd (mapSet m partition block)

/-- The outer loop of `decode`: `i` topic entries; each entry assigns a newly made
partition map to `r.blocks[topic]`. -/
def OffsetCommitRequest.decodeTopics (version : Int) :
    Nat → List Byte → List (GoString × List (Int × offsetCommitRequestBlock)) →
      Res (List (GoString × List (Int × offsetCommitRequestBlock)) × List Byte)
  | 0, pd, m => Res.ok (m, pd)
  | i + 1, pd, m => do
    let (topic, pd) ← getString pd
    let (partitionCount, pd) ← getArrayLength pd
    let (partitions, pd) ← OffsetCommitRequest.decodePartitions version partitionCount.toNat pd []
    OffsetCommitRequest.decodeTopics version i pd (mapSet m topic partitions)

def OffsetCommitRequest.decode (r : OffsetCommitRequest) (pd : List Byte) (version : Int) :
    Res (OffsetCommitRequest × List Byte) := do
  let r := { r with Version := version }
  let (group, pd) ← getString pd
  let r := { r with ConsumerGroup := group }
  let (r, pd) ← (if r.Version ≥ (1 : Int) then do
      let (generation, pd) ← getInt32 pd
      let r := { r with ConsumerGroupGeneration := generation }
      let (consumerID, pd) ← getString pd
      Res.ok ({ r with ConsumerID := consumerID }, pd)
    else Res.ok (r, pd))
  let (r, pd) ← (if r.Version ≥ (2 : Int) ∧ r.Version ≤ (4 : Int) then do
      let (retention, pd) ← getInt64 pd
      Res.ok ({ r with RetentionTime := retention }, pd)
    else Res.ok (r, pd))
  let (r, pd) ← (if r.Version ≥ (7 : Int) then do
      let (instanceId, pd) ← getNullableString pd
      Res.ok ({ r with GroupInstanceId := instanceId }, pd)
    else Res.ok (r, pd))
  let (topicCount, pd) ← getArrayLength pd
  if topicCount = 0 then Res.ok (r, pd)
  else do
    let (blocks, pd) ← OffsetCommitRequest.decodeTopics r.Version topicCount.toNat pd []
    Res.ok ({ r with blocks := some blocks }, pd)

def OffsetCommitRequest.version (r : OffsetCommitRequest) : Int := r.Version

def OffsetCommitRequest.isValidVersion (r : OffsetCommitRequest) : Bool :=
  decide (r.Version ≥ 0 ∧ r.Version ≤ 7)

/-! ## OffsetFetchRequest (`offset_fetch_request.go`) -/

structure OffsetFetchRequest where
  Version : Int
  ConsumerGroup : GoString
  RequireStable : Bool
  partitions : Option (List (GoString × Option (List Int)))
  deriving DecidableEq, Repr

/-- The zero value `OffsetFetchRequest{}`. -/
def OffsetFetchRequest.zero : OffsetFetchRequest := ⟨0, [], false, none⟩

def OffsetFetchRequest.encode (r : OffsetFetchRequest) : Enc :=
  if r.Version < 0 ∨ r.Version > 7 then
    Enc.fail (Err.packetEncoding "invalid or unsupported OffsetFetchRequest version field")
  else
    let isFlexible : Bool := decide (r.Version ≥ 6)
    Enc.seq [
      if isFlexible then putCompactString r.ConsumerGroup else putString r.ConsumerGroup,
      if isFlexible then
        (if r.partitions = none then putUVarint 0
         else putCompactArrayLength (entries r.partitions).length)
      else
        (if r.partitions = none ∧ r.Version ≥ 2 then putInt32 (-1)
         else putArrayLength (entries r.partitions).length),
      Enc.forEach (entries r.partitions) (fun tp => Enc.seq [
        if isFlexible then putCompactString tp.1 else putString tp.1,
        if isFlexible then putCompactInt32Array tp.2 else putInt32Array tp.2,
        if isFlexible then putEmptyTaggedFieldArray else Enc.skip]),
      if r.RequireStable = true ∧ r.Version < 7 then
        Enc.fail (Err.packetEncoding "requireStable is not supported. use version 7 or later")
      else Enc.skip,
      if r.Version ≥ 7 then putBool r.RequireStable else Enc.skip,
      if isFlexible then putEmptyTaggedFieldArray else Enc.skip]

/-- The loop of `decode`: `i` topic entries assigned into `r.partitions`. -/
def OffsetFetchRequest.decodeTopics (isFlexible : Bool) :
    Nat → List Byte → List (GoString × Option (List Int)) →
      Res (List (GoString × Option (List Int)) × List Byte)
  | 0, pd, m => Res.ok (m, pd)
  | i + 1, pd, m => do
    let (topic, pd) ← (if isFlexible then getCompactString pd else getString pd)
    let (partitions, pd) ← (if isFlexible then getCompactInt32Array pd else getInt32Array pd)
    let pd ← (if isFlexible then do
        let (_, pd) ← getEmptyTaggedFieldArray pd
        Res.ok pd
      else Res.ok pd)
    OffsetFetchRequest.decodeTopics isFlexible i pd (mapSet m topic partitions)

def OffsetFetchRequest.decode (r : OffsetFetchRequest) (pd : List Byte) (version : Int) :
    Res (OffsetFetchRequest × List Byte) := do
  let r := { r with Version := version }
  let isFlexible : Bool := decide (r.Version ≥ (6 : Int))
  let (group, pd) ← (if isFlexible then getCompactString pd else getString pd)
  let r := { r with ConsumerGroup := group }
  let (partitionCount, pd) ← (if isFlexible then getCompactArrayLength pd else getArrayLength pd)
  if (partitionCount = 0 ∧ version < 2) ∨ partitionCount < 0 then Res.ok (r, pd)
  else do
    let (partitions, pd) ← OffsetFetchRequest.decodeTopics isFlexible partitionCount.toNat pd []
    let r := { r with partitions := some partitions }
    let (r, pd) ← (if r.Version ≥ (7 : Int) then do
        let (stable, pd) ← getBool pd
        Res.ok ({ r with RequireStable := stable }, pd)
      else Res.ok (r, pd))
    let pd ← (if isFlexible then do
        let (_, pd) ← getEmptyTaggedFieldArray pd
        Res.ok pd
      else Res.ok pd)
    Res.ok (r, pd)

def OffsetFetchRequest.version (r : OffsetFetchRequest) : Int := r.Version

def OffsetFetchRequest.isValidVersion (r : OffsetFetchRequest) : Bool :=
  decide (r.Version ≥ 0 ∧ r.Version ≤ 7)

/-! ## Go builtins and durations -/

/-- The Go builtin `make([]T, n)` with a run-time length: it panics when `n` is
negative, otherwise the slice has `n` elements. -/
def makeSlice (n : Int) : Res Nat :=
  if n < 0 then Res.panic else Res.ok n.toNat

/-- `time.Millisecond`, in nanoseconds. -/
def Millisecond : Int := 1000000

/-- The conversion `int32(d / time.Millisecond)` of a `time.Duration`: Go's integer
division truncates toward zero and the conversion keeps the low 32 bits. -/
def durationToMs (d : Int) : Int := signed 32 (wrap 32 (Int.tdiv d Millisecond))

/-- The expression `time.Duration(t) * time.Millisecond` for an int32 `t`. -/
def msToDuration (t : Int) : Int := signed 64 (wrap 64 (t * Millisecond))

/-! ## LeaveGroupResponse (`leave_group_response.go`) -/

structure MemberResponse where
  MemberId : GoString
  GroupInstanceId : Option GoString
  Err : KError
  deriving DecidableEq, Repr

structure LeaveGroupResponse where
  Version : Int
  ThrottleTime : Int
  Err : KError
  Members : List MemberResponse
  deriving DecidableEq, Repr

/-- The zero value `LeaveGroupResponse{}`. -/
def LeaveGroupResponse.zero : LeaveGroupResponse := ⟨0, 0, 0, []⟩

def LeaveGroupResponse.encode (r : LeaveGroupResponse) : Enc :=
  Enc.seq [
    if r.Version ≥ 1 then putInt32 r.ThrottleTime else Enc.skip,
    putInt16 r.Err,
    if r.Version ≥ 3 then Enc.seq [
      putArrayLength r.Members.length,
      Enc.forEach r.Members (fun member => Enc.seq [
        putString member.MemberId,
        putNullableString member.GroupInstanceId,
        putInt16 member.Err])]
    else Enc.skip]

/-- The loop of `decode` filling the `n` elements of `r.Members`. -/
def LeaveGroupResponse.decodeMembers : Nat → List Byte → Res (List MemberResponse × List Byte)
  | 0, pd => Res.ok ([], pd)
  | n + 1, pd => do
    let (memberId, pd) ← getString pd
    let (instanceId, pd) ← getNullableString pd
    let (memberErr, pd) ← getInt16 pd
    let (rest, pd) ← LeaveGroupResponse.decodeMembers n pd
    Res.ok (⟨memberId, instanceId, memberErr⟩ :: rest, pd)

def LeaveGroupResponse.decode (r : LeaveGroupResponse) (pd : List Byte) (version : Int) :
    Res (LeaveGroupResponse × List Byte) := do
  let r := { r with Version := version }
  let (r, pd) ← (if r.Version ≥ (1 : Int) then do
      let (throttle, pd) ← getInt32 pd
      Res.ok ({ r with ThrottleTime := throttle }, pd)
    else Res.ok (r, pd))
  let (kerr, pd) ← getInt16 pd
  let r := { r with Err := kerr }
  if r.Version ≥ (3 : Int) then do
    let (membersLen, pd) ← getArrayLength pd
    let n ← makeSlice membersLen
    let (members, pd) ← LeaveGroupResponse.decodeMembers n pd
    Res.ok ({ r with Members := members }, pd)
  else Res.ok (r, pd)

def LeaveGroupResponse.version (r : LeaveGroupResponse) : Int := r.Version

def LeaveGroupResponse.isValidVersion (r : LeaveGroupResponse) : Bool :=
  decide (r.Version ≥ 0 ∧ r.Version ≤ 3)

/-! ## OffsetCommitResponse (`offset_commit_response.go`) -/

structure OffsetCommitResponse where
  Version : Int
  ThrottleTimeMs : Int
  Errors : Option (List (GoString × List (Int × KError)))
  deriving DecidableEq, Repr

/-- The zero value `OffsetCommitResponse{}`. -/
def OffsetCommitResponse.zero : OffsetCommitResponse := ⟨0, 0, none⟩

def OffsetCommitResponse.encode (r : OffsetCommitResponse) : Enc :=
  Enc.seq [
    if r.Version ≥ 3 then putInt32 r.ThrottleTimeMs else Enc.skip,
    putArrayLength (entries r.Errors).length,
    Enc.forEach (entries r.Errors) (fun tp => Enc.seq [
      putString tp.1,
      putArrayLength tp.2.length,
      Enc.forEach tp.2 (fun pe => Enc.seq [putInt32 pe.1, putInt16 pe.2])])]

/-- The inner loop of `decode`: `j` (partition, error) entries assigned into the
topic's map. -/
def OffsetCommitResponse.decodeErrors :
    Nat → List Byte → List (Int × KError) → Res (List (Int × KError) × List Byte)
  | 0, pd, m => Res.ok (m, pd)
  | j + 1, pd, m => do
    let (id, pd) ← getInt32 pd
    let (tmp, pd) ← getInt16 pd
    OffsetCommitResponse.decodeErrors j pd (mapSet m id tmp)

/-- The outer loop of `decode`: `i` topic entries. -/
def OffsetCommitResponse.decodeTopics :
    Nat → List Byte → List (GoString × List (Int × KError)) →
      Res (List (GoString × List (Int × KError)) × List Byte)
  | 0, pd, m => Res.ok (m, pd)
  | i + 1, pd, m => do
    let (name, pd) ← getString pd
    let (numErrors, pd) ← getArrayLength pd
    let (errors, pd) ← OffsetCommitResponse.decodeErrors numErrors.toNat pd []
    OffsetCommitResponse.decodeTopics i pd (mapSet m name errors)

def OffsetCommitResponse.decode (r : OffsetCommitResponse) (pd : List Byte) (version : Int) :
    Res (OffsetCommitResponse × List Byte) := do
  let r := { r with Version := version }
  let (r, pd) ← (if version ≥ 3 then do
      let (throttle, pd) ← getInt32 pd
      Res.ok ({ r with ThrottleTimeMs := throttle }, pd)
    else Res.ok (r, pd))
  let (numTopics, pd) ← getArrayLength pd
  if numTopics = 0 then Res.ok (r, pd)
  else do
    let (errors, pd) ← OffsetCommitResponse.decodeTopics numTopics.toNat pd []
    Res.ok ({ r with Errors := some errors }, pd)

def OffsetCommitResponse.version (r : OffsetCommitResponse) : Int := r.Version

def OffsetCommitResponse.isValidVersion (r : OffsetCommitResponse) : Bool :=
  decide (r.Version ≥ 0 ∧ r.Version ≤ 7)

/-! ## AddPartitionsToTxnResponse (`add_partitions_to_txn_response.go`) -/

structure PartitionError where
  Partition : Int
  Err : KError
  deriving DecidableEq, Repr

def PartitionError.encode (p : PartitionError) : Enc :=
  Enc.seq [putInt32 p.Partition, putInt16 p.Err]

def PartitionError.decode (p : PartitionError) (pd : List Byte) (_version : Int) :
    Res (PartitionError × List Byte) := do
  let (partition, pd) ← getInt32 pd
  let p := { p with Partition := partition }
  let (kerr, pd) ← getInt16 pd
  Res.ok ({ p with Err := kerr }, pd)

structure AddPartitionsToTxnResponse where
  Version : Int
  ThrottleTime : Int
  Errors : Option (List (GoString × List PartitionError))
  deriving DecidableEq, Repr

/-- The zero value `AddPartitionsToTxnResponse{}`. -/
def AddPartitionsToTxnResponse.zero : AddPartitionsToTxnResponse := ⟨0, 0, none⟩

def AddPartitionsToTxnResponse.encode (a : AddPartitionsToTxnResponse) : Enc :=
  Enc.seq [
    putInt32 (durationToMs a.ThrottleTime),
    putArrayLength (entries a.Errors).length,
    Enc.forEach (entries a.Errors) (fun te => Enc.seq [
      putString te.1,
      putArrayLength te.2.length,
      Enc.forEach te.2 (fun partitionError => partitionError.encode)])]

/-- The inner loop of `decode` filling the `m` elements of `a.Errors[topic]`. -/
def AddPartitionsToTxnResponse.decodePartitionErrors (version : Int) :
    Nat → List Byte → Res (List PartitionError × List Byte)
  | 0, pd => Res.ok ([], pd)
  | j + 1, pd => do
    let (p, pd) ← PartitionError.decode ⟨0, 0⟩ pd version
    let (rest, pd) ← AddPartitionsToTxnResponse.decodePartitionErrors version j pd
    Res.ok (p :: rest, pd)

/-- The outer loop of `decode`: `i` topic entries. -/
def AddPartitionsToTxnResponse.decodeTopics (version : Int) :
    Nat → List Byte → List (GoString × List PartitionError) →
      Res (List (GoString × List PartitionError) × List Byte)
  | 0, pd, errs => Res.ok (errs, pd)
  | i + 1, pd, errs => do
    let (topic, pd) ← getString pd
    let (m, pd) ← getArrayLength pd
    let len ← makeSlice m
    let (partitionErrors, pd) ← AddPartitionsToTxnResponse.decodePartitionErrors version len pd
    AddPartitionsToTxnResponse.decodeTopics version i pd (mapSet errs topic partitionErrors)

def AddPartitionsToTxnResponse.decode (a : AddPartitionsToTxnResponse) (pd : List Byte)
    (version : Int) : Res (AddPartitionsToTxnResponse × List Byte) := do
  let a := { a with Version := version }
  let (throttleTime, pd) ← getInt32 pd
  let a := { a with ThrottleTime := msToDuration throttleTime }
  let (n, pd) ← getArrayLength pd
  let (errors, pd) ← AddPartitionsToTxnResponse.decodeTopics version n.toNat pd []
  Res.ok ({ a with Errors := some errors }, pd)

def AddPartitionsToTxnResponse.version (a : AddPartitionsToTxnResponse) : Int := a.Version

def AddPartitionsToTxnResponse.isValidVersion (a : AddPartitionsToTxnResponse) : Bool :=
  decide (a.Version ≥ 0 ∧ a.Version ≤ 2)

/-! ## CreateAclsResponse (`acl_create_response.go`) -/

structure AclCreationResponse where
  Err : KError
  ErrMsg : Option GoString
  deriving DecidableEq, Repr

def AclCreationResponse.encode (a : AclCreationResponse) : Enc :=
  Enc.seq [putInt16 a.Err, putNullableString a.ErrMsg]

def AclCreationResponse.decode (a : AclCreationResponse) (pd : List Byte) (_version : Int) :
    Res (AclCreationResponse × List Byte) := do
  let (kerr, pd) ← getInt16 pd
  let a := { a with Err := kerr }
  let (errMsg, pd) ← getNullableString pd
  Res.ok ({ a with ErrMsg := errMsg }, pd)

structure CreateAclsResponse where
  Version : Int
  ThrottleTime : Int
  AclCreationResponses : List AclCreationResponse
  deriving DecidableEq, Repr

/-- The zero value `CreateAclsResponse{}`. -/
def CreateAclsResponse.zero : CreateAclsResponse := ⟨0, 0, []⟩

def CreateAclsResponse.encode (c : CreateAclsResponse) : Enc :=
  Enc.seq [
    putInt32 (durationToMs c.ThrottleTime),
    putArrayLength c.AclCreationResponses.length,
    Enc.forEach c.AclCreationResponses (fun aclCreationResponse => aclCreationResponse.encode)]

/-- The loop of `decode` filling the `n` elements of `c.AclCreationResponses`. -/
def CreateAclsResponse.decodeResponses (version : Int) :
    Nat → List Byte → Res (List AclCreationResponse × List Byte)
  | 0, pd => Res.ok ([], pd)
  | i + 1, pd => do
    let (a, pd) ← AclCreationResponse.decode ⟨0, none⟩ pd version
    let (rest, pd) ← CreateAclsResponse.decodeResponses version i pd
    Res.ok (a :: rest, pd)

def CreateAclsResponse.decode (c : CreateAclsResponse) (pd : List Byte) (version : Int) :
    Res (CreateAclsResponse × List Byte) := do
  let (throttleTime, pd) ← getInt32 pd
  let c := { c with ThrottleTime := msToDuration throttleTime }
  let (n, pd) ← getArrayLength pd
  let len ← makeSlice n
  let (responses, pd) ← CreateAclsResponse.decodeResponses version len pd
  Res.ok ({ c with AclCreationResponses := responses }, pd)

def CreateAclsResponse.version (c : CreateAclsResponse) : Int := c.Version

def CreateAclsResponse.isValidVersion (c : CreateAclsResponse) : Bool :=
  decide (c.Version ≥ 0 ∧ c.Version ≤ 1)

/-! ## DescribeAclsResponse (`acl_describe_response.go`) -/

/-- The nested record `ResourceAcls` with its `encode` and its `decode` into a new
value: they are declared outside the sources at hand, so the response is
parameterised by them. -/
structure ResourceAclsCodec (α : Type) where
  encode : α → Int → Enc
  decode : List Byte → Int → Res (α × List Byte)

structure DescribeAclsResponse (α : Type) where
  Version : Int
  ThrottleTime : Int
  Err : KError
  ErrMsg : Option GoString
  ResourceAcls : List α

/-- The zero value `DescribeAclsResponse{}`. -/
def DescribeAclsResponse.zero {α : Type} : DescribeAclsResponse α := ⟨0, 0, 0, none, []⟩

def DescribeAclsResponse.encode {α : Type} (codec : ResourceAclsCodec α)
    (d : DescribeAclsResponse α) : Enc :=
  Enc.seq [
    putInt32 (durationToMs d.ThrottleTime),
    putInt16 d.Err,
    putNullableString d.ErrMsg,
    putArrayLength d.ResourceAcls.length,
    Enc.forEach d.ResourceAcls (fun resourceAcl => codec.encode resourceAcl d.Version)]

/-- The loop of `decode` filling the `n` elements of `d.ResourceAcls`. -/
def DescribeAclsResponse.decodeResourceAcls {α : Type} (codec : ResourceAclsCodec α)
    (version : Int) : Nat → List Byte → Res (List α × List Byte)
  | 0, pd => Res.ok ([], pd)
  | i + 1, pd => do
    let (acl, pd) ← codec.decode pd version
    let (rest, pd) ← DescribeAclsResponse.decodeResourceAcls codec version i pd
    Res.ok (acl :: rest, pd)

def DescribeAclsResponse.decode {α : Type} (codec : ResourceAclsCodec α)
    (d : DescribeAclsResponse α) (pd : List Byte) (version : Int) :
    Res (DescribeAclsResponse α × List Byte) := do
  let (throttleTime, pd) ← getInt32 pd
  let d := { d with ThrottleTime := msToDuration throttleTime }
  let (kerr, pd) ← getInt16 pd
  let d := { d with Err := kerr }
  let (errmsg, pd) ← getString pd
  let d := if errmsg ≠ [] then { d with ErrMsg := some errmsg } else d
  let (n, pd) ← getArrayLength pd
  let len ← makeSlice n
  let (acls, pd) ← DescribeAclsResponse.decodeResourceAcls codec version len pd
  Res.ok ({ d with ResourceAcls := acls }, pd)

def DescribeAclsResponse.version {α : Type} (d : DescribeAclsResponse α) : Int := d.Version

def DescribeAclsResponse.isValidVersion {α : Type} (d : DescribeAclsResponse α) : Bool :=
  decide (d.Version ≥ 0 ∧ d.Version ≤ 1)

/-! ## Conditions on messages -/

/-- The string, when present, is short enough for an int16 length. -/
def OptFits (s : Option GoString) : Prop :=
  match s with
  | none => True
  | some v => v.length ≤ 32767

instance (s : Option GoString) : Decidable (OptFits s) := by
  cases s <;> unfold OptFits <;> infer_instance

/-- The fields of the block are values of their Go types. -/
def offsetCommitRequestBlock.Typed (b : offsetCommitRequestBlock) : Prop :=
  IsInt64 b.offset ∧ IsInt64 b.timestamp ∧ IsInt32 b.committedLeaderEpoch

/-- The block fields not carried at version `v` hold their defaults. -/
def offsetCommitRequestBlock.DefaultsAt (b : offsetCommitRequestBlock) (v : Int) : Prop :=
  (v ≠ 1 → b.timestamp = 0) ∧ (v < 6 → b.committedLeaderEpoch = 0)

instance (b : offsetCommitRequestBlock) : Decidable b.Typed := by
  unfold offsetCommitRequestBlock.Typed; infer_instance

instance (b : offsetCommitRequestBlock) (v : Int) : Decidable (b.DefaultsAt v) := by
  unfold offsetCommitRequestBlock.DefaultsAt; infer_instance

/-- The fields of the request are values of their Go types and its maps have no
repeated key. -/
def OffsetCommitRequest.Typed (m : OffsetCommitRequest) : Prop :=
  IsInt32 m.ConsumerGroupGeneration ∧ IsInt64 m.RetentionTime ∧ Keyed (entries m.blocks) ∧
  ∀ tp ∈ entries m.blocks, Keyed tp.2 ∧ ∀ pb ∈ tp.2, IsInt32 pb.1 ∧ pb.2.Typed

/-- Every string of the request is at most 32767 bytes long. -/
def OffsetCommitRequest.StringsFit (m : OffsetCommitRequest) : Prop :=
  m.ConsumerGroup.length ≤ 32767 ∧ m.ConsumerID.length ≤ 32767 ∧ OptFits m.GroupInstanceId ∧
  ∀ tp ∈ entries m.blocks, tp.1.length ≤ 32767 ∧ ∀ pb ∈ tp.2, pb.2.metadata.length ≤ 32767

/-- The number of topics and the number of partitions of each topic are int32 counts. -/
def OffsetCommitRequest.CountsFit (m : OffsetCommitRequest) : Prop :=
  (entries m.blocks).length ≤ 2147483647 ∧ ∀ tp ∈ entries m.blocks, tp.2.length ≤ 2147483647

/-- The fields not carried at version `v` hold their defaults: generation and consumer
id at v0, retention time outside v2-v4, group instance id below v7, block timestamp
outside v1, leader epoch below v6. -/
def OffsetCommitRequest.DefaultsAt (m : OffsetCommitRequest) (v : Int) : Prop :=
  (v = 0 → m.ConsumerGroupGeneration = 0 ∧ m.ConsumerID = []) ∧
  (¬ (2 ≤ v ∧ v ≤ 4) → m.RetentionTime = 0) ∧
  (v < 7 → m.GroupInstanceId = none) ∧
  ∀ tp ∈ entries m.blocks, ∀ pb ∈ tp.2, pb.2.DefaultsAt v

instance (m : OffsetCommitRequest) : Decidable m.Typed := by
  unfold OffsetCommitRequest.Typed Keyed; infer_instance

instance (m : OffsetCommitRequest) : Decidable m.StringsFit := by
  unfold OffsetCommitRequest.StringsFit; infer_instance

instance (m : OffsetCommitRequest) : Decidable m.CountsFit := by
  unfold OffsetCommitRequest.CountsFit; infer_instance

instance (m : OffsetCommitRequest) (v : Int) : Decidable (m.DefaultsAt v) := by
  unfold OffsetCommitRequest.DefaultsAt; infer_instance

/-- The block stored for `(topic, partition)`, if any: the request's blocks as a
topic -> partition -> block mapping. -/
def OffsetCommitRequest.block (r : OffsetCommitRequest) (topic : GoString) (partition : Int) :
    Option offsetCommitRequestBlock :=
  match mapGet (entries r.blocks) topic with
  | none => none
  | some partitions => mapGet partitions partition

/-- The request of the spec's scenario: version 7, group "g1", topic "t", partition 0,
offset 42, leader epoch 3, metadata "" and group instance id "i1". -/
def OffsetCommitRequest.scenario : OffsetCommitRequest :=
  ⟨[103, 49], 0, [], some [105, 49], 0, 7, some [([116], [(0, ⟨42, 0, 3, []⟩)])]⟩

/-- A request at version 0 with `n` topics (the four-byte names of 0 .. n - 1), none of
which has a partition. -/
def OffsetCommitRequest.withTopics (n : Nat) : OffsetCommitRequest :=
  ⟨[], 0, [], none, 0, 0, some ((List.range n).map (fun i => (beBytes 4 i, [])))⟩

/-- A request at version 0 with 2^31 topics. -/
def OffsetCommitRequest.oversized : OffsetCommitRequest :=
  OffsetCommitRequest.withTopics 2147483648

/-- The fields of the response are values of their Go types. -/
def LeaveGroupResponse.Typed (m : LeaveGroupResponse) : Prop :=
  IsInt32 m.ThrottleTime ∧ IsInt16 m.Err ∧ ∀ x ∈ m.Members, IsInt16 x.Err

/-- Member ids and group instance ids are at most 32767 bytes long. -/
def LeaveGroupResponse.StringsFit (m : LeaveGroupResponse) : Prop :=
  ∀ x ∈ m.Members, x.MemberId.length ≤ 32767 ∧ OptFits x.GroupInstanceId

/-- The fields not carried at version `v` hold their defaults: no throttle time at v0,
no members below v3. -/
def LeaveGroupResponse.DefaultsAt (m : LeaveGroupResponse) (v : Int) : Prop :=
  (v = 0 → m.ThrottleTime = 0) ∧ (v < 3 → m.Members = [])

instance (m : LeaveGroupResponse) : Decidable m.Typed := by
  unfold LeaveGroupResponse.Typed; infer_instance

instance (m : LeaveGroupResponse) : Decidable m.StringsFit := by
  unfold LeaveGroupResponse.StringsFit; infer_instance

instance (m : LeaveGroupResponse) (v : Int) : Decidable (m.DefaultsAt v) := by
  unfold LeaveGroupResponse.DefaultsAt; infer_instance

/-- The version 3 response of the spec's scenario: one member "m1" without group
instance id. -/
def LeaveGroupResponse.scenario : LeaveGroupResponse := ⟨3, 100, 0, [⟨[109, 49], none, 0⟩]⟩

/-- A version 3 response with `n` members. -/
def LeaveGroupResponse.withMembers (n : Nat) : LeaveGroupResponse :=
  ⟨3, 0, 0, List.replicate n ⟨[], none, 0⟩⟩

/-- A version 3 response with 2^31 members. -/
def LeaveGroupResponse.oversized : LeaveGroupResponse := LeaveGroupResponse.withMembers 2147483648

/-- The error stored for `(topic, partition)`, if any: the entries as a
topic -> partition -> error mapping. -/
def OffsetCommitResponse.errorOf (es : List (GoString × List (Int × KError)))
    (topic : GoString) (partition : Int) : Option KError :=
  match mapGet es topic with
  | none => none
  | some partitions => mapGet partitions partition

/-- The entries are those of a `map[string]map[int32]KError`: no topic occurs twice, no
partition occurs twice within a topic, partitions are int32 and errors int16. -/
def OffsetCommitResponse.IsErrors (m : List (GoString × List (Int × KError))) : Prop :=
  Keyed m ∧ ∀ tp ∈ m, Keyed tp.2 ∧ ∀ pe ∈ tp.2, IsInt32 pe.1 ∧ IsInt16 pe.2

/-- The listing `w` is an order in which `range` may visit the map with entries `m`:
the topics of `m` in some order, each with its partition entries in some order. -/
def OffsetCommitResponse.EmitOrder (w m : List (GoString × List (Int × KError))) : Prop :=
  (w.map Prod.fst).Perm (m.map Prod.fst) ∧
  ∀ tp ∈ w, ∃ tp' ∈ m, tp'.1 = tp.1 ∧ tp.2.Perm tp'.2

instance (m : List (GoString × List (Int × KError))) :
    Decidable (OffsetCommitResponse.IsErrors m) := by
  unfold OffsetCommitResponse.IsErrors Keyed; infer_instance

instance (w m : List (GoString × List (Int × KError))) :
    Decidable (OffsetCommitResponse.EmitOrder w m) := by
  unfold OffsetCommitResponse.EmitOrder; infer_instance

/-- A mapping with two topics of two partitions each. -/
def OffsetCommitResponse.sampleErrors : List (GoString × List (Int × KError)) :=
  [([97], [(0, 0), (1, 3)]), ([98], [(5, 0), (7, 25)])]

/-- A version 3 response emitting `sampleErrors` with topics and partitions in
another order. -/
def OffsetCommitResponse.sample : OffsetCommitResponse :=
  ⟨3, 100, some [([98], [(7, 25), (5, 0)]), ([97], [(1, 3), (0, 0)])]⟩

/-- A version 0 response with `n` topics (the four-byte names of 0 .. n - 1) without
partitions. -/
def OffsetCommitResponse.withTopics (n : Nat) : OffsetCommitResponse :=
  ⟨0, 0, some ((List.range n).map (fun i => (beBytes 4 i, [])))⟩

/-- A version 0 response with 2^31 topics. -/
def OffsetCommitResponse.oversized : OffsetCommitResponse :=
  OffsetCommitResponse.withTopics 2147483648

/-- The request is a Go value: no topic occurs twice, the lengths of its strings, map
and slices are Go ints and the partition ids are int32. -/
def OffsetFetchRequest.Typed (m : OffsetFetchRequest) : Prop :=
  m.ConsumerGroup.length < 2 ^ 63 ∧ Keyed (entries m.partitions) ∧
  (entries m.partitions).length < 2 ^ 63 ∧
  ∀ tp ∈ entries m.partitions,
    tp.1.length < 2 ^ 63 ∧ (elems tp.2).length < 2 ^ 63 ∧ ∀ x ∈ elems tp.2, IsInt32 x

/-- The consumer group and the topic names are at most 32767 bytes long. -/
def OffsetFetchRequest.StringsFit (m : OffsetFetchRequest) : Prop :=
  m.ConsumerGroup.length ≤ 32767 ∧ ∀ tp ∈ entries m.partitions, tp.1.length ≤ 32767

/-- The number of topics and the number of partitions of each topic are int32 counts. -/
def OffsetFetchRequest.CountsFit (m : OffsetFetchRequest) : Prop :=
  (entries m.partitions).length ≤ 2147483647 ∧
  ∀ tp ∈ entries m.partitions, (elems tp.2).length ≤ 2147483647

/-- No topic of the request has a nil partition list. -/
def OffsetFetchRequest.NoNilList (m : OffsetFetchRequest) : Prop :=
  ∀ tp ∈ entries m.partitions, tp.2 ≠ none

/-- The slice that `getInt32Array` reads back from what `putInt32Array` writes for
`xs`: the nil slice when `xs` has no element. -/
def nilIfEmpty (xs : Option (List Int)) : Option (List Int) :=
  if elems xs = [] then none else some (elems xs)

/-- The partition list that `decode` stores for a topic entry written from `xs`: the
list itself from version 6 on (`isFlexible`), and below version 6 the same elements,
with the nil slice when there is none. -/
def OffsetFetchRequest.readBack (isFlexible : Bool) (xs : Option (List Int)) :
    Option (List Int) :=
  if isFlexible then xs else nilIfEmpty xs

/-- What `encode` asks of one topic entry: below version 6 a name of at most 32767
bytes and at most 2^31 - 1 partitions, from version 6 on (`isFlexible`) a partition
list that is not nil. -/
def OffsetFetchRequest.TopicFits (isFlexible : Bool) (tp : GoString × Option (List Int)) :
    Prop :=
  (isFlexible = false → tp.1.length ≤ 32767 ∧ (elems tp.2).length ≤ 2147483647) ∧
  (isFlexible = true → tp.2 ≠ none)

/-- The requests that `encode` accepts: a version in 0..7; below version 6 a consumer
group of at most 32767 bytes and at most 2^31 - 1 topics; topic entries that fit; and
RequireStable only at version 7. -/
def OffsetFetchRequest.Encodable (m : OffsetFetchRequest) : Prop :=
  (0 ≤ m.Version ∧ m.Version ≤ 7) ∧
  (m.Version ≤ 5 →
    m.ConsumerGroup.length ≤ 32767 ∧ (entries m.partitions).length ≤ 2147483647) ∧
  (∀ tp ∈ entries m.partitions, OffsetFetchRequest.TopicFits (decide (m.Version ≥ 6)) tp) ∧
  (m.Version < 7 → m.RequireStable = false)

instance (m : OffsetFetchRequest) : Decidable m.Typed := by
  unfold OffsetFetchRequest.Typed Keyed; infer_instance

instance (m : OffsetFetchRequest) : Decidable m.StringsFit := by
  unfold OffsetFetchRequest.StringsFit; infer_instance

instance (m : OffsetFetchRequest) : Decidable m.NoNilList := by
  unfold OffsetFetchRequest.NoNilList; infer_instance

instance (m : OffsetFetchRequest) : Decidable m.CountsFit := by
  unfold OffsetFetchRequest.CountsFit; infer_instance

/-- A version 7 request that requires stable offsets for two partitions of one topic. -/
def OffsetFetchRequest.sample : OffsetFetchRequest :=
  ⟨7, [103, 49], true, some [([116], some [0, 5])]⟩

/-- A version 0 request with `n` topics (the four-byte names of 0 .. n - 1), each with
an empty partition list. -/
def OffsetFetchRequest.withTopics (n : Nat) : OffsetFetchRequest :=
  ⟨0, [], false, some ((List.range n).map (fun i => (beBytes 4 i, some [])))⟩

/-- A version 0 request with 2^31 topics. -/
def OffsetFetchRequest.oversized : OffsetFetchRequest := OffsetFetchRequest.withTopics 2147483648

/-- A version 6 request for topic "t" whose partition list is nil. -/
def OffsetFetchRequest.nilList : OffsetFetchRequest :=
  ⟨6, [103], false, some [([116], none)]⟩

/-- The version 3 leave-group bytes of C7: throttle time 0, error 0, member count -1. -/
def LeaveGroupResponse.negativeCount : List Byte := [0, 0, 0, 0, 0, 0, 255, 255, 255, 255]

/-- A create-ACLs body with throttle time 0 and response count -1. -/
def CreateAclsResponse.negativeCount : List Byte := [0, 0, 0, 0, 255, 255, 255, 255]

/-- An add-partitions body with throttle time 0 and topic count -1. -/
def AddPartitionsToTxnResponse.negativeTopics : List Byte := [0, 0, 0, 0, 255, 255, 255, 255]

/-- An add-partitions body with throttle time 0 and one topic "" whose partition-error
count is -1. -/
def AddPartitionsToTxnResponse.negativeCount : List Byte :=
  [0, 0, 0, 0, 0, 0, 0, 1, 0, 0, 255, 255, 255, 255]

/-- A body of the ACL responses: throttle time 0, then only zero bytes (8 bytes are a
create-ACLs response without entries, 12 bytes a describe-ACLs response with error 0,
message "" and no resource). -/
def zeroBody (n : Nat) : List Byte := List.replicate n 0

/-- A describe-ACLs response at version 0 whose error message is present and empty. -/
def DescribeAclsResponse.emptyMessage {α : Type} : DescribeAclsResponse α :=
  ⟨0, 0, 0, some [], []⟩

/-- An offset-fetch request at version 6 for all topics (nil partitions). -/
def OffsetFetchRequest.allTopics : OffsetFetchRequest := ⟨6, [103], false, none⟩

/-- Every error the run can return satisfies `S`. -/
def Enc.ErrsIn (S : Err → Prop) (e : Enc) : Prop := ∀ x, e.err = some x → S x

/-- The error of a string that is too long for its length prefix. -/
def errStringTooLong : Err := Err.packetEncoding "string too long"

/-- The error of an array that is too long for its count prefix. -/
def errArrayTooLong : Err := Err.packetEncoding "array too long"

/-- The error of a nil slice where a compact array is written. -/
def errNullArray : Err := Err.packetEncoding "expected int32 array to be non null"

/-- A leave-group response with the unsupported version 4, error 0 and no member. -/
def LeaveGroupResponse.versionFour : LeaveGroupResponse := ⟨4, 0, 0, []⟩

/-- The error is one of a string or an array that does not fit its length prefix. -/
def IsSizeError (x : Err) : Prop := x = errStringTooLong ∨ x = errArrayTooLong

/-- An offset-commit request with the unsupported version 8. -/
def OffsetCommitRequest.versionEight : OffsetCommitRequest := ⟨[], 0, [], none, 0, 8, none⟩

/-- An offset-fetch request with the unsupported version -1. -/
def OffsetFetchRequest.versionMinusOne : OffsetFetchRequest := ⟨-1, [], false, none⟩

/-- A codec of a `ResourceAcls` record without content. -/
def ResourceAclsCodec.unit : ResourceAclsCodec Unit := ⟨fun _ _ => Enc.skip, fun pd _ => Res.ok ((), pd)⟩

/-! ## Broker versions -/

/-- Modelled from the spec: `KafkaVersion`, declared outside the sources at hand; "an
ordered value (major.minor.patch.revision)". -/
structure KafkaVersion where
  major : Nat
  minor : Nat
  patch : Nat
  revision : Nat
  deriving DecidableEq, Repr

/-- Modelled from the spec: `KafkaVersion.IsAtLeast`; the versions are compared component
by component, the first difference deciding. -/
def KafkaVersion.IsAtLeast (v other : KafkaVersion) : Bool :=
  if v.major ≠ other.major then decide (v.major > other.major)
  else if v.minor ≠ other.minor then decide (v.minor > other.minor)
  else if v.patch ≠ other.patch then decide (v.patch > other.patch)
  else decide (v.revision ≥ other.revision)

/-- Modelled from the spec: the release constant `V0_8_2_0`; each constant's name spells
its four components. -/
def V0_8_2_0 : KafkaVersion := ⟨0, 8, 2, 0⟩

/-- Modelled from the spec: the release constant `V0_9_0_0`. -/
def V0_9_0_0 : KafkaVersion := ⟨0, 9, 0, 0⟩

/-- Modelled from the spec: the release constant `V0_10_2_0`. -/
def V0_10_2_0 : KafkaVersion := ⟨0, 10, 2, 0⟩

/-- Modelled from the spec: the release constant `V0_11_0_0`. -/
def V0_11_0_0 : KafkaVersion := ⟨0, 11, 0, 0⟩

/-- Modelled from the spec: the release constant `V2_0_0_0`. -/
def V2_0_0_0 : KafkaVersion := ⟨2, 0, 0, 0⟩

/-- Modelled from the spec: the release constant `V2_1_0_0`. -/
def V2_1_0_0 : KafkaVersion := ⟨2, 1, 0, 0⟩

/-- Modelled from the spec: the release constant `V2_3_0_0`. -/
def V2_3_0_0 : KafkaVersion := ⟨2, 3, 0, 0⟩

/-- Modelled from the spec: the release constant `V2_4_0_0`. -/
def V2_4_0_0 : KafkaVersion := ⟨2, 4, 0, 0⟩

/-- Modelled from the spec: the release constant `V2_5_0_0`. -/
def V2_5_0_0 : KafkaVersion := ⟨2, 5, 0, 0⟩

/-- Modelled from the spec: the release constant `V2_7_0_0`. -/
def V2_7_0_0 : KafkaVersion := ⟨2, 7, 0, 0⟩

def OffsetCommitRequest.requiredVersion (r : OffsetCommitRequest) : KafkaVersion :=
  if r.Version = 7 then V2_3_0_0
  else if r.Version = 5 ∨ r.Version = 6 then V2_1_0_0
  else if r.Version = 4 then V2_0_0_0
  else if r.Version = 3 then V0_11_0_0
  else if r.Version = 2 then V0_9_0_0
  else if r.Version = 0 ∨ r.Version = 1 then V0_8_2_0
  else V2_4_0_0

def OffsetCommitResponse.requiredVersion (r : OffsetCommitResponse) : KafkaVersion :=
  if r.Version = 7 then V2_3_0_0
  else if r.Version = 5 ∨ r.Version = 6 then V2_1_0_0
  else if r.Version = 4 then V2_0_0_0
  else if r.Version = 3 then V0_11_0_0
  else if r.Version = 2 then V0_9_0_0
  else if r.Version = 0 ∨ r.Version = 1 then V0_8_2_0
  else V2_4_0_0

def OffsetFetchRequest.requiredVersion (r : OffsetFetchRequest) : KafkaVersion :=
  if r.Version = 7 then V2_5_0_0
  else if r.Version = 6 then V2_4_0_0
  else if r.Version = 5 then V2_1_0_0
  else if r.Version = 4 then V2_0_0_0
  else if r.Version = 3 then V0_11_0_0
  else if r.Version = 2 then V0_10_2_0
  else if r.Version = 1 then V0_8_2_0
  else if r.Version = 0 then V0_8_2_0
  else V2_5_0_0

def LeaveGroupResponse.requiredVersion (r : LeaveGroupResponse) : KafkaVersion :=
  if r.Version = 3 then V2_4_0_0
  else if r.Version = 2 then V2_0_0_0
  else if r.Version = 1 then V0_11_0_0
  else if r.Version = 0 then V0_9_0_0
  else V2_4_0_0

def AddPartitionsToTxnResponse.requiredVersion (a : AddPartitionsToTxnResponse) : KafkaVersion :=
  if a.Version = 2 then V2_7_0_0
  else if a.Version = 1 then V2_0_0_0
  else V0_11_0_0

def CreateAclsResponse.requiredVersion (c : CreateAclsResponse) : KafkaVersion :=
  if c.Version = 1 then V2_0_0_0 else V0_11_0_0

def DescribeAclsResponse.requiredVersion {α : Type} (d : DescribeAclsResponse α) : KafkaVersion :=
  if d.Version = 1 then V2_0_0_0 else V0_11_0_0

def NewOffsetFetchRequest (version : KafkaVersion) (group : GoString)
    (partitions : Option (List (GoString × Option (List Int)))) : OffsetFetchRequest :=
  let request : OffsetFetchRequest := ⟨0, group, false, partitions⟩
  if version.IsAtLeast V2_5_0_0 then { request with Version := 7 }
  else if version.IsAtLeast V2_4_0_0 then { request with Version := 6 }
  else if version.IsAtLeast V2_1_0_0 then { request with Version := 5 }
  else if version.IsAtLeast V2_0_0_0 then { request with Version := 4 }
  else if version.IsAtLeast V0_11_0_0 then { request with Version := 3 }
  else if version.IsAtLeast V0_10_2_0 then { request with Version := 2 }
  else if version.IsAtLeast V0_8_2_0 then { request with Version := 1 }
  else request

def LeaveGroupResponse.throttleTime (r : LeaveGroupResponse) : Int :=
  msToDuration r.ThrottleTime

def OffsetCommitResponse.throttleTime (r : OffsetCommitResponse) : Int :=
  msToDuration r.ThrottleTimeMs

def DescribeAclsResponse.throttleTime {α : Type} (r : DescribeAclsResponse α) : Int :=
  r.ThrottleTime

def AddPartitionsToTxnResponse.throttleTime (r : AddPartitionsToTxnResponse) : Int :=
  r.ThrottleTime

def CreateAclsResponse.throttleTime (r : CreateAclsResponse) : Int :=
  r.ThrottleTime

/-- The result of a decoder call with its value passed through `f`. -/
def Res.map {α β : Type} (f : α → β) : Res α → Res β
  | Res.ok a => Res.ok (f a)
  | Res.error e => Res.error e
  | Res.panic => Res.panic

def OffsetCommitRequest.setVersion (r : OffsetCommitRequest) (v : Int) : OffsetCommitRequest :=
  { r with Version := v }

def OffsetFetchRequest.setVersion (r : OffsetFetchRequest) (v : Int) : OffsetFetchRequest :=
  { r with Version := v }

def LeaveGroupResponse.setVersion (r : LeaveGroupResponse) (v : Int) : LeaveGroupResponse :=
  { r with Version := v }

def OffsetCommitResponse.setVersion (r : OffsetCommitResponse) (v : Int) :
    OffsetCommitResponse :=
  { r with Version := v }

def AddPartitionsToTxnResponse.setVersion (a : AddPartitionsToTxnResponse) (v : Int) :
    AddPartitionsToTxnResponse :=
  { a with Version := v }

def CreateAclsResponse.setVersion (c : CreateAclsResponse) (v : Int) : CreateAclsResponse :=
  { c with Version := v }

def DescribeAclsResponse.setVersion {α : Type} (d : DescribeAclsResponse α) (v : Int) :
    DescribeAclsResponse α :=
  { d with Version := v }

/-- A well-formed version 0 body of an offset-commit request: group "g1", no topic. -/
def OffsetCommitRequest.bodyV0 : List Byte := [0, 2, 103, 49, 0, 0, 0, 0]

/-- A version 0 request for group "g" that holds the group instance id "i1" and, for
topic "t" partition 0, a block with offset 42 and committedLeaderEpoch 3: neither
field is carried at version 0. -/
def OffsetCommitRequest.silentDrop : OffsetCommitRequest :=
  ⟨[103], 0, [], some [105, 49], 0, 0, some [([116], [(0, ⟨42, 0, 3, []⟩)])]⟩

/-- The request `silentDrop` with both fields at their defaults. -/
def OffsetCommitRequest.silentDropDefaults : OffsetCommitRequest :=
  ⟨[103], 0, [], none, 0, 0, some [([116], [(0, ⟨42, 0, 0, []⟩)])]⟩

/-- The duration is a whole number of milliseconds and their count is an int32. -/
def WholeMs (d : Int) : Prop := d % 1000000 = 0 ∧ IsInt32 (d / 1000000)

instance (d : Int) : Decidable (WholeMs d) := by unfold WholeMs; infer_instance

/-- The bytes the layout of the specification gives one member of a leave-group
response: int16 length and bytes of MemberId, then int16 -1 for a null GroupInstanceId
or its int16 length and bytes, then the int16 member Err. -/
def MemberResponse.layout (x : MemberResponse) : List Byte :=
  beBytes 2 (wrap 16 x.MemberId.length) ++ x.MemberId ++
    (match x.GroupInstanceId with
     | none => beBytes 2 (wrap 16 (-1))
     | some s => beBytes 2 (wrap 16 s.length) ++ s) ++
    beBytes 2 (wrap 16 x.Err)

/-- The byte layout the specification gives a leave-group response: ThrottleTime as
four bytes from version 1 on, Err as two bytes, and from version 3 on the int32 member
count and the members in order. -/
def LeaveGroupResponse.layout (r : LeaveGroupResponse) : List Byte :=
  (if r.Version ≥ 1 then beBytes 4 (wrap 32 r.ThrottleTime) else []) ++
    beBytes 2 (wrap 16 r.Err) ++
    (if r.Version ≥ 3 then
      beBytes 4 (wrap 32 r.Members.length) ++ r.Members.flatMap MemberResponse.layout
     else [])

/-- The bytes the specification gives one topic entry of an offset-fetch request at
version `v`: the topic name and the partition ids as strings and arrays of the
version's kind, and from version 6 on a single empty tagged-field terminator `00`. -/
def OffsetFetchRequest.topicLayout (v : Int) (tp : GoString × Option (List Int)) :
    List Byte :=
  if v ≥ 6 then
    (putUVarint (tp.1.length + 1)).out ++ tp.1 ++
      ((putUVarint ((elems tp.2).length + 1)).out ++
        (elems tp.2).flatMap (fun p => (putInt32 p).out)) ++ [0]
  else
    (putInt16 tp.1.length).out ++ tp.1 ++
      ((putInt32 (elems tp.2).length).out ++ (elems tp.2).flatMap (fun p => (putInt32 p).out))

/-- The topic-array prefix the specification gives an offset-fetch request: for nil
partitions the unsigned varint 0 from version 6 on, int32 -1 at versions 2 to 5 and
int32 0 below; for non-nil partitions the unsigned varint count + 1 from version 6 on
and the int32 count below. -/
def OffsetFetchRequest.arrayPrefix (r : OffsetFetchRequest) : List Byte :=
  match r.partitions with
  | none =>
    if r.Version ≥ 6 then [0]
    else if r.Version ≥ 2 then [255, 255, 255, 255]
    else [0, 0, 0, 0]
  | some topics =>
    if r.Version ≥ 6 then (putUVarint (topics.length + 1)).out
    else (putInt32 topics.length).out

/-- The byte layout the specification gives an offset-fetch request: the consumer
group, the topic-array prefix, the topic entries, the RequireStable byte at version 7
and the terminator `00` of the body from version 6 on. -/
def OffsetFetchRequest.layout (r : OffsetFetchRequest) : List Byte :=
  (if r.Version ≥ 6 then (putUVarint (r.ConsumerGroup.length + 1)).out ++ r.ConsumerGroup
    else (putInt16 r.ConsumerGroup.length).out ++ r.ConsumerGroup) ++
    r.arrayPrefix ++
    (entries r.partitions).flatMap (OffsetFetchRequest.topicLayout r.Version) ++
    (if r.Version ≥ 7 then [if r.RequireStable then 1 else 0] else []) ++
    (if r.Version ≥ 6 then [0] else [])

/-- The block with the fields that version `v` does not carry at their defaults: the
timestamp outside version 1, the committedLeaderEpoch below version 6. -/
def offsetCommitRequestBlock.carried (b : offsetCommitRequestBlock) (v : Int) :
    offsetCommitRequestBlock :=
  { b with
    timestamp := if v = 1 then b.timestamp else 0
    committedLeaderEpoch := if v ≥ 6 then b.committedLeaderEpoch else 0 }

/-- The request with `g` applied to every block, topics and partitions kept in order. -/
def OffsetCommitRequest.mapBlocks (r : OffsetCommitRequest)
    (g : offsetCommitRequestBlock → offsetCommitRequestBlock) : OffsetCommitRequest :=
  { r with blocks := r.blocks.map (fun topics => topics.map (fun tp =>
      (tp.1, tp.2.map (fun pb => (pb.1, g pb.2))))) }

/-- A version 0 request whose consumer group is `n` zero bytes long. -/
def OffsetCommitRequest.longGroup (n : Nat) : OffsetCommitRequest :=
  ⟨List.replicate n 0, 0, [], none, 0, 0, none⟩

/-- The request with every field that its version does not carry at its default:
ConsumerGroupGeneration and ConsumerID at version 0, RetentionTime outside versions 2
to 4, GroupInstanceId below version 7, and the fields of the blocks likewise. Two
requests agree on every carried field, in the same order of topics and partitions,
when this gives the same request. -/
def OffsetCommitRequest.carried (r : OffsetCommitRequest) : OffsetCommitRequest :=
  { r with
    ConsumerGroupGeneration := if r.Version ≥ 1 then r.ConsumerGroupGeneration else 0
    ConsumerID := if r.Version ≥ 1 then r.ConsumerID else []
    RetentionTime := if r.Version ≥ 2 ∧ r.Version ≤ 4 then r.RetentionTime else 0
    GroupInstanceId := if r.Version ≥ 7 then r.GroupInstanceId else none
    blocks := r.blocks.map (fun topics => topics.map (fun tp =>
      (tp.1, tp.2.map (fun pb => (pb.1, pb.2.carried r.Version))))) }

/-- The length the specification gives the encoding of an offset-commit request:
2+|group| + [4 + 2+|consumerID| from version 1 on] + [8 at versions 2 to 4] +
[2 or 2+|id| at version 7] + 4 + the sum over the topics of 2+|topic| + 4 + the sum
over the partitions of 4 + 8 + [8 at version 1] + [4 from version 6 on] + 2+|metadata|. -/
def OffsetCommitRequest.wireLength (r : OffsetCommitRequest) : Nat :=
  2 + r.ConsumerGroup.length +
    (if r.Version ≥ 1 then 4 + (2 + r.ConsumerID.length) else 0) +
    (if r.Version ≥ 2 ∧ r.Version ≤ 4 then 8 else 0) +
    (if r.Version ≥ 7 then
      (match r.GroupInstanceId with
       | none => 2
       | some id => 2 + id.length)
     else 0) +
    4 +
    ((entries r.blocks).map (fun tp => 2 + tp.1.length + 4 +
      (tp.2.map (fun pb => 4 + 8 + (if r.Version = 1 then 8 else 0) +
        (if r.Version ≥ 6 then 4 else 0) + (2 + pb.2.metadata.length))).sum)).sum

/-- The two runs write the same bytes and return the same error (their Logger lines
may differ). -/
def Enc.Same (a b : Enc) : Prop := a.out = b.out ∧ a.err = b.err

/-! ## The block store of OffsetCommitRequest and the partitions of OffsetFetchRequest -/

def OffsetCommitRequest.AddBlockWithLeaderEpoch (r : OffsetCommitRequest) (topic : GoString)
    (partitionID offset leaderEpoch timestamp : Int) (metadata : GoString) :
    OffsetCommitRequest :=
  let blocks := match r.blocks with
    | none => []
    | some b => b
  let blocks := match mapGet blocks topic with
    | none => mapSet blocks topic []
    | some _ => blocks
  let partitions := (mapGet blocks topic).getD []
  { r with blocks := some (mapSet blocks topic
      (mapSet partitions partitionID ⟨offset, timestamp, leaderEpoch, metadata⟩)) }

def OffsetCommitRequest.AddBlock (r : OffsetCommitRequest) (topic : GoString)
    (partitionID offset timestamp : Int) (metadata : GoString) : OffsetCommitRequest :=
  r.AddBlockWithLeaderEpoch topic partitionID offset 0 timestamp metadata

/-- The method `Offset`; the third component is the returned error, `none` for nil
and the message of `errors.New` otherwise. -/
def OffsetCommitRequest.Offset (r : OffsetCommitRequest) (topic : GoString) (partitionID : Int) :
    Int × GoString × Option String :=
  match mapGet (entries r.blocks) topic with
  | none => (0, [], some "no such offset")
  | some partitions =>
    match mapGet partitions partitionID with
    | none => (0, [], some "no such offset")
    | some block => (block.offset, block.metadata, none)

/-- One call of AddBlockWithLeaderEpoch: topic, partition, offset, leader epoch,
timestamp and metadata. -/
structure AddBlockCall where
  topic : GoString
  partitionID : Int
  offset : Int
  leaderEpoch : Int
  timestamp : Int
  metadata : GoString
  deriving DecidableEq, Repr

/-- The request after the calls of AddBlockWithLeaderEpoch, made in order. -/
def OffsetCommitRequest.addAll (r : OffsetCommitRequest) (calls : List AddBlockCall) :
    OffsetCommitRequest :=
  calls.foldl (fun q c =>
    q.AddBlockWithLeaderEpoch c.topic c.partitionID c.offset c.leaderEpoch c.timestamp c.metadata) r

def OffsetFetchRequest.ZeroPartitions (r : OffsetFetchRequest) : OffsetFetchRequest :=
  if r.partitions = none ∧ r.Version ≥ 2 then { r with partitions := some [] } else r

def OffsetFetchRequest.AddPartition (r : OffsetFetchRequest) (topic : GoString)
    (partitionID : Int) : OffsetFetchRequest :=
  let partitions := match r.partitions with
    | none => []
    | some m => m
  { r with partitions := some (mapSet partitions topic
      (some (elems ((mapGet partitions topic).getD none) ++ [partitionID]))) }

/-- A version 2 request for all topics whose consumer group is `n` zero bytes long. -/
def OffsetFetchRequest.longGroup (n : Nat) : OffsetFetchRequest :=
  ⟨2, List.replicate n 0, false, none⟩

/-- The map that the assignments `m[k] = v`, made in the order of the list, build from
the empty map. -/
def assignAll {κ ν : Type} [DecidableEq κ] (xs : List (κ × ν)) : List (κ × ν) :=
  xs.foldl (fun m e => mapSet m e.1 e.2) []

/-- The sum of the weights of the values. -/
def weight {κ ν : Type} (w : ν → Nat) (xs : List (κ × ν)) : Nat :=
  (xs.map (fun e => w e.2)).sum

/-- Every entry whose key occurs again in a later entry has weight 0. -/
def NoOverwrite {κ ν : Type} (w : ν → Nat) : List (κ × ν) → Prop
  | [] => True
  | e :: rest => (e.1 ∈ rest.map Prod.fst → w e.2 = 0) ∧ NoOverwrite w rest

/-- The number of (topic, partition) entries of a list of topic entries. -/
def blockCount {β : Type} (m : List (GoString × List (Int × β))) : Nat :=
  weight List.length m

/-- The integers of the request are values of their Go types; unlike `Typed` this asks
nothing of the keys, so the blocks may be the topic entries of a wire body in which a
topic name or a partition id occurs more than once. -/
def OffsetCommitRequest.WireTyped (m : OffsetCommitRequest) : Prop :=
  IsInt32 m.ConsumerGroupGeneration ∧ IsInt64 m.RetentionTime ∧
  ∀ tp ∈ entries m.blocks, ∀ pb ∈ tp.2, IsInt32 pb.1 ∧ pb.2.Typed

instance (m : OffsetCommitRequest) : Decidable m.WireTyped := by
  unfold OffsetCommitRequest.WireTyped; infer_instance

/-- The topic entries of a version 0 body for group "g" that names topic "t" twice:
first without a partition, then with partition 0 at offset 42. -/
def OffsetCommitRequest.repeatedTopic : OffsetCommitRequest :=
  ⟨[103], 0, [], none, 0, 0, some [([116], []), ([116], [(0, ⟨42, 0, 0, []⟩)])]⟩

/-- The topic entries of a version 0 body for group "g" that names topic "t" twice:
first with partition 0 at offset 42, then with partition 1 at offset 43. -/
def OffsetCommitRequest.overwrittenTopic : OffsetCommitRequest :=
  ⟨[103], 0, [], none, 0, 0,
    some [([116], [(0, ⟨42, 0, 0, []⟩)]), ([116], [(1, ⟨43, 0, 0, []⟩)])]⟩

/-- The codec reads back what it writes at version `v`: encoding a record never fails
and writes at least one byte, and decoding the bytes returns the record and leaves what
follows them. -/
def ResourceAclsCodec.RoundTrips {α : Type} (codec : ResourceAclsCodec α) (v : Int) : Prop :=
  ∀ x, (codec.encode x v).err = none ∧ 1 ≤ (codec.encode x v).out.length ∧
    ∀ rest, codec.decode ((codec.encode x v).out ++ rest) v = Res.ok (x, rest)

/-- A codec of a `ResourceAcls` record that holds one bool. -/
def ResourceAclsCodec.flag : ResourceAclsCodec Bool :=
  ⟨fun b _ => putBool b, fun pd _ => getBool pd⟩

/-- The creation responses are Go values that encode accepts: an int32 count, int16
error codes and messages of at most 32767 bytes. -/
def CreateAclsResponse.Fits (c : CreateAclsResponse) : Prop :=
  c.AclCreationResponses.length ≤ 2147483647 ∧
  ∀ x ∈ c.AclCreationResponses, IsInt16 x.Err ∧ OptFits x.ErrMsg

/-- The topic entries are Go values that encode accepts: int32 counts, topic names of
at most 32767 bytes, int32 partitions and int16 error codes. -/
def AddPartitionsToTxnResponse.Fits (a : AddPartitionsToTxnResponse) : Prop :=
  (entries a.Errors).length ≤ 2147483647 ∧
  ∀ te ∈ entries a.Errors, te.1.length ≤ 32767 ∧ te.2.length ≤ 2147483647 ∧
    ∀ p ∈ te.2, IsInt32 p.Partition ∧ IsInt16 p.Err

/-- The response is a Go value that encode accepts and whose encoding `getString`
reads: an int16 error code, a present message of at most 32767 bytes and an int32
count of records. -/
def DescribeAclsResponse.Fits {α : Type} (d : DescribeAclsResponse α) : Prop :=
  IsInt16 d.Err ∧ (∃ s, d.ErrMsg = some s ∧ s.length ≤ 32767) ∧
  d.ResourceAcls.length ≤ 2147483647

/-- How the outcome `x` of a decoder call on a buffer and its outcome `y` on the buffer
followed by `ext` are related when the call reads forward only: `x` is no panic, and
where `x` is a success, `y` is the same success with `ext` left unread. -/
def Res.Extends {α : Type} (x y : Res (α × List Byte)) (ext : List Byte) : Prop :=
  x ≠ Res.panic ∧ ∀ a rest, x = Res.ok (a, rest) → y = Res.ok (a, rest ++ ext)

/-! # Theorems -/

/-! ## Lemmas on the primitive codec -/

theorem length_beBytes (w n : Nat) : (beBytes w n).length = w := by
  induction w with
  | zero => rfl
  | succ w ih => simp [beBytes, ih]

theorem foldl_beBytes (w n acc : Nat) :
    (beBytes w n).foldl (fun a (b : Byte) => a * 256 + b.val) acc = acc * 256 ^ w + n % 256 ^ w := by
  induction w generalizing acc with
  | zero => simp [beBytes, Nat.mod_one]
  | succ w ih =>
    simp only [beBytes, List.foldl_cons, ih]
    have h1 : (Fin.ofNat (n / 256 ^ w) : Byte).val = n / 256 ^ w % 256 := rfl
    rw [h1, pow_succ, Nat.mod_mul]
    ring

theorem beValue_beBytes (w n : Nat) : beValue (beBytes w n) = n % 256 ^ w := by
  simp [beValue, foldl_beBytes]

theorem getFixed_beBytes (w n : Nat) (rest : List Byte) :
    getFixed w (beBytes w n ++ rest) = Res.ok (signed (8 * w) (n % 256 ^ w), rest) := by
  simp [getFixed, length_beBytes, List.take_append_eq_append_take, List.drop_append_eq_append_drop,
    List.take_of_length_le, List.drop_of_length_le, beValue_beBytes]

theorem signed_wrap16 (x : Int) (h : IsInt16 x) : signed (8 * 2) (wrap 16 x % 256 ^ 2) = x := by
  unfold IsInt16 at h
  simp only [signed, wrap, Nat.reducePow, Nat.reduceMul, Nat.reduceSub, Int.reducePow]
  have hn : ((x % 65536).toNat : Int) = x % 65536 :=
    Int.toNat_of_nonneg (Int.emod_nonneg _ (by norm_num))
  generalize (x % 65536).toNat = n at hn ⊢
  split <;> omega

theorem signed_wrap32 (x : Int) (h : IsInt32 x) : signed (8 * 4) (wrap 32 x % 256 ^ 4) = x := by
  unfold IsInt32 at h
  simp only [signed, wrap, Nat.reducePow, Nat.reduceMul, Nat.reduceSub, Int.reducePow]
  have hn : ((x % 4294967296).toNat : Int) = x % 4294967296 :=
    Int.toNat_of_nonneg (Int.emod_nonneg _ (by norm_num))
  generalize (x % 4294967296).toNat = n at hn ⊢
  split <;> omega

theorem signed_wrap64 (x : Int) (h : IsInt64 x) : signed (8 * 8) (wrap 64 x % 256 ^ 8) = x := by
  unfold IsInt64 at h
  simp only [signed, wrap, Nat.reducePow, Nat.reduceMul, Nat.reduceSub, Int.reducePow]
  have hn : ((x % 18446744073709551616).toNat : Int) = x % 18446744073709551616 :=
    Int.toNat_of_nonneg (Int.emod_nonneg _ (by norm_num))
  generalize (x % 18446744073709551616).toNat = n at hn ⊢
  split <;> omega

theorem getInt16_putInt16 (x : Int) (h : IsInt16 x) (rest : List Byte) :
    getInt16 ((putInt16 x).out ++ rest) = Res.ok (x, rest) := by
  simp only [getInt16, putInt16, Enc.bytes, getFixed_beBytes, signed_wrap16 x h]

theorem getInt32_putInt32 (x : Int) (h : IsInt32 x) (rest : List Byte) :
    getInt32 ((putInt32 x).out ++ rest) = Res.ok (x, rest) := by
  simp only [getInt32, putInt32, Enc.bytes, getFixed_beBytes, signed_wrap32 x h]

theorem getInt64_putInt64 (x : Int) (h : IsInt64 x) (rest : List Byte) :
    getInt64 ((putInt64 x).out ++ rest) = Res.ok (x, rest) := by
  simp only [getInt64, putInt64, Enc.bytes, getFixed_beBytes, signed_wrap64 x h]

/-! ## Lemmas on runs of encoder calls -/

@[simp] theorem Enc.skip_out : Enc.skip.out = [] := rfl
@[simp] theorem Enc.skip_err : Enc.skip.err = none := rfl
@[simp] theorem Enc.bytes_out (bs : List Byte) : (Enc.bytes bs).out = bs := rfl
@[simp] theorem Enc.bytes_err (bs : List Byte) : (Enc.bytes bs).err = none := rfl
@[simp] theorem Enc.println_out (l : String) : (Enc.println l).out = [] := rfl
@[simp] theorem Enc.println_err (l : String) : (Enc.println l).err = none := rfl
@[simp] theorem Enc.fail_out (e : Err) : (Enc.fail e).out = [] := rfl
@[simp] theorem Enc.fail_err (e : Err) : (Enc.fail e).err = some e := rfl

theorem Enc.andThen_out {a : Enc} (b : Enc) (h : a.err = none) :
    (a.andThen b).out = a.out ++ b.out := by
  simp [Enc.andThen, h]

theorem Enc.andThen_err {a : Enc} (b : Enc) (h : a.err = none) :
    (a.andThen b).err = b.err := by
  simp [Enc.andThen, h]

theorem Enc.seq_cons_out {a : Enc} (l : List Enc) (h : a.err = none) :
    (Enc.seq (a :: l)).out = a.out ++ (Enc.seq l).out := by
  simp [Enc.seq, Enc.andThen, h]

theorem Enc.seq_cons_err {a : Enc} (l : List Enc) (h : a.err = none) :
    (Enc.seq (a :: l)).err = (Enc.seq l).err := by
  simp [Enc.seq, Enc.andThen, h]

@[simp] theorem Enc.seq_nil_out : (Enc.seq []).out = [] := rfl
@[simp] theorem Enc.seq_nil_err : (Enc.seq []).err = none := rfl

@[simp] theorem putInt8_err (x : Int) : (putInt8 x).err = none := rfl
@[simp] theorem putInt16_err (x : Int) : (putInt16 x).err = none := rfl
@[simp] theorem putInt32_err (x : Int) : (putInt32 x).err = none := rfl
@[simp] theorem putInt64_err (x : Int) : (putInt64 x).err = none := rfl
@[simp] theorem putBool_err (b : Bool) : (putBool b).err = none := rfl
@[simp] theorem putUVarint_err (n : Nat) : (putUVarint n).err = none := rfl

theorem putString_err {s : GoString} (h : s.length ≤ 32767) : (putString s).err = none := by
  have : ¬ s.length > 32767 := by omega
  simp [putString, this, Enc.andThen]

theorem putString_out {s : GoString} (h : s.length ≤ 32767) :
    (putString s).out = (putInt16 s.length).out ++ s := by
  have : ¬ s.length > 32767 := by omega
  simp [putString, this, Enc.andThen]


theorem putNullableString_err {s : Option GoString} (h : OptFits s) :
    (putNullableString s).err = none := by
  cases s with
  | none => rfl
  | some v => exact putString_err h

theorem putArrayLength_err {n : Nat} (h : n ≤ 2147483647) : (putArrayLength n).err = none := by
  have : ¬ n > 2147483647 := by omega
  simp [putArrayLength, this]

theorem putArrayLength_out {n : Nat} (h : n ≤ 2147483647) :
    (putArrayLength n).out = (putInt32 n).out := by
  have : ¬ n > 2147483647 := by omega
  simp [putArrayLength, this]

theorem length_putInt32 (x : Int) : (putInt32 x).out.length = 4 := by
  simp [putInt32, length_beBytes]

theorem length_putInt16 (x : Int) : (putInt16 x).out.length = 2 := by
  simp [putInt16, length_beBytes]

theorem length_putInt64 (x : Int) : (putInt64 x).out.length = 8 := by
  simp [putInt64, length_beBytes]

/-! ## Round trips of strings and counts -/

theorem getRaw_append (s rest : List Byte) : getRaw s.length (s ++ rest) = Res.ok (s, rest) := by
  simp [getRaw]

theorem getString_putString (s : GoString) (h : s.length ≤ 32767) (rest : List Byte) :
    getString ((putString s).out ++ rest) = Res.ok (s, rest) := by
  have h16 : IsInt16 (s.length : Int) := by unfold IsInt16; omega
  have hneg : ¬ ((s.length : Int) < 0) := by omega
  simp only [getString, putString_out h, List.append_assoc, getInt16_putInt16 _ h16, bind,
    Res.bind, hneg, if_false, Int.toNat_ofNat, getRaw_append]

theorem getNullableString_putNullableString (s : Option GoString) (h : OptFits s)
    (rest : List Byte) :
    getNullableString ((putNullableString s).out ++ rest) = Res.ok (s, rest) := by
  cases s with
  | none =>
    have h16 : IsInt16 (-1) := by unfold IsInt16; omega
    simp only [getNullableString, putNullableString]
    rw [getInt16_putInt16 _ h16]
    rfl
  | some v =>
    have hv : v.length ≤ 32767 := h
    have h16 : IsInt16 (v.length : Int) := by unfold IsInt16; omega
    have hneg : ¬ ((v.length : Int) < 0) := by omega
    have hne : ¬ ((v.length : Int) = -1) := by omega
    simp only [getNullableString, putNullableString, putString_out hv, List.append_assoc,
      getInt16_putInt16 _ h16, bind, Res.bind, hneg, hne, if_false, Int.toNat_ofNat,
      getRaw_append]

theorem getArrayLength_putArrayLength (n : Nat) (h : n ≤ 2147483647) (rest : List Byte)
    (hrest : n ≤ rest.length) :
    getArrayLength ((putArrayLength n).out ++ rest) = Res.ok ((n : Int), rest) := by
  have h32 : IsInt32 (n : Int) := by unfold IsInt32; omega
  have hgt : ¬ ((n : Int) > (rest.length : Int)) := by omega
  simp only [getArrayLength, putArrayLength_out h, getInt32_putInt32 _ h32, bind, Res.bind, hgt,
    if_false]

theorem Enc.seq_err_of_all (l : List Enc) (h : ∀ e ∈ l, e.err = none) :
    (Enc.seq l).err = none := by
  induction l with
  | nil => rfl
  | cons a l ih =>
    rw [Enc.seq_cons_err _ (h a (List.mem_cons_self a l))]
    exact ih (fun e he => h e (List.mem_cons_of_mem a he))

theorem Enc.seq_out_of_all (l : List Enc) (h : ∀ e ∈ l, e.err = none) :
    (Enc.seq l).out = (l.map Enc.out).flatten := by
  induction l with
  | nil => rfl
  | cons a l ih =>
    rw [Enc.seq_cons_out _ (h a (List.mem_cons_self a l)),
      ih (fun e he => h e (List.mem_cons_of_mem a he))]
    simp

/-! ## Loops and maps -/

theorem Enc.forEach_err {α : Type} (xs : List α) (body : α → Enc)
    (h : ∀ x ∈ xs, (body x).err = none) : (Enc.forEach xs body).err = none := by
  induction xs with
  | nil => rfl
  | cons x xs ih =>
    have hx := h x (List.mem_cons_self x xs)
    have hxs := ih (fun y hy => h y (List.mem_cons_of_mem x hy))
    simp only [Enc.forEach]
    rw [Enc.andThen_err _ hx]
    exact hxs

theorem Enc.forEach_cons_out {α : Type} (x : α) (xs : List α) (body : α → Enc)
    (h : (body x).err = none) :
    (Enc.forEach (x :: xs) body).out = (body x).out ++ (Enc.forEach xs body).out := by
  simp only [Enc.forEach]
  exact Enc.andThen_out _ h

theorem Enc.forEach_length_le {α : Type} (xs : List α) (body : α → Enc)
    (h : ∀ x ∈ xs, (body x).err = none ∧ 1 ≤ (body x).out.length) :
    xs.length ≤ (Enc.forEach xs body).out.length := by
  induction xs with
  | nil => simp
  | cons x xs ih =>
    have hx := h x (List.mem_cons_self x xs)
    have hxs := ih (fun y hy => h y (List.mem_cons_of_mem x hy))
    rw [Enc.forEach_cons_out x xs body hx.1]
    simp only [List.length_append, List.length_cons]
    omega

theorem mapSet_of_not_mem {κ ν : Type} [DecidableEq κ] (m : List (κ × ν)) (k : κ) (v : ν)
    (h : k ∉ m.map Prod.fst) : mapSet m k v = m ++ [(k, v)] := by
  induction m with
  | nil => rfl
  | cons e m ih =>
    obtain ⟨k', v'⟩ := e
    simp only [List.map_cons, List.mem_cons, not_or] at h
    have hne : ¬ k' = k := fun h' => h.1 h'.symm
    simp [mapSet, hne, ih h.2]

/-- Assigning the entries of a map one after the other into a map with other keys
adds them in order. -/
theorem foldl_mapSet {κ ν : Type} [DecidableEq κ] (xs acc : List (κ × ν))
    (h : Keyed (acc ++ xs)) :
    xs.foldl (fun m e => mapSet m e.1 e.2) acc = acc ++ xs := by
  induction xs generalizing acc with
  | nil => simp
  | cons e xs ih =>
    have hk : e.1 ∉ acc.map Prod.fst := by
      unfold Keyed at h
      simp only [List.map_append, List.map_cons] at h
      have := (List.nodup_append.mp h).2.2
      intro hmem
      exact this hmem (List.mem_cons_self _ _)
    simp only [List.foldl_cons]
    rw [mapSet_of_not_mem acc e.1 e.2 hk]
    have h' : Keyed ((acc ++ [(e.1, e.2)]) ++ xs) := by
      simpa [Keyed] using h
    rw [ih _ h']
    simp

theorem mapGet_mapSet_same {κ ν : Type} [DecidableEq κ] (m : List (κ × ν)) (k : κ) (v : ν) :
    mapGet (mapSet m k v) k = some v := by
  induction m with
  | nil => simp [mapSet, mapGet]
  | cons e m ih =>
    obtain ⟨k', v'⟩ := e
    by_cases h : k' = k
    · simp [mapSet, mapGet, h]
    · simp [mapSet, mapGet, h, ih]

theorem mapGet_mapSet_other {κ ν : Type} [DecidableEq κ] (m : List (κ × ν)) (k k2 : κ) (v : ν)
    (hne : k2 ≠ k) : mapGet (mapSet m k v) k2 = mapGet m k2 := by
  induction m with
  | nil =>
    have : ¬ k = k2 := fun h => hne h.symm
    simp [mapSet, mapGet, this]
  | cons e m ih =>
    obtain ⟨k', v'⟩ := e
    by_cases h : k' = k
    · subst h
      have : ¬ k' = k2 := fun h => hne h.symm
      simp [mapSet, mapGet, this]
    · by_cases h2 : k' = k2
      · subst h2
        simp [mapSet, mapGet, h]
      · simp [mapSet, mapGet, h, h2, ih]

/-! ## What a run that succeeds tells about its parts -/

theorem Enc.andThen_of_ok {a b : Enc} (h : (a.andThen b).err = none) :
    a.err = none ∧ b.err = none := by
  unfold Enc.andThen at h
  cases ha : a.err with
  | none =>
    rw [ha] at h
    exact ⟨rfl, h⟩
  | some e =>
    rw [ha] at h
    simp only at h
    rw [ha] at h
    exact absurd h (by simp)

theorem Enc.seq_of_ok (l : List Enc) (h : (Enc.seq l).err = none) : ∀ e ∈ l, e.err = none := by
  induction l with
  | nil => intro e he; exact absurd he (List.not_mem_nil e)
  | cons a l ih =>
    have h2 := Enc.andThen_of_ok h
    intro e he
    rcases List.mem_cons.mp he with rfl | he
    · exact h2.1
    · exact ih h2.2 e he

theorem Enc.forEach_of_ok {α : Type} (xs : List α) (body : α → Enc)
    (h : (Enc.forEach xs body).err = none) : ∀ x ∈ xs, (body x).err = none := by
  induction xs with
  | nil => intro x hx; exact absurd hx (List.not_mem_nil x)
  | cons a l ih =>
    have h2 := Enc.andThen_of_ok h
    intro e he
    rcases List.mem_cons.mp he with rfl | he
    · exact h2.1
    · exact ih h2.2 e he

theorem Enc.forEach_out_of_all {α : Type} (xs : List α) (body : α → Enc)
    (h : ∀ x ∈ xs, (body x).err = none) :
    (Enc.forEach xs body).out = xs.flatMap (fun x => (body x).out) := by
  induction xs with
  | nil => rfl
  | cons x xs ih =>
    rw [Enc.forEach_cons_out x xs body (h x (List.mem_cons_self x xs)),
      ih (fun y hy => h y (List.mem_cons_of_mem x hy)), List.flatMap_cons]

theorem putString_of_ok {s : GoString} (h : (putString s).err = none) : s.length ≤ 32767 := by
  by_contra hlen
  have : s.length > 32767 := by omega
  simp [putString, this, Enc.fail] at h

theorem putArrayLength_of_ok {n : Nat} (h : (putArrayLength n).err = none) :
    n ≤ 2147483647 := by
  by_contra hlen
  have : n > 2147483647 := by omega
  simp [putArrayLength, this, Enc.fail] at h

/-! ## OffsetCommitRequest: blocks -/

theorem offsetCommitRequestBlock.encode_err (b : offsetCommitRequestBlock) (v : Int)
    (hfit : b.metadata.length ≤ 32767) : (b.encode v).err = none := by
  unfold offsetCommitRequestBlock.encode
  rw [Enc.seq_cons_err _ (putInt64_err _), Enc.seq_cons_err, Enc.seq_cons_err, Enc.seq_cons_err _
    (putString_err hfit)]
  · rfl
  · split <;> simp
  · split
    · simp
    · split <;> simp

/-- The bytes of one block at version `v`. -/
theorem offsetCommitRequestBlock.encode_out (b : offsetCommitRequestBlock) (v : Int)
    (hfit : b.metadata.length ≤ 32767) :
    (b.encode v).out = (putInt64 b.offset).out ++
      ((if v = 1 then (putInt64 b.timestamp).out else []) ++
      ((if v ≥ 6 then (putInt32 b.committedLeaderEpoch).out else []) ++
      (putString b.metadata).out)) := by
  unfold offsetCommitRequestBlock.encode
  rw [Enc.seq_cons_out _ (putInt64_err _), Enc.seq_cons_out, Enc.seq_cons_out, Enc.seq_cons_out _
    (putString_err hfit)]
  · congr 1
    congr 1
    · split
      · rfl
      · split <;> rfl
    · congr 1
      · split <;> rfl
      · simp
  · split <;> simp
  · split
    · simp
    · split <;> simp

theorem offsetCommitRequestBlock.block_decode_encode (b : offsetCommitRequestBlock) (v : Int)
    (ht : b.Typed) (hfit : b.metadata.length ≤ 32767) (hd : b.DefaultsAt v) (rest : List Byte) :
    offsetCommitRequestBlock.zero.decode ((b.encode v).out ++ rest) v = Res.ok (b, rest) := by
  rw [offsetCommitRequestBlock.encode_out b v hfit]
  obtain ⟨o, ts, ep, md⟩ := b
  obtain ⟨ho, hts, he⟩ := ht
  obtain ⟨hd1, hd6⟩ := hd
  simp only at ho hts he hd1 hd6 hfit
  unfold offsetCommitRequestBlock.decode
  simp only [List.append_assoc, getInt64_putInt64 _ ho, bind, Res.bind,
    offsetCommitRequestBlock.zero]
  by_cases h1 : v = 1
  · subst h1
    have h6 : ¬ ((1 : Int) ≥ 6) := by omega
    have hep : ep = 0 := hd6 (by omega)
    subst hep
    simp only [h6, if_true, if_false, getInt64_putInt64 _ hts, List.append_assoc,
      List.nil_append, getString_putString _ hfit]
  · have hts0 : ts = 0 := hd1 h1
    subst hts0
    by_cases h6 : v ≥ 6
    · simp only [h1, h6, if_true, if_false, getInt32_putInt32 _ he, List.append_assoc,
        List.nil_append, getString_putString _ hfit]
    · have hep : ep = 0 := hd6 (by omega)
      subst hep
      simp only [h1, h6, if_true, if_false, List.append_assoc,
        List.nil_append, getString_putString _ hfit]

/-! ## OffsetCommitRequest: round trip -/

theorem OffsetCommitRequest.partition_err (v : Int) (pb : Int × offsetCommitRequestBlock)
    (hfit : pb.2.metadata.length ≤ 32767) :
    (Enc.seq [putInt32 pb.1, pb.2.encode v]).err = none := by
  apply Enc.seq_err_of_all
  intro e he
  simp only [List.mem_cons, List.mem_singleton, List.not_mem_nil, or_false] at he
  rcases he with rfl | rfl
  · rfl
  · exact offsetCommitRequestBlock.encode_err _ _ hfit

theorem OffsetCommitRequest.partition_out (v : Int) (pb : Int × offsetCommitRequestBlock)
    (hfit : pb.2.metadata.length ≤ 32767) :
    (Enc.seq [putInt32 pb.1, pb.2.encode v]).out = (putInt32 pb.1).out ++ (pb.2.encode v).out := by
  rw [Enc.seq_cons_out _ (putInt32_err _),
    Enc.seq_cons_out _ (offsetCommitRequestBlock.encode_err _ _ hfit)]
  simp

theorem OffsetCommitRequest.decodePartitions_encode (v : Int)
    (ps : List (Int × offsetCommitRequestBlock))
    (h : ∀ pb ∈ ps, IsInt32 pb.1 ∧ pb.2.Typed ∧ pb.2.metadata.length ≤ 32767 ∧ pb.2.DefaultsAt v)
    (acc : List (Int × offsetCommitRequestBlock)) (rest : List Byte) :
    OffsetCommitRequest.decodePartitions v ps.length
      ((Enc.forEach ps (fun pb => Enc.seq [putInt32 pb.1, pb.2.encode v])).out ++ rest) acc
      = Res.ok (ps.foldl (fun m e => mapSet m e.1 e.2) acc, rest) := by
  induction ps generalizing acc with
  | nil => rfl
  | cons pb ps ih =>
    obtain ⟨hk, ht, hf, hd⟩ := h pb (List.mem_cons_self pb ps)
    have ih' := ih (fun y hy => h y (List.mem_cons_of_mem pb hy))
    rw [Enc.forEach_cons_out pb ps (fun pb => Enc.seq [putInt32 pb.1, pb.2.encode v])
      (OffsetCommitRequest.partition_err v pb hf), OffsetCommitRequest.partition_out v pb hf]
    simp only [List.length_cons, OffsetCommitRequest.decodePartitions, List.append_assoc,
      getInt32_putInt32 _ hk, bind, Res.bind,
      offsetCommitRequestBlock.block_decode_encode _ v ht hf hd, List.foldl_cons]
    exact ih' _

theorem OffsetCommitRequest.commitRequest_topic_err (v : Int)
    (tp : GoString × List (Int × offsetCommitRequestBlock))
    (hs : tp.1.length ≤ 32767) (hc : tp.2.length ≤ 2147483647)
    (hm : ∀ pb ∈ tp.2, pb.2.metadata.length ≤ 32767) :
    (Enc.seq [putString tp.1, putArrayLength tp.2.length,
      Enc.forEach tp.2 (fun pb => Enc.seq [putInt32 pb.1, pb.2.encode v])]).err = none := by
  apply Enc.seq_err_of_all
  intro e he
  simp only [List.mem_cons, List.mem_singleton, List.not_mem_nil, or_false] at he
  rcases he with rfl | rfl | rfl
  · exact putString_err hs
  · exact putArrayLength_err hc
  · exact Enc.forEach_err _ _ (fun pb hpb => OffsetCommitRequest.partition_err v pb (hm pb hpb))

theorem OffsetCommitRequest.commitRequest_topic_out (v : Int)
    (tp : GoString × List (Int × offsetCommitRequestBlock))
    (hs : tp.1.length ≤ 32767) (hc : tp.2.length ≤ 2147483647)
    (hm : ∀ pb ∈ tp.2, pb.2.metadata.length ≤ 32767) :
    (Enc.seq [putString tp.1, putArrayLength tp.2.length,
      Enc.forEach tp.2 (fun pb => Enc.seq [putInt32 pb.1, pb.2.encode v])]).out =
      (putString tp.1).out ++ ((putArrayLength tp.2.length).out ++
        (Enc.forEach tp.2 (fun pb => Enc.seq [putInt32 pb.1, pb.2.encode v])).out) := by
  rw [Enc.seq_cons_out _ (putString_err hs), Enc.seq_cons_out _ (putArrayLength_err hc),
    Enc.seq_cons_out _ (Enc.forEach_err _ _
      (fun pb hpb => OffsetCommitRequest.partition_err v pb (hm pb hpb)))]
  simp

theorem OffsetCommitRequest.partitions_length_le (v : Int)
    (ps : List (Int × offsetCommitRequestBlock))
    (hm : ∀ pb ∈ ps, pb.2.metadata.length ≤ 32767) :
    ps.length ≤ (Enc.forEach ps (fun pb => Enc.seq [putInt32 pb.1, pb.2.encode v])).out.length := by
  apply Enc.forEach_length_le
  intro pb hpb
  refine ⟨OffsetCommitRequest.partition_err v pb (hm pb hpb), ?_⟩
  rw [OffsetCommitRequest.partition_out v pb (hm pb hpb), List.length_append, length_putInt32]
  omega

theorem OffsetCommitRequest.commitRequest_decodeTopics_encode (v : Int)
    (ts : List (GoString × List (Int × offsetCommitRequestBlock)))
    (h : ∀ tp ∈ ts, tp.1.length ≤ 32767 ∧ tp.2.length ≤ 2147483647 ∧ Keyed tp.2 ∧
      ∀ pb ∈ tp.2, IsInt32 pb.1 ∧ pb.2.Typed ∧ pb.2.metadata.length ≤ 32767 ∧ pb.2.DefaultsAt v)
    (acc : List (GoString × List (Int × offsetCommitRequestBlock))) (rest : List Byte) :
    OffsetCommitRequest.decodeTopics v ts.length
      ((Enc.forEach ts (fun tp => Enc.seq [putString tp.1, putArrayLength tp.2.length,
        Enc.forEach tp.2 (fun pb => Enc.seq [putInt32 pb.1, pb.2.encode v])])).out ++ rest) acc
      = Res.ok (ts.foldl (fun m e => mapSet m e.1 e.2) acc, rest) := by
  induction ts generalizing acc with
  | nil => rfl
  | cons tp ts ih =>
    obtain ⟨hs, hc, hkeyed, hps⟩ := h tp (List.mem_cons_self tp ts)
    have hm : ∀ pb ∈ tp.2, pb.2.metadata.length ≤ 32767 := fun pb hpb => (hps pb hpb).2.2.1
    have ih' := ih (fun y hy => h y (List.mem_cons_of_mem tp hy))
    have hlen := OffsetCommitRequest.partitions_length_le v tp.2 hm
    have hfold : tp.2.foldl (fun m e => mapSet m e.1 e.2) [] = tp.2 := by
      have := foldl_mapSet tp.2 [] (by simpa using hkeyed)
      simpa using this
    rw [Enc.forEach_cons_out tp ts (fun tp => Enc.seq [putString tp.1, putArrayLength tp.2.length,
        Enc.forEach tp.2 (fun pb => Enc.seq [putInt32 pb.1, pb.2.encode v])])
      (OffsetCommitRequest.commitRequest_topic_err v tp hs hc hm), OffsetCommitRequest.commitRequest_topic_out v tp hs hc hm]
    simp only [List.length_cons, OffsetCommitRequest.decodeTopics, List.append_assoc,
      getString_putString _ hs, bind, Res.bind]
    rw [getArrayLength_putArrayLength _ hc _ (by simp only [List.length_append]; omega)]
    simp only [Int.toNat_ofNat, OffsetCommitRequest.decodePartitions_encode v tp.2 hps, hfold,
      List.foldl_cons]
    exact ih' _

theorem OffsetCommitRequest.commitRequest_encode_parts (m : OffsetCommitRequest)
    (hv : 0 ≤ m.Version ∧ m.Version ≤ 7) (hs : m.StringsFit) (hc : m.CountsFit) :
    m.encode.err = none ∧
    m.encode.out = (putString m.ConsumerGroup).out ++
      ((if m.Version ≥ 1 then (putInt32 m.ConsumerGroupGeneration).out ++ (putString m.ConsumerID).out
        else []) ++
      ((if m.Version ≥ 2 ∧ m.Version ≤ 4 then (putInt64 m.RetentionTime).out else []) ++
      ((if m.Version ≥ 7 then (putNullableString m.GroupInstanceId).out else []) ++
      ((putArrayLength (entries m.blocks).length).out ++
      (Enc.forEach (entries m.blocks) (fun tp => Enc.seq [putString tp.1,
        putArrayLength tp.2.length,
        Enc.forEach tp.2 (fun pb => Enc.seq [putInt32 pb.1, pb.2.encode m.Version])])).out)))) := by
  obtain ⟨hg, hcid, hgid, htp⟩ := hs
  obtain ⟨hn, hnp⟩ := hc
  have hvalid : ¬ (m.Version < 0 ∨ m.Version > 7) := by omega
  have e2 : (if m.Version ≥ 1 then
      Enc.seq [putInt32 m.ConsumerGroupGeneration, putString m.ConsumerID]
    else Enc.seq [
      if m.ConsumerGroupGeneration ≠ 0 then
        Enc.println "Non-zero ConsumerGroupGeneration specified for OffsetCommitRequest v0, it will be ignored"
      else Enc.skip,
      if m.ConsumerID ≠ [] then
        Enc.println "Non-empty ConsumerID specified for OffsetCommitRequest v0, it will be ignored"
      else Enc.skip]).err = none := by
    split
    · rw [Enc.seq_cons_err _ (putInt32_err _), Enc.seq_cons_err _ (putString_err hcid)]
      rfl
    · rw [Enc.seq_cons_err, Enc.seq_cons_err]
      · rfl
      · split <;> rfl
      · split <;> rfl
  have o2 : (if m.Version ≥ 1 then
      Enc.seq [putInt32 m.ConsumerGroupGeneration, putString m.ConsumerID]
    else Enc.seq [
      if m.ConsumerGroupGeneration ≠ 0 then
        Enc.println "Non-zero ConsumerGroupGeneration specified for OffsetCommitRequest v0, it will be ignored"
      else Enc.skip,
      if m.ConsumerID ≠ [] then
        Enc.println "Non-empty ConsumerID specified for OffsetCommitRequest v0, it will be ignored"
      else Enc.skip]).out =
      (if m.Version ≥ 1 then
        (putInt32 m.ConsumerGroupGeneration).out ++ (putString m.ConsumerID).out else []) := by
    split
    · rw [Enc.seq_cons_out _ (putInt32_err _), Enc.seq_cons_out _ (putString_err hcid)]
      simp
    · rw [Enc.seq_cons_out, Enc.seq_cons_out]
      · have a1 : (if m.ConsumerGroupGeneration ≠ 0 then
            Enc.println "Non-zero ConsumerGroupGeneration specified for OffsetCommitRequest v0, it will be ignored"
          else Enc.skip).out = [] := by split <;> rfl
        have a2 : (if m.ConsumerID ≠ [] then
            Enc.println "Non-empty ConsumerID specified for OffsetCommitRequest v0, it will be ignored"
          else Enc.skip).out = [] := by split <;> rfl
        rw [a1, a2]
        rfl
      · split <;> rfl
      · split <;> rfl
  have e3 : (if m.Version ≥ 2 ∧ m.Version ≤ 4 then putInt64 m.RetentionTime
    else if m.RetentionTime ≠ 0 then
      Enc.println "Non-zero RetentionTime specified for OffsetCommitRequest version <2, it will be ignored"
    else Enc.skip).err = none := by
    split
    · rfl
    · split <;> rfl
  have o3 : (if m.Version ≥ 2 ∧ m.Version ≤ 4 then putInt64 m.RetentionTime
    else if m.RetentionTime ≠ 0 then
      Enc.println "Non-zero RetentionTime specified for OffsetCommitRequest version <2, it will be ignored"
    else Enc.skip).out =
      (if m.Version ≥ 2 ∧ m.Version ≤ 4 then (putInt64 m.RetentionTime).out else []) := by
    split
    · rfl
    · split <;> rfl
  have e4 : (if m.Version ≥ 7 then putNullableString m.GroupInstanceId else Enc.skip).err = none := by
    split
    · exact putNullableString_err hgid
    · rfl
  have o4 : (if m.Version ≥ 7 then putNullableString m.GroupInstanceId else Enc.skip).out =
      (if m.Version ≥ 7 then (putNullableString m.GroupInstanceId).out else []) := by
    split <;> rfl
  have e6 : (Enc.forEach (entries m.blocks) (fun tp => Enc.seq [putString tp.1,
        putArrayLength tp.2.length,
        Enc.forEach tp.2 (fun pb => Enc.seq [putInt32 pb.1, pb.2.encode m.Version])])).err
      = none :=
    Enc.forEach_err _ _ (fun tp htp' =>
      OffsetCommitRequest.commitRequest_topic_err m.Version tp (htp tp htp').1 (hnp tp htp') (htp tp htp').2)
  unfold OffsetCommitRequest.encode
  rw [if_neg hvalid]
  constructor
  · rw [Enc.seq_cons_err _ (putString_err hg), Enc.seq_cons_err _ e2, Enc.seq_cons_err _ e3,
      Enc.seq_cons_err _ e4, Enc.seq_cons_err _ (putArrayLength_err hn), Enc.seq_cons_err _ e6]
    rfl
  · rw [Enc.seq_cons_out _ (putString_err hg), Enc.seq_cons_out _ e2, Enc.seq_cons_out _ e3,
      Enc.seq_cons_out _ e4, Enc.seq_cons_out _ (putArrayLength_err hn), Enc.seq_cons_out _ e6,
      o2, o3, o4]
    simp

theorem OffsetCommitRequest.commitRequest_topics_length_le (v : Int)
    (ts : List (GoString × List (Int × offsetCommitRequestBlock)))
    (h : ∀ tp ∈ ts, tp.1.length ≤ 32767 ∧ tp.2.length ≤ 2147483647 ∧
      ∀ pb ∈ tp.2, pb.2.metadata.length ≤ 32767) :
    ts.length ≤ (Enc.forEach ts (fun tp => Enc.seq [putString tp.1, putArrayLength tp.2.length,
        Enc.forEach tp.2 (fun pb => Enc.seq [putInt32 pb.1, pb.2.encode v])])).out.length := by
  apply Enc.forEach_length_le
  intro tp htp
  obtain ⟨hs, hc, hm⟩ := h tp htp
  refine ⟨OffsetCommitRequest.commitRequest_topic_err v tp hs hc hm, ?_⟩
  rw [OffsetCommitRequest.commitRequest_topic_out v tp hs hc hm, putString_out hs]
  simp only [List.length_append, length_putInt16]
  omega

/-- C1, amended: for every version v in 0..7 and every request m with Version = v whose
strings are at most 32767 bytes long, whose fields not carried at v hold their defaults,
and which has at most 2^31 - 1 topics and at most 2^31 - 1 partitions per topic, encode
succeeds, and decoding its output at v into a fresh value succeeds, reads every byte and
yields a request equal to m field for field, the blocks being the same
topic -> partition -> block mapping (the entries come back in the order encode visited
them, whatever that order was). -/
theorem OffsetCommitRequest.commitRequest_roundTrip (m : OffsetCommitRequest) (v : Int)
    (hv : 0 ≤ v ∧ v ≤ 7) (hver : m.Version = v) (ht : m.Typed) (hs : m.StringsFit)
    (hc : m.CountsFit) (hd : m.DefaultsAt v) :
    m.encode.err = none ∧
    ∃ d, OffsetCommitRequest.zero.decode m.encode.out v = Res.ok (d, []) ∧
      d.Version = m.Version ∧ d.ConsumerGroup = m.ConsumerGroup ∧
      d.ConsumerGroupGeneration = m.ConsumerGroupGeneration ∧ d.ConsumerID = m.ConsumerID ∧
      d.GroupInstanceId = m.GroupInstanceId ∧ d.RetentionTime = m.RetentionTime ∧
      entries d.blocks = entries m.blocks ∧
      ∀ topic partition, d.block topic partition = m.block topic partition := by
  have hblock : ∀ d : OffsetCommitRequest, entries d.blocks = entries m.blocks →
      ∀ topic partition, d.block topic partition = m.block topic partition := by
    intro d hd' topic partition
    simp only [OffsetCommitRequest.block, hd']
  suffices hmain : ∃ d, OffsetCommitRequest.zero.decode m.encode.out v = Res.ok (d, []) ∧
      d.Version = m.Version ∧ d.ConsumerGroup = m.ConsumerGroup ∧
      d.ConsumerGroupGeneration = m.ConsumerGroupGeneration ∧ d.ConsumerID = m.ConsumerID ∧
      d.GroupInstanceId = m.GroupInstanceId ∧ d.RetentionTime = m.RetentionTime ∧
      entries d.blocks = entries m.blocks by
    refine ⟨(OffsetCommitRequest.commitRequest_encode_parts m (hver ▸ hv) hs hc).1, ?_⟩
    obtain ⟨d, h1, h2, h3, h4, h5, h6, h7, h8⟩ := hmain
    exact ⟨d, h1, h2, h3, h4, h5, h6, h7, h8, hblock d h8⟩
  clear hblock
  subst hver
  obtain ⟨herr, hout⟩ := OffsetCommitRequest.commitRequest_encode_parts m hv hs hc
  obtain ⟨g, gen, cid, gid, ret, ver, blocks⟩ := m
  obtain ⟨hgen, hret, hkeyed, htyped⟩ := ht
  obtain ⟨hg, hcid, hgid, htp⟩ := hs
  obtain ⟨hn, hnp⟩ := hc
  obtain ⟨hd0, hdret, hdgid, hdb⟩ := hd
  simp only at hv hgen hret hkeyed htyped hg hcid hgid htp hn hnp hd0 hdret hdgid hdb hout
  have hloop := OffsetCommitRequest.commitRequest_decodeTopics_encode ver (entries blocks)
    (fun tp h => ⟨(htp tp h).1, hnp tp h, (htyped tp h).1, fun pb hpb =>
      ⟨((htyped tp h).2 pb hpb).1, ((htyped tp h).2 pb hpb).2, (htp tp h).2 pb hpb,
        hdb tp h pb hpb⟩⟩) [] []
  have hfold : (entries blocks).foldl (fun m e => mapSet m e.1 e.2) [] = entries blocks := by
    have := foldl_mapSet (entries blocks) [] (by simpa using hkeyed)
    simpa using this
  have hlen := OffsetCommitRequest.commitRequest_topics_length_le ver (entries blocks)
    (fun tp h => ⟨(htp tp h).1, hnp tp h, (htp tp h).2⟩)
  rw [hfold, List.append_nil] at hloop
  have hcount := getArrayLength_putArrayLength (entries blocks).length hn _ hlen
  rw [hout]
  unfold OffsetCommitRequest.decode
  simp only [List.append_assoc, getString_putString _ hg, bind, Res.bind,
    OffsetCommitRequest.zero]
  have hcases : ver = 0 ∨ ver = 1 ∨ ver = 2 ∨ ver = 3 ∨ ver = 4 ∨ ver = 5 ∨ ver = 6 ∨ ver = 7 := by
    omega
  have hnil : (entries blocks).length = 0 → entries blocks = [] := List.length_eq_zero.mp
  rcases hcases with rfl | rfl | rfl | rfl | rfl | rfl | rfl | rfl
  all_goals
    simp only [Int.reduceGE, Int.reduceLE, Int.reduceLT, and_true, and_false, true_and, false_and,
      if_true, if_false, List.nil_append, List.append_assoc, getInt32_putInt32 _ hgen,
      getString_putString _ hcid, getInt64_putInt64 _ hret,
      getNullableString_putNullableString _ hgid, hcount, not_true_eq_false, not_false_eq_true,
      forall_true_left, ge_iff_le, true_implies, false_implies] at hd0 hdret hdgid ⊢
    clear herr hout hlen htp hnp htyped hkeyed hfold hdb
    by_cases hz : (entries blocks).length = 0
    · have hz' : ((entries blocks).length : Int) = 0 := by omega
      simp only [hz', if_true]
      rw [hnil hz]
      refine ⟨_, rfl, ?_⟩
      clear hloop hcount
      simp_all [entries]
    · have hz' : ¬ ((entries blocks).length : Int) = 0 := by omega
      simp only [hz', if_false, Int.toNat_ofNat, hloop]
      refine ⟨_, rfl, ?_⟩
      clear hloop hcount
      simp_all [entries]

/-- Witness of C1: the hypotheses hold for the spec's version 7 scenario, and the
round trip gives back its fields. -/
theorem OffsetCommitRequest.commitRequest_roundTrip_witness :
    OffsetCommitRequest.scenario.Typed ∧ OffsetCommitRequest.scenario.StringsFit ∧
    OffsetCommitRequest.scenario.CountsFit ∧ OffsetCommitRequest.scenario.DefaultsAt 7 ∧
    (OffsetCommitRequest.scenario.encode.err = none ∧
    ∃ d, OffsetCommitRequest.zero.decode OffsetCommitRequest.scenario.encode.out 7
        = Res.ok (d, []) ∧
      d.Version = OffsetCommitRequest.scenario.Version ∧
      d.ConsumerGroup = OffsetCommitRequest.scenario.ConsumerGroup ∧
      d.ConsumerGroupGeneration = OffsetCommitRequest.scenario.ConsumerGroupGeneration ∧
      d.ConsumerID = OffsetCommitRequest.scenario.ConsumerID ∧
      d.GroupInstanceId = OffsetCommitRequest.scenario.GroupInstanceId ∧
      d.RetentionTime = OffsetCommitRequest.scenario.RetentionTime ∧
      entries d.blocks = entries OffsetCommitRequest.scenario.blocks ∧
      ∀ topic partition, d.block topic partition
        = OffsetCommitRequest.scenario.block topic partition) :=
  ⟨by decide, by decide, by decide, by decide,
    OffsetCommitRequest.commitRequest_roundTrip OffsetCommitRequest.scenario 7 (by decide) rfl
      (by decide) (by decide) (by decide) (by decide)⟩


theorem Enc.seq_cons_fail {a : Enc} {e : Err} (l : List Enc) (h : a.err = some e) :
    (Enc.seq (a :: l)).err = some e := by
  simp [Enc.seq, Enc.andThen, h]

theorem beBytes_four_injOn (n : Nat) (hn : n ≤ 4294967296) : ∀ i ∈ List.range n,
    ∀ j ∈ List.range n, beBytes 4 i = beBytes 4 j → i = j := by
  intro i hi j hj h
  have h' := congrArg beValue h
  rw [beValue_beBytes, beValue_beBytes] at h'
  rw [List.mem_range] at hi hj
  omega

theorem OffsetCommitRequest.withTopics_entry (n : Nat) :
    ∀ tp ∈ entries (OffsetCommitRequest.withTopics n).blocks, tp.1.length = 4 ∧ tp.2 = [] := by
  intro tp htp
  simp only [OffsetCommitRequest.withTopics, entries, Option.getD_some, List.mem_map] at htp
  obtain ⟨i, _, rfl⟩ := htp
  exact ⟨length_beBytes 4 i, rfl⟩

theorem OffsetCommitRequest.commitRequest_withTopics_wellFormed (n : Nat) (hn : n ≤ 4294967296) :
    (OffsetCommitRequest.withTopics n).Typed ∧ (OffsetCommitRequest.withTopics n).StringsFit ∧
    (OffsetCommitRequest.withTopics n).DefaultsAt 0 := by
  have hmem := OffsetCommitRequest.withTopics_entry n
  have i32 : IsInt32 0 := by decide
  have i64 : IsInt64 0 := by decide
  have fit : ([] : GoString).length ≤ 32767 := by decide
  have ofit : OptFits none := by decide
  refine ⟨⟨i32, i64, ?_, ?_⟩, ⟨fit, fit, ofit, ?_⟩, ⟨?_, ?_, ?_, ?_⟩⟩
  · simp only [Keyed, OffsetCommitRequest.withTopics, entries, Option.getD_some, List.map_map]
    exact List.Nodup.map_on (beBytes_four_injOn n hn) (List.nodup_range _)
  · intro tp htp
    rw [(hmem tp htp).2]
    exact ⟨List.nodup_nil, fun _ h => absurd h (List.not_mem_nil _)⟩
  · intro tp htp
    refine ⟨by rw [(hmem tp htp).1]; omega, ?_⟩
    rw [(hmem tp htp).2]
    exact fun _ h => absurd h (List.not_mem_nil _)
  · intro _; exact ⟨rfl, rfl⟩
  · intro _; rfl
  · intro _; rfl
  · intro tp htp
    rw [(hmem tp htp).2]
    exact fun _ h => absurd h (List.not_mem_nil _)

theorem OffsetCommitRequest.commitRequest_withTopics_encode (n : Nat) (hn : n > 2147483647) :
    (OffsetCommitRequest.withTopics n).encode.err = some (Err.packetEncoding "array too long") := by
  have hlen : (entries (OffsetCommitRequest.withTopics n).blocks).length = n := by
    simp only [OffsetCommitRequest.withTopics, entries, Option.getD_some, List.length_map,
      List.length_range]
  have hfail : (putArrayLength (entries (OffsetCommitRequest.withTopics n).blocks).length).err
      = some (Err.packetEncoding "array too long") := by
    rw [hlen]
    simp [putArrayLength, hn]
  unfold OffsetCommitRequest.encode
  have hver : ¬ ((OffsetCommitRequest.withTopics n).Version < 0 ∨
      (OffsetCommitRequest.withTopics n).Version > 7) := by
    show ¬ ((0 : Int) < 0 ∨ (0 : Int) > 7)
    decide
  rw [if_neg hver]
  rw [Enc.seq_cons_err _ (by rfl), Enc.seq_cons_err _ (by rfl), Enc.seq_cons_err _ (by rfl),
    Enc.seq_cons_err _ (by rfl), Enc.seq_cons_fail _ hfail]

/-- Counterexample to C1 as stated: the version 0 request with 2^31 topics is a
well-formed request with short strings and default fields, and encode returns an
error instead of succeeding. -/
theorem OffsetCommitRequest.commitRequest_roundTrip_fails_oversized :
    OffsetCommitRequest.oversized.Version = 0 ∧ OffsetCommitRequest.oversized.Typed ∧
    OffsetCommitRequest.oversized.StringsFit ∧ OffsetCommitRequest.oversized.DefaultsAt 0 ∧
    OffsetCommitRequest.oversized.encode.err ≠ none := by
  have h1 := OffsetCommitRequest.commitRequest_withTopics_wellFormed 2147483648 (by omega)
  have h2 := OffsetCommitRequest.commitRequest_withTopics_encode 2147483648 (by omega)
  refine ⟨rfl, h1.1, h1.2.1, h1.2.2, ?_⟩
  intro h
  rw [OffsetCommitRequest.oversized, h2] at h
  exact absurd h (by simp)

/-! ## LeaveGroupResponse: round trip -/

theorem LeaveGroupResponse.member_err (x : MemberResponse)
    (hs : x.MemberId.length ≤ 32767 ∧ OptFits x.GroupInstanceId) :
    (Enc.seq [putString x.MemberId, putNullableString x.GroupInstanceId, putInt16 x.Err]).err
      = none := by
  rw [Enc.seq_cons_err _ (putString_err hs.1), Enc.seq_cons_err _ (putNullableString_err hs.2),
    Enc.seq_cons_err _ (putInt16_err _)]
  rfl

theorem LeaveGroupResponse.member_out (x : MemberResponse)
    (hs : x.MemberId.length ≤ 32767 ∧ OptFits x.GroupInstanceId) :
    (Enc.seq [putString x.MemberId, putNullableString x.GroupInstanceId, putInt16 x.Err]).out
      = (putString x.MemberId).out ++ ((putNullableString x.GroupInstanceId).out ++
        (putInt16 x.Err).out) := by
  rw [Enc.seq_cons_out _ (putString_err hs.1), Enc.seq_cons_out _ (putNullableString_err hs.2),
    Enc.seq_cons_out _ (putInt16_err _)]
  simp

theorem LeaveGroupResponse.decodeMembers_encode (ms : List MemberResponse)
    (h : ∀ x ∈ ms, (x.MemberId.length ≤ 32767 ∧ OptFits x.GroupInstanceId) ∧ IsInt16 x.Err)
    (rest : List Byte) :
    LeaveGroupResponse.decodeMembers ms.length
      ((Enc.forEach ms (fun member => Enc.seq [putString member.MemberId,
        putNullableString member.GroupInstanceId, putInt16 member.Err])).out ++ rest)
      = Res.ok (ms, rest) := by
  induction ms with
  | nil => rfl
  | cons x ms ih =>
    obtain ⟨hs, he⟩ := h x (List.mem_cons_self x ms)
    have ih' := ih (fun y hy => h y (List.mem_cons_of_mem x hy))
    rw [Enc.forEach_cons_out x ms (fun member => Enc.seq [putString member.MemberId,
        putNullableString member.GroupInstanceId, putInt16 member.Err])
      (LeaveGroupResponse.member_err x hs), LeaveGroupResponse.member_out x hs]
    simp only [List.length_cons, LeaveGroupResponse.decodeMembers, List.append_assoc,
      getString_putString _ hs.1, getNullableString_putNullableString _ hs.2,
      getInt16_putInt16 _ he, bind, Res.bind, ih']

theorem LeaveGroupResponse.members_length_le (ms : List MemberResponse)
    (h : ∀ x ∈ ms, x.MemberId.length ≤ 32767 ∧ OptFits x.GroupInstanceId) :
    ms.length ≤ (Enc.forEach ms (fun member => Enc.seq [putString member.MemberId,
        putNullableString member.GroupInstanceId, putInt16 member.Err])).out.length := by
  apply Enc.forEach_length_le
  intro x hx
  refine ⟨LeaveGroupResponse.member_err x (h x hx), ?_⟩
  rw [LeaveGroupResponse.member_out x (h x hx)]
  simp only [List.length_append, length_putInt16]
  omega

/-- Where `encode` succeeds and what it writes: the layout of a response whose member
strings fit and whose member count is an int32. -/
theorem LeaveGroupResponse.leaveGroup_encode_parts (m : LeaveGroupResponse) (hs : m.StringsFit)
    (hc : m.Members.length ≤ 2147483647) :
    m.encode.err = none ∧
    m.encode.out = (if m.Version ≥ 1 then (putInt32 m.ThrottleTime).out else []) ++
      ((putInt16 m.Err).out ++
      (if m.Version ≥ 3 then (putArrayLength m.Members.length).out ++
        (Enc.forEach m.Members (fun member => Enc.seq [putString member.MemberId,
          putNullableString member.GroupInstanceId, putInt16 member.Err])).out
       else [])) := by
  have e1 : (if m.Version ≥ 1 then putInt32 m.ThrottleTime else Enc.skip).err = none := by
    split <;> rfl
  have o1 : (if m.Version ≥ 1 then putInt32 m.ThrottleTime else Enc.skip).out =
      (if m.Version ≥ 1 then (putInt32 m.ThrottleTime).out else []) := by
    split <;> rfl
  have el : (Enc.forEach m.Members (fun member => Enc.seq [putString member.MemberId,
          putNullableString member.GroupInstanceId, putInt16 member.Err])).err = none :=
    Enc.forEach_err _ _ (fun x hx => LeaveGroupResponse.member_err x (hs x hx))
  have e3 : (if m.Version ≥ 3 then Enc.seq [
        putArrayLength m.Members.length,
        Enc.forEach m.Members (fun member => Enc.seq [putString member.MemberId,
          putNullableString member.GroupInstanceId, putInt16 member.Err])]
      else Enc.skip).err = none := by
    split
    · rw [Enc.seq_cons_err _ (putArrayLength_err hc), Enc.seq_cons_err _ el]
      rfl
    · rfl
  have o3 : (if m.Version ≥ 3 then Enc.seq [
        putArrayLength m.Members.length,
        Enc.forEach m.Members (fun member => Enc.seq [putString member.MemberId,
          putNullableString member.GroupInstanceId, putInt16 member.Err])]
      else Enc.skip).out = (if m.Version ≥ 3 then (putArrayLength m.Members.length).out ++
        (Enc.forEach m.Members (fun member => Enc.seq [putString member.MemberId,
          putNullableString member.GroupInstanceId, putInt16 member.Err])).out
       else []) := by
    split
    · rw [Enc.seq_cons_out _ (putArrayLength_err hc), Enc.seq_cons_out _ el]
      simp
    · rfl
  unfold LeaveGroupResponse.encode
  constructor
  · rw [Enc.seq_cons_err _ e1, Enc.seq_cons_err _ (putInt16_err _), Enc.seq_cons_err _ e3]
    rfl
  · rw [Enc.seq_cons_out _ e1, Enc.seq_cons_out _ (putInt16_err _), Enc.seq_cons_out _ e3, o1, o3]
    simp

/-- C3, amended: for every version v in 0..3 and every response m with Version = v,
member ids and group instance ids at most 32767 bytes long, ThrottleTime = 0 when
v = 0, Members empty when v < 3 and at most 2^31 - 1 members, encode succeeds and
decoding its output at v into a fresh value succeeds, reads every byte and yields
exactly m: same Version, ThrottleTime, Err and the same sequence of members, each
GroupInstanceId null exactly when the original was null. -/
theorem LeaveGroupResponse.leaveGroup_roundTrip (m : LeaveGroupResponse) (v : Int)
    (hv : 0 ≤ v ∧ v ≤ 3) (hver : m.Version = v) (ht : m.Typed) (hs : m.StringsFit)
    (hc : m.Members.length ≤ 2147483647) (hd : m.DefaultsAt v) :
    m.encode.err = none ∧
    LeaveGroupResponse.zero.decode m.encode.out v = Res.ok (m, []) := by
  subst hver
  obtain ⟨herr, hout⟩ := LeaveGroupResponse.leaveGroup_encode_parts m hs hc
  refine ⟨herr, ?_⟩
  obtain ⟨ver, throttle, err, members⟩ := m
  obtain ⟨hth, he, hme⟩ := ht
  obtain ⟨hd0, hd3⟩ := hd
  simp only at hv hth he hme hs hc hd0 hd3 hout
  have hloop := LeaveGroupResponse.decodeMembers_encode members
    (fun x hx => ⟨hs x hx, hme x hx⟩) []
  have hlen := LeaveGroupResponse.members_length_le members hs
  have hcount := getArrayLength_putArrayLength members.length hc _ hlen
  rw [List.append_nil] at hloop
  rw [hout]
  unfold LeaveGroupResponse.decode
  simp only [LeaveGroupResponse.zero, bind, Res.bind]
  have hcases : ver = 0 ∨ ver = 1 ∨ ver = 2 ∨ ver = 3 := by omega
  have hmk : makeSlice (members.length : Int) = Res.ok members.length := by
    have : ¬ ((members.length : Int) < 0) := by omega
    simp [makeSlice, this]
  have he' := getInt16_putInt16 _ he []
  rw [List.append_nil] at he'
  rcases hcases with rfl | rfl | rfl | rfl
  all_goals
    simp only [he', Int.reduceGE, Int.reduceLE, Int.reduceLT, if_true, if_false, List.nil_append,
      List.append_assoc, List.append_nil, getInt32_putInt32 _ hth, getInt16_putInt16 _ he,
      hcount, hmk, hloop, forall_true_left, true_implies, ge_iff_le] at hd0 hd3 ⊢
  all_goals simp_all

/-- Witness of C3: the hypotheses hold for the spec's version 3 scenario, which comes
back unchanged. -/
theorem LeaveGroupResponse.leaveGroup_roundTrip_witness :
    LeaveGroupResponse.scenario.Typed ∧ LeaveGroupResponse.scenario.StringsFit ∧
    LeaveGroupResponse.scenario.Members.length ≤ 2147483647 ∧
    LeaveGroupResponse.scenario.DefaultsAt 3 ∧
    (LeaveGroupResponse.scenario.encode.err = none ∧
      LeaveGroupResponse.zero.decode LeaveGroupResponse.scenario.encode.out 3
        = Res.ok (LeaveGroupResponse.scenario, [])) :=
  ⟨by decide, by decide, by decide, by decide,
    LeaveGroupResponse.leaveGroup_roundTrip LeaveGroupResponse.scenario 3 (by decide) rfl
      (by decide) (by decide) (by decide) (by decide)⟩

theorem LeaveGroupResponse.withMembers_wellFormed (n : Nat) :
    (LeaveGroupResponse.withMembers n).Typed ∧ (LeaveGroupResponse.withMembers n).StringsFit ∧
    (LeaveGroupResponse.withMembers n).DefaultsAt 3 := by
  have i32 : IsInt32 0 := by decide
  have i16 : IsInt16 0 := by decide
  have fit : ([] : GoString).length ≤ 32767 := by decide
  have ofit : OptFits none := by decide
  have hmem : ∀ x ∈ (LeaveGroupResponse.withMembers n).Members, x = ⟨[], none, 0⟩ :=
    fun x hx => List.eq_of_mem_replicate hx
  refine ⟨⟨i32, i16, ?_⟩, ?_, ⟨?_, ?_⟩⟩
  · intro x hx
    rw [hmem x hx]
    exact i16
  · intro x hx
    rw [hmem x hx]
    exact ⟨fit, ofit⟩
  · intro h
    exact absurd h (by decide)
  · intro h
    exact absurd h (by decide)

theorem LeaveGroupResponse.withMembers_encode (n : Nat) (hn : n > 2147483647) :
    (LeaveGroupResponse.withMembers n).encode.err
      = some (Err.packetEncoding "array too long") := by
  have hlen : (LeaveGroupResponse.withMembers n).Members.length = n := List.length_replicate _ _
  have hfail : (putArrayLength (LeaveGroupResponse.withMembers n).Members.length).err
      = some (Err.packetEncoding "array too long") := by
    rw [hlen]
    simp [putArrayLength, hn]
  have hv1 : (LeaveGroupResponse.withMembers n).Version ≥ 1 := by
    show (3 : Int) ≥ 1
    decide
  have hv3 : (LeaveGroupResponse.withMembers n).Version ≥ 3 := by
    show (3 : Int) ≥ 3
    decide
  unfold LeaveGroupResponse.encode
  rw [if_pos hv1, if_pos hv3, Enc.seq_cons_err _ (putInt32_err _),
    Enc.seq_cons_err _ (putInt16_err _)]
  apply Enc.seq_cons_fail
  exact Enc.seq_cons_fail _ hfail

/-- Counterexample to C3 as stated: the version 3 response with 2^31 members satisfies
the conditions of the claim, and encode returns an error instead of succeeding. -/
theorem LeaveGroupResponse.leaveGroup_roundTrip_fails_oversized :
    LeaveGroupResponse.oversized.Version = 3 ∧ LeaveGroupResponse.oversized.Typed ∧
    LeaveGroupResponse.oversized.StringsFit ∧ LeaveGroupResponse.oversized.DefaultsAt 3 ∧
    LeaveGroupResponse.oversized.encode.err ≠ none := by
  have h1 := LeaveGroupResponse.withMembers_wellFormed 2147483648
  have h2 := LeaveGroupResponse.withMembers_encode 2147483648 (by omega)
  refine ⟨rfl, h1.1, h1.2.1, h1.2.2, ?_⟩
  intro h
  rw [LeaveGroupResponse.oversized, h2] at h
  exact absurd h (by simp)

/-! ## OffsetCommitResponse: decode in any order of emission -/

theorem OffsetCommitResponse.error_err (pe : Int × KError) :
    (Enc.seq [putInt32 pe.1, putInt16 pe.2]).err = none := rfl

theorem OffsetCommitResponse.error_out (pe : Int × KError) :
    (Enc.seq [putInt32 pe.1, putInt16 pe.2]).out = (putInt32 pe.1).out ++ (putInt16 pe.2).out := by
  rw [Enc.seq_cons_out _ (putInt32_err _), Enc.seq_cons_out _ (putInt16_err _)]
  simp

theorem OffsetCommitResponse.errors_err (ps : List (Int × KError)) :
    (Enc.forEach ps (fun pe => Enc.seq [putInt32 pe.1, putInt16 pe.2])).err = none :=
  Enc.forEach_err _ _ (fun pe _ => OffsetCommitResponse.error_err pe)

theorem OffsetCommitResponse.errors_length (ps : List (Int × KError)) :
    (Enc.forEach ps (fun pe => Enc.seq [putInt32 pe.1, putInt16 pe.2])).out.length
      = 6 * ps.length := by
  induction ps with
  | nil => rfl
  | cons pe ps ih =>
    rw [Enc.forEach_cons_out pe ps (fun pe => Enc.seq [putInt32 pe.1, putInt16 pe.2])
      (OffsetCommitResponse.error_err pe), OffsetCommitResponse.error_out]
    simp only [List.length_append, length_putInt32, length_putInt16, ih, List.length_cons]
    omega

theorem OffsetCommitResponse.decodeErrors_encode (ps : List (Int × KError))
    (h : ∀ pe ∈ ps, IsInt32 pe.1 ∧ IsInt16 pe.2) (acc : List (Int × KError))
    (rest : List Byte) :
    OffsetCommitResponse.decodeErrors ps.length
      ((Enc.forEach ps (fun pe => Enc.seq [putInt32 pe.1, putInt16 pe.2])).out ++ rest) acc
      = Res.ok (ps.foldl (fun m e => mapSet m e.1 e.2) acc, rest) := by
  induction ps generalizing acc with
  | nil => rfl
  | cons pe ps ih =>
    obtain ⟨hk, he⟩ := h pe (List.mem_cons_self pe ps)
    have ih' := ih (fun y hy => h y (List.mem_cons_of_mem pe hy))
    rw [Enc.forEach_cons_out pe ps (fun pe => Enc.seq [putInt32 pe.1, putInt16 pe.2])
      (OffsetCommitResponse.error_err pe), OffsetCommitResponse.error_out]
    simp only [List.length_cons, OffsetCommitResponse.decodeErrors, List.append_assoc,
      getInt32_putInt32 _ hk, getInt16_putInt16 _ he, bind, Res.bind, List.foldl_cons]
    exact ih' _

theorem OffsetCommitResponse.commitResponse_topic_err (tp : GoString × List (Int × KError))
    (hs : tp.1.length ≤ 32767) (hc : tp.2.length ≤ 2147483647) :
    (Enc.seq [putString tp.1, putArrayLength tp.2.length,
      Enc.forEach tp.2 (fun pe => Enc.seq [putInt32 pe.1, putInt16 pe.2])]).err = none := by
  rw [Enc.seq_cons_err _ (putString_err hs), Enc.seq_cons_err _ (putArrayLength_err hc),
    Enc.seq_cons_err _ (OffsetCommitResponse.errors_err _)]
  rfl

theorem OffsetCommitResponse.commitResponse_topic_out (tp : GoString × List (Int × KError))
    (hs : tp.1.length ≤ 32767) (hc : tp.2.length ≤ 2147483647) :
    (Enc.seq [putString tp.1, putArrayLength tp.2.length,
      Enc.forEach tp.2 (fun pe => Enc.seq [putInt32 pe.1, putInt16 pe.2])]).out =
      (putString tp.1).out ++ ((putArrayLength tp.2.length).out ++
        (Enc.forEach tp.2 (fun pe => Enc.seq [putInt32 pe.1, putInt16 pe.2])).out) := by
  rw [Enc.seq_cons_out _ (putString_err hs), Enc.seq_cons_out _ (putArrayLength_err hc),
    Enc.seq_cons_out _ (OffsetCommitResponse.errors_err _)]
  simp

theorem OffsetCommitResponse.topic_length (tp : GoString × List (Int × KError))
    (hs : tp.1.length ≤ 32767) (hc : tp.2.length ≤ 2147483647) :
    (Enc.seq [putString tp.1, putArrayLength tp.2.length,
      Enc.forEach tp.2 (fun pe => Enc.seq [putInt32 pe.1, putInt16 pe.2])]).out.length =
      2 + tp.1.length + 4 + 6 * tp.2.length := by
  rw [OffsetCommitResponse.commitResponse_topic_out tp hs hc, putString_out hs, putArrayLength_out hc]
  simp only [List.length_append, length_putInt16, length_putInt32,
    OffsetCommitResponse.errors_length]
  omega

theorem OffsetCommitResponse.topics_err (ts : List (GoString × List (Int × KError)))
    (h : ∀ tp ∈ ts, tp.1.length ≤ 32767 ∧ tp.2.length ≤ 2147483647) :
    (Enc.forEach ts (fun tp => Enc.seq [putString tp.1, putArrayLength tp.2.length,
      Enc.forEach tp.2 (fun pe => Enc.seq [putInt32 pe.1, putInt16 pe.2])])).err = none :=
  Enc.forEach_err _ _ (fun tp htp => OffsetCommitResponse.commitResponse_topic_err tp (h tp htp).1 (h tp htp).2)

theorem OffsetCommitResponse.topics_length (ts : List (GoString × List (Int × KError)))
    (h : ∀ tp ∈ ts, tp.1.length ≤ 32767 ∧ tp.2.length ≤ 2147483647) :
    (Enc.forEach ts (fun tp => Enc.seq [putString tp.1, putArrayLength tp.2.length,
      Enc.forEach tp.2 (fun pe => Enc.seq [putInt32 pe.1, putInt16 pe.2])])).out.length =
      (ts.map (fun tp => 2 + tp.1.length + 4 + 6 * tp.2.length)).sum := by
  induction ts with
  | nil => rfl
  | cons tp ts ih =>
    obtain ⟨hs, hc⟩ := h tp (List.mem_cons_self tp ts)
    rw [Enc.forEach_cons_out tp ts (fun tp => Enc.seq [putString tp.1, putArrayLength tp.2.length,
      Enc.forEach tp.2 (fun pe => Enc.seq [putInt32 pe.1, putInt16 pe.2])])
      (OffsetCommitResponse.commitResponse_topic_err tp hs hc), List.length_append,
      OffsetCommitResponse.topic_length tp hs hc,
      ih (fun y hy => h y (List.mem_cons_of_mem tp hy))]
    simp

theorem OffsetCommitResponse.commitResponse_decodeTopics_encode (ts : List (GoString × List (Int × KError)))
    (h : ∀ tp ∈ ts, tp.1.length ≤ 32767 ∧ tp.2.length ≤ 2147483647 ∧ Keyed tp.2 ∧
      ∀ pe ∈ tp.2, IsInt32 pe.1 ∧ IsInt16 pe.2)
    (acc : List (GoString × List (Int × KError))) (rest : List Byte) :
    OffsetCommitResponse.decodeTopics ts.length
      ((Enc.forEach ts (fun tp => Enc.seq [putString tp.1, putArrayLength tp.2.length,
        Enc.forEach tp.2 (fun pe => Enc.seq [putInt32 pe.1, putInt16 pe.2])])).out ++ rest) acc
      = Res.ok (ts.foldl (fun m e => mapSet m e.1 e.2) acc, rest) := by
  induction ts generalizing acc with
  | nil => rfl
  | cons tp ts ih =>
    obtain ⟨hs, hc, hkeyed, hps⟩ := h tp (List.mem_cons_self tp ts)
    have ih' := ih (fun y hy => h y (List.mem_cons_of_mem tp hy))
    have hlen : tp.2.length ≤
        (Enc.forEach tp.2 (fun pe => Enc.seq [putInt32 pe.1, putInt16 pe.2])).out.length := by
      rw [OffsetCommitResponse.errors_length]
      omega
    have hfold : tp.2.foldl (fun m e => mapSet m e.1 e.2) [] = tp.2 := by
      have := foldl_mapSet tp.2 [] (by simpa using hkeyed)
      simpa using this
    rw [Enc.forEach_cons_out tp ts (fun tp => Enc.seq [putString tp.1, putArrayLength tp.2.length,
        Enc.forEach tp.2 (fun pe => Enc.seq [putInt32 pe.1, putInt16 pe.2])])
      (OffsetCommitResponse.commitResponse_topic_err tp hs hc), OffsetCommitResponse.commitResponse_topic_out tp hs hc]
    simp only [List.length_cons, OffsetCommitResponse.decodeTopics, List.append_assoc,
      getString_putString _ hs, bind, Res.bind]
    rw [getArrayLength_putArrayLength _ hc _ (by simp only [List.length_append]; omega)]
    simp only [Int.toNat_ofNat, OffsetCommitResponse.decodeErrors_encode tp.2 hps, hfold,
      List.foldl_cons]
    exact ih' _

/-- Where `encode` succeeds and what it writes. -/
theorem OffsetCommitResponse.commitResponse_encode_parts (r : OffsetCommitResponse)
    (h : ∀ tp ∈ entries r.Errors, tp.1.length ≤ 32767 ∧ tp.2.length ≤ 2147483647)
    (hn : (entries r.Errors).length ≤ 2147483647) :
    r.encode.err = none ∧
    r.encode.out = (if r.Version ≥ 3 then (putInt32 r.ThrottleTimeMs).out else []) ++
      ((putArrayLength (entries r.Errors).length).out ++
      (Enc.forEach (entries r.Errors) (fun tp => Enc.seq [putString tp.1,
        putArrayLength tp.2.length,
        Enc.forEach tp.2 (fun pe => Enc.seq [putInt32 pe.1, putInt16 pe.2])])).out) := by
  have e1 : (if r.Version ≥ 3 then putInt32 r.ThrottleTimeMs else Enc.skip).err = none := by
    split <;> rfl
  have o1 : (if r.Version ≥ 3 then putInt32 r.ThrottleTimeMs else Enc.skip).out =
      (if r.Version ≥ 3 then (putInt32 r.ThrottleTimeMs).out else []) := by
    split <;> rfl
  have e3 := OffsetCommitResponse.topics_err (entries r.Errors) h
  unfold OffsetCommitResponse.encode
  constructor
  · rw [Enc.seq_cons_err _ e1, Enc.seq_cons_err _ (putArrayLength_err hn), Enc.seq_cons_err _ e3]
    rfl
  · rw [Enc.seq_cons_out _ e1, Enc.seq_cons_out _ (putArrayLength_err hn), Enc.seq_cons_out _ e3,
      o1]
    simp

/-- Round trip of a response in the order of its listing. -/
theorem OffsetCommitResponse.commitResponse_decode_encode (r : OffsetCommitResponse)
    (ht : IsInt32 r.ThrottleTimeMs) (hw : OffsetCommitResponse.IsErrors (entries r.Errors))
    (h : ∀ tp ∈ entries r.Errors, tp.1.length ≤ 32767 ∧ tp.2.length ≤ 2147483647)
    (hn : (entries r.Errors).length ≤ 2147483647) :
    ∃ d, OffsetCommitResponse.zero.decode r.encode.out r.Version = Res.ok (d, []) ∧
      d.Version = r.Version ∧ (r.Version ≥ 3 → d.ThrottleTimeMs = r.ThrottleTimeMs) ∧
      entries d.Errors = entries r.Errors := by
  obtain ⟨_, hout⟩ := OffsetCommitResponse.commitResponse_encode_parts r h hn
  obtain ⟨v, t, errors⟩ := r
  simp only at ht hw h hn hout ⊢
  have hloop := OffsetCommitResponse.commitResponse_decodeTopics_encode (entries errors)
    (fun tp htp => ⟨(h tp htp).1, (h tp htp).2, (hw.2 tp htp).1, (hw.2 tp htp).2⟩) [] []
  have hfold : (entries errors).foldl (fun m e => mapSet m e.1 e.2) [] = entries errors := by
    have := foldl_mapSet (entries errors) [] (by simpa using hw.1)
    simpa using this
  have hlen : (entries errors).length ≤ (Enc.forEach (entries errors) (fun tp =>
      Enc.seq [putString tp.1, putArrayLength tp.2.length,
        Enc.forEach tp.2 (fun pe => Enc.seq [putInt32 pe.1, putInt16 pe.2])])).out.length := by
    apply Enc.forEach_length_le
    intro tp htp
    refine ⟨OffsetCommitResponse.commitResponse_topic_err tp (h tp htp).1 (h tp htp).2, ?_⟩
    rw [OffsetCommitResponse.topic_length tp (h tp htp).1 (h tp htp).2]
    omega
  rw [hfold, List.append_nil] at hloop
  have hcount := getArrayLength_putArrayLength (entries errors).length hn _ hlen
  rw [hout]
  unfold OffsetCommitResponse.decode
  simp only [OffsetCommitResponse.zero, bind, Res.bind]
  have hnil : (entries errors).length = 0 → entries errors = [] := List.length_eq_zero.mp
  by_cases h3 : v ≥ 3
  all_goals
    simp only [h3, if_true, if_false, List.nil_append, List.append_assoc,
      getInt32_putInt32 _ ht, hcount]
    by_cases hz : (entries errors).length = 0
    · have hz' : ((entries errors).length : Int) = 0 := by omega
      simp only [hz', if_true]
      rw [hnil hz]
      refine ⟨_, rfl, ?_⟩
      simp [entries]
    · have hz' : ¬ ((entries errors).length : Int) = 0 := by omega
      simp only [hz', if_false, Int.toNat_ofNat, hloop]
      refine ⟨_, rfl, ?_⟩
      simp [entries]

/-! ### Maps and orders of iteration -/

theorem mapGet_eq_none {κ ν : Type} [DecidableEq κ] (l : List (κ × ν)) (k : κ)
    (h : k ∉ l.map Prod.fst) : mapGet l k = none := by
  induction l with
  | nil => rfl
  | cons e l ih =>
    obtain ⟨k', v'⟩ := e
    simp only [List.map_cons, List.mem_cons, not_or] at h
    have hne : ¬ k' = k := fun h' => h.1 h'.symm
    simp [mapGet, hne, ih h.2]

theorem mapGet_of_mem {κ ν : Type} [DecidableEq κ] (l : List (κ × ν)) (k : κ) (v : ν)
    (hk : Keyed l) (hm : (k, v) ∈ l) : mapGet l k = some v := by
  induction l with
  | nil => exact absurd hm (List.not_mem_nil _)
  | cons e l ih =>
    obtain ⟨k', v'⟩ := e
    unfold Keyed at hk
    simp only [List.map_cons, List.nodup_cons] at hk
    rcases List.mem_cons.mp hm with heq | hin
    · simp only [Prod.mk.injEq] at heq
      simp [mapGet, heq.1, heq.2]
    · have hne : ¬ k' = k := by
        intro h'
        apply hk.1
        rw [h']
        exact List.mem_map_of_mem Prod.fst hin
      simp [mapGet, hne, ih hk.2 hin]

theorem mem_of_mapGet {κ ν : Type} [DecidableEq κ] (l : List (κ × ν)) (k : κ) (v : ν)
    (h : mapGet l k = some v) : (k, v) ∈ l := by
  induction l with
  | nil => simp [mapGet] at h
  | cons e l ih =>
    obtain ⟨k', v'⟩ := e
    by_cases hk : k' = k
    · simp only [mapGet, hk, if_true, Option.some.injEq] at h
      simp [hk, h]
    · simp only [mapGet, hk, if_false] at h
      exact List.mem_cons_of_mem _ (ih h)

/-- Two listings of one map, in different orders, answer every lookup alike. -/
theorem mapGet_perm {κ ν : Type} [DecidableEq κ] (a b : List (κ × ν)) (hp : a.Perm b)
    (hb : Keyed b) (k : κ) : mapGet a k = mapGet b k := by
  have ha : Keyed a := (hp.map Prod.fst).nodup_iff.mpr hb
  cases hget : mapGet b k with
  | none =>
    apply mapGet_eq_none
    intro hmem
    obtain ⟨e, he, hek⟩ := List.mem_map.mp hmem
    have := mapGet_of_mem b k e.2 hb (by rw [← hek]; exact hp.mem_iff.mp he)
    rw [hget] at this
    exact absurd this (by simp)
  | some v =>
    exact mapGet_of_mem a k v ha (hp.mem_iff.mpr (mem_of_mapGet b k v hget))

theorem OffsetCommitResponse.EmitOrder.isErrors {w m : List (GoString × List (Int × KError))}
    (hw : OffsetCommitResponse.EmitOrder w m) (hm : OffsetCommitResponse.IsErrors m) :
    OffsetCommitResponse.IsErrors w := by
  refine ⟨hw.1.nodup_iff.mpr hm.1, ?_⟩
  intro tp htp
  obtain ⟨tp', htp', _, hperm⟩ := hw.2 tp htp
  refine ⟨(hperm.map Prod.fst).nodup_iff.mpr (hm.2 tp' htp').1, ?_⟩
  intro pe hpe
  exact (hm.2 tp' htp').2 pe (hperm.mem_iff.mp hpe)

theorem OffsetCommitResponse.EmitOrder.fits {w m : List (GoString × List (Int × KError))}
    (hw : OffsetCommitResponse.EmitOrder w m)
    (h : ∀ tp ∈ m, tp.1.length ≤ 32767 ∧ tp.2.length ≤ 2147483647) :
    ∀ tp ∈ w, tp.1.length ≤ 32767 ∧ tp.2.length ≤ 2147483647 := by
  intro tp htp
  obtain ⟨tp', htp', hkey, hperm⟩ := hw.2 tp htp
  rw [← hkey, hperm.length_eq]
  exact h tp' htp'

theorem OffsetCommitResponse.EmitOrder.length_eq {w m : List (GoString × List (Int × KError))}
    (hw : OffsetCommitResponse.EmitOrder w m) : w.length = m.length := by
  have := hw.1.length_eq
  simpa using this

/-- Every order of emission lists the same topic -> partition -> error mapping. -/
theorem OffsetCommitResponse.EmitOrder.same_mapping
    {w m : List (GoString × List (Int × KError))}
    (hw : OffsetCommitResponse.EmitOrder w m) (hm : OffsetCommitResponse.IsErrors m)
    (topic : GoString) :
    (mapGet w topic).isSome = (mapGet m topic).isSome ∧
    ∀ p, OffsetCommitResponse.errorOf w topic p = OffsetCommitResponse.errorOf m topic p := by
  cases hget : mapGet w topic with
  | none =>
    have hnot : topic ∉ m.map Prod.fst := by
      intro hmem
      obtain ⟨e, he, hek⟩ := List.mem_map.mp (hw.1.mem_iff.mpr hmem)
      have := mapGet_of_mem w topic e.2 (hw.isErrors hm).1 (by rw [← hek]; exact he)
      rw [hget] at this
      exact absurd this (by simp)
    have hnone := mapGet_eq_none m topic hnot
    simp [OffsetCommitResponse.errorOf, hget, hnone]
  | some ps =>
    obtain ⟨tp', htp', hkey, hperm⟩ := hw.2 (topic, ps) (mem_of_mapGet w topic ps hget)
    have hkey' : tp'.1 = topic := hkey
    have hsome : mapGet m topic = some tp'.2 :=
      mapGet_of_mem m topic tp'.2 hm.1 (by rw [← hkey']; exact htp')
    refine ⟨by simp [hsome], ?_⟩
    intro p
    simp only [OffsetCommitResponse.errorOf, hget, hsome]
    exact mapGet_perm ps tp'.2 hperm (hm.2 tp' htp').1 p

/-- Every order of emission has the same total size of topic entries. -/
theorem OffsetCommitResponse.EmitOrder.sum_eq {w m : List (GoString × List (Int × KError))}
    (hw : OffsetCommitResponse.EmitOrder w m) (hm : OffsetCommitResponse.IsErrors m) :
    (w.map (fun tp => 2 + tp.1.length + 4 + 6 * tp.2.length)).sum =
    (m.map (fun tp => 2 + tp.1.length + 4 + 6 * tp.2.length)).sum := by
  have hwm : ∀ tp ∈ w, 2 + tp.1.length + 4 + 6 * tp.2.length =
      2 + tp.1.length + 4 + 6 * ((mapGet m tp.1).getD []).length := by
    intro tp htp
    obtain ⟨tp', htp', hkey, hperm⟩ := hw.2 tp htp
    have hsome : mapGet m tp.1 = some tp'.2 :=
      mapGet_of_mem m tp.1 tp'.2 hm.1 (by rw [← hkey]; exact htp')
    rw [hsome, hperm.length_eq]
    rfl
  have hmm : ∀ tp ∈ m, 2 + tp.1.length + 4 + 6 * tp.2.length =
      2 + tp.1.length + 4 + 6 * ((mapGet m tp.1).getD []).length := by
    intro tp htp
    rw [mapGet_of_mem m tp.1 tp.2 hm.1 htp]
    rfl
  rw [List.map_congr_left hwm, List.map_congr_left hmm]
  have := (hw.1.map (fun t => 2 + t.length + 4 + 6 * ((mapGet m t).getD []).length)).sum_eq
  rw [List.map_map, List.map_map] at this
  exact this

/-- C5, amended: for every version v and every Errors mapping m with topic names of at
most 32767 bytes, at most 2^31 - 1 topics and at most 2^31 - 1 partitions per topic, and
for every order in which encode may emit the topic entries and, inside each topic, the
partition entries: encode succeeds; decode of the emitted bytes at v succeeds, reads
every byte, yields the same ThrottleTimeMs when v >= 3 and an Errors mapping equal to m
as a topic -> partition -> error mapping (the nil mapping is the empty one); and the
number of emitted bytes depends on v and m only, not on the order. -/
theorem OffsetCommitResponse.decode_any_order (r : OffsetCommitResponse) (v : Int)
    (m : List (GoString × List (Int × KError)))
    (hver : r.Version = v) (ht : IsInt32 r.ThrottleTimeMs)
    (hm : OffsetCommitResponse.IsErrors m)
    (hs : ∀ tp ∈ m, tp.1.length ≤ 32767)
    (hc : m.length ≤ 2147483647 ∧ ∀ tp ∈ m, tp.2.length ≤ 2147483647)
    (hw : OffsetCommitResponse.EmitOrder (entries r.Errors) m) :
    r.encode.err = none ∧
    (∃ d, OffsetCommitResponse.zero.decode r.encode.out v = Res.ok (d, []) ∧
      (v ≥ 3 → d.ThrottleTimeMs = r.ThrottleTimeMs) ∧
      ∀ topic, (mapGet (entries d.Errors) topic).isSome = (mapGet m topic).isSome ∧
        ∀ p, OffsetCommitResponse.errorOf (entries d.Errors) topic p
          = OffsetCommitResponse.errorOf m topic p) ∧
    r.encode.out.length = (if v ≥ 3 then 4 else 0) + 4 +
      (m.map (fun tp => 2 + tp.1.length + 4 + 6 * tp.2.length)).sum := by
  subst hver
  have hfit := hw.fits (fun tp htp => ⟨hs tp htp, hc.2 tp htp⟩)
  have hn : (entries r.Errors).length ≤ 2147483647 := by
    rw [hw.length_eq]
    exact hc.1
  obtain ⟨herr, hout⟩ := OffsetCommitResponse.commitResponse_encode_parts r hfit hn
  obtain ⟨d, hdec, _, hthr, hent⟩ := OffsetCommitResponse.commitResponse_decode_encode r ht (hw.isErrors hm) hfit hn
  refine ⟨herr, ⟨d, hdec, hthr, ?_⟩, ?_⟩
  · intro topic
    rw [hent]
    exact hw.same_mapping hm topic
  · rw [hout, List.length_append, List.length_append, putArrayLength_out hn, length_putInt32,
      OffsetCommitResponse.topics_length _ hfit, hw.sum_eq hm]
    split
    · rw [length_putInt32]
      omega
    · simp

/-- Witness of C5: a two-topic mapping emitted in another order. -/
theorem OffsetCommitResponse.decode_any_order_witness :
    IsInt32 OffsetCommitResponse.sample.ThrottleTimeMs ∧
    OffsetCommitResponse.IsErrors OffsetCommitResponse.sampleErrors ∧
    OffsetCommitResponse.EmitOrder (entries OffsetCommitResponse.sample.Errors)
      OffsetCommitResponse.sampleErrors ∧
    (OffsetCommitResponse.sample.encode.err = none ∧
    (∃ d, OffsetCommitResponse.zero.decode OffsetCommitResponse.sample.encode.out 3
        = Res.ok (d, []) ∧
      ((3 : Int) ≥ 3 → d.ThrottleTimeMs = OffsetCommitResponse.sample.ThrottleTimeMs) ∧
      ∀ topic, (mapGet (entries d.Errors) topic).isSome
          = (mapGet OffsetCommitResponse.sampleErrors topic).isSome ∧
        ∀ p, OffsetCommitResponse.errorOf (entries d.Errors) topic p
          = OffsetCommitResponse.errorOf OffsetCommitResponse.sampleErrors topic p) ∧
    OffsetCommitResponse.sample.encode.out.length = (if (3 : Int) ≥ 3 then 4 else 0) + 4 +
      (OffsetCommitResponse.sampleErrors.map
        (fun tp => 2 + tp.1.length + 4 + 6 * tp.2.length)).sum) :=
  ⟨by decide, by decide, by decide,
    OffsetCommitResponse.decode_any_order OffsetCommitResponse.sample 3
      OffsetCommitResponse.sampleErrors rfl (by decide) (by decide) (by decide) (by decide)
      (by decide)⟩

theorem OffsetCommitResponse.commitResponse_withTopics_wellFormed (n : Nat) (hn : n ≤ 4294967296) :
    OffsetCommitResponse.IsErrors (entries (OffsetCommitResponse.withTopics n).Errors) ∧
    (∀ tp ∈ entries (OffsetCommitResponse.withTopics n).Errors, tp.1.length ≤ 32767) := by
  have hmem : ∀ tp ∈ entries (OffsetCommitResponse.withTopics n).Errors,
      tp.1.length = 4 ∧ tp.2 = [] := by
    intro tp htp
    simp only [OffsetCommitResponse.withTopics, entries, Option.getD_some, List.mem_map] at htp
    obtain ⟨i, _, rfl⟩ := htp
    exact ⟨length_beBytes 4 i, rfl⟩
  refine ⟨⟨?_, ?_⟩, ?_⟩
  · simp only [Keyed, OffsetCommitResponse.withTopics, entries, Option.getD_some, List.map_map]
    exact List.Nodup.map_on (beBytes_four_injOn n hn) (List.nodup_range _)
  · intro tp htp
    rw [(hmem tp htp).2]
    exact ⟨List.nodup_nil, fun _ h => absurd h (List.not_mem_nil _)⟩
  · intro tp htp
    rw [(hmem tp htp).1]
    omega

theorem OffsetCommitResponse.commitResponse_withTopics_encode (n : Nat) (hn : n > 2147483647) :
    (OffsetCommitResponse.withTopics n).encode.err
      = some (Err.packetEncoding "array too long") := by
  have hlen : (entries (OffsetCommitResponse.withTopics n).Errors).length = n := by
    simp only [OffsetCommitResponse.withTopics, entries, Option.getD_some, List.length_map,
      List.length_range]
  have hfail : (putArrayLength (entries (OffsetCommitResponse.withTopics n).Errors).length).err
      = some (Err.packetEncoding "array too long") := by
    rw [hlen]
    simp [putArrayLength, hn]
  have hv3 : ¬ (OffsetCommitResponse.withTopics n).Version ≥ 3 := by
    show ¬ (0 : Int) ≥ 3
    decide
  unfold OffsetCommitResponse.encode
  rw [if_neg hv3, Enc.seq_cons_err _ Enc.skip_err]
  exact Enc.seq_cons_fail _ hfail

/-- Counterexample to C5 as stated: the mapping with 2^31 topics is a well-formed
Errors mapping with short topic names, emitted in its own order at version 0, and
encode returns an error, so that no bytes are emitted for decode to succeed on. -/
theorem OffsetCommitResponse.decode_any_order_fails_oversized :
    OffsetCommitResponse.oversized.Version = 0 ∧
    OffsetCommitResponse.IsErrors (entries OffsetCommitResponse.oversized.Errors) ∧
    (∀ tp ∈ entries OffsetCommitResponse.oversized.Errors, tp.1.length ≤ 32767) ∧
    OffsetCommitResponse.EmitOrder (entries OffsetCommitResponse.oversized.Errors)
      (entries OffsetCommitResponse.oversized.Errors) ∧
    OffsetCommitResponse.oversized.encode.err ≠ none := by
  have h1 := OffsetCommitResponse.commitResponse_withTopics_wellFormed 2147483648 (by omega)
  have h2 := OffsetCommitResponse.commitResponse_withTopics_encode 2147483648 (by omega)
  refine ⟨rfl, h1.1, h1.2, ⟨List.Perm.refl _, fun tp htp => ⟨tp, htp, rfl, List.Perm.refl _⟩⟩, ?_⟩
  intro h
  rw [OffsetCommitResponse.oversized, h2] at h
  exact absurd h (by simp)

/-! ## Round trips of varints, compact strings and int32 arrays -/

theorem uvarintRead_uvarintBytes (fuel n shift acc : Nat) (rest : List Byte)
    (h : n < 128 ^ (fuel + 1)) :
    uvarintRead (fuel + 1) (uvarintBytes (fuel + 1) n ++ rest) shift acc
      = Res.ok (acc + n * 2 ^ shift, rest) := by
  induction fuel generalizing n shift acc with
  | zero =>
    have hn : n < 128 := by simpa using h
    have hv : (Fin.ofNat n : Byte).val = n := by
      show n % 256 = n
      omega
    simp [uvarintBytes, uvarintRead, hn, hv]
  | succ fuel ih =>
    by_cases hn : n < 128
    · have hv : (Fin.ofNat n : Byte).val = n := by
        show n % 256 = n
        omega
      simp [uvarintBytes, uvarintRead, hn, hv]
    · have hv : (Fin.ofNat (n % 128 + 128) : Byte).val = n % 128 + 128 := by
        show (n % 128 + 128) % 256 = n % 128 + 128
        omega
      have hdiv : n / 128 < 128 ^ (fuel + 1) := by
        rw [Nat.div_lt_iff_lt_mul (by norm_num)]
        rw [pow_succ] at h
        exact h
      have hnot : ¬ (n % 128 + 128 < 128) := by omega
      rw [uvarintBytes]
      simp only [hn, if_false, List.cons_append]
      rw [uvarintRead]
      simp only [hv, hnot, if_false]
      rw [ih (n / 128) (shift + 7) _ hdiv]
      congr 2
      have h1 : n % 128 + 128 - 128 = n % 128 := by omega
      rw [h1, pow_add]
      have h2 := Nat.div_add_mod n 128
      calc acc + n % 128 * 2 ^ shift + n / 128 * (2 ^ shift * 2 ^ 7)
          = acc + (128 * (n / 128) + n % 128) * 2 ^ shift := by ring
        _ = acc + n * 2 ^ shift := by rw [h2]

theorem getUVarint_putUVarint (n : Nat) (h : n < 2 ^ 64) (rest : List Byte) :
    getUVarint ((putUVarint n).out ++ rest) = Res.ok (n, rest) := by
  have hmod : n % 2 ^ 64 = n := Nat.mod_eq_of_lt h
  have hlt : n < 128 ^ (9 + 1) := by
    have : (2 : Nat) ^ 64 ≤ 128 ^ (9 + 1) := by norm_num
    omega
  simp only [getUVarint, putUVarint, Enc.bytes_out, hmod,
    uvarintRead_uvarintBytes 9 n 0 0 rest hlt]
  have h' : n < 18446744073709551616 := by
    have : (2 : Nat) ^ 64 = 18446744073709551616 := by norm_num
    omega
  simp [h']

@[simp] theorem putCompactString_err (s : GoString) : (putCompactString s).err = none := rfl

theorem putCompactString_out (s : GoString) :
    (putCompactString s).out = (putUVarint (s.length + 1)).out ++ s := rfl

@[simp] theorem putCompactArrayLength_err (n : Nat) : (putCompactArrayLength n).err = none := rfl

@[simp] theorem putEmptyTaggedFieldArray_err : putEmptyTaggedFieldArray.err = none := rfl

theorem getCompactString_putCompactString (s : GoString) (h : s.length + 1 < 2 ^ 64)
    (rest : List Byte) :
    getCompactString ((putCompactString s).out ++ rest) = Res.ok (s, rest) := by
  have hne : ¬ (s.length + 1 = 0) := by omega
  simp only [getCompactString, putCompactString_out, List.append_assoc,
    getUVarint_putUVarint _ h, bind, Res.bind, hne, if_false, Nat.add_sub_cancel, getRaw_append]

theorem getCompactArrayLength_putCompactArrayLength (n : Nat) (h : n + 1 < 2 ^ 64)
    (rest : List Byte) :
    getCompactArrayLength ((putCompactArrayLength n).out ++ rest) = Res.ok ((n : Int), rest) := by
  have hne : ¬ (n + 1 = 0) := by omega
  simp only [getCompactArrayLength, putCompactArrayLength, getUVarint_putUVarint _ h, bind,
    Res.bind, hne, if_false]
  congr 2
  push_cast
  omega

/-- The absent compact array (N = 0) is read as the count 0. -/
theorem getCompactArrayLength_absent (rest : List Byte) :
    getCompactArrayLength ((putUVarint 0).out ++ rest) = Res.ok (0, rest) := by
  simp only [getCompactArrayLength, getUVarint_putUVarint 0 (by norm_num), bind, Res.bind,
    if_true]

theorem getEmptyTaggedFieldArray_put (rest : List Byte) :
    getEmptyTaggedFieldArray (putEmptyTaggedFieldArray.out ++ rest) = Res.ok (0, rest) := by
  simp only [getEmptyTaggedFieldArray, putEmptyTaggedFieldArray,
    getUVarint_putUVarint 0 (by norm_num), bind, Res.bind, skipTaggedFields]

theorem getBool_putBool (b : Bool) (rest : List Byte) :
    getBool ((putBool b).out ++ rest) = Res.ok (b, rest) := by
  cases b <;> simp [getBool, putBool, Enc.bytes]

theorem int32s_err (xs : List Int) : (Enc.forEach xs putInt32).err = none :=
  Enc.forEach_err _ _ (fun x _ => putInt32_err x)

theorem int32s_length (xs : List Int) : (Enc.forEach xs putInt32).out.length = 4 * xs.length := by
  induction xs with
  | nil => rfl
  | cons x xs ih =>
    rw [Enc.forEach_cons_out x xs putInt32 (putInt32_err x), List.length_append, length_putInt32,
      ih, List.length_cons]
    omega

theorem getInt32s_put (xs : List Int) (h : ∀ x ∈ xs, IsInt32 x) (rest : List Byte) :
    getInt32s xs.length ((Enc.forEach xs putInt32).out ++ rest) = Res.ok (xs, rest) := by
  induction xs with
  | nil => rfl
  | cons x xs ih =>
    have ih' := ih (fun y hy => h y (List.mem_cons_of_mem x hy))
    rw [Enc.forEach_cons_out x xs putInt32 (putInt32_err x)]
    simp only [List.length_cons, getInt32s, List.append_assoc,
      getInt32_putInt32 _ (h x (List.mem_cons_self x xs)), bind, Res.bind, ih']

theorem putInt32Array_err (xs : Option (List Int)) (h : (elems xs).length ≤ 2147483647) :
    (putInt32Array xs).err = none := by
  unfold putInt32Array
  rw [Enc.andThen_err _ (putArrayLength_err h)]
  exact int32s_err _

theorem putInt32Array_out (xs : Option (List Int)) (h : (elems xs).length ≤ 2147483647) :
    (putInt32Array xs).out
      = (putInt32 (elems xs).length).out ++ (Enc.forEach (elems xs) putInt32).out := by
  unfold putInt32Array
  rw [Enc.andThen_out _ (putArrayLength_err h), putArrayLength_out h]

theorem putInt32Array_of_ok {xs : Option (List Int)} (h : (putInt32Array xs).err = none) :
    (elems xs).length ≤ 2147483647 :=
  putArrayLength_of_ok (Enc.andThen_of_ok h).1

theorem putCompactInt32Array_err (l : List Int) : (putCompactInt32Array (some l)).err = none := by
  unfold putCompactInt32Array
  simp only
  rw [Enc.andThen_err _ (putCompactArrayLength_err _)]
  exact int32s_err l

/-- The compact array refuses the nil slice. -/
theorem putCompactInt32Array_nil :
    (putCompactInt32Array none).err
      = some (Err.packetEncoding "expected int32 array to be non null") := rfl

theorem putCompactInt32Array_of_ok {xs : Option (List Int)}
    (h : (putCompactInt32Array xs).err = none) : xs ≠ none := by
  intro hx
  rw [hx, putCompactInt32Array_nil] at h
  exact absurd h (by simp)

theorem putCompactInt32Array_out (l : List Int) :
    (putCompactInt32Array (some l)).out
      = (putUVarint (l.length + 1)).out ++ (Enc.forEach l putInt32).out := by
  unfold putCompactInt32Array
  simp only
  rw [Enc.andThen_out _ (putCompactArrayLength_err _)]
  rfl

theorem getInt32Array_putInt32Array (xs : Option (List Int))
    (hlen : (elems xs).length ≤ 2147483647) (h : ∀ x ∈ elems xs, IsInt32 x)
    (rest : List Byte) :
    getInt32Array ((putInt32Array xs).out ++ rest) = Res.ok (nilIfEmpty xs, rest) := by
  have key : ∀ l : List Int, l.length ≤ 2147483647 → (∀ x ∈ l, IsInt32 x) →
      getInt32Array ((putInt32 l.length).out ++ ((Enc.forEach l putInt32).out ++ rest))
        = Res.ok (if l = [] then none else some l, rest) := by
    intro l hl hx
    have h32 : IsInt32 (l.length : Int) := by unfold IsInt32; omega
    have hneg : ¬ ((l.length : Int) < 0) := by omega
    cases l with
    | nil =>
      have h0 : getInt32 ((putInt32 0).out ++ rest) = Res.ok (0, rest) :=
        getInt32_putInt32 0 (by unfold IsInt32; omega) rest
      simp only [getInt32Array, List.length_nil, Nat.cast_zero, Enc.forEach, Enc.skip_out,
        List.nil_append, h0, bind, Res.bind, lt_self_iff_false, if_false, if_true]
    | cons a l =>
      have hz : ¬ (((a :: l).length : Int) = 0) := by
        simp only [List.length_cons]
        omega
      simp only [getInt32Array, getInt32_putInt32 _ h32, bind, Res.bind, hneg, if_false, hz,
        Int.toNat_ofNat, getInt32s_put _ hx, reduceCtorEq]
  rw [putInt32Array_out xs hlen, List.append_assoc, key _ hlen h]
  rfl

theorem getCompactInt32Array_put (l : List Int) (hlen : l.length + 1 < 2 ^ 64)
    (h : ∀ x ∈ l, IsInt32 x) (rest : List Byte) :
    getCompactInt32Array ((putCompactInt32Array (some l)).out ++ rest)
      = Res.ok (some l, rest) := by
  simp only [getCompactInt32Array, putCompactInt32Array_out, List.append_assoc,
    getUVarint_putUVarint _ hlen, bind, Res.bind, Nat.add_sub_cancel, getInt32s_put l h]

/-! ## OffsetFetchRequest: round trip -/

theorem OffsetFetchRequest.fetchRequest_topic_err (flex : Bool)
    (tp : GoString × Option (List Int)) (h : OffsetFetchRequest.TopicFits flex tp) :
    (Enc.seq [
      if flex then putCompactString tp.1 else putString tp.1,
      if flex then putCompactInt32Array tp.2 else putInt32Array tp.2,
      if flex then putEmptyTaggedFieldArray else Enc.skip]).err = none := by
  cases flex
  · obtain ⟨hs, hc⟩ := h.1 rfl
    simp only [Bool.false_eq_true, if_false]
    rw [Enc.seq_cons_err _ (putString_err hs), Enc.seq_cons_err _ (putInt32Array_err _ hc),
      Enc.seq_cons_err _ Enc.skip_err]
    rfl
  · obtain ⟨name, parts⟩ := tp
    cases parts with
    | none => exact absurd rfl (h.2 rfl)
    | some l =>
      simp only [if_true]
      rw [Enc.seq_cons_err _ (putCompactString_err _),
        Enc.seq_cons_err _ (putCompactInt32Array_err _),
        Enc.seq_cons_err _ putEmptyTaggedFieldArray_err]
      rfl

theorem OffsetFetchRequest.fetchRequest_topic_of_ok (flex : Bool)
    (tp : GoString × Option (List Int))
    (h : (Enc.seq [
      if flex then putCompactString tp.1 else putString tp.1,
      if flex then putCompactInt32Array tp.2 else putInt32Array tp.2,
      if flex then putEmptyTaggedFieldArray else Enc.skip]).err = none) :
    OffsetFetchRequest.TopicFits flex tp := by
  have hall := Enc.seq_of_ok _ h
  simp only [List.mem_cons, List.mem_singleton, forall_eq_or_imp, forall_eq, List.not_mem_nil,
    false_implies, implies_true, and_true] at hall
  cases flex
  · simp only [Bool.false_eq_true, if_false] at hall
    exact ⟨fun _ => ⟨putString_of_ok hall.1, putInt32Array_of_ok hall.2.1⟩,
      fun hf => absurd hf (by decide)⟩
  · simp only [if_true] at hall
    exact ⟨fun hf => absurd hf (by decide), fun _ => putCompactInt32Array_of_ok hall.2.1⟩

theorem OffsetFetchRequest.fetchRequest_topic_out (flex : Bool)
    (tp : GoString × Option (List Int)) (h : OffsetFetchRequest.TopicFits flex tp) :
    (Enc.seq [
      if flex then putCompactString tp.1 else putString tp.1,
      if flex then putCompactInt32Array tp.2 else putInt32Array tp.2,
      if flex then putEmptyTaggedFieldArray else Enc.skip]).out =
    (if flex then (putCompactString tp.1).out else (putString tp.1).out) ++
    ((if flex then (putCompactInt32Array tp.2).out else (putInt32Array tp.2).out) ++
    (if flex then putEmptyTaggedFieldArray.out else [])) := by
  have hall := Enc.seq_of_ok _ (OffsetFetchRequest.fetchRequest_topic_err flex tp h)
  rw [Enc.seq_out_of_all _ hall]
  cases flex <;> simp [Enc.skip]

theorem OffsetFetchRequest.topic_length_pos (flex : Bool)
    (tp : GoString × Option (List Int)) (h : OffsetFetchRequest.TopicFits flex tp) :
    1 ≤ (Enc.seq [
      if flex then putCompactString tp.1 else putString tp.1,
      if flex then putCompactInt32Array tp.2 else putInt32Array tp.2,
      if flex then putEmptyTaggedFieldArray else Enc.skip]).out.length := by
  rw [OffsetFetchRequest.fetchRequest_topic_out flex tp h]
  cases flex
  · simp only [Bool.false_eq_true, if_false, putString_out (h.1 rfl).1, List.length_append,
      length_putInt16]
    omega
  · simp only [if_true, List.length_append]
    have : putEmptyTaggedFieldArray.out.length = 1 := rfl
    omega

theorem OffsetFetchRequest.fetchRequest_decodeTopics_encode (flex : Bool)
    (ts : List (GoString × Option (List Int)))
    (h : ∀ tp ∈ ts, OffsetFetchRequest.TopicFits flex tp ∧ tp.1.length < 2 ^ 63 ∧
      (elems tp.2).length < 2 ^ 63 ∧ ∀ x ∈ elems tp.2, IsInt32 x)
    (acc : List (GoString × Option (List Int))) (rest : List Byte) :
    OffsetFetchRequest.decodeTopics flex ts.length
      ((Enc.forEach ts (fun tp => Enc.seq [
        if flex then putCompactString tp.1 else putString tp.1,
        if flex then putCompactInt32Array tp.2 else putInt32Array tp.2,
        if flex then putEmptyTaggedFieldArray else Enc.skip])).out ++ rest) acc
      = Res.ok (ts.foldl
          (fun m e => mapSet m e.1 (OffsetFetchRequest.readBack flex e.2)) acc, rest) := by
  induction ts generalizing acc with
  | nil => rfl
  | cons tp ts ih =>
    obtain ⟨hfit, hs63, hlen, hx⟩ := h tp (List.mem_cons_self tp ts)
    have ih' := ih (fun y hy => h y (List.mem_cons_of_mem tp hy))
    rw [Enc.forEach_cons_out tp ts (fun tp => Enc.seq [
        if flex then putCompactString tp.1 else putString tp.1,
        if flex then putCompactInt32Array tp.2 else putInt32Array tp.2,
        if flex then putEmptyTaggedFieldArray else Enc.skip])
      (OffsetFetchRequest.fetchRequest_topic_err flex tp hfit),
      OffsetFetchRequest.fetchRequest_topic_out flex tp hfit]
    have h63 : (2 : Nat) ^ 63 = 9223372036854775808 := by norm_num
    have h64 : (2 : Nat) ^ 64 = 18446744073709551616 := by norm_num
    have hs64 : tp.1.length + 1 < 2 ^ 64 := by omega
    cases flex
    · obtain ⟨hs, hc⟩ := hfit.1 rfl
      simp only [Bool.false_eq_true, if_false, List.length_cons, OffsetFetchRequest.decodeTopics,
        List.append_assoc, getString_putString _ hs,
        getInt32Array_putInt32Array _ hc hx, bind, Res.bind, List.nil_append,
        List.foldl_cons, OffsetFetchRequest.readBack]
      exact ih' _
    · obtain ⟨name, parts⟩ := tp
      cases parts with
      | none => exact absurd rfl (hfit.2 rfl)
      | some l =>
        have hlen' : l.length < 2 ^ 63 := hlen
        have hl64 : l.length + 1 < 2 ^ 64 := by omega
        simp only [if_true, List.length_cons, OffsetFetchRequest.decodeTopics,
          List.append_assoc, getCompactString_putCompactString _ hs64,
          getCompactInt32Array_put _ hl64 hx, getEmptyTaggedFieldArray_put, bind, Res.bind,
          List.foldl_cons, OffsetFetchRequest.readBack]
        exact ih' _

/-- What the requests that `encode` accepts are written as: group, array prefix, topic
entries, the RequireStable byte (v7) and the tagged-field terminator (v6 and v7). -/
theorem OffsetFetchRequest.fetchRequest_encode_parts (m : OffsetFetchRequest)
    (he : m.Encodable) :
    m.encode.err = none ∧
    m.encode.out =
      (if m.Version ≥ 6 then (putCompactString m.ConsumerGroup).out
        else (putString m.ConsumerGroup).out) ++
      ((if m.Version ≥ 6 then
          (if m.partitions = none then (putUVarint 0).out
            else (putCompactArrayLength (entries m.partitions).length).out)
        else
          (if m.partitions = none ∧ m.Version ≥ 2 then (putInt32 (-1)).out
            else (putArrayLength (entries m.partitions).length).out)) ++
      ((Enc.forEach (entries m.partitions) (fun tp => Enc.seq [
          if decide (m.Version ≥ 6) then putCompactString tp.1 else putString tp.1,
          if decide (m.Version ≥ 6) then putCompactInt32Array tp.2 else putInt32Array tp.2,
          if decide (m.Version ≥ 6) then putEmptyTaggedFieldArray else Enc.skip])).out ++
      ((if m.Version ≥ 7 then (putBool m.RequireStable).out else []) ++
      (if m.Version ≥ 6 then putEmptyTaggedFieldArray.out else [])))) := by
  obtain ⟨hv, hlegacy, htopics, hstable⟩ := he
  have hvalid : ¬ (m.Version < 0 ∨ m.Version > 7) := by omega
  have e1 : (if decide (m.Version ≥ 6) then putCompactString m.ConsumerGroup
      else putString m.ConsumerGroup).err = none := by
    split
    · rfl
    · rename_i h6
      exact putString_err (hlegacy (by simp at h6; omega)).1
  have o1 : (if decide (m.Version ≥ 6) then putCompactString m.ConsumerGroup
      else putString m.ConsumerGroup).out =
      (if m.Version ≥ 6 then (putCompactString m.ConsumerGroup).out
        else (putString m.ConsumerGroup).out) := by
    by_cases h6 : m.Version ≥ 6 <;> simp [h6]
  have e2 : (if decide (m.Version ≥ 6) then
        (if m.partitions = none then putUVarint 0
         else putCompactArrayLength (entries m.partitions).length)
      else
        (if m.partitions = none ∧ m.Version ≥ 2 then putInt32 (-1)
         else putArrayLength (entries m.partitions).length)).err = none := by
    split
    · split <;> rfl
    · rename_i h6
      split
      · rfl
      · exact putArrayLength_err (hlegacy (by simp at h6; omega)).2
  have o2 : (if decide (m.Version ≥ 6) then
        (if m.partitions = none then putUVarint 0
         else putCompactArrayLength (entries m.partitions).length)
      else
        (if m.partitions = none ∧ m.Version ≥ 2 then putInt32 (-1)
         else putArrayLength (entries m.partitions).length)).out =
      (if m.Version ≥ 6 then
          (if m.partitions = none then (putUVarint 0).out
            else (putCompactArrayLength (entries m.partitions).length).out)
        else
          (if m.partitions = none ∧ m.Version ≥ 2 then (putInt32 (-1)).out
            else (putArrayLength (entries m.partitions).length).out)) := by
    by_cases h6 : m.Version ≥ 6
    · simp only [h6, decide_True, if_true]
      split <;> rfl
    · simp only [h6, decide_False, Bool.false_eq_true, if_false]
      split <;> rfl
  have e3 : (Enc.forEach (entries m.partitions) (fun tp => Enc.seq [
          if decide (m.Version ≥ 6) then putCompactString tp.1 else putString tp.1,
          if decide (m.Version ≥ 6) then putCompactInt32Array tp.2 else putInt32Array tp.2,
          if decide (m.Version ≥ 6) then putEmptyTaggedFieldArray else Enc.skip])).err = none :=
    Enc.forEach_err _ _ (fun tp htp =>
      OffsetFetchRequest.fetchRequest_topic_err _ tp (htopics tp htp))
  have e4 : (if m.RequireStable = true ∧ m.Version < 7 then
        Enc.fail (Err.packetEncoding "requireStable is not supported. use version 7 or later")
      else Enc.skip) = Enc.skip := by
    have : ¬ (m.RequireStable = true ∧ m.Version < 7) := by
      intro h
      have := hstable h.2
      rw [h.1] at this
      exact absurd this (by decide)
    rw [if_neg this]
  have e5 : (if m.Version ≥ 7 then putBool m.RequireStable else Enc.skip).err = none := by
    split <;> rfl
  have o5 : (if m.Version ≥ 7 then putBool m.RequireStable else Enc.skip).out =
      (if m.Version ≥ 7 then (putBool m.RequireStable).out else []) := by
    split <;> rfl
  have e6 : (if decide (m.Version ≥ 6) then putEmptyTaggedFieldArray else Enc.skip).err
      = none := by
    split <;> rfl
  have o6 : (if decide (m.Version ≥ 6) then putEmptyTaggedFieldArray else Enc.skip).out =
      (if m.Version ≥ 6 then putEmptyTaggedFieldArray.out else []) := by
    by_cases h6 : m.Version ≥ 6 <;> simp [h6]
  unfold OffsetFetchRequest.encode
  rw [if_neg hvalid]
  simp only [e4]
  constructor
  · rw [Enc.seq_cons_err _ e1, Enc.seq_cons_err _ e2, Enc.seq_cons_err _ e3,
      Enc.seq_cons_err _ Enc.skip_err, Enc.seq_cons_err _ e5, Enc.seq_cons_err _ e6]
    rfl
  · rw [Enc.seq_cons_out _ e1, Enc.seq_cons_out _ e2, Enc.seq_cons_out _ e3,
      Enc.seq_cons_out _ Enc.skip_err, Enc.seq_cons_out _ e5, Enc.seq_cons_out _ e6,
      o1, o2, o5, o6]
    simp

/-- The requests whose encode succeeds are the encodable ones. -/
theorem OffsetFetchRequest.fetchRequest_encodable_of_ok (m : OffsetFetchRequest)
    (h : m.encode.err = none) : m.Encodable := by
  have hvalid : ¬ (m.Version < 0 ∨ m.Version > 7) := by
    intro hbad
    unfold OffsetFetchRequest.encode at h
    rw [if_pos hbad] at h
    exact absurd h (by simp [Enc.fail])
  unfold OffsetFetchRequest.encode at h
  rw [if_neg hvalid] at h
  simp only at h
  have hall := Enc.seq_of_ok _ h
  simp only [List.mem_cons, List.mem_singleton, forall_eq_or_imp, forall_eq, List.not_mem_nil,
    false_implies, implies_true, and_true] at hall
  obtain ⟨hg, hp, ht, hr, _, _⟩ := hall
  have hts := Enc.forEach_of_ok _ _ ht
  refine ⟨by omega, ?_, ?_, ?_⟩
  · intro h5
    have h6 : ¬ m.Version ≥ 6 := by omega
    simp only [h6, decide_False, Bool.false_eq_true, if_false] at hg hp
    refine ⟨putString_of_ok hg, ?_⟩
    by_cases hnil : m.partitions = none
    · rw [hnil]
      simp [entries]
    · have hne : ¬ (m.partitions = none ∧ m.Version ≥ 2) := fun hh => hnil hh.1
      rw [if_neg hne] at hp
      exact putArrayLength_of_ok hp
  · intro tp htp
    exact OffsetFetchRequest.fetchRequest_topic_of_ok _ tp (hts tp htp)
  · intro h7
    cases hst : m.RequireStable with
    | false => rfl
    | true =>
      rw [if_pos ⟨hst, h7⟩] at hr
      exact absurd hr (by simp [Enc.fail])

theorem OffsetFetchRequest.encodable_of_fits (m : OffsetFetchRequest)
    (hv : 0 ≤ m.Version ∧ m.Version ≤ 7) (hs : m.StringsFit)
    (hc : m.Version ≤ 5 → m.CountsFit) (hn : m.Version ≥ 6 → m.NoNilList)
    (hstable : m.Version < 7 → m.RequireStable = false) : m.Encodable := by
  refine ⟨hv, fun h5 => ⟨hs.1, (hc h5).1⟩, ?_, hstable⟩
  intro tp htp
  constructor
  · intro hf
    have h5 : m.Version ≤ 5 := by
      simp only [decide_eq_false_iff_not] at hf
      omega
    exact ⟨hs.2 tp htp, (hc h5).2 tp htp⟩
  · intro hf
    have h6 : m.Version ≥ 6 := by simpa using hf
    exact hn h6 tp htp

theorem getArrayLength_absent (rest : List Byte) :
    getArrayLength ((putInt32 (-1)).out ++ rest) = Res.ok (-1, rest) := by
  have h32 : IsInt32 (-1) := by unfold IsInt32; omega
  have hgt : ¬ ((-1 : Int) > (rest.length : Int)) := by omega
  unfold getArrayLength
  rw [getInt32_putInt32 _ h32]
  show (if (-1 : Int) > (rest.length : Int) then Res.error Err.insufficientData
    else Res.ok ((-1 : Int), rest)) = Res.ok (-1, rest)
  rw [if_neg hgt]

theorem OffsetFetchRequest.fetchRequest_topics_length_le (flex : Bool)
    (ts : List (GoString × Option (List Int)))
    (h : ∀ tp ∈ ts, OffsetFetchRequest.TopicFits flex tp) :
    ts.length ≤ (Enc.forEach ts (fun tp => Enc.seq [
        if flex then putCompactString tp.1 else putString tp.1,
        if flex then putCompactInt32Array tp.2 else putInt32Array tp.2,
        if flex then putEmptyTaggedFieldArray else Enc.skip])).out.length := by
  apply Enc.forEach_length_le
  intro tp htp
  exact ⟨OffsetFetchRequest.fetchRequest_topic_err flex tp (h tp htp),
    OffsetFetchRequest.topic_length_pos flex tp (h tp htp)⟩

/-- Decoding what `encode` wrote at the legacy versions 0 to 5, into any receiver: every
byte is read; the partitions of the receiver are kept where decode returns early (no
entry below version 2, nil partitions from version 2 on). -/
theorem OffsetFetchRequest.decode_encode_legacy (m : OffsetFetchRequest)
    (he : m.Encodable) (h5 : m.Version ≤ 5) (ht : m.Typed) (r0 : OffsetFetchRequest) :
    r0.decode m.encode.out m.Version = Res.ok (⟨m.Version, m.ConsumerGroup, r0.RequireStable,
      if entries m.partitions = [] ∧ (m.Version < 2 ∨ m.partitions = none) then r0.partitions
      else some ((entries m.partitions).foldl
        (fun acc e => mapSet acc e.1 (OffsetFetchRequest.readBack false e.2)) [])⟩, []) := by
  obtain ⟨_, hout⟩ := OffsetFetchRequest.fetchRequest_encode_parts m he
  obtain ⟨hv, hlegacy, htopics, hstable⟩ := he
  obtain ⟨hg, hn⟩ := hlegacy h5
  obtain ⟨ver, g, stable, parts⟩ := m
  obtain ⟨_, _, _, hparts⟩ := ht
  simp only at hv h5 hparts hg hn htopics hout ⊢
  have h6 : ¬ ver ≥ 6 := by omega
  have h7 : ¬ ver ≥ 7 := by omega
  simp only [h6, decide_False] at htopics
  have hloop := OffsetFetchRequest.fetchRequest_decodeTopics_encode false (entries parts)
    (fun tp htp => ⟨htopics tp htp, hparts tp htp⟩) [] []
  have hlen := OffsetFetchRequest.fetchRequest_topics_length_le false (entries parts) htopics
  rw [List.append_nil] at hloop
  have hcount := getArrayLength_putArrayLength (entries parts).length hn _ hlen
  have habsent := getArrayLength_absent []
  rw [List.append_nil] at habsent
  simp only [Bool.false_eq_true, if_false] at hloop hcount
  rw [hout]
  unfold OffsetFetchRequest.decode
  simp only [h6, h7, decide_False, Bool.false_eq_true, if_false, bind,
    Res.bind, List.append_assoc, List.append_nil, getString_putString _ hg]
  cases parts with
  | none =>
    by_cases h2 : ver ≥ 2
    · have h2' : ¬ ver < 2 := by omega
      simp only [h2, h2', and_true, and_false, if_true, entries, Option.getD_none, Enc.forEach,
        Enc.skip_out, List.nil_append, List.append_nil, habsent, false_or, Int.reduceNeg,
        Int.reduceLT, or_true, and_self]
    · have h2' : ver < 2 := by omega
      have hc0 := getArrayLength_putArrayLength 0 (by omega) [] (by simp)
      rw [List.append_nil] at hc0
      simp only [h2, h2', and_true, and_false, if_false, entries, Option.getD_none,
        Enc.forEach, Enc.skip_out, List.length_nil, List.append_nil, hc0, Nat.cast_zero,
        true_or, if_true, and_self]
  | some l =>
    simp only [entries, Option.getD_some] at hcount hloop ⊢
    have hsome : ¬ ((some l : Option (List (GoString × Option (List Int)))) = none) := by simp
    simp only [hsome, false_and, if_false, hcount, or_false]
    by_cases hearly : ((l.length : Int) = 0 ∧ ver < 2) ∨ (l.length : Int) < 0
    · have hz : l.length = 0 := by omega
      have hnil : l = [] := List.length_eq_zero.mp hz
      have h2 : ver < 2 := by omega
      rw [if_pos hearly]
      subst hnil
      simp only [h2, and_self, if_true]
      rfl
    · rw [if_neg hearly]
      have hcond : ¬ (l = [] ∧ ver < 2) := by
        intro hh
        apply hearly
        left
        exact ⟨by rw [hh.1]; rfl, hh.2⟩
      simp only [Int.toNat_ofNat, hloop, hcond, if_false]

/-- Decoding what `encode` wrote at the flexible versions 6 and 7, into any receiver:
every byte is read, and nil partitions come back as a present map without entries. -/
theorem OffsetFetchRequest.decode_encode_flexible (m : OffsetFetchRequest)
    (he : m.Encodable) (h6 : m.Version ≥ 6) (ht : m.Typed) (r0 : OffsetFetchRequest) :
    r0.decode m.encode.out m.Version = Res.ok (⟨m.Version, m.ConsumerGroup,
      if m.Version ≥ 7 then m.RequireStable else r0.RequireStable,
      some ((entries m.partitions).foldl
        (fun acc e => mapSet acc e.1 (OffsetFetchRequest.readBack true e.2)) [])⟩, []) := by
  obtain ⟨_, hout⟩ := OffsetFetchRequest.fetchRequest_encode_parts m he
  obtain ⟨hv, _, htopics, hstable⟩ := he
  obtain ⟨ver, g, stable, parts⟩ := m
  obtain ⟨hg63, _, hn63, hparts⟩ := ht
  simp only at hv h6 hg63 hn63 hparts htopics hstable hout ⊢
  have h63 : (2 : Nat) ^ 63 = 9223372036854775808 := by norm_num
  have h64 : (2 : Nat) ^ 64 = 18446744073709551616 := by norm_num
  have h2 : ¬ ver < 2 := by omega
  simp only [h6, decide_True] at htopics
  have hloop := fun rest => OffsetFetchRequest.fetchRequest_decodeTopics_encode true
    (entries parts) (fun tp htp => ⟨htopics tp htp, hparts tp htp⟩) [] rest
  simp only [if_true] at hloop
  have hcount := fun rest => getCompactArrayLength_putCompactArrayLength (entries parts).length
    (by omega) rest
  have hgroup := fun rest => getCompactString_putCompactString g (by omega) rest
  have htag := getEmptyTaggedFieldArray_put []
  rw [List.append_nil] at htag
  rw [hout]
  unfold OffsetFetchRequest.decode
  simp only [h6, decide_True, if_true, bind, Res.bind, List.append_assoc, hgroup]
  have hfirst : ∀ rest, getCompactArrayLength
      ((if parts = none then (putUVarint 0).out
        else (putCompactArrayLength (entries parts).length).out) ++ rest)
      = Res.ok (((entries parts).length : Int), rest) := by
    intro rest
    cases parts with
    | none => exact getCompactArrayLength_absent rest
    | some l =>
      simp only [reduceCtorEq, if_false]
      exact hcount rest
  have hearly : ¬ ((((entries parts).length : Int) = 0 ∧ ver < 2) ∨
      ((entries parts).length : Int) < 0) := by omega
  simp only [hfirst]
  rw [if_neg hearly]
  simp only [Int.toNat_ofNat, hloop]
  by_cases h7 : ver ≥ 7
  · simp only [h7, if_true, List.append_assoc, getBool_putBool, htag]
  · simp only [h7, if_false, List.nil_append, htag]

theorem OffsetFetchRequest.fetchRequest_withTopics_wellFormed (n : Nat) (hn : n ≤ 4294967296) :
    (OffsetFetchRequest.withTopics n).Typed ∧ (OffsetFetchRequest.withTopics n).StringsFit := by
  have hmem : ∀ tp ∈ entries (OffsetFetchRequest.withTopics n).partitions,
      tp.1.length = 4 ∧ tp.2 = some [] := by
    intro tp htp
    simp only [OffsetFetchRequest.withTopics, entries, Option.getD_some, List.mem_map] at htp
    obtain ⟨i, _, rfl⟩ := htp
    exact ⟨length_beBytes 4 i, rfl⟩
  have hlen : (entries (OffsetFetchRequest.withTopics n).partitions).length = n := by
    simp only [OffsetFetchRequest.withTopics, entries, Option.getD_some, List.length_map,
      List.length_range]
  have h63 : (2 : Nat) ^ 63 = 9223372036854775808 := by norm_num
  have fit : ([] : GoString).length ≤ 32767 := by decide
  have fit63 : ([] : GoString).length < 2 ^ 63 := by
    rw [h63]
    decide
  refine ⟨⟨fit63, ?_, ?_, ?_⟩, ⟨fit, ?_⟩⟩
  · simp only [Keyed, OffsetFetchRequest.withTopics, entries, Option.getD_some, List.map_map]
    exact List.Nodup.map_on (beBytes_four_injOn n hn) (List.nodup_range _)
  · rw [hlen]
    omega
  · intro tp htp
    rw [(hmem tp htp).2, (hmem tp htp).1]
    refine ⟨by omega, ?_, fun _ h => absurd h (List.not_mem_nil _)⟩
    simp [elems]
  · intro tp htp
    rw [(hmem tp htp).1]
    omega

theorem OffsetFetchRequest.fetchRequest_withTopics_encode (n : Nat) (hn : n > 2147483647) :
    (OffsetFetchRequest.withTopics n).encode.err
      = some (Err.packetEncoding "array too long") := by
  have hlen : (entries (OffsetFetchRequest.withTopics n).partitions).length = n := by
    simp only [OffsetFetchRequest.withTopics, entries, Option.getD_some, List.length_map,
      List.length_range]
  have hfail : (putArrayLength (entries (OffsetFetchRequest.withTopics n).partitions).length).err
      = some (Err.packetEncoding "array too long") := by
    rw [hlen]
    simp [putArrayLength, hn]
  have hver : ¬ ((OffsetFetchRequest.withTopics n).Version < 0 ∨
      (OffsetFetchRequest.withTopics n).Version > 7) := by
    show ¬ ((0 : Int) < 0 ∨ (0 : Int) > 7)
    decide
  have h6 : decide ((OffsetFetchRequest.withTopics n).Version ≥ 6) = false := by
    show decide ((0 : Int) ≥ 6) = false
    decide
  have hsome : ¬ ((OffsetFetchRequest.withTopics n).partitions = none ∧
      (OffsetFetchRequest.withTopics n).Version ≥ 2) := by
    intro h
    exact absurd h.1 (by simp [OffsetFetchRequest.withTopics])
  unfold OffsetFetchRequest.encode
  rw [if_neg hver]
  simp only [h6, Bool.false_eq_true, if_false]
  rw [if_neg hsome, Enc.seq_cons_err _ (by rfl)]
  exact Enc.seq_cons_fail _ hfail

/-- The version 6 request for all topics (nil partitions) is read back, every byte of
it, as a request with a present map that has no entry. -/
theorem OffsetFetchRequest.decode_allTopics :
    OffsetFetchRequest.allTopics.encode.out = [2, 103, 0, 0] ∧
    OffsetFetchRequest.zero.decode OffsetFetchRequest.allTopics.encode.out 6
      = Res.ok (⟨6, [103], false, some []⟩, []) := by
  decide

/-! ## Decoding malformed and truncated input -/

/-- C7: evaluation at the failing inputs. With a negative int32 array count on the wire
LeaveGroupResponse.decode at version 3 and CreateAclsResponse.decode panic in
`make`; AddPartitionsToTxnResponse.decode reports success on a negative topic count and
panics on a negative partition-error count. -/
theorem decode_negative_count :
    LeaveGroupResponse.zero.decode LeaveGroupResponse.negativeCount 3 = Res.panic ∧
    CreateAclsResponse.zero.decode CreateAclsResponse.negativeCount 0 = Res.panic ∧
    AddPartitionsToTxnResponse.zero.decode AddPartitionsToTxnResponse.negativeTopics 0
      = Res.ok (⟨0, 0, some []⟩, []) ∧
    AddPartitionsToTxnResponse.zero.decode AddPartitionsToTxnResponse.negativeCount 0
      = Res.panic := by
  decide

theorem DescribeAclsResponse.decode_zeroBody {α : Type} (codec : ResourceAclsCodec α)
    (d : DescribeAclsResponse α) (version : Int) :
    DescribeAclsResponse.decode codec d (zeroBody 12) version
      = Res.ok (⟨d.Version, 0, 0, d.ErrMsg, []⟩, []) := by
  have h1 : getInt32 (zeroBody 12) = Res.ok (0, zeroBody 8) := by decide
  have h2 : getInt16 (zeroBody 8) = Res.ok (0, zeroBody 6) := by decide
  have h3 : getString (zeroBody 6) = Res.ok ([], zeroBody 4) := by decide
  have h4 : getArrayLength (zeroBody 4) = Res.ok (0, []) := by decide
  have h5 : makeSlice 0 = Res.ok 0 := by decide
  have h6 : msToDuration 0 = 0 := by decide
  simp only [DescribeAclsResponse.decode, bind, Res.bind, h1, h2, h3, h4, h5, h6,
    DescribeAclsResponse.decodeResourceAcls, ne_eq, not_true_eq_false, if_false]

theorem DescribeAclsResponse.encode_emptyMessage {α : Type} (codec : ResourceAclsCodec α) :
    DescribeAclsResponse.encode codec DescribeAclsResponse.emptyMessage
      = ⟨zeroBody 12, [], none⟩ := by
  have h1 : putInt32 (durationToMs 0) = Enc.bytes (zeroBody 4) := by decide
  have h2 : putInt16 0 = Enc.bytes (zeroBody 2) := by decide
  have h3 : putNullableString (some []) = Enc.bytes (zeroBody 2) := by decide
  have h4 : putArrayLength 0 = Enc.bytes (zeroBody 4) := by decide
  simp only [DescribeAclsResponse.encode, DescribeAclsResponse.emptyMessage, List.length_nil, h1,
    h2, h3, h4, Enc.forEach]
  decide

/-- C8: evaluation at the failing inputs. Decoding a well-formed body at version 1 into
a fresh CreateAclsResponse or DescribeAclsResponse succeeds and leaves the stored
version at 0. -/
theorem acls_decode_keeps_version {α : Type} (codec : ResourceAclsCodec α) :
    (∃ c, CreateAclsResponse.zero.decode (zeroBody 8) 1 = Res.ok (c, []) ∧ c.version = 0) ∧
    (∃ d, DescribeAclsResponse.decode codec DescribeAclsResponse.zero (zeroBody 12) 1
      = Res.ok (d, []) ∧ d.version = 0) := by
  constructor
  · exact ⟨⟨0, 0, []⟩, by decide, rfl⟩
  · exact ⟨_, DescribeAclsResponse.decode_zeroBody codec _ 1, rfl⟩

/-- C4: evaluation at the failing input. A present empty error message is written with
length 0 and decodes to the null message. -/
theorem DescribeAclsResponse.decode_encode_emptyMessage {α : Type}
    (codec : ResourceAclsCodec α) :
    (DescribeAclsResponse.encode codec DescribeAclsResponse.emptyMessage).err = none ∧
    (DescribeAclsResponse.encode codec DescribeAclsResponse.emptyMessage).out = zeroBody 12 ∧
    ∃ d, DescribeAclsResponse.decode codec DescribeAclsResponse.zero
        (DescribeAclsResponse.encode codec DescribeAclsResponse.emptyMessage).out 0
      = Res.ok (d, []) ∧ d.ErrMsg = none ∧
      (DescribeAclsResponse.emptyMessage : DescribeAclsResponse α).ErrMsg = some [] := by
  rw [DescribeAclsResponse.encode_emptyMessage codec]
  exact ⟨rfl, rfl, _, DescribeAclsResponse.decode_zeroBody codec _ 0, rfl, rfl⟩

/-! ## Requests check the version before writing -/

theorem Enc.errsIn_of_ok {S : Err → Prop} {e : Enc} (h : e.err = none) : Enc.ErrsIn S e := by
  intro x hx
  rw [h] at hx
  exact absurd hx (by simp)

theorem Enc.errsIn_andThen {S : Err → Prop} {a b : Enc} (ha : Enc.ErrsIn S a)
    (hb : Enc.ErrsIn S b) : Enc.ErrsIn S (a.andThen b) := by
  intro x hx
  unfold Enc.andThen at hx
  cases hae : a.err with
  | none =>
    rw [hae] at hx
    exact hb x hx
  | some e =>
    rw [hae] at hx
    exact ha x (by rw [← hx])

theorem Enc.errsIn_seq {S : Err → Prop} (l : List Enc) (h : ∀ e ∈ l, Enc.ErrsIn S e) :
    Enc.ErrsIn S (Enc.seq l) := by
  induction l with
  | nil => exact Enc.errsIn_of_ok rfl
  | cons a l ih =>
    exact Enc.errsIn_andThen (h a (List.mem_cons_self a l))
      (ih (fun e he => h e (List.mem_cons_of_mem a he)))

theorem Enc.errsIn_forEach {S : Err → Prop} {α : Type} (xs : List α) (body : α → Enc)
    (h : ∀ x ∈ xs, Enc.ErrsIn S (body x)) : Enc.ErrsIn S (Enc.forEach xs body) := by
  induction xs with
  | nil => exact Enc.errsIn_of_ok rfl
  | cons x xs ih =>
    exact Enc.errsIn_andThen (h x (List.mem_cons_self x xs))
      (ih (fun y hy => h y (List.mem_cons_of_mem x hy)))

theorem Enc.errsIn_ite {S : Err → Prop} (c : Prop) [Decidable c] {a b : Enc}
    (ha : Enc.ErrsIn S a) (hb : Enc.ErrsIn S b) : Enc.ErrsIn S (if c then a else b) := by
  split
  · exact ha
  · exact hb

theorem putString_errsIn {S : Err → Prop} (hS : S errStringTooLong) (s : GoString) :
    Enc.ErrsIn S (putString s) := by
  unfold putString
  split
  · intro x hx
    simp only [Enc.fail_err, Option.some.injEq] at hx
    rw [← hx]
    exact hS
  · exact Enc.errsIn_andThen (Enc.errsIn_of_ok rfl) (Enc.errsIn_of_ok rfl)

theorem putNullableString_errsIn {S : Err → Prop} (hS : S errStringTooLong)
    (s : Option GoString) : Enc.ErrsIn S (putNullableString s) := by
  cases s with
  | none => exact Enc.errsIn_of_ok rfl
  | some v => exact putString_errsIn hS v

theorem putArrayLength_errsIn {S : Err → Prop} (hS : S errArrayTooLong) (n : Nat) :
    Enc.ErrsIn S (putArrayLength n) := by
  unfold putArrayLength
  split
  · intro x hx
    simp only [Enc.fail_err, Option.some.injEq] at hx
    rw [← hx]
    exact hS
  · exact Enc.errsIn_of_ok rfl

theorem putInt32Array_errsIn {S : Err → Prop} (hS : S errArrayTooLong)
    (xs : Option (List Int)) : Enc.ErrsIn S (putInt32Array xs) :=
  Enc.errsIn_andThen (putArrayLength_errsIn hS _) (Enc.errsIn_of_ok (int32s_err _))

theorem putCompactInt32Array_errsIn {S : Err → Prop} (hN : S errNullArray)
    (xs : Option (List Int)) : Enc.ErrsIn S (putCompactInt32Array xs) := by
  cases xs with
  | none =>
    intro x hx
    rw [putCompactInt32Array_nil, Option.some.injEq] at hx
    rw [← hx]
    exact hN
  | some l => exact Enc.errsIn_of_ok (putCompactInt32Array_err l)

theorem offsetCommitRequestBlock.block_encode_errsIn {S : Err → Prop} (hS : S errStringTooLong)
    (b : offsetCommitRequestBlock) (v : Int) : Enc.ErrsIn S (b.encode v) := by
  apply Enc.errsIn_seq
  intro e he
  simp only [List.mem_cons, List.mem_singleton, List.not_mem_nil, or_false] at he
  rcases he with rfl | rfl | rfl | rfl
  · exact Enc.errsIn_of_ok rfl
  · exact Enc.errsIn_ite _ (Enc.errsIn_of_ok rfl)
      (Enc.errsIn_ite _ (Enc.errsIn_of_ok rfl) (Enc.errsIn_of_ok rfl))
  · exact Enc.errsIn_ite _ (Enc.errsIn_of_ok rfl) (Enc.errsIn_of_ok rfl)
  · exact putString_errsIn hS _

/-- With a supported version, `OffsetCommitRequest.encode` returns only errors of
strings and arrays that do not fit. -/
theorem OffsetCommitRequest.commitRequest_encode_errsIn {S : Err → Prop} (hS : S errStringTooLong)
    (hA : S errArrayTooLong) (r : OffsetCommitRequest)
    (hv : ¬ (r.Version < 0 ∨ r.Version > 7)) : Enc.ErrsIn S r.encode := by
  unfold OffsetCommitRequest.encode
  rw [if_neg hv]
  apply Enc.errsIn_seq
  intro e he
  simp only [List.mem_cons, List.mem_singleton, List.not_mem_nil, or_false] at he
  rcases he with rfl | rfl | rfl | rfl | rfl | rfl
  · exact putString_errsIn hS _
  · apply Enc.errsIn_ite
    · apply Enc.errsIn_seq
      intro e he
      simp only [List.mem_cons, List.mem_singleton, List.not_mem_nil, or_false] at he
      rcases he with rfl | rfl
      · exact Enc.errsIn_of_ok rfl
      · exact putString_errsIn hS _
    · apply Enc.errsIn_seq
      intro e he
      simp only [List.mem_cons, List.mem_singleton, List.not_mem_nil, or_false] at he
      rcases he with rfl | rfl
      · exact Enc.errsIn_ite _ (Enc.errsIn_of_ok rfl) (Enc.errsIn_of_ok rfl)
      · exact Enc.errsIn_ite _ (Enc.errsIn_of_ok rfl) (Enc.errsIn_of_ok rfl)
  · exact Enc.errsIn_ite _ (Enc.errsIn_of_ok rfl)
      (Enc.errsIn_ite _ (Enc.errsIn_of_ok rfl) (Enc.errsIn_of_ok rfl))
  · exact Enc.errsIn_ite _ (putNullableString_errsIn hS _) (Enc.errsIn_of_ok rfl)
  · exact putArrayLength_errsIn hA _
  · apply Enc.errsIn_forEach
    intro tp _
    apply Enc.errsIn_seq
    intro e he
    simp only [List.mem_cons, List.mem_singleton, List.not_mem_nil, or_false] at he
    rcases he with rfl | rfl | rfl
    · exact putString_errsIn hS _
    · exact putArrayLength_errsIn hA _
    · apply Enc.errsIn_forEach
      intro pb _
      apply Enc.errsIn_seq
      intro e he
      simp only [List.mem_cons, List.mem_singleton, List.not_mem_nil, or_false] at he
      rcases he with rfl | rfl
      · exact Enc.errsIn_of_ok rfl
      · exact offsetCommitRequestBlock.block_encode_errsIn hS _ _

/-- With a supported version, `OffsetFetchRequest.encode` returns only errors of
strings and arrays that do not fit, of a nil partition list and the RequireStable
error. -/
theorem OffsetFetchRequest.fetchRequest_encode_errsIn {S : Err → Prop} (hS : S errStringTooLong)
    (hA : S errArrayTooLong) (hN : S errNullArray)
    (hR : S (Err.packetEncoding "requireStable is not supported. use version 7 or later"))
    (r : OffsetFetchRequest) (hv : ¬ (r.Version < 0 ∨ r.Version > 7)) :
    Enc.ErrsIn S r.encode := by
  unfold OffsetFetchRequest.encode
  rw [if_neg hv]
  apply Enc.errsIn_seq
  intro e he
  simp only [List.mem_cons, List.mem_singleton, List.not_mem_nil, or_false] at he
  rcases he with rfl | rfl | rfl | rfl | rfl | rfl
  · exact Enc.errsIn_ite _ (Enc.errsIn_of_ok rfl) (putString_errsIn hS _)
  · exact Enc.errsIn_ite _ (Enc.errsIn_ite _ (Enc.errsIn_of_ok rfl) (Enc.errsIn_of_ok rfl))
      (Enc.errsIn_ite _ (Enc.errsIn_of_ok rfl) (putArrayLength_errsIn hA _))
  · apply Enc.errsIn_forEach
    intro tp _
    apply Enc.errsIn_seq
    intro e he
    simp only [List.mem_cons, List.mem_singleton, List.not_mem_nil, or_false] at he
    rcases he with rfl | rfl | rfl
    · exact Enc.errsIn_ite _ (Enc.errsIn_of_ok rfl) (putString_errsIn hS _)
    · exact Enc.errsIn_ite _ (putCompactInt32Array_errsIn hN _) (putInt32Array_errsIn hA _)
    · exact Enc.errsIn_ite _ (Enc.errsIn_of_ok rfl) (Enc.errsIn_of_ok rfl)
  · apply Enc.errsIn_ite
    · intro x hx
      simp only [Enc.fail_err, Option.some.injEq] at hx
      rw [← hx]
      exact hR
    · exact Enc.errsIn_of_ok rfl
  · exact Enc.errsIn_ite _ (Enc.errsIn_of_ok rfl) (Enc.errsIn_of_ok rfl)
  · exact Enc.errsIn_ite _ (Enc.errsIn_of_ok rfl) (Enc.errsIn_of_ok rfl)

/-- C9: for every OffsetCommitRequest r and OffsetFetchRequest f, isValidVersion() is
false exactly when Version < 0 or Version > 7; if it is false, encode returns the
PacketEncodingError about the version field having written nothing (and logged
nothing); if it is true, encode does not return that error. -/
theorem requests_check_version (r : OffsetCommitRequest) (f : OffsetFetchRequest) :
    ((r.isValidVersion = false ↔ (r.Version < 0 ∨ r.Version > 7)) ∧
     (r.isValidVersion = false → r.encode = Enc.fail
        (Err.packetEncoding "invalid or unsupported OffsetCommitRequest version field")) ∧
     (r.isValidVersion = true → r.encode.err ≠ some
        (Err.packetEncoding "invalid or unsupported OffsetCommitRequest version field"))) ∧
    ((f.isValidVersion = false ↔ (f.Version < 0 ∨ f.Version > 7)) ∧
     (f.isValidVersion = false → f.encode = Enc.fail
        (Err.packetEncoding "invalid or unsupported OffsetFetchRequest version field")) ∧
     (f.isValidVersion = true → f.encode.err ≠ some
        (Err.packetEncoding "invalid or unsupported OffsetFetchRequest version field"))) := by
  have hr : r.isValidVersion = false ↔ (r.Version < 0 ∨ r.Version > 7) := by
    simp only [OffsetCommitRequest.isValidVersion, decide_eq_false_iff_not]
    omega
  have hf : f.isValidVersion = false ↔ (f.Version < 0 ∨ f.Version > 7) := by
    simp only [OffsetFetchRequest.isValidVersion, decide_eq_false_iff_not]
    omega
  refine ⟨⟨hr, ?_, ?_⟩, ⟨hf, ?_, ?_⟩⟩
  · intro h
    unfold OffsetCommitRequest.encode
    rw [if_pos (hr.mp h)]
  · intro h hbad
    have hv : ¬ (r.Version < 0 ∨ r.Version > 7) := by
      intro hv
      rw [hr.mpr hv] at h
      exact absurd h (by decide)
    exact OffsetCommitRequest.commitRequest_encode_errsIn
      (S := fun x => x ≠ Err.packetEncoding
        "invalid or unsupported OffsetCommitRequest version field")
      (by decide) (by decide) r hv _ hbad rfl
  · intro h
    unfold OffsetFetchRequest.encode
    rw [if_pos (hf.mp h)]
  · intro h hbad
    have hv : ¬ (f.Version < 0 ∨ f.Version > 7) := by
      intro hv
      rw [hf.mpr hv] at h
      exact absurd h (by decide)
    exact OffsetFetchRequest.fetchRequest_encode_errsIn
      (S := fun x => x ≠ Err.packetEncoding
        "invalid or unsupported OffsetFetchRequest version field")
      (by decide) (by decide) (by decide) (by decide) f hv _ hbad rfl

/-- Witness of C9: version 8 and version -1 are refused without a byte written; the
version 7 scenario and a version 7 fetch request are not. -/
theorem requests_check_version_witness :
    OffsetCommitRequest.versionEight.isValidVersion = false ∧
    OffsetCommitRequest.versionEight.encode = Enc.fail
      (Err.packetEncoding "invalid or unsupported OffsetCommitRequest version field") ∧
    OffsetFetchRequest.versionMinusOne.isValidVersion = false ∧
    OffsetFetchRequest.versionMinusOne.encode = Enc.fail
      (Err.packetEncoding "invalid or unsupported OffsetFetchRequest version field") ∧
    OffsetCommitRequest.scenario.isValidVersion = true ∧
    OffsetCommitRequest.scenario.encode.err ≠ some
      (Err.packetEncoding "invalid or unsupported OffsetCommitRequest version field") ∧
    OffsetFetchRequest.sample.isValidVersion = true ∧
    OffsetFetchRequest.sample.encode.err ≠ some
      (Err.packetEncoding "invalid or unsupported OffsetFetchRequest version field") :=
  ⟨rfl,
    (requests_check_version OffsetCommitRequest.versionEight
      OffsetFetchRequest.versionMinusOne).1.2.1 rfl,
    rfl,
    (requests_check_version OffsetCommitRequest.versionEight
      OffsetFetchRequest.versionMinusOne).2.2.1 rfl,
    rfl,
    (requests_check_version OffsetCommitRequest.scenario OffsetFetchRequest.sample).1.2.2 rfl,
    rfl,
    (requests_check_version OffsetCommitRequest.scenario OffsetFetchRequest.sample).2.2.2 rfl⟩

/-! ## Responses: encode does not look at the validity of the version -/

theorem LeaveGroupResponse.leaveGroup_encode_errsIn {S : Sarama.Err → Prop} (hS : S errStringTooLong)
    (hA : S errArrayTooLong) (r : LeaveGroupResponse) : Enc.ErrsIn S r.encode := by
  unfold LeaveGroupResponse.encode
  apply Enc.errsIn_seq
  intro e he
  simp only [List.mem_cons, List.mem_singleton, List.not_mem_nil, or_false] at he
  rcases he with rfl | rfl | rfl
  · exact Enc.errsIn_ite _ (Enc.errsIn_of_ok rfl) (Enc.errsIn_of_ok rfl)
  · exact Enc.errsIn_of_ok rfl
  · apply Enc.errsIn_ite
    · apply Enc.errsIn_seq
      intro e he
      simp only [List.mem_cons, List.mem_singleton, List.not_mem_nil, or_false] at he
      rcases he with rfl | rfl
      · exact putArrayLength_errsIn hA _
      · apply Enc.errsIn_forEach
        intro member _
        apply Enc.errsIn_seq
        intro e he
        simp only [List.mem_cons, List.mem_singleton, List.not_mem_nil, or_false] at he
        rcases he with rfl | rfl | rfl
        · exact putString_errsIn hS _
        · exact putNullableString_errsIn hS _
        · exact Enc.errsIn_of_ok rfl
    · exact Enc.errsIn_of_ok rfl

theorem OffsetCommitResponse.commitResponse_encode_errsIn {S : Err → Prop} (hS : S errStringTooLong)
    (hA : S errArrayTooLong) (r : OffsetCommitResponse) : Enc.ErrsIn S r.encode := by
  unfold OffsetCommitResponse.encode
  apply Enc.errsIn_seq
  intro e he
  simp only [List.mem_cons, List.mem_singleton, List.not_mem_nil, or_false] at he
  rcases he with rfl | rfl | rfl
  · exact Enc.errsIn_ite _ (Enc.errsIn_of_ok rfl) (Enc.errsIn_of_ok rfl)
  · exact putArrayLength_errsIn hA _
  · apply Enc.errsIn_forEach
    intro tp _
    apply Enc.errsIn_seq
    intro e he
    simp only [List.mem_cons, List.mem_singleton, List.not_mem_nil, or_false] at he
    rcases he with rfl | rfl | rfl
    · exact putString_errsIn hS _
    · exact putArrayLength_errsIn hA _
    · exact Enc.errsIn_of_ok (OffsetCommitResponse.errors_err _)

theorem AddPartitionsToTxnResponse.addPartitions_encode_errsIn {S : Err → Prop} (hS : S errStringTooLong)
    (hA : S errArrayTooLong) (a : AddPartitionsToTxnResponse) : Enc.ErrsIn S a.encode := by
  unfold AddPartitionsToTxnResponse.encode
  apply Enc.errsIn_seq
  intro e he
  simp only [List.mem_cons, List.mem_singleton, List.not_mem_nil, or_false] at he
  rcases he with rfl | rfl | rfl
  · exact Enc.errsIn_of_ok rfl
  · exact putArrayLength_errsIn hA _
  · apply Enc.errsIn_forEach
    intro te _
    apply Enc.errsIn_seq
    intro e he
    simp only [List.mem_cons, List.mem_singleton, List.not_mem_nil, or_false] at he
    rcases he with rfl | rfl | rfl
    · exact putString_errsIn hS _
    · exact putArrayLength_errsIn hA _
    · exact Enc.errsIn_forEach _ _ (fun p _ => Enc.errsIn_of_ok rfl)

theorem CreateAclsResponse.createAcls_encode_errsIn {S : Err → Prop} (hS : S errStringTooLong)
    (hA : S errArrayTooLong) (c : CreateAclsResponse) : Enc.ErrsIn S c.encode := by
  unfold CreateAclsResponse.encode
  apply Enc.errsIn_seq
  intro e he
  simp only [List.mem_cons, List.mem_singleton, List.not_mem_nil, or_false] at he
  rcases he with rfl | rfl | rfl
  · exact Enc.errsIn_of_ok rfl
  · exact putArrayLength_errsIn hA _
  · apply Enc.errsIn_forEach
    intro a _
    unfold AclCreationResponse.encode
    apply Enc.errsIn_seq
    intro e he
    simp only [List.mem_cons, List.mem_singleton, List.not_mem_nil, or_false] at he
    rcases he with rfl | rfl
    · exact Enc.errsIn_of_ok rfl
    · exact putNullableString_errsIn hS _

theorem DescribeAclsResponse.describeAcls_encode_errsIn {S : Sarama.Err → Prop} {α : Type}
    (codec : ResourceAclsCodec α) (hS : S errStringTooLong) (hA : S errArrayTooLong)
    (hcodec : ∀ acl v, Enc.ErrsIn S (codec.encode acl v)) (d : DescribeAclsResponse α) :
    Enc.ErrsIn S (DescribeAclsResponse.encode codec d) := by
  unfold DescribeAclsResponse.encode
  apply Enc.errsIn_seq
  intro e he
  simp only [List.mem_cons, List.mem_singleton, List.not_mem_nil, or_false] at he
  rcases he with rfl | rfl | rfl | rfl | rfl
  · exact Enc.errsIn_of_ok rfl
  · exact Enc.errsIn_of_ok rfl
  · exact putNullableString_errsIn hS _
  · exact putArrayLength_errsIn hA _
  · exact Enc.errsIn_forEach _ _ (fun acl _ => hcodec acl _)

/-- C10, amended: the response types do not check the version on encode. For every
LeaveGroupResponse, OffsetCommitResponse, AddPartitionsToTxnResponse, CreateAclsResponse
and DescribeAclsResponse, whatever Version holds, the only errors encode can return are
those of a string or an array that does not fit (for DescribeAclsResponse, provided the
nested ResourceAcls.encode returns no other error); a LeaveGroupResponse with
Version >= 3 is written exactly as with Version 3 and one with Version < 1 exactly as
with Version 0, an OffsetCommitResponse with Version >= 3 exactly as with Version 7 and
one with Version < 3 exactly as with Version 0, and the output of the other three does
not depend on Version (DescribeAclsResponse: when it has no ResourceAcls). -/
theorem responses_do_not_check_version (l : LeaveGroupResponse) (o : OffsetCommitResponse)
    (a : AddPartitionsToTxnResponse) (c : CreateAclsResponse) {α : Type}
    (codec : ResourceAclsCodec α) (d : DescribeAclsResponse α) (v : Int) :
    (Enc.ErrsIn IsSizeError l.encode ∧ Enc.ErrsIn IsSizeError o.encode ∧
      Enc.ErrsIn IsSizeError a.encode ∧ Enc.ErrsIn IsSizeError c.encode ∧
      ((∀ acl w, Enc.ErrsIn IsSizeError (codec.encode acl w)) →
        Enc.ErrsIn IsSizeError (DescribeAclsResponse.encode codec d))) ∧
    ((l.Version ≥ 3 → l.encode = { l with Version := 3 }.encode) ∧
      (l.Version < 1 → l.encode = { l with Version := 0 }.encode)) ∧
    ((o.Version ≥ 3 → o.encode = { o with Version := 7 }.encode) ∧
      (o.Version < 3 → o.encode = { o with Version := 0 }.encode)) ∧
    a.encode = { a with Version := v }.encode ∧
    c.encode = { c with Version := v }.encode ∧
    (d.ResourceAcls = [] → DescribeAclsResponse.encode codec d
      = DescribeAclsResponse.encode codec { d with Version := v }) := by
  have hS : IsSizeError errStringTooLong := Or.inl rfl
  have hA : IsSizeError errArrayTooLong := Or.inr rfl
  refine ⟨⟨LeaveGroupResponse.leaveGroup_encode_errsIn hS hA l, OffsetCommitResponse.commitResponse_encode_errsIn hS hA o,
    AddPartitionsToTxnResponse.addPartitions_encode_errsIn hS hA a, CreateAclsResponse.createAcls_encode_errsIn hS hA c,
    fun hcodec => DescribeAclsResponse.describeAcls_encode_errsIn codec hS hA hcodec d⟩,
    ⟨?_, ?_⟩, ⟨?_, ?_⟩, rfl, rfl, ?_⟩
  · intro h
    have h1 : l.Version ≥ 1 := by omega
    simp [LeaveGroupResponse.encode, h, h1]
  · intro h
    have h1 : ¬ l.Version ≥ 1 := by omega
    have h3 : ¬ l.Version ≥ 3 := by omega
    simp only [LeaveGroupResponse.encode, h1, h3, if_false]
    simp
  · intro h
    simp [OffsetCommitResponse.encode, h]
  · intro h
    have h3 : ¬ o.Version ≥ 3 := by omega
    simp only [OffsetCommitResponse.encode, h3, if_false]
    simp
  · intro h
    simp [DescribeAclsResponse.encode, h, Enc.forEach]

/-- Witness of C10: the version 4 leave-group response is written as at version 3. -/
theorem responses_do_not_check_version_witness :
    LeaveGroupResponse.versionFour.Version ≥ 3 ∧
    LeaveGroupResponse.versionFour.encode
      = { LeaveGroupResponse.versionFour with Version := 3 }.encode ∧
    Enc.ErrsIn IsSizeError (DescribeAclsResponse.encode ResourceAclsCodec.unit
      DescribeAclsResponse.emptyMessage) :=
  ⟨by decide,
    (responses_do_not_check_version LeaveGroupResponse.versionFour OffsetCommitResponse.sample
      AddPartitionsToTxnResponse.zero CreateAclsResponse.zero ResourceAclsCodec.unit
      DescribeAclsResponse.emptyMessage 0).2.1.1 (by decide),
    (responses_do_not_check_version LeaveGroupResponse.versionFour OffsetCommitResponse.sample
      AddPartitionsToTxnResponse.zero CreateAclsResponse.zero ResourceAclsCodec.unit
      DescribeAclsResponse.emptyMessage 0).1.2.2.2.2 (fun _ _ => Enc.errsIn_of_ok rfl)⟩

/-- Counterexample to C10 as stated: the LeaveGroupResponse with Version 4 is outside
the supported range, and encode returns no error and produces ten bytes. -/
theorem LeaveGroupResponse.encode_versionFour :
    LeaveGroupResponse.versionFour.isValidVersion = false ∧
    LeaveGroupResponse.versionFour.encode.err = none ∧
    LeaveGroupResponse.versionFour.encode.out = [0, 0, 0, 0, 0, 0, 0, 0, 0, 0] := by
  decide

/-! ## Broker versions: requiredVersion and NewOffsetFetchRequest -/

/-- C17: for each of the seven message types and any two values whose wire versions
v <= w both lie in the type's supported range, requiredVersion() at v is at most
requiredVersion() at w in the order of KafkaVersion. -/
theorem requiredVersion_monotone {α : Type}
    (cr cr' : OffsetCommitRequest) (cs cs' : OffsetCommitResponse)
    (fr fr' : OffsetFetchRequest) (lg lg' : LeaveGroupResponse)
    (ap ap' : AddPartitionsToTxnResponse) (ca ca' : CreateAclsResponse)
    (da da' : DescribeAclsResponse α) :
    (cr.isValidVersion = true → cr'.isValidVersion = true → cr.Version ≤ cr'.Version →
      cr'.requiredVersion.IsAtLeast cr.requiredVersion = true) ∧
    (cs.isValidVersion = true → cs'.isValidVersion = true → cs.Version ≤ cs'.Version →
      cs'.requiredVersion.IsAtLeast cs.requiredVersion = true) ∧
    (fr.isValidVersion = true → fr'.isValidVersion = true → fr.Version ≤ fr'.Version →
      fr'.requiredVersion.IsAtLeast fr.requiredVersion = true) ∧
    (lg.isValidVersion = true → lg'.isValidVersion = true → lg.Version ≤ lg'.Version →
      lg'.requiredVersion.IsAtLeast lg.requiredVersion = true) ∧
    (ap.isValidVersion = true → ap'.isValidVersion = true → ap.Version ≤ ap'.Version →
      ap'.requiredVersion.IsAtLeast ap.requiredVersion = true) ∧
    (ca.isValidVersion = true → ca'.isValidVersion = true → ca.Version ≤ ca'.Version →
      ca'.requiredVersion.IsAtLeast ca.requiredVersion = true) ∧
    (da.isValidVersion = true → da'.isValidVersion = true → da.Version ≤ da'.Version →
      da'.requiredVersion.IsAtLeast da.requiredVersion = true) := by
  refine ⟨?_, ?_, ?_, ?_, ?_, ?_, ?_⟩
  · intro hv hw h
    simp only [OffsetCommitRequest.isValidVersion, decide_eq_true_eq] at hv hw
    unfold OffsetCommitRequest.requiredVersion
    generalize cr.Version = v at *
    generalize cr'.Version = w at *
    have hv' : v = 0 ∨ v = 1 ∨ v = 2 ∨ v = 3 ∨ v = 4 ∨ v = 5 ∨ v = 6 ∨ v = 7 := by omega
    have hw' : w = 0 ∨ w = 1 ∨ w = 2 ∨ w = 3 ∨ w = 4 ∨ w = 5 ∨ w = 6 ∨ w = 7 := by omega
    rcases hv' with rfl | rfl | rfl | rfl | rfl | rfl | rfl | rfl <;>
      rcases hw' with rfl | rfl | rfl | rfl | rfl | rfl | rfl | rfl <;>
      first | (exact absurd h (by decide)) | decide
  · intro hv hw h
    simp only [OffsetCommitResponse.isValidVersion, decide_eq_true_eq] at hv hw
    unfold OffsetCommitResponse.requiredVersion
    generalize cs.Version = v at *
    generalize cs'.Version = w at *
    have hv' : v = 0 ∨ v = 1 ∨ v = 2 ∨ v = 3 ∨ v = 4 ∨ v = 5 ∨ v = 6 ∨ v = 7 := by omega
    have hw' : w = 0 ∨ w = 1 ∨ w = 2 ∨ w = 3 ∨ w = 4 ∨ w = 5 ∨ w = 6 ∨ w = 7 := by omega
    rcases hv' with rfl | rfl | rfl | rfl | rfl | rfl | rfl | rfl <;>
      rcases hw' with rfl | rfl | rfl | rfl | rfl | rfl | rfl | rfl <;>
      first | (exact absurd h (by decide)) | decide
  · intro hv hw h
    simp only [OffsetFetchRequest.isValidVersion, decide_eq_true_eq] at hv hw
    unfold OffsetFetchRequest.requiredVersion
    generalize fr.Version = v at *
    generalize fr'.Version = w at *
    have hv' : v = 0 ∨ v = 1 ∨ v = 2 ∨ v = 3 ∨ v = 4 ∨ v = 5 ∨ v = 6 ∨ v = 7 := by omega
    have hw' : w = 0 ∨ w = 1 ∨ w = 2 ∨ w = 3 ∨ w = 4 ∨ w = 5 ∨ w = 6 ∨ w = 7 := by omega
    rcases hv' with rfl | rfl | rfl | rfl | rfl | rfl | rfl | rfl <;>
      rcases hw' with rfl | rfl | rfl | rfl | rfl | rfl | rfl | rfl <;>
      first | (exact absurd h (by decide)) | decide
  · intro hv hw h
    simp only [LeaveGroupResponse.isValidVersion, decide_eq_true_eq] at hv hw
    unfold LeaveGroupResponse.requiredVersion
    generalize lg.Version = v at *
    generalize lg'.Version = w at *
    have hv' : v = 0 ∨ v = 1 ∨ v = 2 ∨ v = 3 := by omega
    have hw' : w = 0 ∨ w = 1 ∨ w = 2 ∨ w = 3 := by omega
    rcases hv' with rfl | rfl | rfl | rfl <;>
      rcases hw' with rfl | rfl | rfl | rfl <;>
      first | (exact absurd h (by decide)) | decide
  · intro hv hw h
    simp only [AddPartitionsToTxnResponse.isValidVersion, decide_eq_true_eq] at hv hw
    unfold AddPartitionsToTxnResponse.requiredVersion
    generalize ap.Version = v at *
    generalize ap'.Version = w at *
    have hv' : v = 0 ∨ v = 1 ∨ v = 2 := by omega
    have hw' : w = 0 ∨ w = 1 ∨ w = 2 := by omega
    rcases hv' with rfl | rfl | rfl <;>
      rcases hw' with rfl | rfl | rfl <;>
      first | (exact absurd h (by decide)) | decide
  · intro hv hw h
    simp only [CreateAclsResponse.isValidVersion, decide_eq_true_eq] at hv hw
    unfold CreateAclsResponse.requiredVersion
    generalize ca.Version = v at *
    generalize ca'.Version = w at *
    have hv' : v = 0 ∨ v = 1 := by omega
    have hw' : w = 0 ∨ w = 1 := by omega
    rcases hv' with rfl | rfl <;>
      rcases hw' with rfl | rfl <;>
      first | (exact absurd h (by decide)) | decide
  · intro hv hw h
    simp only [DescribeAclsResponse.isValidVersion, decide_eq_true_eq] at hv hw
    unfold DescribeAclsResponse.requiredVersion
    generalize da.Version = v at *
    generalize da'.Version = w at *
    have hv' : v = 0 ∨ v = 1 := by omega
    have hw' : w = 0 ∨ w = 1 := by omega
    rcases hv' with rfl | rfl <;>
      rcases hw' with rfl | rfl <;>
      first | (exact absurd h (by decide)) | decide

/-- Witness of C17: each type's table at two supported versions. -/
theorem requiredVersion_monotone_witness :
    ({ OffsetCommitRequest.zero with Version := 7 }).requiredVersion.IsAtLeast
      ({ OffsetCommitRequest.zero with Version := 2 }).requiredVersion = true ∧
    ({ OffsetCommitResponse.zero with Version := 5 }).requiredVersion.IsAtLeast
      ({ OffsetCommitResponse.zero with Version := 4 }).requiredVersion = true ∧
    ({ OffsetFetchRequest.zero with Version := 6 }).requiredVersion.IsAtLeast
      ({ OffsetFetchRequest.zero with Version := 2 }).requiredVersion = true ∧
    ({ LeaveGroupResponse.zero with Version := 3 }).requiredVersion.IsAtLeast
      ({ LeaveGroupResponse.zero with Version := 0 }).requiredVersion = true ∧
    ({ AddPartitionsToTxnResponse.zero with Version := 2 }).requiredVersion.IsAtLeast
      ({ AddPartitionsToTxnResponse.zero with Version := 1 }).requiredVersion = true ∧
    ({ CreateAclsResponse.zero with Version := 1 }).requiredVersion.IsAtLeast
      ({ CreateAclsResponse.zero with Version := 0 }).requiredVersion = true ∧
    ({ (DescribeAclsResponse.zero : DescribeAclsResponse Unit) with
        Version := 1 }).requiredVersion.IsAtLeast
      ({ (DescribeAclsResponse.zero : DescribeAclsResponse Unit) with
        Version := 1 }).requiredVersion = true :=
  have h := requiredVersion_monotone
    { OffsetCommitRequest.zero with Version := 2 } { OffsetCommitRequest.zero with Version := 7 }
    { OffsetCommitResponse.zero with Version := 4 } { OffsetCommitResponse.zero with Version := 5 }
    { OffsetFetchRequest.zero with Version := 2 } { OffsetFetchRequest.zero with Version := 6 }
    { LeaveGroupResponse.zero with Version := 0 } { LeaveGroupResponse.zero with Version := 3 }
    { AddPartitionsToTxnResponse.zero with Version := 1 }
    { AddPartitionsToTxnResponse.zero with Version := 2 }
    { CreateAclsResponse.zero with Version := 0 } { CreateAclsResponse.zero with Version := 1 }
    { (DescribeAclsResponse.zero : DescribeAclsResponse Unit) with Version := 1 }
    { (DescribeAclsResponse.zero : DescribeAclsResponse Unit) with Version := 1 }
  ⟨h.1 rfl rfl (by decide), h.2.1 rfl rfl (by decide), h.2.2.1 rfl rfl (by decide),
    h.2.2.2.1 rfl rfl (by decide), h.2.2.2.2.1 rfl rfl (by decide),
    h.2.2.2.2.2.1 rfl rfl (by decide), h.2.2.2.2.2.2 rfl rfl (by decide)⟩

theorem KafkaVersion.isAtLeast_trans (a b c : KafkaVersion) (h1 : a.IsAtLeast b = true)
    (h2 : b.IsAtLeast c = true) : a.IsAtLeast c = true := by
  obtain ⟨a1, a2, a3, a4⟩ := a
  obtain ⟨b1, b2, b3, b4⟩ := b
  obtain ⟨c1, c2, c3, c4⟩ := c
  unfold KafkaVersion.IsAtLeast at *
  simp only [ne_eq, ite_not] at *
  split_ifs at * <;> simp only [decide_eq_true_eq] at * <;> omega

/-- C18: NewOffsetFetchRequest keeps the group and the partitions, leaves RequireStable
false and sets a supported Version; for a broker version b at least 0.8.2.0 the Version
is the greatest w in 0..7 whose requiredVersion() is at most b, so b is at least the
request's requiredVersion(); for an older b the Version is 0. -/
theorem newOffsetFetchRequest_picks_newest (b : KafkaVersion) (group : GoString)
    (partitions : Option (List (GoString × Option (List Int)))) :
    (NewOffsetFetchRequest b group partitions).ConsumerGroup = group ∧
    (NewOffsetFetchRequest b group partitions).partitions = partitions ∧
    (NewOffsetFetchRequest b group partitions).RequireStable = false ∧
    (NewOffsetFetchRequest b group partitions).isValidVersion = true ∧
    (b.IsAtLeast V0_8_2_0 = true →
      b.IsAtLeast (NewOffsetFetchRequest b group partitions).requiredVersion = true ∧
      ∀ w : Int, 0 ≤ w → w ≤ 7 →
        b.IsAtLeast ({ NewOffsetFetchRequest b group partitions with
          Version := w }).requiredVersion = true →
        w ≤ (NewOffsetFetchRequest b group partitions).Version) ∧
    (b.IsAtLeast V0_8_2_0 = false →
      (NewOffsetFetchRequest b group partitions).Version = 0) := by
  have t1 : V2_5_0_0.IsAtLeast V0_8_2_0 = true := by decide
  have t2 : V2_4_0_0.IsAtLeast V0_8_2_0 = true := by decide
  have t3 : V2_1_0_0.IsAtLeast V0_8_2_0 = true := by decide
  have t4 : V2_0_0_0.IsAtLeast V0_8_2_0 = true := by decide
  have t5 : V0_11_0_0.IsAtLeast V0_8_2_0 = true := by decide
  have t6 : V0_10_2_0.IsAtLeast V0_8_2_0 = true := by decide
  have cases8 : ∀ w : Int, 0 ≤ w → w ≤ 7 →
      w = 0 ∨ w = 1 ∨ w = 2 ∨ w = 3 ∨ w = 4 ∨ w = 5 ∨ w = 6 ∨ w = 7 := by
    intro w h0 h7; omega
  unfold NewOffsetFetchRequest
  simp only
  split_ifs with h7 h6 h5 h4 h3 h2 h1
  all_goals refine ⟨rfl, rfl, rfl, rfl, ?_, ?_⟩
  all_goals intro hb
  all_goals first
    | rfl
    | (exfalso
       first
         | (rw [hb] at h1; exact absurd h1 (by decide))
         | (rw [KafkaVersion.isAtLeast_trans _ _ _ h7 t1] at hb; exact absurd hb (by decide))
         | (rw [KafkaVersion.isAtLeast_trans _ _ _ h6 t2] at hb; exact absurd hb (by decide))
         | (rw [KafkaVersion.isAtLeast_trans _ _ _ h5 t3] at hb; exact absurd hb (by decide))
         | (rw [KafkaVersion.isAtLeast_trans _ _ _ h4 t4] at hb; exact absurd hb (by decide))
         | (rw [KafkaVersion.isAtLeast_trans _ _ _ h3 t5] at hb; exact absurd hb (by decide))
         | (rw [KafkaVersion.isAtLeast_trans _ _ _ h2 t6] at hb; exact absurd hb (by decide)))
    | skip
  all_goals refine ⟨by assumption, ?_⟩
  all_goals intro w h0 hw hreq
  all_goals rcases cases8 w h0 hw with rfl | rfl | rfl | rfl | rfl | rfl | rfl | rfl
  all_goals first
    | (dsimp only; omega)
    | exact absurd hreq h7
    | exact absurd hreq h6
    | exact absurd hreq h5
    | exact absurd hreq h4
    | exact absurd hreq h3
    | exact absurd hreq h2

/-- Witness of C18: a 2.4.0.0 broker gets version 6, a 0.8.1.0 broker version 0. -/
theorem newOffsetFetchRequest_picks_newest_witness :
    V2_4_0_0.IsAtLeast V0_8_2_0 = true ∧
    V2_4_0_0.IsAtLeast (NewOffsetFetchRequest V2_4_0_0 [103] none).requiredVersion = true ∧
    (NewOffsetFetchRequest V2_4_0_0 [103] none).Version = 6 ∧
    KafkaVersion.IsAtLeast ⟨0, 8, 1, 0⟩ V0_8_2_0 = false ∧
    (NewOffsetFetchRequest ⟨0, 8, 1, 0⟩ [103] none).Version = 0 :=
  ⟨by decide,
    ((newOffsetFetchRequest_picks_newest V2_4_0_0 [103] none).2.2.2.2.1 (by decide)).1,
    by decide, by decide,
    (newOffsetFetchRequest_picks_newest ⟨0, 8, 1, 0⟩ [103] none).2.2.2.2.2 (by decide)⟩

/-! ## throttleTime -/

theorem Res.bind_eq_ok {α β : Type} (x : Res α) (f : α → Res β) (b : β) :
    x.bind f = Res.ok b ↔ ∃ a, x = Res.ok a ∧ f a = Res.ok b := by
  cases x with
  | ok a => simp [Res.bind]
  | error e => simp [Res.bind]
  | panic => simp [Res.bind]

theorem msToDuration_zero : msToDuration 0 = 0 := by decide

theorem msToDuration_of_isInt32 (t : Int) (h : IsInt32 t) : msToDuration t = t * 1000000 := by
  unfold IsInt32 at h
  unfold msToDuration Millisecond
  simp only [signed, wrap, Nat.reducePow, Nat.reduceSub, Int.reducePow]
  have hn : (((t * 1000000) % 18446744073709551616).toNat : Int) =
      (t * 1000000) % 18446744073709551616 :=
    Int.toNat_of_nonneg (Int.emod_nonneg _ (by norm_num))
  generalize ((t * 1000000) % 18446744073709551616).toNat = n at hn ⊢
  split <;> omega

/-- Counterexample to C16: a version 0 LeaveGroupResponse whose ThrottleTime field holds
5 reports 5 ms (5000000 ns), and so does a version 2 OffsetCommitResponse. -/
theorem throttleTime_ignores_version :
    (⟨0, 5, 0, []⟩ : LeaveGroupResponse).Version = 0 ∧
    (⟨0, 5, 0, []⟩ : LeaveGroupResponse).throttleTime = 5000000 ∧
    (⟨2, 5, none⟩ : OffsetCommitResponse).Version < 3 ∧
    (⟨2, 5, none⟩ : OffsetCommitResponse).throttleTime = 5000000 := by
  decide

/-- C16 (amended): throttleTime() never reads Version; a LeaveGroupResponse of Version 0
and an OffsetCommitResponse of Version below 3 report the zero duration when their
throttle field holds zero, and decode at those versions leaves the throttle field as
it found it, so a value decoded into a fresh response reports zero. At every version
throttleTime() is the stored throttle field (an int32) times one millisecond, that is
times 1000000 ns. -/
theorem throttleTime_zero_without_field :
    (∀ (r : LeaveGroupResponse) (v : Int),
      ({ r with Version := v }).throttleTime = r.throttleTime) ∧
    (∀ (r : OffsetCommitResponse) (v : Int),
      ({ r with Version := v }).throttleTime = r.throttleTime) ∧
    (∀ r : LeaveGroupResponse, r.Version = 0 → r.ThrottleTime = 0 → r.throttleTime = 0) ∧
    (∀ r : OffsetCommitResponse, r.Version < 3 → r.ThrottleTimeMs = 0 →
      r.throttleTime = 0) ∧
    (∀ (r r' : LeaveGroupResponse) (pd rest : List Byte),
      r.decode pd 0 = Res.ok (r', rest) → r'.ThrottleTime = r.ThrottleTime) ∧
    (∀ (r r' : OffsetCommitResponse) (pd rest : List Byte) (v : Int), v < 3 →
      r.decode pd v = Res.ok (r', rest) → r'.ThrottleTimeMs = r.ThrottleTimeMs) ∧
    (∀ (r' : LeaveGroupResponse) (pd rest : List Byte),
      LeaveGroupResponse.zero.decode pd 0 = Res.ok (r', rest) → r'.throttleTime = 0) ∧
    (∀ (r' : OffsetCommitResponse) (pd rest : List Byte) (v : Int), v < 3 →
      OffsetCommitResponse.zero.decode pd v = Res.ok (r', rest) → r'.throttleTime = 0) ∧
    (∀ r : LeaveGroupResponse, IsInt32 r.ThrottleTime →
      r.throttleTime = r.ThrottleTime * 1000000) ∧
    (∀ r : OffsetCommitResponse, IsInt32 r.ThrottleTimeMs →
      r.throttleTime = r.ThrottleTimeMs * 1000000) := by
  have hl : ∀ (r r' : LeaveGroupResponse) (pd rest : List Byte),
      r.decode pd 0 = Res.ok (r', rest) → r'.ThrottleTime = r.ThrottleTime := by
    intro r r' pd rest h
    unfold LeaveGroupResponse.decode at h
    have h1 : ¬ ((0 : Int) ≥ 1) := by decide
    have h3 : ¬ ((0 : Int) ≥ 3) := by decide
    simp only [h1, h3, if_false, bind, Res.bind_eq_ok] at h
    obtain ⟨a, ha, h⟩ := h
    cases ha
    obtain ⟨b, -, h⟩ := h
    cases h
    rfl
  have hc : ∀ (r r' : OffsetCommitResponse) (pd rest : List Byte) (v : Int), v < 3 →
      r.decode pd v = Res.ok (r', rest) → r'.ThrottleTimeMs = r.ThrottleTimeMs := by
    intro r r' pd rest v hv h
    unfold OffsetCommitResponse.decode at h
    have h3 : ¬ (v ≥ 3) := by omega
    simp only [h3, if_false, bind, Res.bind_eq_ok] at h
    obtain ⟨a, ha, h⟩ := h
    cases ha
    obtain ⟨b, -, h⟩ := h
    split at h
    · cases h
      rfl
    · simp only [Res.bind_eq_ok] at h
      obtain ⟨c, -, h⟩ := h
      cases h
      rfl
  refine ⟨fun _ _ => rfl, fun _ _ => rfl, ?_, ?_, hl, hc, ?_, ?_,
    fun r h => msToDuration_of_isInt32 r.ThrottleTime h,
    fun r h => msToDuration_of_isInt32 r.ThrottleTimeMs h⟩
  · intro r _ h0
    unfold LeaveGroupResponse.throttleTime
    rw [h0]
    exact msToDuration_zero
  · intro r _ h0
    unfold OffsetCommitResponse.throttleTime
    rw [h0]
    exact msToDuration_zero
  · intro r' pd rest h
    unfold LeaveGroupResponse.throttleTime
    rw [hl _ _ _ _ h]
    exact msToDuration_zero
  · intro r' pd rest v hv h
    unfold OffsetCommitResponse.throttleTime
    rw [hc _ _ _ _ v hv h]
    exact msToDuration_zero

/-- Witness of C16: the two-byte version 0 body `00 00` decodes into a fresh
LeaveGroupResponse that reports no throttle time, and so does the empty version 2
OffsetCommitResponse body; a LeaveGroupResponse whose field holds 250 reports 250 ms
and an OffsetCommitResponse whose field holds -3 reports -3 ms. -/
theorem throttleTime_zero_without_field_witness :
    (⟨1, 250, 0, []⟩ : LeaveGroupResponse).throttleTime = 250 * 1000000 ∧
    (⟨3, -3, none⟩ : OffsetCommitResponse).throttleTime = -3 * 1000000 ∧
    LeaveGroupResponse.zero.decode [0, 0] 0 = Res.ok (⟨0, 0, 0, []⟩, []) ∧
    (⟨0, 0, 0, []⟩ : LeaveGroupResponse).throttleTime = 0 ∧
    OffsetCommitResponse.zero.decode [0, 0, 0, 0] 2 = Res.ok (⟨2, 0, none⟩, []) ∧
    (⟨2, 0, none⟩ : OffsetCommitResponse).throttleTime = 0 ∧
    (⟨0, 0, 7, []⟩ : LeaveGroupResponse).throttleTime = 0 ∧
    (⟨1, 0, none⟩ : OffsetCommitResponse).throttleTime = 0 :=
  ⟨throttleTime_zero_without_field.2.2.2.2.2.2.2.2.1 ⟨1, 250, 0, []⟩ (by decide),
    throttleTime_zero_without_field.2.2.2.2.2.2.2.2.2 ⟨3, -3, none⟩
      (by show IsInt32 (-3); unfold IsInt32; omega),
    by decide,
    throttleTime_zero_without_field.2.2.2.2.2.2.1 _ [0, 0] [] (by decide),
    by decide,
    throttleTime_zero_without_field.2.2.2.2.2.2.2.1 _ [0, 0, 0, 0] [] 2 (by decide)
      (by decide),
    throttleTime_zero_without_field.2.2.1 ⟨0, 0, 7, []⟩ rfl rfl,
    throttleTime_zero_without_field.2.2.2.1 ⟨1, 0, none⟩ (by decide) rfl⟩

/-! ## Decode and the version number -/

theorem Res.map_bind {α β γ : Type} (f : β → γ) (x : Res α) (g : α → Res β) :
    Res.map f (x.bind g) = x.bind (fun a => Res.map f (g a)) := by
  cases x <;> rfl

theorem Res.bind_assoc {α β γ : Type} (x : Res α) (g : α → Res β) (h : β → Res γ) :
    (x.bind g).bind h = x.bind (fun a => (g a).bind h) := by
  cases x <;> rfl

theorem Res.ok_bind {α β : Type} (a : α) (g : α → Res β) : (Res.ok a).bind g = g a := rfl

theorem Res.map_ite {α β : Type} (f : α → β) (c : Prop) [Decidable c] (a b : Res α) :
    Res.map f (if c then a else b) = if c then Res.map f a else Res.map f b := by
  split <;> rfl

theorem Res.map_ok {α β : Type} (f : α → β) (a : α) : Res.map f (Res.ok a) = Res.ok (f a) := rfl

theorem offsetCommitRequestBlock.block_decode_above (b : offsetCommitRequestBlock)
    (pd : List Byte) (v : Int) (hv : v > 7) : b.decode pd v = b.decode pd 7 := by
  unfold offsetCommitRequestBlock.decode
  have h1 : ¬ v = 1 := by omega
  have h6 : v ≥ 6 := by omega
  have h1' : ¬ (7 : Int) = 1 := by decide
  have h6' : (7 : Int) ≥ 6 := by decide
  simp only [h1, h6, h1', h6', if_true, if_false]

theorem offsetCommitRequestBlock.block_decode_below (b : offsetCommitRequestBlock)
    (pd : List Byte) (v : Int) (hv : v < 0) : b.decode pd v = b.decode pd 0 := by
  unfold offsetCommitRequestBlock.decode
  have h1 : ¬ v = 1 := by omega
  have h6 : ¬ v ≥ 6 := by omega
  have h1' : ¬ (0 : Int) = 1 := by decide
  have h6' : ¬ (0 : Int) ≥ 6 := by decide
  simp only [h1, h6, h1', h6', if_true, if_false]

theorem OffsetCommitRequest.decodePartitions_version (v w : Int)
    (h : ∀ (b : offsetCommitRequestBlock) (pd : List Byte), b.decode pd v = b.decode pd w)
    (n : Nat) (pd : List Byte) (m : List (Int × offsetCommitRequestBlock)) :
    OffsetCommitRequest.decodePartitions v n pd m =
      OffsetCommitRequest.decodePartitions w n pd m := by
  induction n generalizing pd m with
  | zero => rfl
  | succ n ih =>
    simp only [OffsetCommitRequest.decodePartitions, h, ih]

theorem OffsetCommitRequest.decodeTopics_version (v w : Int)
    (h : ∀ (b : offsetCommitRequestBlock) (pd : List Byte), b.decode pd v = b.decode pd w)
    (n : Nat) (pd : List Byte) (m : List (GoString × List (Int × offsetCommitRequestBlock))) :
    OffsetCommitRequest.decodeTopics v n pd m =
      OffsetCommitRequest.decodeTopics w n pd m := by
  induction n generalizing pd m with
  | zero => rfl
  | succ n ih =>
    simp only [OffsetCommitRequest.decodeTopics, OffsetCommitRequest.decodePartitions_version v w h,
      ih]

theorem OffsetCommitRequest.commitRequest_decode_above (r : OffsetCommitRequest)
    (pd : List Byte) (v : Int) (hv : v > 7) :
    r.decode pd v =
      Res.map (fun p => (p.1.setVersion v, p.2)) (r.decode pd 7) := by
  unfold OffsetCommitRequest.decode
  have h1 : v ≥ 1 := by omega
  have h2 : ¬ (v ≥ 2 ∧ v ≤ 4) := by omega
  have h7 : v ≥ 7 := by omega
  have h1' : (7 : Int) ≥ 1 := by decide
  have h2' : ¬ ((7 : Int) ≥ 2 ∧ (7 : Int) ≤ 4) := by decide
  have h7' : (7 : Int) ≥ 7 := by decide
  simp only [h1, h2, h7, h1', h2', h7', if_true, if_false, bind, Res.bind_assoc, Res.ok_bind,
    Res.map_bind, Res.map_ok, Res.map_ite,
    OffsetCommitRequest.setVersion,
    OffsetCommitRequest.decodeTopics_version v 7
      (fun b pd => offsetCommitRequestBlock.block_decode_above b pd v hv)]

theorem OffsetCommitRequest.commitRequest_decode_below (r : OffsetCommitRequest)
    (pd : List Byte) (v : Int) (hv : v < 0) :
    r.decode pd v =
      Res.map (fun p => (p.1.setVersion v, p.2)) (r.decode pd 0) := by
  unfold OffsetCommitRequest.decode
  have h1 : ¬ v ≥ 1 := by omega
  have h2 : ¬ (v ≥ 2 ∧ v ≤ 4) := by omega
  have h7 : ¬ v ≥ 7 := by omega
  have h1' : ¬ (0 : Int) ≥ 1 := by decide
  have h2' : ¬ ((0 : Int) ≥ 2 ∧ (0 : Int) ≤ 4) := by decide
  have h7' : ¬ (0 : Int) ≥ 7 := by decide
  simp only [h1, h2, h7, h1', h2', h7', if_true, if_false, bind, Res.bind_assoc, Res.ok_bind,
    Res.map_bind, Res.map_ok, Res.map_ite,
    OffsetCommitRequest.setVersion,
    OffsetCommitRequest.decodeTopics_version v 0
      (fun b pd => offsetCommitRequestBlock.block_decode_below b pd v hv)]

theorem OffsetCommitResponse.commitResponse_decode_above (r : OffsetCommitResponse)
    (pd : List Byte) (v : Int) (hv : v > 7) :
    r.decode pd v =
      Res.map (fun p => (p.1.setVersion v, p.2)) (r.decode pd 7) := by
  unfold OffsetCommitResponse.decode
  have h3 : v ≥ 3 := by omega
  have h3' : (7 : Int) ≥ 3 := by decide
  simp only [h3, h3', if_true, if_false, bind, Res.bind_assoc, Res.ok_bind,
    Res.map_bind, Res.map_ok, Res.map_ite,
    OffsetCommitResponse.setVersion]

theorem OffsetCommitResponse.commitResponse_decode_below (r : OffsetCommitResponse)
    (pd : List Byte) (v : Int) (hv : v < 0) :
    r.decode pd v =
      Res.map (fun p => (p.1.setVersion v, p.2)) (r.decode pd 0) := by
  unfold OffsetCommitResponse.decode
  have h3 : ¬ v ≥ 3 := by omega
  have h3' : ¬ (0 : Int) ≥ 3 := by decide
  simp only [h3, h3', if_true, if_false, bind, Res.bind_assoc, Res.ok_bind,
    Res.map_bind, Res.map_ok, Res.map_ite,
    OffsetCommitResponse.setVersion]

theorem LeaveGroupResponse.leaveGroup_decode_above (r : LeaveGroupResponse)
    (pd : List Byte) (v : Int) (hv : v > 3) :
    r.decode pd v =
      Res.map (fun p => (p.1.setVersion v, p.2)) (r.decode pd 3) := by
  unfold LeaveGroupResponse.decode
  have h1 : v ≥ 1 := by omega
  have h3 : v ≥ 3 := by omega
  have h1' : (3 : Int) ≥ 1 := by decide
  have h3' : (3 : Int) ≥ 3 := by decide
  simp only [h1, h3, h1', h3', if_true, if_false, bind, Res.bind_assoc, Res.ok_bind,
    Res.map_bind, Res.map_ok, Res.map_ite,
    LeaveGroupResponse.setVersion]

theorem LeaveGroupResponse.leaveGroup_decode_below (r : LeaveGroupResponse)
    (pd : List Byte) (v : Int) (hv : v < 0) :
    r.decode pd v =
      Res.map (fun p => (p.1.setVersion v, p.2)) (r.decode pd 0) := by
  unfold LeaveGroupResponse.decode
  have h1 : ¬ v ≥ 1 := by omega
  have h3 : ¬ v ≥ 3 := by omega
  have h1' : ¬ (0 : Int) ≥ 1 := by decide
  have h3' : ¬ (0 : Int) ≥ 3 := by decide
  simp only [h1, h3, h1', h3', if_true, if_false, bind, Res.bind_assoc, Res.ok_bind,
    Res.map_bind, Res.map_ok, Res.map_ite,
    LeaveGroupResponse.setVersion]

theorem OffsetFetchRequest.fetchRequest_decode_above (r : OffsetFetchRequest)
    (pd : List Byte) (v : Int) (hv : v > 7) :
    r.decode pd v =
      Res.map (fun p => (p.1.setVersion v, p.2)) (r.decode pd 7) := by
  unfold OffsetFetchRequest.decode
  have h6 : v ≥ 6 := by omega
  have h2 : ¬ v < 2 := by omega
  have h7 : v ≥ 7 := by omega
  have h6' : (7 : Int) ≥ 6 := by decide
  have h2' : ¬ (7 : Int) < 2 := by decide
  have h7' : (7 : Int) ≥ 7 := by decide
  simp only [h6, h2, h7, h6', h2', h7', decide_True, and_false, false_or, if_true, if_false,
    bind, Res.bind_assoc, Res.ok_bind, Res.map_bind, Res.map_ok, Res.map_ite,
    OffsetFetchRequest.setVersion]

theorem OffsetFetchRequest.fetchRequest_decode_below (r : OffsetFetchRequest)
    (pd : List Byte) (v : Int) (hv : v < 0) :
    r.decode pd v =
      Res.map (fun p => (p.1.setVersion v, p.2)) (r.decode pd 0) := by
  unfold OffsetFetchRequest.decode
  have h6 : ¬ v ≥ 6 := by omega
  have h2 : v < 2 := by omega
  have h7 : ¬ v ≥ 7 := by omega
  have h6' : ¬ (0 : Int) ≥ 6 := by decide
  have h2' : (0 : Int) < 2 := by decide
  have h7' : ¬ (0 : Int) ≥ 7 := by decide
  simp only [h6, h2, h7, h6', h2', h7', decide_False, and_true, if_true, if_false,
    Bool.false_eq_true,
    bind, Res.bind_assoc, Res.ok_bind, Res.map_bind, Res.map_ok, Res.map_ite,
    OffsetFetchRequest.setVersion]

theorem AddPartitionsToTxnResponse.decodePartitionErrors_version (v w : Int) (n : Nat)
    (pd : List Byte) :
    AddPartitionsToTxnResponse.decodePartitionErrors v n pd =
      AddPartitionsToTxnResponse.decodePartitionErrors w n pd := by
  induction n generalizing pd with
  | zero => rfl
  | succ n ih =>
    simp only [AddPartitionsToTxnResponse.decodePartitionErrors, PartitionError.decode, ih]

theorem AddPartitionsToTxnResponse.addPartitions_decodeTopics_version (v w : Int) (n : Nat)
    (pd : List Byte) (m : List (GoString × List PartitionError)) :
    AddPartitionsToTxnResponse.decodeTopics v n pd m =
      AddPartitionsToTxnResponse.decodeTopics w n pd m := by
  induction n generalizing pd m with
  | zero => rfl
  | succ n ih =>
    simp only [AddPartitionsToTxnResponse.decodeTopics,
      AddPartitionsToTxnResponse.decodePartitionErrors_version v w, ih]

theorem AddPartitionsToTxnResponse.addPartitions_decode_version (a : AddPartitionsToTxnResponse)
    (pd : List Byte) (v w : Int) :
    a.decode pd v =
      Res.map (fun p => (p.1.setVersion v, p.2)) (a.decode pd w) := by
  unfold AddPartitionsToTxnResponse.decode
  simp only [bind, Res.bind_assoc, Res.ok_bind, Res.map_bind, Res.map_ok, Res.map_ite,
    AddPartitionsToTxnResponse.setVersion,
    AddPartitionsToTxnResponse.addPartitions_decodeTopics_version v w]

theorem CreateAclsResponse.decodeResponses_version (v w : Int) (n : Nat) (pd : List Byte) :
    CreateAclsResponse.decodeResponses v n pd = CreateAclsResponse.decodeResponses w n pd := by
  induction n generalizing pd with
  | zero => rfl
  | succ n ih =>
    simp only [CreateAclsResponse.decodeResponses, AclCreationResponse.decode, ih]

theorem CreateAclsResponse.createAcls_decode_version (c : CreateAclsResponse)
    (pd : List Byte) (v w : Int) : c.decode pd v = c.decode pd w := by
  unfold CreateAclsResponse.decode
  simp only [CreateAclsResponse.decodeResponses_version v w]

theorem DescribeAclsResponse.decodeResourceAcls_version {α : Type}
    (codec : ResourceAclsCodec α) (v w : Int)
    (h : ∀ pd, codec.decode pd v = codec.decode pd w) (n : Nat) (pd : List Byte) :
    DescribeAclsResponse.decodeResourceAcls codec v n pd =
      DescribeAclsResponse.decodeResourceAcls codec w n pd := by
  induction n generalizing pd with
  | zero => rfl
  | succ n ih =>
    simp only [DescribeAclsResponse.decodeResourceAcls, h, ih]

theorem DescribeAclsResponse.describeAcls_decode_version {α : Type}
    (codec : ResourceAclsCodec α) (v w : Int)
    (h : ∀ pd, codec.decode pd v = codec.decode pd w) (d : DescribeAclsResponse α)
    (pd : List Byte) : d.decode codec pd v = d.decode codec pd w := by
  unfold DescribeAclsResponse.decode
  simp only [DescribeAclsResponse.decodeResourceAcls_version codec v w h]

/-- Counterexample to C11: OffsetCommitRequest.decode at version 8 accepts the
well-formed version 7 body of the scenario request, and at version -1 it accepts a
well-formed version 0 body; both return the decoded request, no error. -/
theorem commitRequest_decode_version_eight :
    OffsetCommitRequest.scenario.encode.err = none ∧
    OffsetCommitRequest.zero.decode OffsetCommitRequest.scenario.encode.out 8 =
      Res.ok (OffsetCommitRequest.scenario.setVersion 8, []) ∧
    OffsetCommitRequest.zero.decode OffsetCommitRequest.bodyV0 (-1) =
      Res.ok (⟨[103, 49], 0, [], none, 0, -1, none⟩, []) := by
  decide

/-- C11 (amended): decode does not reject an unknown version. For a version above the
type's maximum it behaves as at the maximum, and for a negative version as at version
0, with the same error, panic or decoded value; only the stored Version is the version
passed in. AddPartitionsToTxnResponse reads the same bytes at every version,
CreateAclsResponse.decode does not depend on the version at all, and
DescribeAclsResponse.decode depends on it only through the nested ResourceAcls decoder. -/
theorem decode_accepts_unknown_version {α : Type} (codec : ResourceAclsCodec α)
    (pd : List Byte) (v : Int) (cr : OffsetCommitRequest) (cs : OffsetCommitResponse)
    (fr : OffsetFetchRequest) (lg : LeaveGroupResponse) (ap : AddPartitionsToTxnResponse)
    (ca : CreateAclsResponse) (da : DescribeAclsResponse α) :
    (v > 7 → cr.decode pd v = Res.map (fun p => (p.1.setVersion v, p.2)) (cr.decode pd 7)) ∧
    (v < 0 → cr.decode pd v = Res.map (fun p => (p.1.setVersion v, p.2)) (cr.decode pd 0)) ∧
    (v > 7 → cs.decode pd v = Res.map (fun p => (p.1.setVersion v, p.2)) (cs.decode pd 7)) ∧
    (v < 0 → cs.decode pd v = Res.map (fun p => (p.1.setVersion v, p.2)) (cs.decode pd 0)) ∧
    (v > 7 → fr.decode pd v = Res.map (fun p => (p.1.setVersion v, p.2)) (fr.decode pd 7)) ∧
    (v < 0 → fr.decode pd v = Res.map (fun p => (p.1.setVersion v, p.2)) (fr.decode pd 0)) ∧
    (v > 3 → lg.decode pd v = Res.map (fun p => (p.1.setVersion v, p.2)) (lg.decode pd 3)) ∧
    (v < 0 → lg.decode pd v = Res.map (fun p => (p.1.setVersion v, p.2)) (lg.decode pd 0)) ∧
    (v > 2 → ap.decode pd v = Res.map (fun p => (p.1.setVersion v, p.2)) (ap.decode pd 2)) ∧
    (v < 0 → ap.decode pd v = Res.map (fun p => (p.1.setVersion v, p.2)) (ap.decode pd 0)) ∧
    (v > 1 → ca.decode pd v = ca.decode pd 1) ∧
    (v < 0 → ca.decode pd v = ca.decode pd 0) ∧
    (∀ w : Int, (∀ bytes, codec.decode bytes v = codec.decode bytes w) →
      da.decode codec pd v = da.decode codec pd w) :=
  ⟨OffsetCommitRequest.commitRequest_decode_above cr pd v,
    OffsetCommitRequest.commitRequest_decode_below cr pd v,
    OffsetCommitResponse.commitResponse_decode_above cs pd v,
    OffsetCommitResponse.commitResponse_decode_below cs pd v,
    OffsetFetchRequest.fetchRequest_decode_above fr pd v,
    OffsetFetchRequest.fetchRequest_decode_below fr pd v,
    LeaveGroupResponse.leaveGroup_decode_above lg pd v,
    LeaveGroupResponse.leaveGroup_decode_below lg pd v,
    fun _ => AddPartitionsToTxnResponse.addPartitions_decode_version ap pd v 2,
    fun _ => AddPartitionsToTxnResponse.addPartitions_decode_version ap pd v 0,
    fun _ => CreateAclsResponse.createAcls_decode_version ca pd v 1,
    fun _ => CreateAclsResponse.createAcls_decode_version ca pd v 0,
    fun w h => DescribeAclsResponse.describeAcls_decode_version codec v w h da pd⟩

/-- Witness of C11: version 8 and version -1 on the twelve zero bytes. -/
theorem decode_accepts_unknown_version_witness :
    OffsetCommitRequest.zero.decode (zeroBody 12) 8 =
      Res.map (fun p => (p.1.setVersion 8, p.2)) (OffsetCommitRequest.zero.decode (zeroBody 12) 7) ∧
    LeaveGroupResponse.zero.decode (zeroBody 12) 8 =
      Res.map (fun p => (p.1.setVersion 8, p.2)) (LeaveGroupResponse.zero.decode (zeroBody 12) 3) ∧
    CreateAclsResponse.zero.decode (zeroBody 12) 8 = CreateAclsResponse.zero.decode (zeroBody 12) 1 ∧
    OffsetFetchRequest.zero.decode (zeroBody 12) (-1) =
      Res.map (fun p => (p.1.setVersion (-1), p.2)) (OffsetFetchRequest.zero.decode (zeroBody 12) 0) ∧
    DescribeAclsResponse.zero.decode ResourceAclsCodec.unit (zeroBody 12) 8 =
      DescribeAclsResponse.zero.decode ResourceAclsCodec.unit (zeroBody 12) 1 :=
  ⟨(decode_accepts_unknown_version ResourceAclsCodec.unit (zeroBody 12) 8
      OffsetCommitRequest.zero OffsetCommitResponse.zero OffsetFetchRequest.zero
      LeaveGroupResponse.zero AddPartitionsToTxnResponse.zero CreateAclsResponse.zero
      DescribeAclsResponse.zero).1 (by decide),
    (decode_accepts_unknown_version ResourceAclsCodec.unit (zeroBody 12) 8
      OffsetCommitRequest.zero OffsetCommitResponse.zero OffsetFetchRequest.zero
      LeaveGroupResponse.zero AddPartitionsToTxnResponse.zero CreateAclsResponse.zero
      DescribeAclsResponse.zero).2.2.2.2.2.2.1 (by decide),
    (decode_accepts_unknown_version ResourceAclsCodec.unit (zeroBody 12) 8
      OffsetCommitRequest.zero OffsetCommitResponse.zero OffsetFetchRequest.zero
      LeaveGroupResponse.zero AddPartitionsToTxnResponse.zero CreateAclsResponse.zero
      DescribeAclsResponse.zero).2.2.2.2.2.2.2.2.2.2.1 (by decide),
    (decode_accepts_unknown_version ResourceAclsCodec.unit (zeroBody 12) (-1)
      OffsetCommitRequest.zero OffsetCommitResponse.zero OffsetFetchRequest.zero
      LeaveGroupResponse.zero AddPartitionsToTxnResponse.zero CreateAclsResponse.zero
      DescribeAclsResponse.zero).2.2.2.2.2.1 (by omega),
    (decode_accepts_unknown_version ResourceAclsCodec.unit (zeroBody 12) 8
      OffsetCommitRequest.zero OffsetCommitResponse.zero OffsetFetchRequest.zero
      LeaveGroupResponse.zero AddPartitionsToTxnResponse.zero CreateAclsResponse.zero
      DescribeAclsResponse.zero).2.2.2.2.2.2.2.2.2.2.2.2 1 (fun _ => rfl)⟩

/-! ## Fields dropped by the version -/

/-- C15 at the failing input: encoding the version 0 request that holds a group instance
id and a committedLeaderEpoch succeeds, writes the bytes of the request without them,
and emits no Logger line at all; the same request with a RetentionTime of 5 gets its
one line. -/
theorem commitRequest_encode_drops_silently :
    OffsetCommitRequest.silentDrop.isValidVersion = true ∧
    OffsetCommitRequest.silentDrop.GroupInstanceId = some [105, 49] ∧
    OffsetCommitRequest.silentDrop.encode.err = none ∧
    OffsetCommitRequest.silentDrop.encode.out =
      OffsetCommitRequest.silentDropDefaults.encode.out ∧
    OffsetCommitRequest.silentDrop.encode.log = [] ∧
    ({ OffsetCommitRequest.silentDrop with Version := 6 }).encode.err = none ∧
    ({ OffsetCommitRequest.silentDrop with Version := 6 }).encode.log = [] ∧
    ({ OffsetCommitRequest.silentDrop with RetentionTime := 5 }).encode.log.length = 1 := by
  decide

/-! ## Throttle time on the wire -/

theorem durationToMs_isInt32 (d : Int) : IsInt32 (durationToMs d) := by
  unfold IsInt32 durationToMs
  simp only [signed, wrap, Nat.reducePow, Nat.reduceSub, Int.reducePow]
  have hn : (((Int.tdiv d Millisecond) % 4294967296).toNat : Int) =
      (Int.tdiv d Millisecond) % 4294967296 :=
    Int.toNat_of_nonneg (Int.emod_nonneg _ (by norm_num))
  generalize ((Int.tdiv d Millisecond) % 4294967296).toNat = n at hn ⊢
  split <;> omega

theorem durationToMs_of_isInt32 (q : Int) (h : IsInt32 q) : signed 32 (wrap 32 q) = q := by
  unfold IsInt32 at h
  simp only [signed, wrap, Nat.reducePow, Nat.reduceSub, Int.reducePow]
  have hn : ((q % 4294967296).toNat : Int) = q % 4294967296 :=
    Int.toNat_of_nonneg (Int.emod_nonneg _ (by norm_num))
  generalize (q % 4294967296).toNat = n at hn ⊢
  split <;> omega

theorem durationToMs_msToDuration (t : Int) (h : IsInt32 t) :
    durationToMs (msToDuration t) = t := by
  rw [msToDuration_of_isInt32 t h]
  unfold durationToMs Millisecond
  rw [Int.mul_tdiv_cancel _ (by norm_num)]
  exact durationToMs_of_isInt32 t h

theorem msToDuration_durationToMs_iff (d : Int) :
    msToDuration (durationToMs d) = d ↔ WholeMs d := by
  rw [msToDuration_of_isInt32 _ (durationToMs_isInt32 d)]
  unfold WholeMs
  constructor
  · intro h
    have hi := durationToMs_isInt32 d
    generalize durationToMs d = k at h hi
    unfold IsInt32 at *
    omega
  · rintro ⟨h0, hk⟩
    have hd : d = (d / 1000000) * 1000000 := by omega
    generalize d / 1000000 = k at hd hk
    subst hd
    unfold durationToMs Millisecond
    rw [Int.mul_tdiv_cancel _ (by norm_num), durationToMs_of_isInt32 k hk]

theorem putInt32_durationToMs (d : Int) :
    (putInt32 (durationToMs d)).out = beBytes 4 (wrap 32 (Int.tdiv d 1000000)) := by
  unfold putInt32 durationToMs Millisecond
  simp only [Enc.bytes]
  congr 1
  simp only [signed, wrap, Nat.reducePow, Nat.reduceSub, Int.reducePow]
  generalize Int.tdiv d 1000000 = q
  have hn : ((q % 4294967296).toNat : Int) = q % 4294967296 :=
    Int.toNat_of_nonneg (Int.emod_nonneg _ (by norm_num))
  generalize (q % 4294967296).toNat = n at hn ⊢
  split
  · have : ((n : Int) % 4294967296) = n := by omega
    rw [this]
    exact Int.toNat_ofNat n
  · have : (((n : Int) - 4294967296) % 4294967296) = n := by omega
    rw [this]
    exact Int.toNat_ofNat n

theorem getInt32_beBytes_wrap (t : Int) (h : IsInt32 t) (rest : List Byte) :
    getInt32 (beBytes 4 (wrap 32 t) ++ rest) = Res.ok (t, rest) :=
  getInt32_putInt32 t h rest

theorem CreateAclsResponse.createAcls_encode_throttle (c : CreateAclsResponse) :
    ∃ tail, c.encode.out = beBytes 4 (wrap 32 (Int.tdiv c.ThrottleTime 1000000)) ++ tail := by
  unfold CreateAclsResponse.encode
  rw [Enc.seq_cons_out _ rfl, putInt32_durationToMs]
  exact ⟨_, rfl⟩

theorem AddPartitionsToTxnResponse.addPartitions_encode_throttle
    (a : AddPartitionsToTxnResponse) :
    ∃ tail, a.encode.out = beBytes 4 (wrap 32 (Int.tdiv a.ThrottleTime 1000000)) ++ tail := by
  unfold AddPartitionsToTxnResponse.encode
  rw [Enc.seq_cons_out _ rfl, putInt32_durationToMs]
  exact ⟨_, rfl⟩

theorem DescribeAclsResponse.describeAcls_encode_throttle {α : Type}
    (codec : ResourceAclsCodec α) (d : DescribeAclsResponse α) :
    ∃ tail, (d.encode codec).out =
      beBytes 4 (wrap 32 (Int.tdiv d.ThrottleTime 1000000)) ++ tail := by
  unfold DescribeAclsResponse.encode
  rw [Enc.seq_cons_out _ rfl, putInt32_durationToMs]
  exact ⟨_, rfl⟩

theorem CreateAclsResponse.createAcls_decode_throttle (c c' : CreateAclsResponse)
    (pd rest : List Byte) (v : Int) (h : c.decode pd v = Res.ok (c', rest)) :
    ∃ t tail, getInt32 pd = Res.ok (t, tail) ∧ c'.ThrottleTime = msToDuration t := by
  unfold CreateAclsResponse.decode at h
  simp only [bind, Res.bind_eq_ok] at h
  obtain ⟨⟨t, tail⟩, ht, _, _, _, _, _, _, h⟩ := h
  cases h
  exact ⟨t, tail, ht, rfl⟩

theorem AddPartitionsToTxnResponse.addPartitions_decode_throttle
    (a a' : AddPartitionsToTxnResponse)
    (pd rest : List Byte) (v : Int) (h : a.decode pd v = Res.ok (a', rest)) :
    ∃ t tail, getInt32 pd = Res.ok (t, tail) ∧ a'.ThrottleTime = msToDuration t := by
  unfold AddPartitionsToTxnResponse.decode at h
  simp only [bind, Res.bind_eq_ok] at h
  obtain ⟨⟨t, tail⟩, ht, _, _, _, _, h⟩ := h
  cases h
  exact ⟨t, tail, ht, rfl⟩

theorem DescribeAclsResponse.describeAcls_decode_throttle {α : Type}
    (codec : ResourceAclsCodec α) (d d' : DescribeAclsResponse α)
    (pd rest : List Byte) (v : Int) (h : d.decode codec pd v = Res.ok (d', rest)) :
    ∃ t tail, getInt32 pd = Res.ok (t, tail) ∧ d'.ThrottleTime = msToDuration t := by
  unfold DescribeAclsResponse.decode at h
  simp only [bind, Res.bind_eq_ok] at h
  obtain ⟨⟨t, tail⟩, ht, _, _, ⟨errmsg, _⟩, _, _, _, _, _, _, _, h⟩ := h
  refine ⟨t, tail, ht, ?_⟩
  cases h
  dsimp only
  split <;> rfl

theorem getInt32_encode_throttle (d : Int) (out tail : List Byte)
    (h : out = beBytes 4 (wrap 32 (Int.tdiv d 1000000)) ++ tail) :
    getInt32 out = Res.ok (durationToMs d, tail) := by
  rw [h, ← putInt32_durationToMs]
  exact getInt32_putInt32 _ (durationToMs_isInt32 d) tail

theorem tdiv_msToDuration (t : Int) (h : IsInt32 t) :
    Int.tdiv (msToDuration t) 1000000 = t := by
  rw [msToDuration_of_isInt32 t h, Int.mul_tdiv_cancel _ (by norm_num)]

theorem AclCreationResponse.creation_err (x : AclCreationResponse) (h : OptFits x.ErrMsg) :
    x.encode.err = none := by
  unfold AclCreationResponse.encode
  rw [Enc.seq_cons_err _ (putInt16_err _), Enc.seq_cons_err _ (putNullableString_err h)]
  rfl

theorem AclCreationResponse.creation_out (x : AclCreationResponse) (h : OptFits x.ErrMsg) :
    x.encode.out = (putInt16 x.Err).out ++ (putNullableString x.ErrMsg).out := by
  unfold AclCreationResponse.encode
  rw [Enc.seq_cons_out _ (putInt16_err _), Enc.seq_cons_out _ (putNullableString_err h)]
  simp [Enc.seq]

theorem CreateAclsResponse.decodeResponses_encode (v : Int) (xs : List AclCreationResponse)
    (h : ∀ x ∈ xs, IsInt16 x.Err ∧ OptFits x.ErrMsg) (rest : List Byte) :
    CreateAclsResponse.decodeResponses v xs.length
      ((Enc.forEach xs (fun x => x.encode)).out ++ rest) = Res.ok (xs, rest) := by
  induction xs with
  | nil => rfl
  | cons x xs ih =>
    obtain ⟨he, hm⟩ := h x (List.mem_cons_self x xs)
    have ih' := ih (fun y hy => h y (List.mem_cons_of_mem x hy))
    rw [Enc.forEach_cons_out x xs (fun x => x.encode) (AclCreationResponse.creation_err x hm),
      AclCreationResponse.creation_out x hm]
    simp only [List.length_cons, CreateAclsResponse.decodeResponses,
      AclCreationResponse.decode, List.append_assoc, getInt16_putInt16 _ he,
      getNullableString_putNullableString _ hm, bind, Res.bind, ih']

theorem CreateAclsResponse.responses_length_le (xs : List AclCreationResponse)
    (h : ∀ x ∈ xs, IsInt16 x.Err ∧ OptFits x.ErrMsg) :
    xs.length ≤ (Enc.forEach xs (fun x => x.encode)).out.length := by
  apply Enc.forEach_length_le
  intro x hx
  refine ⟨AclCreationResponse.creation_err x (h x hx).2, ?_⟩
  rw [AclCreationResponse.creation_out x (h x hx).2]
  simp only [List.length_append, length_putInt16]
  omega

/-- Decoding what `encode` wrote for creation responses that fit, into any receiver:
every byte is read and the responses come back. -/
theorem CreateAclsResponse.createAcls_decode_encode (c : CreateAclsResponse) (h : c.Fits)
    (c0 : CreateAclsResponse) (v : Int) :
    c0.decode c.encode.out v = Res.ok (⟨c0.Version,
      msToDuration (durationToMs c.ThrottleTime), c.AclCreationResponses⟩, []) := by
  obtain ⟨hc, hx⟩ := h
  have hloop := CreateAclsResponse.decodeResponses_encode v c.AclCreationResponses hx []
  have hlen := CreateAclsResponse.responses_length_le c.AclCreationResponses hx
  rw [List.append_nil] at hloop
  have hcount := getArrayLength_putArrayLength c.AclCreationResponses.length hc _ hlen
  have herr : (Enc.forEach c.AclCreationResponses (fun x => x.encode)).err = none :=
    Enc.forEach_err _ _ (fun x hx' => AclCreationResponse.creation_err x (hx x hx').2)
  have hneg : ¬ ((c.AclCreationResponses.length : Int) < 0) := by omega
  unfold CreateAclsResponse.encode CreateAclsResponse.decode
  rw [Enc.seq_cons_out _ rfl, Enc.seq_cons_out _ (putArrayLength_err hc),
    Enc.seq_cons_out _ herr]
  simp only [Enc.seq, Enc.skip_out, List.append_nil,
    getInt32_putInt32 _ (durationToMs_isInt32 _), hcount, bind, Res.bind, makeSlice, hneg,
    if_false, Int.toNat_ofNat, hloop]

theorem DescribeAclsResponse.decodeResourceAcls_encode {α : Type} (codec : ResourceAclsCodec α)
    (v : Int) (hcodec : codec.RoundTrips v) (xs : List α) (rest : List Byte) :
    DescribeAclsResponse.decodeResourceAcls codec v xs.length
      ((Enc.forEach xs (fun x => codec.encode x v)).out ++ rest) = Res.ok (xs, rest) := by
  induction xs with
  | nil => rfl
  | cons x xs ih =>
    rw [Enc.forEach_cons_out x xs (fun x => codec.encode x v) (hcodec x).1]
    simp only [List.length_cons, DescribeAclsResponse.decodeResourceAcls, List.append_assoc,
      (hcodec x).2.2, bind, Res.bind, ih]

/-- Decoding what `encode` wrote for a response that fits, with a codec that reads back
what it writes, into any receiver: every byte is read, and the throttle time stored is
the int32 written, in milliseconds. -/
theorem DescribeAclsResponse.describeAcls_decode_encode {α : Type}
    (codec : ResourceAclsCodec α) (d : DescribeAclsResponse α)
    (hcodec : codec.RoundTrips d.Version) (h : d.Fits) (d0 : DescribeAclsResponse α) :
    ∃ d', d0.decode codec (d.encode codec).out d.Version = Res.ok (d', []) ∧
      d'.ThrottleTime = msToDuration (durationToMs d.ThrottleTime) ∧ d'.Err = d.Err ∧
      d'.ResourceAcls = d.ResourceAcls := by
  obtain ⟨he, ⟨s, hs, hl⟩, hc⟩ := h
  have hloop := DescribeAclsResponse.decodeResourceAcls_encode codec d.Version hcodec
    d.ResourceAcls []
  have hlen : d.ResourceAcls.length ≤
      (Enc.forEach d.ResourceAcls (fun x => codec.encode x d.Version)).out.length :=
    Enc.forEach_length_le _ _ (fun x _ => ⟨(hcodec x).1, (hcodec x).2.1⟩)
  rw [List.append_nil] at hloop
  have hcount := getArrayLength_putArrayLength d.ResourceAcls.length hc _ hlen
  have herr : (Enc.forEach d.ResourceAcls (fun x => codec.encode x d.Version)).err = none :=
    Enc.forEach_err _ _ (fun x _ => (hcodec x).1)
  have hneg : ¬ ((d.ResourceAcls.length : Int) < 0) := by omega
  have hfit : OptFits d.ErrMsg := by
    rw [hs]
    exact hl
  have hput : putNullableString d.ErrMsg = putString s := by
    rw [hs]
    rfl
  unfold DescribeAclsResponse.encode DescribeAclsResponse.decode
  rw [Enc.seq_cons_out _ rfl, Enc.seq_cons_out _ (putInt16_err _),
    Enc.seq_cons_out _ (putNullableString_err hfit),
    Enc.seq_cons_out _ (putArrayLength_err hc), Enc.seq_cons_out _ herr, hput]
  simp only [Enc.seq, Enc.skip_out, List.append_nil, List.append_assoc,
    getInt32_putInt32 _ (durationToMs_isInt32 _), getInt16_putInt16 _ he,
    getString_putString _ hl, hcount, bind, Res.bind, makeSlice, hneg,
    if_false, Int.toNat_ofNat, hloop]
  refine ⟨_, rfl, ?_, ?_, rfl⟩
  · dsimp only
    split <;> rfl
  · dsimp only
    split <;> rfl

theorem PartitionError.partitionError_out (p : PartitionError) :
    p.encode.out = (putInt32 p.Partition).out ++ (putInt16 p.Err).out := by
  unfold PartitionError.encode
  rw [Enc.seq_cons_out _ (putInt32_err _), Enc.seq_cons_out _ (putInt16_err _)]
  simp [Enc.seq]

theorem PartitionError.partitionError_err (p : PartitionError) : p.encode.err = none := by
  unfold PartitionError.encode
  rw [Enc.seq_cons_err _ (putInt32_err _), Enc.seq_cons_err _ (putInt16_err _)]
  rfl

theorem AddPartitionsToTxnResponse.decodePartitionErrors_encode (v : Int)
    (ps : List PartitionError) (h : ∀ p ∈ ps, IsInt32 p.Partition ∧ IsInt16 p.Err)
    (rest : List Byte) :
    AddPartitionsToTxnResponse.decodePartitionErrors v ps.length
      ((Enc.forEach ps (fun p => p.encode)).out ++ rest) = Res.ok (ps, rest) := by
  induction ps with
  | nil => rfl
  | cons p ps ih =>
    obtain ⟨hp, he⟩ := h p (List.mem_cons_self p ps)
    have ih' := ih (fun y hy => h y (List.mem_cons_of_mem p hy))
    rw [Enc.forEach_cons_out p ps (fun p => p.encode) (PartitionError.partitionError_err p),
      PartitionError.partitionError_out p]
    simp only [List.length_cons, AddPartitionsToTxnResponse.decodePartitionErrors,
      PartitionError.decode, List.append_assoc, getInt32_putInt32 _ hp,
      getInt16_putInt16 _ he, bind, Res.bind, ih']

theorem AddPartitionsToTxnResponse.partitionErrors_length_le (ps : List PartitionError) :
    ps.length ≤ (Enc.forEach ps (fun p => p.encode)).out.length := by
  apply Enc.forEach_length_le
  intro p _
  refine ⟨PartitionError.partitionError_err p, ?_⟩
  rw [PartitionError.partitionError_out p]
  simp only [List.length_append, length_putInt32]
  omega

theorem AddPartitionsToTxnResponse.addPartitions_topic_err (te : GoString × List PartitionError)
    (hs : te.1.length ≤ 32767) (hc : te.2.length ≤ 2147483647) :
    (Enc.seq [putString te.1, putArrayLength te.2.length,
      Enc.forEach te.2 (fun p => p.encode)]).err = none := by
  rw [Enc.seq_cons_err _ (putString_err hs), Enc.seq_cons_err _ (putArrayLength_err hc),
    Enc.seq_cons_err _ (Enc.forEach_err _ _ (fun p _ => PartitionError.partitionError_err p))]
  rfl

theorem AddPartitionsToTxnResponse.addPartitions_topic_out (te : GoString × List PartitionError)
    (hs : te.1.length ≤ 32767) (hc : te.2.length ≤ 2147483647) :
    (Enc.seq [putString te.1, putArrayLength te.2.length,
      Enc.forEach te.2 (fun p => p.encode)]).out =
      (putString te.1).out ++ ((putArrayLength te.2.length).out ++
        (Enc.forEach te.2 (fun p => p.encode)).out) := by
  rw [Enc.seq_cons_out _ (putString_err hs), Enc.seq_cons_out _ (putArrayLength_err hc),
    Enc.seq_cons_out _ (Enc.forEach_err _ _ (fun p _ => PartitionError.partitionError_err p))]
  simp [Enc.seq]

theorem AddPartitionsToTxnResponse.addPartitions_decodeTopics_encode (v : Int)
    (ts : List (GoString × List PartitionError))
    (h : ∀ te ∈ ts, te.1.length ≤ 32767 ∧ te.2.length ≤ 2147483647 ∧
      ∀ p ∈ te.2, IsInt32 p.Partition ∧ IsInt16 p.Err)
    (acc : List (GoString × List PartitionError)) (rest : List Byte) :
    AddPartitionsToTxnResponse.decodeTopics v ts.length
      ((Enc.forEach ts (fun te => Enc.seq [putString te.1, putArrayLength te.2.length,
        Enc.forEach te.2 (fun p => p.encode)])).out ++ rest) acc
      = Res.ok (ts.foldl (fun m e => mapSet m e.1 e.2) acc, rest) := by
  induction ts generalizing acc with
  | nil => rfl
  | cons te ts ih =>
    obtain ⟨hs, hc, hps⟩ := h te (List.mem_cons_self te ts)
    have ih' := ih (fun y hy => h y (List.mem_cons_of_mem te hy))
    have hlen := AddPartitionsToTxnResponse.partitionErrors_length_le te.2
    have hneg : ¬ ((te.2.length : Int) < 0) := by omega
    rw [Enc.forEach_cons_out te ts (fun te => Enc.seq [putString te.1,
        putArrayLength te.2.length, Enc.forEach te.2 (fun p => p.encode)])
      (AddPartitionsToTxnResponse.addPartitions_topic_err te hs hc),
      AddPartitionsToTxnResponse.addPartitions_topic_out te hs hc]
    simp only [List.length_cons, AddPartitionsToTxnResponse.decodeTopics, List.append_assoc,
      getString_putString _ hs, bind, Res.bind]
    rw [getArrayLength_putArrayLength _ hc _ (by simp only [List.length_append]; omega)]
    simp only [makeSlice, hneg, if_false, Int.toNat_ofNat,
      AddPartitionsToTxnResponse.decodePartitionErrors_encode v te.2 hps, List.foldl_cons]
    exact ih' _

theorem AddPartitionsToTxnResponse.addPartitions_topics_length_le
    (ts : List (GoString × List PartitionError))
    (h : ∀ te ∈ ts, te.1.length ≤ 32767 ∧ te.2.length ≤ 2147483647) :
    ts.length ≤ (Enc.forEach ts (fun te => Enc.seq [putString te.1,
      putArrayLength te.2.length, Enc.forEach te.2 (fun p => p.encode)])).out.length := by
  apply Enc.forEach_length_le
  intro te hte
  refine ⟨AddPartitionsToTxnResponse.addPartitions_topic_err te (h te hte).1 (h te hte).2, ?_⟩
  rw [AddPartitionsToTxnResponse.addPartitions_topic_out te (h te hte).1 (h te hte).2,
    putString_out (h te hte).1]
  simp only [List.length_append, length_putInt16]
  omega

/-- Decoding what `encode` wrote for topic entries that fit, into any receiver: every
byte is read, and the throttle time stored is the int32 written, in milliseconds. -/
theorem AddPartitionsToTxnResponse.addPartitions_decode_encode (a : AddPartitionsToTxnResponse)
    (h : a.Fits) (a0 : AddPartitionsToTxnResponse) (v : Int) :
    a0.decode a.encode.out v = Res.ok (⟨v, msToDuration (durationToMs a.ThrottleTime),
      some ((entries a.Errors).foldl (fun m e => mapSet m e.1 e.2) [])⟩, []) := by
  obtain ⟨hc, hx⟩ := h
  have hloop := AddPartitionsToTxnResponse.addPartitions_decodeTopics_encode v
    (entries a.Errors) hx [] []
  have hlen := AddPartitionsToTxnResponse.addPartitions_topics_length_le (entries a.Errors)
    (fun te hte => ⟨(hx te hte).1, (hx te hte).2.1⟩)
  rw [List.append_nil] at hloop
  have hcount := getArrayLength_putArrayLength (entries a.Errors).length hc _ hlen
  have herr : (Enc.forEach (entries a.Errors) (fun te => Enc.seq [putString te.1,
      putArrayLength te.2.length, Enc.forEach te.2 (fun p => p.encode)])).err = none :=
    Enc.forEach_err _ _ (fun te hte =>
      AddPartitionsToTxnResponse.addPartitions_topic_err te (hx te hte).1 (hx te hte).2.1)
  unfold AddPartitionsToTxnResponse.encode AddPartitionsToTxnResponse.decode
  have hnil : (Enc.seq []).out = [] := rfl
  rw [Enc.seq_cons_out _ rfl, Enc.seq_cons_out _ (putArrayLength_err hc),
    Enc.seq_cons_out _ herr, hnil]
  simp only [List.append_nil,
    getInt32_putInt32 _ (durationToMs_isInt32 _), hcount, bind, Res.bind,
    Int.toNat_ofNat, hloop]

theorem ResourceAclsCodec.flag_roundTrips (v : Int) : ResourceAclsCodec.flag.RoundTrips v := by
  intro b
  refine ⟨rfl, ?_, fun rest => getBool_putBool b rest⟩
  show 1 ≤ (putBool b).out.length
  cases b <;> decide

/-- C20: CreateAclsResponse, DescribeAclsResponse and AddPartitionsToTxnResponse write
ThrottleTime d as the four bytes of the int32 that truncating division d / 1000000
wrapped to 32 bits gives, and decode stores an int32 t read there as t * 1000000;
so a response decoded from the encoding of m holds m's ThrottleTime if and only if
that is a whole number of milliseconds whose count is an int32, and the response
decoded from an int32 t is encoded with t again. Decoding the encoding of m does
succeed, into any receiver and reading every byte, when m's counts, strings and
integers fit the wire (for DescribeAclsResponse: with a present error message and a
codec of ResourceAcls that reads back what it writes). -/
theorem throttleTime_millisecond_granularity {α : Type} (codec : ResourceAclsCodec α)
    (c : CreateAclsResponse) (d : DescribeAclsResponse α) (a : AddPartitionsToTxnResponse) :
    ((∃ tail, c.encode.out = beBytes 4 (wrap 32 (Int.tdiv c.ThrottleTime 1000000)) ++ tail ∧
        getInt32 c.encode.out = Res.ok (durationToMs c.ThrottleTime, tail)) ∧
      (∀ (t : Int) (pd rest : List Byte) (v : Int) (c0 c' : CreateAclsResponse), IsInt32 t →
        c0.decode (beBytes 4 (wrap 32 t) ++ pd) v = Res.ok (c', rest) →
        c'.ThrottleTime = t * 1000000 ∧
        ∃ tail, c'.encode.out = beBytes 4 (wrap 32 t) ++ tail) ∧
      (∀ (rest : List Byte) (v : Int) (c0 c' : CreateAclsResponse),
        c0.decode c.encode.out v = Res.ok (c', rest) →
        (c'.ThrottleTime = c.ThrottleTime ↔ WholeMs c.ThrottleTime)) ∧
      (c.Fits → ∀ (v : Int) (c0 : CreateAclsResponse),
        ∃ c', c0.decode c.encode.out v = Res.ok (c', []) ∧
          (c'.ThrottleTime = c.ThrottleTime ↔ WholeMs c.ThrottleTime))) ∧
    ((∃ tail, (d.encode codec).out =
          beBytes 4 (wrap 32 (Int.tdiv d.ThrottleTime 1000000)) ++ tail ∧
        getInt32 (d.encode codec).out = Res.ok (durationToMs d.ThrottleTime, tail)) ∧
      (∀ (t : Int) (pd rest : List Byte) (v : Int) (d0 d' : DescribeAclsResponse α), IsInt32 t →
        d0.decode codec (beBytes 4 (wrap 32 t) ++ pd) v = Res.ok (d', rest) →
        d'.ThrottleTime = t * 1000000 ∧
        ∃ tail, (d'.encode codec).out = beBytes 4 (wrap 32 t) ++ tail) ∧
      (∀ (rest : List Byte) (v : Int) (d0 d' : DescribeAclsResponse α),
        d0.decode codec (d.encode codec).out v = Res.ok (d', rest) →
        (d'.ThrottleTime = d.ThrottleTime ↔ WholeMs d.ThrottleTime)) ∧
      (codec.RoundTrips d.Version → d.Fits → ∀ (d0 : DescribeAclsResponse α),
        ∃ d', d0.decode codec (d.encode codec).out d.Version = Res.ok (d', []) ∧
          (d'.ThrottleTime = d.ThrottleTime ↔ WholeMs d.ThrottleTime))) ∧
    ((∃ tail, a.encode.out = beBytes 4 (wrap 32 (Int.tdiv a.ThrottleTime 1000000)) ++ tail ∧
        getInt32 a.encode.out = Res.ok (durationToMs a.ThrottleTime, tail)) ∧
      (∀ (t : Int) (pd rest : List Byte) (v : Int) (a0 a' : AddPartitionsToTxnResponse),
        IsInt32 t →
        a0.decode (beBytes 4 (wrap 32 t) ++ pd) v = Res.ok (a', rest) →
        a'.ThrottleTime = t * 1000000 ∧
        ∃ tail, a'.encode.out = beBytes 4 (wrap 32 t) ++ tail) ∧
      (∀ (rest : List Byte) (v : Int) (a0 a' : AddPartitionsToTxnResponse),
        a0.decode a.encode.out v = Res.ok (a', rest) →
        (a'.ThrottleTime = a.ThrottleTime ↔ WholeMs a.ThrottleTime)) ∧
      (a.Fits → ∀ (v : Int) (a0 : AddPartitionsToTxnResponse),
        ∃ a', a0.decode a.encode.out v = Res.ok (a', []) ∧
          (a'.ThrottleTime = a.ThrottleTime ↔ WholeMs a.ThrottleTime))) := by
  refine ⟨⟨?_, ?_, ?_, ?_⟩, ⟨?_, ?_, ?_, ?_⟩, ⟨?_, ?_, ?_, ?_⟩⟩
  · obtain ⟨tail, h⟩ := CreateAclsResponse.createAcls_encode_throttle c
    exact ⟨tail, h, getInt32_encode_throttle _ _ _ h⟩
  · intro t pd rest v c0 c' ht h
    obtain ⟨t', tail, h1, h2⟩ := CreateAclsResponse.createAcls_decode_throttle _ _ _ _ _ h
    rw [getInt32_beBytes_wrap t ht] at h1
    cases h1
    refine ⟨by rw [h2, msToDuration_of_isInt32 t ht], ?_⟩
    obtain ⟨tail, h⟩ := CreateAclsResponse.createAcls_encode_throttle c'
    rw [h2, tdiv_msToDuration t ht] at h
    exact ⟨tail, h⟩
  · intro rest v c0 c' h
    obtain ⟨t', tail, h1, h2⟩ := CreateAclsResponse.createAcls_decode_throttle _ _ _ _ _ h
    obtain ⟨tail', h'⟩ := CreateAclsResponse.createAcls_encode_throttle c
    rw [getInt32_encode_throttle _ _ _ h'] at h1
    cases h1
    rw [h2]
    exact msToDuration_durationToMs_iff _
  · intro hfit v c0
    exact ⟨_, CreateAclsResponse.createAcls_decode_encode c hfit c0 v,
      msToDuration_durationToMs_iff _⟩
  · obtain ⟨tail, h⟩ := DescribeAclsResponse.describeAcls_encode_throttle codec d
    exact ⟨tail, h, getInt32_encode_throttle _ _ _ h⟩
  · intro t pd rest v d0 d' ht h
    obtain ⟨t', tail, h1, h2⟩ :=
      DescribeAclsResponse.describeAcls_decode_throttle codec _ _ _ _ _ h
    rw [getInt32_beBytes_wrap t ht] at h1
    cases h1
    refine ⟨by rw [h2, msToDuration_of_isInt32 t ht], ?_⟩
    obtain ⟨tail, h⟩ := DescribeAclsResponse.describeAcls_encode_throttle codec d'
    rw [h2, tdiv_msToDuration t ht] at h
    exact ⟨tail, h⟩
  · intro rest v d0 d' h
    obtain ⟨t', tail, h1, h2⟩ :=
      DescribeAclsResponse.describeAcls_decode_throttle codec _ _ _ _ _ h
    obtain ⟨tail', h'⟩ := DescribeAclsResponse.describeAcls_encode_throttle codec d
    rw [getInt32_encode_throttle _ _ _ h'] at h1
    cases h1
    rw [h2]
    exact msToDuration_durationToMs_iff _
  · intro hcodec hfit d0
    obtain ⟨d', hdec, ht, -, -⟩ :=
      DescribeAclsResponse.describeAcls_decode_encode codec d hcodec hfit d0
    refine ⟨d', hdec, ?_⟩
    rw [ht]
    exact msToDuration_durationToMs_iff _
  · obtain ⟨tail, h⟩ := AddPartitionsToTxnResponse.addPartitions_encode_throttle a
    exact ⟨tail, h, getInt32_encode_throttle _ _ _ h⟩
  · intro t pd rest v a0 a' ht h
    obtain ⟨t', tail, h1, h2⟩ :=
      AddPartitionsToTxnResponse.addPartitions_decode_throttle _ _ _ _ _ h
    rw [getInt32_beBytes_wrap t ht] at h1
    cases h1
    refine ⟨by rw [h2, msToDuration_of_isInt32 t ht], ?_⟩
    obtain ⟨tail, h⟩ := AddPartitionsToTxnResponse.addPartitions_encode_throttle a'
    rw [h2, tdiv_msToDuration t ht] at h
    exact ⟨tail, h⟩
  · intro rest v a0 a' h
    obtain ⟨t', tail, h1, h2⟩ :=
      AddPartitionsToTxnResponse.addPartitions_decode_throttle _ _ _ _ _ h
    obtain ⟨tail', h'⟩ := AddPartitionsToTxnResponse.addPartitions_encode_throttle a
    rw [getInt32_encode_throttle _ _ _ h'] at h1
    cases h1
    rw [h2]
    exact msToDuration_durationToMs_iff _
  · intro hfit v a0
    exact ⟨_, AddPartitionsToTxnResponse.addPartitions_decode_encode a hfit a0 v,
      msToDuration_durationToMs_iff _⟩


/-- Witness of C20: 5 ms survives the wire, 1.5 ms comes back as 1 ms, the bytes
`00 00 00 07` decode to 7 ms and are written again, and a describe-ACLs response with
5 ms, the message "e" and one record is decoded, every byte read, with 5 ms. -/
theorem throttleTime_millisecond_granularity_witness :
    CreateAclsResponse.zero.decode (⟨0, 5000000, []⟩ : CreateAclsResponse).encode.out 0 =
      Res.ok (⟨0, 5000000, []⟩, []) ∧
    WholeMs 5000000 ∧
    CreateAclsResponse.zero.decode (⟨0, 1500000, []⟩ : CreateAclsResponse).encode.out 0 =
      Res.ok (⟨0, 1000000, []⟩, []) ∧
    ¬ WholeMs 1500000 ∧
    AddPartitionsToTxnResponse.zero.decode (beBytes 4 (wrap 32 7) ++ [0, 0, 0, 0]) 0 =
      Res.ok (⟨0, 7000000, some []⟩, []) ∧
    (∃ tail, (⟨0, 7000000, some []⟩ : AddPartitionsToTxnResponse).encode.out =
      beBytes 4 (wrap 32 7) ++ tail) ∧
    ResourceAclsCodec.flag.RoundTrips 1 ∧
    (⟨1, 5000000, 0, some [101], [true]⟩ : DescribeAclsResponse Bool).Fits ∧
    (∃ d', DescribeAclsResponse.zero.decode ResourceAclsCodec.flag
        ((⟨1, 5000000, 0, some [101], [true]⟩ : DescribeAclsResponse Bool).encode
          ResourceAclsCodec.flag).out 1 = Res.ok (d', []) ∧
      (d'.ThrottleTime = 5000000 ↔ WholeMs 5000000)) :=
  ⟨by decide,
    ((throttleTime_millisecond_granularity ResourceAclsCodec.unit ⟨0, 5000000, []⟩
      DescribeAclsResponse.zero AddPartitionsToTxnResponse.zero).1.2.2.1 [] 0
      CreateAclsResponse.zero ⟨0, 5000000, []⟩ (by decide)).mp rfl,
    by decide,
    fun h => absurd
      (((throttleTime_millisecond_granularity ResourceAclsCodec.unit ⟨0, 1500000, []⟩
        DescribeAclsResponse.zero AddPartitionsToTxnResponse.zero).1.2.2.1 [] 0
        CreateAclsResponse.zero ⟨0, 1000000, []⟩ (by decide)).mpr h) (by decide),
    by decide,
    ((throttleTime_millisecond_granularity ResourceAclsCodec.unit CreateAclsResponse.zero
      DescribeAclsResponse.zero AddPartitionsToTxnResponse.zero).2.2.2.1 7 [0, 0, 0, 0] [] 0
      AddPartitionsToTxnResponse.zero ⟨0, 7000000, some []⟩ (by decide) (by decide)).2,
    ResourceAclsCodec.flag_roundTrips 1,
    ⟨by decide, ⟨[101], rfl, by decide⟩, by decide⟩,
    (throttleTime_millisecond_granularity ResourceAclsCodec.flag CreateAclsResponse.zero
      ⟨1, 5000000, 0, some [101], [true]⟩ AddPartitionsToTxnResponse.zero).2.1.2.2.2
      (ResourceAclsCodec.flag_roundTrips 1)
      ⟨by decide, ⟨[101], rfl, by decide⟩, by decide⟩ DescribeAclsResponse.zero⟩

/-! ## LeaveGroupResponse: the byte layout -/

theorem MemberResponse.member_layout (x : MemberResponse)
    (hs : x.MemberId.length ≤ 32767 ∧ OptFits x.GroupInstanceId) :
    (Enc.seq [putString x.MemberId, putNullableString x.GroupInstanceId, putInt16 x.Err]).out
      = x.layout := by
  rw [LeaveGroupResponse.member_out x hs, putString_out hs.1]
  unfold MemberResponse.layout
  obtain ⟨mid, gid, e⟩ := x
  cases gid with
  | none => simp [putNullableString, putInt16, Enc.bytes]
  | some s =>
    have h2 : s.length ≤ 32767 := hs.2
    simp [putNullableString, putString_out h2, putInt16, Enc.bytes]

theorem LeaveGroupResponse.members_layout (ms : List MemberResponse)
    (hs : ∀ x ∈ ms, x.MemberId.length ≤ 32767 ∧ OptFits x.GroupInstanceId) :
    (Enc.forEach ms (fun member => Enc.seq [putString member.MemberId,
      putNullableString member.GroupInstanceId, putInt16 member.Err])).out
      = ms.flatMap MemberResponse.layout := by
  induction ms with
  | nil => rfl
  | cons x xs ih =>
    have hx := hs x (List.mem_cons_self x xs)
    rw [Enc.forEach_cons_out x xs (fun member => Enc.seq [putString member.MemberId,
      putNullableString member.GroupInstanceId, putInt16 member.Err])
      (LeaveGroupResponse.member_err x hx), MemberResponse.member_layout x hx,
      ih (fun y hy => hs y (List.mem_cons_of_mem x hy))]
    simp [List.flatMap_cons]

theorem LeaveGroupResponse.encode_below_three (r : LeaveGroupResponse) (h : ¬ r.Version ≥ 3) :
    r.encode.err = none ∧
    r.encode.out = (if r.Version ≥ 1 then beBytes 4 (wrap 32 r.ThrottleTime) else []) ++
      beBytes 2 (wrap 16 r.Err) := by
  unfold LeaveGroupResponse.encode
  simp only [h, if_false]
  by_cases h1 : r.Version ≥ 1
  · simp only [h1, if_true]
    exact ⟨rfl, by simp [Enc.seq, Enc.andThen, putInt32, putInt16, Enc.bytes, Enc.skip]⟩
  · simp only [h1, if_false]
    exact ⟨rfl, by simp [Enc.seq, Enc.andThen, putInt16, Enc.bytes, Enc.skip]⟩

/-- C12 (amended): for every response whose member ids and group instance ids are at most
32767 bytes long and which, at version 3 or later, has at most 2^31 - 1 members,
encode succeeds and writes exactly the layout; at version 0 it writes the two bytes of
Err whatever ThrottleTime and Members hold (00 00 for Err = 0); at version 3 with the
one member ("m1", null, 0), ThrottleTime t and Err 0 it writes
t(4) 00 00 | 00 00 00 01 | 00 02 6d 31 | ff ff | 00 00. -/
theorem leaveGroup_encode_layout (r : LeaveGroupResponse) (t : Int) :
    (r.StringsFit → (r.Version ≥ 3 → r.Members.length ≤ 2147483647) →
      r.encode.err = none ∧ r.encode.out = r.layout) ∧
    (r.Version = 0 → r.encode.err = none ∧ r.encode.out = beBytes 2 (wrap 16 r.Err) ∧
      r.encode.out.length = 2 ∧ (r.Err = 0 → r.encode.out = [0, 0])) ∧
    (⟨3, t, 0, [⟨[109, 49], none, 0⟩]⟩ : LeaveGroupResponse).encode.out =
      beBytes 4 (wrap 32 t) ++ [0, 0, 0, 0, 0, 1, 0, 2, 109, 49, 255, 255, 0, 0] := by
  have main : ∀ m : LeaveGroupResponse, m.StringsFit →
      (m.Version ≥ 3 → m.Members.length ≤ 2147483647) →
      m.encode.err = none ∧ m.encode.out = m.layout := by
    intro m hs hc
    by_cases h3 : m.Version ≥ 3
    · obtain ⟨he, ho⟩ := LeaveGroupResponse.leaveGroup_encode_parts m hs (hc h3)
      refine ⟨he, ?_⟩
      rw [ho, LeaveGroupResponse.members_layout m.Members hs, putArrayLength_out (hc h3)]
      unfold LeaveGroupResponse.layout
      simp only [h3, if_true, putInt32, putInt16, Enc.bytes, List.append_assoc]
    · obtain ⟨he, ho⟩ := LeaveGroupResponse.encode_below_three m h3
      refine ⟨he, ?_⟩
      rw [ho]
      unfold LeaveGroupResponse.layout
      simp only [h3, if_false, List.append_nil]
  refine ⟨main r, ?_, ?_⟩
  · intro h0
    have h3 : ¬ r.Version ≥ 3 := by omega
    have h1 : ¬ r.Version ≥ 1 := by omega
    obtain ⟨he, ho⟩ := LeaveGroupResponse.encode_below_three r h3
    simp only [h1, if_false, List.nil_append] at ho
    refine ⟨he, ho, by rw [ho, length_beBytes], ?_⟩
    intro hz
    rw [ho, hz]
    rfl
  · have h := (main ⟨3, t, 0, [⟨[109, 49], none, 0⟩]⟩ (by
      intro x hx
      simp only [List.mem_singleton] at hx
      subst hx
      exact ⟨by decide, trivial⟩) (fun _ => by simp)).2
    rw [h]
    have h1 : (3 : Int) ≥ 1 := by decide
    have h3 : (3 : Int) ≥ 3 := by decide
    have b0 : beBytes 2 (wrap 16 0) = [0, 0] := by decide
    have b1 : beBytes 4 (wrap 32 1) = [0, 0, 0, 1] := by decide
    have b2 : beBytes 2 (wrap 16 2) = [0, 2] := by decide
    have bm : beBytes 2 (wrap 16 (-1)) = [255, 255] := by decide
    simp only [LeaveGroupResponse.layout, MemberResponse.layout, h1, h3, if_true, b0, b1, b2, bm,
      List.length_singleton, List.length_cons, List.length_nil, List.flatMap_cons,
      List.flatMap_nil, Nat.cast_one, Nat.cast_ofNat, Nat.reduceAdd, List.append_assoc,
      List.cons_append, List.nil_append, List.append_nil]

theorem LeaveGroupResponse.withMembers_out_length (n : Nat) (hn : n > 2147483647) :
    (LeaveGroupResponse.withMembers n).encode.out.length = 6 := by
  have hlen : (LeaveGroupResponse.withMembers n).Members.length = n := List.length_replicate _ _
  have hfail : putArrayLength (LeaveGroupResponse.withMembers n).Members.length
      = Enc.fail (Err.packetEncoding "array too long") := by
    rw [hlen]
    simp [putArrayLength, hn]
  have hv1 : (LeaveGroupResponse.withMembers n).Version ≥ 1 := by
    show (3 : Int) ≥ 1
    decide
  have hv3 : (LeaveGroupResponse.withMembers n).Version ≥ 3 := by
    show (3 : Int) ≥ 3
    decide
  unfold LeaveGroupResponse.encode
  simp only [hv1, hv3, if_true, hfail]
  simp [Enc.seq, Enc.andThen, Enc.fail, Enc.skip, putInt32, putInt16, Enc.bytes, length_beBytes]

theorem LeaveGroupResponse.withMembers_layout_length (n : Nat) :
    (LeaveGroupResponse.withMembers n).layout.length ≥ 10 := by
  have hv1 : (LeaveGroupResponse.withMembers n).Version ≥ 1 := by
    show (3 : Int) ≥ 1
    decide
  have hv3 : (LeaveGroupResponse.withMembers n).Version ≥ 3 := by
    show (3 : Int) ≥ 3
    decide
  unfold LeaveGroupResponse.layout
  simp only [hv1, hv3, if_true, List.length_append, length_beBytes]
  omega

/-- Counterexample to C12: the version 3 response with 2^31 members, all strings empty,
is refused with "array too long" after six bytes, while the layout has at least ten. -/
theorem leaveGroup_layout_fails_oversized :
    LeaveGroupResponse.oversized.StringsFit ∧
    LeaveGroupResponse.oversized.encode.err = some (Err.packetEncoding "array too long") ∧
    LeaveGroupResponse.oversized.encode.out ≠ LeaveGroupResponse.oversized.layout := by
  refine ⟨(LeaveGroupResponse.withMembers_wellFormed 2147483648).2.1,
    LeaveGroupResponse.withMembers_encode 2147483648 (by omega), ?_⟩
  intro h
  have h1 := LeaveGroupResponse.withMembers_out_length 2147483648 (by omega)
  have h2 := LeaveGroupResponse.withMembers_layout_length 2147483648
  unfold LeaveGroupResponse.oversized at h
  rw [h] at h1
  omega

/-- Witness of C12: the scenario response (version 3, one member "m1") and a version 0
response with a throttle time and a member. -/
theorem leaveGroup_encode_layout_witness :
    LeaveGroupResponse.scenario.StringsFit ∧
    LeaveGroupResponse.scenario.encode.err = none ∧
    LeaveGroupResponse.scenario.encode.out = LeaveGroupResponse.scenario.layout ∧
    (⟨0, 9, 0, [⟨[109, 49], none, 0⟩]⟩ : LeaveGroupResponse).encode.out = [0, 0] :=
  ⟨by decide,
    ((leaveGroup_encode_layout LeaveGroupResponse.scenario 0).1 (by decide)
      (fun _ => by decide)).1,
    ((leaveGroup_encode_layout LeaveGroupResponse.scenario 0).1 (by decide)
      (fun _ => by decide)).2,
    ((leaveGroup_encode_layout ⟨0, 9, 0, [⟨[109, 49], none, 0⟩]⟩ 0).2.1 rfl).2.2.2 rfl⟩

/-! ## OffsetFetchRequest: the layout and the failures of encode -/

theorem int32s_out (xs : List Int) :
    (Enc.forEach xs putInt32).out = xs.flatMap (fun p => (putInt32 p).out) :=
  Enc.forEach_out_of_all xs putInt32 (fun x _ => putInt32_err x)

theorem putEmptyTaggedFieldArray_out : putEmptyTaggedFieldArray.out = [0] := by decide

theorem OffsetFetchRequest.topic_layout_of_ok (v : Int) (tp : GoString × Option (List Int))
    (h : (Enc.seq [
      if decide (v ≥ 6) then putCompactString tp.1 else putString tp.1,
      if decide (v ≥ 6) then putCompactInt32Array tp.2 else putInt32Array tp.2,
      if decide (v ≥ 6) then putEmptyTaggedFieldArray else Enc.skip]).err = none) :
    (Enc.seq [
      if decide (v ≥ 6) then putCompactString tp.1 else putString tp.1,
      if decide (v ≥ 6) then putCompactInt32Array tp.2 else putInt32Array tp.2,
      if decide (v ≥ 6) then putEmptyTaggedFieldArray else Enc.skip]).out =
      OffsetFetchRequest.topicLayout v tp := by
  have hall := Enc.seq_of_ok _ h
  rw [Enc.seq_out_of_all _ hall]
  unfold OffsetFetchRequest.topicLayout
  by_cases h6 : v ≥ 6
  · simp only [h6, decide_True, if_true, List.mem_cons, List.mem_singleton,
      forall_eq_or_imp, forall_eq] at hall
    obtain ⟨name, parts⟩ := tp
    cases parts with
    | none => exact absurd rfl (putCompactInt32Array_of_ok hall.2.1)
    | some l =>
      simp only [h6, decide_True, if_true, List.map_cons, List.map_nil, List.flatten_cons,
        List.flatten_nil, putCompactString_out, putCompactInt32Array_out, int32s_out,
        putEmptyTaggedFieldArray_out, List.append_assoc, List.append_nil, elems,
        Option.getD_some]
  · simp only [h6, decide_False, Bool.false_eq_true, if_false, List.mem_cons,
      List.mem_singleton, forall_eq_or_imp, forall_eq] at hall
    simp only [h6, decide_False, Bool.false_eq_true, if_false, List.map_cons, List.map_nil,
      List.flatten_cons, List.flatten_nil, putString_out (putString_of_ok hall.1),
      putInt32Array_out _ (putInt32Array_of_ok hall.2.1), int32s_out, Enc.skip,
      List.append_assoc, List.append_nil]

theorem OffsetFetchRequest.fetchRequest_layout_of_ok (r : OffsetFetchRequest)
    (h : r.encode.err = none) : r.encode.out = r.layout := by
  have hvalid : ¬ (r.Version < 0 ∨ r.Version > 7) := by
    intro hbad
    unfold OffsetFetchRequest.encode at h
    rw [if_pos hbad] at h
    exact absurd h (by simp [Enc.fail])
  unfold OffsetFetchRequest.encode at h ⊢
  rw [if_neg hvalid] at h ⊢
  simp only at h ⊢
  have hall := Enc.seq_of_ok _ h
  rw [Enc.seq_out_of_all _ hall]
  simp only [List.mem_cons, List.mem_singleton, forall_eq_or_imp, forall_eq, List.not_mem_nil,
    false_implies, implies_true, and_true] at hall
  obtain ⟨hg, hp, ht, hr, _, _⟩ := hall
  have hts := Enc.forEach_of_ok _ _ ht
  have htopics : (Enc.forEach (entries r.partitions) (fun tp => Enc.seq [
        if decide (r.Version ≥ 6) then putCompactString tp.1 else putString tp.1,
        if decide (r.Version ≥ 6) then putCompactInt32Array tp.2 else putInt32Array tp.2,
        if decide (r.Version ≥ 6) then putEmptyTaggedFieldArray else Enc.skip])).out =
      (entries r.partitions).flatMap (OffsetFetchRequest.topicLayout r.Version) := by
    rw [Enc.forEach_out_of_all _ _ hts]
    exact List.flatMap_congr (fun tp htp =>
      OffsetFetchRequest.topic_layout_of_ok r.Version tp (hts tp htp))
  have hstable : ¬ (r.RequireStable = true ∧ r.Version < 7) := by
    intro hbad
    rw [if_pos hbad] at hr
    exact absurd hr (by simp [Enc.fail])
  simp only [List.map_cons, List.map_nil, List.flatten_cons, List.flatten_nil, htopics,
    if_neg hstable, List.append_nil]
  unfold OffsetFetchRequest.layout OffsetFetchRequest.arrayPrefix
  have b1 : (putInt32 (-1)).out = [255, 255, 255, 255] := by decide
  have b0 : (putUVarint 0).out = [0] := by decide
  by_cases h6 : r.Version ≥ 6
  · simp only [h6, decide_True, if_true, putCompactString_out, putEmptyTaggedFieldArray_out]
    cases hpart : r.partitions with
    | none =>
      simp only [if_true, b0, entries, Option.getD_none, List.flatMap_nil, List.nil_append]
      by_cases h7 : r.Version ≥ 7
      · simp only [h7, if_true, putBool, Enc.bytes, Enc.skip, List.append_assoc,
          List.nil_append, List.append_nil]
      · simp only [h7, if_false, putBool, Enc.bytes, Enc.skip, List.append_assoc,
          List.nil_append, List.append_nil]
    | some es =>
      simp only [if_false, entries, Option.getD_some, putCompactArrayLength, reduceCtorEq]
      by_cases h7 : r.Version ≥ 7
      · simp only [h7, if_true, putBool, Enc.bytes, Enc.skip, List.append_assoc,
          List.nil_append, List.append_nil]
      · simp only [h7, if_false, putBool, Enc.bytes, Enc.skip, List.append_assoc,
          List.nil_append, List.append_nil]
  · have h7 : ¬ r.Version ≥ 7 := by omega
    simp only [h6, decide_False, Bool.false_eq_true, if_false] at hg hp
    simp only [h6, h7, decide_False, Bool.false_eq_true, if_false,
      putString_out (putString_of_ok hg), Enc.skip, List.append_nil, List.nil_append,
      List.append_assoc]
    cases hpart : r.partitions with
    | none =>
      simp only [true_and, entries, Option.getD_none, List.flatMap_nil, List.length_nil]
      by_cases h2 : r.Version ≥ 2
      · simp only [h2, if_true, b1]
      · simp only [h2, if_false]
        rfl
    | some es =>
      rw [hpart] at hp
      simp only [false_and, if_false, entries, Option.getD_some, reduceCtorEq] at hp ⊢
      rw [putArrayLength_out (putArrayLength_of_ok hp)]

theorem OffsetFetchRequest.layout_terminator (r : OffsetFetchRequest) (h6 : r.Version ≥ 6) :
    ∃ body, r.layout = body ++ [0] := by
  unfold OffsetFetchRequest.layout
  simp only [h6, if_true]
  exact ⟨_, rfl⟩

/-- C13: for every request whose encode succeeds the output is the layout of the
specification: after the consumer group comes int32 -1 (nil partitions, versions 2 to
5), int32 0 (nil, versions 0 and 1), the int32 count (non-nil, up to version 5), the
unsigned varint 0 (nil, from version 6 on) or the unsigned varint count + 1 (non-nil,
from version 6 on; 1 for present but empty); from version 6 on every topic entry and
the body end with one terminator byte 00, and below version 6 none is written. -/
theorem fetchRequest_encode_layout (r : OffsetFetchRequest) (h : r.encode.err = none) :
    r.encode.out = r.layout ∧
    (r.Version ≥ 6 → ∃ body, r.encode.out = body ++ [0]) ∧
    (r.Version ≥ 6 → r.partitions = some [] → r.arrayPrefix = [1]) := by
  have hl := OffsetFetchRequest.fetchRequest_layout_of_ok r h
  refine ⟨hl, ?_, ?_⟩
  · intro h6
    rw [hl]
    exact OffsetFetchRequest.layout_terminator r h6
  · intro h6 hp
    unfold OffsetFetchRequest.arrayPrefix
    rw [hp]
    simp only [h6, if_true]
    rfl

/-- Witness of C13: the version 7 sample request (one topic "t" with partitions 0 and
5) and the version 6 request for all topics. -/
theorem fetchRequest_encode_layout_witness :
    OffsetFetchRequest.sample.encode.err = none ∧
    OffsetFetchRequest.sample.encode.out = OffsetFetchRequest.sample.layout ∧
    OffsetFetchRequest.sample.layout =
      [3, 103, 49, 2, 2, 116, 3, 0, 0, 0, 0, 0, 0, 0, 5, 0, 1, 0] ∧
    OffsetFetchRequest.allTopics.encode.out = OffsetFetchRequest.allTopics.layout ∧
    OffsetFetchRequest.allTopics.layout = [2, 103, 0, 0] :=
  ⟨by decide, (fetchRequest_encode_layout OffsetFetchRequest.sample (by decide)).1, by decide,
    (fetchRequest_encode_layout OffsetFetchRequest.allTopics (by decide)).1, by decide⟩

/-- Counterexample to C19: two requests with a supported version, short strings and no
RequireStable flag that encode refuses: the version 0 request with 2^31 topics
("array too long") and the version 6 request whose topic "t" has a nil partition
list ("expected int32 array to be non null"). -/
theorem fetchRequest_encode_fails_otherwise :
    (OffsetFetchRequest.oversized.StringsFit ∧
      ¬ (OffsetFetchRequest.oversized.Version < 0 ∨ OffsetFetchRequest.oversized.Version > 7 ∨
        (OffsetFetchRequest.oversized.RequireStable = true ∧
          OffsetFetchRequest.oversized.Version < 7)) ∧
      OffsetFetchRequest.oversized.encode.err = some (Err.packetEncoding "array too long")) ∧
    (OffsetFetchRequest.nilList.StringsFit ∧
      ¬ (OffsetFetchRequest.nilList.Version < 0 ∨ OffsetFetchRequest.nilList.Version > 7 ∨
        (OffsetFetchRequest.nilList.RequireStable = true ∧
          OffsetFetchRequest.nilList.Version < 7)) ∧
      OffsetFetchRequest.nilList.encode.err
        = some (Err.packetEncoding "expected int32 array to be non null")) := by
  refine ⟨⟨(OffsetFetchRequest.fetchRequest_withTopics_wellFormed 2147483648 (by omega)).2, ?_,
    OffsetFetchRequest.fetchRequest_withTopics_encode 2147483648 (by omega)⟩,
    by decide, by decide, by decide⟩
  show ¬ ((0 : Int) < 0 ∨ (0 : Int) > 7 ∨ (false = true ∧ (0 : Int) < 7))
  decide

/-- C19 (amended): for every request whose consumer group and topic names are at most
32767 bytes long and which, at versions up to 5, has at most 2^31 - 1 topics and
partitions per topic and, from version 6 on, no nil partition list, encode returns an
error if and only if Version < 0 or Version > 7 or RequireStable is set below
version 7; at version 7 the RequireStable flag is written as one byte (1 for true, 0
for false) right before the final terminator byte. -/
theorem fetchRequest_encode_fails_iff (r : OffsetFetchRequest) (hs : r.StringsFit)
    (hc : r.Version ≤ 5 → r.CountsFit) (hl : r.Version ≥ 6 → r.NoNilList) :
    (r.encode.err ≠ none ↔
      (r.Version < 0 ∨ r.Version > 7 ∨ (r.RequireStable = true ∧ r.Version < 7))) ∧
    (r.Version = 7 → r.encode.err = none ∧
      ∃ body, r.encode.out = body ++ [if r.RequireStable then 1 else 0] ++ [0]) := by
  have hok : ¬ (r.Version < 0 ∨ r.Version > 7 ∨ (r.RequireStable = true ∧ r.Version < 7)) →
      r.encode.err = none := by
    intro hn
    have hv : 0 ≤ r.Version ∧ r.Version ≤ 7 := by omega
    have hstable : r.Version < 7 → r.RequireStable = false := by
      intro h7
      cases hr : r.RequireStable with
      | false => rfl
      | true => exact absurd (Or.inr (Or.inr ⟨hr, h7⟩)) hn
    exact (OffsetFetchRequest.fetchRequest_encode_parts r
      (OffsetFetchRequest.encodable_of_fits r hv hs hc hl hstable)).1
  constructor
  · constructor
    · intro herr
      by_contra hn
      exact herr (hok hn)
    · intro hbad herr
      have he := OffsetFetchRequest.fetchRequest_encodable_of_ok r herr
      obtain ⟨hv, _, _, hstable⟩ := he
      rcases hbad with hb | hb | hb
      · omega
      · omega
      · have := hstable hb.2
        rw [hb.1] at this
        exact absurd this (by decide)
  · intro h7
    have herr : r.encode.err = none := hok (by omega)
    refine ⟨herr, ?_⟩
    rw [OffsetFetchRequest.fetchRequest_layout_of_ok r herr]
    unfold OffsetFetchRequest.layout
    have h7' : r.Version ≥ 7 := by omega
    have h6 : r.Version ≥ 6 := by omega
    simp only [h6, h7', if_true]
    exact ⟨_, rfl⟩

/-- Witness of C19: the version 7 sample request, which requires stable offsets, is
encoded, and the same request at version 6 is refused. -/
theorem fetchRequest_encode_fails_iff_witness :
    OffsetFetchRequest.sample.StringsFit ∧ OffsetFetchRequest.sample.NoNilList ∧
    OffsetFetchRequest.sample.encode.err = none ∧
    (∃ body, OffsetFetchRequest.sample.encode.out = body ++ [1] ++ [0]) ∧
    ({ OffsetFetchRequest.sample with Version := 6 }).encode.err ≠ none :=
  ⟨by decide, by decide,
    ((fetchRequest_encode_fails_iff OffsetFetchRequest.sample (by decide)
      (fun h => absurd h (by decide)) (fun _ => by decide)).2 rfl).1,
    ((fetchRequest_encode_fails_iff OffsetFetchRequest.sample (by decide)
      (fun h => absurd h (by decide)) (fun _ => by decide)).2 rfl).2,
    (fetchRequest_encode_fails_iff { OffsetFetchRequest.sample with Version := 6 } (by decide)
      (fun h => absurd h (by decide)) (fun _ => by decide)).1.mpr
      (Or.inr (Or.inr ⟨rfl, by decide⟩))⟩

/-! ## OffsetCommitRequest: version gating of the bytes -/

theorem Enc.Same.refl (a : Enc) : Enc.Same a a := ⟨rfl, rfl⟩

theorem Enc.Same.andThen {a a' b b' : Enc} (h1 : Enc.Same a a') (h2 : Enc.Same b b') :
    Enc.Same (a.andThen b) (a'.andThen b') := by
  obtain ⟨ho, he⟩ := h1
  obtain ⟨ho2, he2⟩ := h2
  unfold Enc.andThen
  cases ha : a.err with
  | none =>
    rw [ha] at he
    rw [← he]
    exact ⟨by simp only [ho, ho2], he2⟩
  | some e =>
    rw [ha] at he
    rw [← he]
    exact ⟨ho, by rw [ha, ← he]⟩

theorem Enc.Same.seq {l l' : List Enc} (h : List.Forall₂ Enc.Same l l') :
    Enc.Same (Enc.seq l) (Enc.seq l') := by
  induction h with
  | nil => exact Enc.Same.refl _
  | cons h1 _ ih => exact Enc.Same.andThen h1 ih

theorem Enc.Same.forEach {α β : Type} (xs : List α) (f : α → β) (body : α → Enc)
    (body' : β → Enc) (h : ∀ x ∈ xs, Enc.Same (body x) (body' (f x))) :
    Enc.Same (Enc.forEach xs body) (Enc.forEach (xs.map f) body') := by
  induction xs with
  | nil => exact Enc.Same.refl _
  | cons x xs ih =>
    exact Enc.Same.andThen (h x (List.mem_cons_self x xs))
      (ih (fun y hy => h y (List.mem_cons_of_mem x hy)))

theorem offsetCommitRequestBlock.block_encode_carried (b : offsetCommitRequestBlock) (v : Int) :
    Enc.Same (b.encode v) ((b.carried v).encode v) := by
  unfold offsetCommitRequestBlock.encode offsetCommitRequestBlock.carried
  apply Enc.Same.seq
  refine List.Forall₂.cons (Enc.Same.refl _) (List.Forall₂.cons ?_ (List.Forall₂.cons ?_
    (List.Forall₂.cons (Enc.Same.refl _) List.Forall₂.nil)))
  · by_cases h1 : v = 1
    · simp only [h1, if_true]
      exact Enc.Same.refl _
    · simp only [h1, if_false, ne_eq, not_true_eq_false]
      split <;> exact ⟨rfl, rfl⟩
  · by_cases h6 : v ≥ 6
    · simp only [h6, if_true]
      exact Enc.Same.refl _
    · simp only [h6, if_false]
      exact Enc.Same.refl _

theorem entries_map {κ ν : Type} (o : Option (List (κ × ν)))
    (f : List (κ × ν) → List (κ × ν)) (hf : f [] = []) :
    entries (o.map f) = f (entries o) := by
  cases o with
  | none => simp [entries, hf]
  | some l => simp [entries]

theorem OffsetCommitRequest.commitRequest_encode_carried (r : OffsetCommitRequest) :
    Enc.Same r.encode r.carried.encode := by
  unfold OffsetCommitRequest.encode
  have hver : r.carried.Version = r.Version := rfl
  rw [hver]
  by_cases hvalid : r.Version < 0 ∨ r.Version > 7
  · rw [if_pos hvalid, if_pos hvalid]
    exact Enc.Same.refl _
  rw [if_neg hvalid, if_neg hvalid]
  have hentries : entries r.carried.blocks = (entries r.blocks).map (fun tp =>
      (tp.1, tp.2.map (fun pb => (pb.1, pb.2.carried r.Version)))) := by
    unfold OffsetCommitRequest.carried
    exact entries_map r.blocks _ rfl
  rw [hentries]
  apply Enc.Same.seq
  refine List.Forall₂.cons (Enc.Same.refl _) (List.Forall₂.cons ?_ (List.Forall₂.cons ?_
    (List.Forall₂.cons ?_ (List.Forall₂.cons ?_ (List.Forall₂.cons ?_ List.Forall₂.nil)))))
  · unfold OffsetCommitRequest.carried
    by_cases h1 : r.Version ≥ 1
    · simp only [h1, if_true]
      exact Enc.Same.refl _
    · simp only [h1, if_false]
      apply Enc.Same.seq
      refine List.Forall₂.cons ?_ (List.Forall₂.cons ?_ List.Forall₂.nil)
      · split <;> exact ⟨rfl, rfl⟩
      · split <;> exact ⟨rfl, rfl⟩
  · unfold OffsetCommitRequest.carried
    by_cases h2 : r.Version ≥ 2 ∧ r.Version ≤ 4
    · simp only [h2, and_self, if_true]
      exact Enc.Same.refl _
    · simp only [h2, if_false, ne_eq, not_true_eq_false]
      split <;> exact ⟨rfl, rfl⟩
  · unfold OffsetCommitRequest.carried
    by_cases h7 : r.Version ≥ 7
    · simp only [h7, if_true]
      exact Enc.Same.refl _
    · simp only [h7, if_false]
      exact Enc.Same.refl _
  · rw [List.length_map]
    exact Enc.Same.refl _
  · apply Enc.Same.forEach
    intro tp _
    apply Enc.Same.seq
    refine List.Forall₂.cons (Enc.Same.refl _) (List.Forall₂.cons ?_ (List.Forall₂.cons ?_
      List.Forall₂.nil))
    · simp only [List.length_map]
      exact Enc.Same.refl _
    · apply Enc.Same.forEach
      intro pb _
      apply Enc.Same.seq
      exact List.Forall₂.cons (Enc.Same.refl _) (List.Forall₂.cons
        (offsetCommitRequestBlock.block_encode_carried pb.2 r.Version) List.Forall₂.nil)

theorem OffsetCommitRequest.commitRequest_encode_of_carried (r r' : OffsetCommitRequest)
    (h : r.carried = r'.carried) :
    r.encode.out = r'.encode.out ∧ r.encode.err = r'.encode.err := by
  have h1 := OffsetCommitRequest.commitRequest_encode_carried r
  have h2 := OffsetCommitRequest.commitRequest_encode_carried r'
  rw [h] at h1
  exact ⟨h1.1.trans h2.1.symm, h1.2.trans h2.2.symm⟩

theorem Enc.forEach_length_of_ok {α : Type} (xs : List α) (body : α → Enc)
    (h : (Enc.forEach xs body).err = none) :
    (Enc.forEach xs body).out.length = (xs.map (fun x => (body x).out.length)).sum := by
  induction xs with
  | nil => rfl
  | cons x xs ih =>
    have h2 := Enc.andThen_of_ok h
    rw [Enc.forEach_cons_out x xs body h2.1, List.length_append, ih h2.2, List.map_cons,
      List.sum_cons]

theorem putString_length_of_ok {s : GoString} (h : (putString s).err = none) :
    (putString s).out.length = 2 + s.length := by
  rw [putString_out (putString_of_ok h), List.length_append, length_putInt16]

theorem putArrayLength_length_of_ok {n : Nat} (h : (putArrayLength n).err = none) :
    (putArrayLength n).out.length = 4 := by
  rw [putArrayLength_out (putArrayLength_of_ok h), length_putInt32]

theorem putNullableString_length_of_ok (s : Option GoString) :
    (putNullableString s).err = none →
    (putNullableString s).out.length = (match s with
      | none => 2
      | some id => 2 + id.length) := by
  cases s with
  | none => exact fun _ => length_putInt16 _
  | some v => exact fun h => putString_length_of_ok h

theorem offsetCommitRequestBlock.block_length_of_ok (b : offsetCommitRequestBlock) (v : Int)
    (h : (b.encode v).err = none) :
    (b.encode v).out.length =
      8 + (if v = 1 then 8 else 0) + (if v ≥ 6 then 4 else 0) + (2 + b.metadata.length) := by
  have hall := Enc.seq_of_ok _ h
  have hm : (putString b.metadata).err = none := hall _ (by simp)
  rw [offsetCommitRequestBlock.encode_out b v (putString_of_ok hm)]
  simp only [List.length_append, length_putInt64, putString_length_of_ok hm]
  have e1 : (if v = 1 then (putInt64 b.timestamp).out else []).length =
      (if v = 1 then 8 else 0) := by
    split
    · exact length_putInt64 _
    · rfl
  have e6 : (if v ≥ 6 then (putInt32 b.committedLeaderEpoch).out else []).length =
      (if v ≥ 6 then 4 else 0) := by
    split
    · exact length_putInt32 _
    · rfl
  rw [e1, e6]
  omega

theorem OffsetCommitRequest.partition_length_of_ok (v : Int)
    (pb : Int × offsetCommitRequestBlock)
    (h : (Enc.seq [putInt32 pb.1, pb.2.encode v]).err = none) :
    (Enc.seq [putInt32 pb.1, pb.2.encode v]).out.length =
      4 + 8 + (if v = 1 then 8 else 0) + (if v ≥ 6 then 4 else 0) +
        (2 + pb.2.metadata.length) := by
  have hall := Enc.seq_of_ok _ h
  have hb : (pb.2.encode v).err = none := hall _ (by simp)
  rw [Enc.seq_out_of_all _ hall]
  simp only [List.map_cons, List.map_nil, List.flatten_cons, List.flatten_nil, List.append_nil,
    List.length_append, length_putInt32, offsetCommitRequestBlock.block_length_of_ok _ _ hb]
  omega

theorem OffsetCommitRequest.topic_length_of_ok (v : Int)
    (tp : GoString × List (Int × offsetCommitRequestBlock))
    (h : (Enc.seq [putString tp.1, putArrayLength tp.2.length,
      Enc.forEach tp.2 (fun pb => Enc.seq [putInt32 pb.1, pb.2.encode v])]).err = none) :
    (Enc.seq [putString tp.1, putArrayLength tp.2.length,
      Enc.forEach tp.2 (fun pb => Enc.seq [putInt32 pb.1, pb.2.encode v])]).out.length =
      2 + tp.1.length + 4 +
        (tp.2.map (fun pb => 4 + 8 + (if v = 1 then 8 else 0) + (if v ≥ 6 then 4 else 0) +
          (2 + pb.2.metadata.length))).sum := by
  have hall := Enc.seq_of_ok _ h
  have h1 : (putString tp.1).err = none := hall _ (by simp)
  have h2 : (putArrayLength tp.2.length).err = none := hall _ (by simp)
  have h3 : (Enc.forEach tp.2 (fun pb => Enc.seq [putInt32 pb.1, pb.2.encode v])).err = none :=
    hall _ (by simp)
  have hps := Enc.forEach_of_ok _ _ h3
  rw [Enc.seq_out_of_all _ hall]
  simp only [List.map_cons, List.map_nil, List.flatten_cons, List.flatten_nil, List.append_nil,
    List.length_append, putString_length_of_ok h1, putArrayLength_length_of_ok h2,
    Enc.forEach_length_of_ok _ _ h3]
  rw [List.map_congr_left (fun pb hpb =>
    OffsetCommitRequest.partition_length_of_ok v pb (hps pb hpb))]
  omega

theorem OffsetCommitRequest.commitRequest_length_of_ok (r : OffsetCommitRequest)
    (h : r.encode.err = none) : r.encode.out.length = r.wireLength := by
  have hvalid : ¬ (r.Version < 0 ∨ r.Version > 7) := by
    intro hbad
    unfold OffsetCommitRequest.encode at h
    rw [if_pos hbad] at h
    exact absurd h (by simp [Enc.fail])
  unfold OffsetCommitRequest.encode at h ⊢
  rw [if_neg hvalid] at h ⊢
  have hall := Enc.seq_of_ok _ h
  rw [Enc.seq_out_of_all _ hall]
  simp only [List.mem_cons, List.mem_singleton, forall_eq_or_imp, forall_eq, List.not_mem_nil,
    false_implies, implies_true, and_true] at hall
  obtain ⟨hg, h2, _, h4, h5, h6⟩ := hall
  have l2 : (if r.Version ≥ 1 then
        Enc.seq [putInt32 r.ConsumerGroupGeneration, putString r.ConsumerID]
      else Enc.seq [
        if r.ConsumerGroupGeneration ≠ 0 then
          Enc.println "Non-zero ConsumerGroupGeneration specified for OffsetCommitRequest v0, it will be ignored"
        else Enc.skip,
        if r.ConsumerID ≠ [] then
          Enc.println "Non-empty ConsumerID specified for OffsetCommitRequest v0, it will be ignored"
        else Enc.skip]).out.length =
      (if r.Version ≥ 1 then 4 + (2 + r.ConsumerID.length) else 0) := by
    by_cases h1 : r.Version ≥ 1
    · rw [if_pos h1] at h2 ⊢
      rw [if_pos h1]
      have hall2 := Enc.seq_of_ok _ h2
      have hid : (putString r.ConsumerID).err = none := hall2 _ (by simp)
      rw [Enc.seq_out_of_all _ hall2]
      simp only [List.map_cons, List.map_nil, List.flatten_cons, List.flatten_nil,
        List.append_nil, List.length_append, length_putInt32, putString_length_of_ok hid]
    · rw [if_neg h1, if_neg h1]
      rw [Enc.seq_out_of_all _ (by
        intro e he
        simp only [List.mem_cons, List.mem_singleton, List.not_mem_nil, or_false] at he
        rcases he with rfl | rfl <;> split <;> rfl)]
      simp only [List.map_cons, List.map_nil, List.flatten_cons, List.flatten_nil,
        List.append_nil, List.length_append]
      have a1 : (if r.ConsumerGroupGeneration ≠ 0 then
          Enc.println "Non-zero ConsumerGroupGeneration specified for OffsetCommitRequest v0, it will be ignored"
        else Enc.skip).out = [] := by split <;> rfl
      have a2 : (if r.ConsumerID ≠ [] then
          Enc.println "Non-empty ConsumerID specified for OffsetCommitRequest v0, it will be ignored"
        else Enc.skip).out = [] := by split <;> rfl
      rw [a1, a2]
      rfl
  have l3 : (if r.Version ≥ 2 ∧ r.Version ≤ 4 then putInt64 r.RetentionTime
      else if r.RetentionTime ≠ 0 then
        Enc.println "Non-zero RetentionTime specified for OffsetCommitRequest version <2, it will be ignored"
      else Enc.skip).out.length = (if r.Version ≥ 2 ∧ r.Version ≤ 4 then 8 else 0) := by
    split
    · exact length_putInt64 _
    · split <;> rfl
  have l4 : (if r.Version ≥ 7 then putNullableString r.GroupInstanceId else Enc.skip).out.length =
      (if r.Version ≥ 7 then
        (match r.GroupInstanceId with
         | none => 2
         | some id => 2 + id.length)
       else 0) := by
    by_cases h7 : r.Version ≥ 7
    · rw [if_pos h7] at h4 ⊢
      rw [if_pos h7]
      exact putNullableString_length_of_ok _ h4
    · rw [if_neg h7, if_neg h7]
      rfl
  have hts := Enc.forEach_of_ok _ _ h6
  simp only [List.map_cons, List.map_nil, List.flatten_cons, List.flatten_nil,
    List.append_nil, List.length_append, putString_length_of_ok hg, l2, l3, l4,
    putArrayLength_length_of_ok h5, Enc.forEach_length_of_ok _ _ h6]
  rw [List.map_congr_left (fun tp htp =>
    OffsetCommitRequest.topic_length_of_ok r.Version tp (hts tp htp))]
  unfold OffsetCommitRequest.wireLength
  omega

theorem OffsetCommitRequest.longGroup_encode (n : Nat) (hn : n > 32767) :
    (OffsetCommitRequest.longGroup n).encode.out = [] ∧
    (OffsetCommitRequest.longGroup n).encode.err
      = some (Err.packetEncoding "string too long") := by
  have hver : ¬ ((OffsetCommitRequest.longGroup n).Version < 0 ∨
      (OffsetCommitRequest.longGroup n).Version > 7) := by
    show ¬ ((0 : Int) < 0 ∨ (0 : Int) > 7)
    decide
  have hfail : putString (OffsetCommitRequest.longGroup n).ConsumerGroup
      = Enc.fail (Err.packetEncoding "string too long") := by
    have hlen : (OffsetCommitRequest.longGroup n).ConsumerGroup.length = n :=
      List.length_replicate _ _
    unfold putString
    rw [hlen, if_pos hn]
  unfold OffsetCommitRequest.encode
  rw [if_neg hver, hfail]
  exact ⟨rfl, rfl⟩

theorem OffsetCommitRequest.longGroup_wireLength (n : Nat) :
    (OffsetCommitRequest.longGroup n).wireLength ≥ 2 := by
  unfold OffsetCommitRequest.wireLength
  omega

theorem OffsetCommitRequest.carried_mapBlocks (r : OffsetCommitRequest)
    (g : offsetCommitRequestBlock → offsetCommitRequestBlock)
    (hg : ∀ b, (g b).carried r.Version = b.carried r.Version) :
    (r.mapBlocks g).carried = r.carried := by
  unfold OffsetCommitRequest.carried OffsetCommitRequest.mapBlocks
  simp only [Option.map_map, Function.comp_def, List.map_map, hg]

/-- Counterexample to C14: the version 0 request whose consumer group is 32768 bytes
long is refused before a byte is written, so the output is empty while the length
formula gives at least 2. -/
theorem commitRequest_length_fails_longGroup :
    (OffsetCommitRequest.longGroup 32768).isValidVersion = true ∧
    (OffsetCommitRequest.longGroup 32768).encode.err
      = some (Err.packetEncoding "string too long") ∧
    (OffsetCommitRequest.longGroup 32768).encode.out.length ≠
      (OffsetCommitRequest.longGroup 32768).wireLength := by
  have h := OffsetCommitRequest.longGroup_encode 32768 (by omega)
  have hl := OffsetCommitRequest.longGroup_wireLength 32768
  refine ⟨rfl, h.2, ?_⟩
  rw [h.1]
  intro h0
  rw [← h0] at hl
  exact absurd hl (by decide)

/-- C14 (amended): two requests that agree on every field carried at their version, in
the same order of topics and partitions, are encoded to the same bytes with the same
outcome: the output does not depend on ConsumerGroupGeneration and ConsumerID at
version 0, on RetentionTime below version 2 or from version 5 on, on GroupInstanceId
below version 7, on any block timestamp outside version 1, or on any
committedLeaderEpoch below version 6; and when encode succeeds, the output length is
the one the formula gives. -/
theorem commitRequest_encode_gating (r r' : OffsetCommitRequest) :
    (r.carried = r'.carried →
      r.encode.out = r'.encode.out ∧ r.encode.err = r'.encode.err) ∧
    (r.Version = 0 → ∀ (g : Int) (c : GoString),
      ({ r with ConsumerGroupGeneration := g, ConsumerID := c }).encode.out = r.encode.out) ∧
    (r.Version < 2 ∨ r.Version ≥ 5 → ∀ t : Int,
      ({ r with RetentionTime := t }).encode.out = r.encode.out) ∧
    (r.Version < 7 → ∀ i : Option GoString,
      ({ r with GroupInstanceId := i }).encode.out = r.encode.out) ∧
    (r.Version ≠ 1 → ∀ f : offsetCommitRequestBlock → Int,
      (r.mapBlocks (fun b => { b with timestamp := f b })).encode.out = r.encode.out) ∧
    (r.Version < 6 → ∀ f : offsetCommitRequestBlock → Int,
      (r.mapBlocks (fun b => { b with committedLeaderEpoch := f b })).encode.out
        = r.encode.out) ∧
    (r.encode.err = none → r.encode.out.length = r.wireLength) := by
  refine ⟨OffsetCommitRequest.commitRequest_encode_of_carried r r', ?_, ?_, ?_, ?_, ?_,
    OffsetCommitRequest.commitRequest_length_of_ok r⟩
  · intro h0 g c
    refine (OffsetCommitRequest.commitRequest_encode_of_carried _ r ?_).1
    have h1 : ¬ r.Version ≥ 1 := by omega
    simp only [OffsetCommitRequest.carried, h1, if_false]
  · intro h t
    refine (OffsetCommitRequest.commitRequest_encode_of_carried _ r ?_).1
    have h2 : ¬ (r.Version ≥ 2 ∧ r.Version ≤ 4) := by omega
    simp only [OffsetCommitRequest.carried, h2, if_false]
  · intro h i
    refine (OffsetCommitRequest.commitRequest_encode_of_carried _ r ?_).1
    have h7 : ¬ r.Version ≥ 7 := by omega
    simp only [OffsetCommitRequest.carried, h7, if_false]
  · intro h f
    refine (OffsetCommitRequest.commitRequest_encode_of_carried _ r
      (OffsetCommitRequest.carried_mapBlocks r _ ?_)).1
    intro b
    simp only [offsetCommitRequestBlock.carried, h, if_false]
  · intro h f
    refine (OffsetCommitRequest.commitRequest_encode_of_carried _ r
      (OffsetCommitRequest.carried_mapBlocks r _ ?_)).1
    intro b
    have h6 : ¬ r.Version ≥ 6 := by omega
    simp only [offsetCommitRequestBlock.carried, h6, if_false]

/-- Witness of C14: the version 0 request that holds a group instance id and a leader
epoch is encoded like the one without them, in 28 bytes; the version 7 scenario
request takes 43 bytes. -/
theorem commitRequest_encode_gating_witness :
    OffsetCommitRequest.silentDrop.carried = OffsetCommitRequest.silentDropDefaults.carried ∧
    OffsetCommitRequest.silentDrop.encode.out = OffsetCommitRequest.silentDropDefaults.encode.out ∧
    OffsetCommitRequest.silentDrop.encode.err = none ∧
    OffsetCommitRequest.silentDrop.encode.out.length = 28 ∧
    OffsetCommitRequest.scenario.encode.out.length = 43 ∧
    ({ OffsetCommitRequest.silentDrop with GroupInstanceId := none }).encode.out =
      OffsetCommitRequest.silentDrop.encode.out :=
  ⟨by decide,
    ((commitRequest_encode_gating OffsetCommitRequest.silentDrop
      OffsetCommitRequest.silentDropDefaults).1 (by decide)).1,
    by decide,
    ((commitRequest_encode_gating OffsetCommitRequest.silentDrop
      OffsetCommitRequest.silentDrop).2.2.2.2.2.2 (by decide)).trans (by decide),
    ((commitRequest_encode_gating OffsetCommitRequest.scenario
      OffsetCommitRequest.scenario).2.2.2.2.2.2 (by decide)).trans (by decide),
    (commitRequest_encode_gating OffsetCommitRequest.silentDrop
      OffsetCommitRequest.silentDrop).2.2.2.1 (by decide) none⟩

/-! ## OffsetCommitRequest: the block store -/

theorem OffsetCommitRequest.offset_of_block (r : OffsetCommitRequest) (topic : GoString)
    (partitionID : Int) :
    r.Offset topic partitionID = (match r.block topic partitionID with
      | none => (0, [], some "no such offset")
      | some block => (block.offset, block.metadata, none)) := by
  unfold OffsetCommitRequest.Offset OffsetCommitRequest.block
  cases mapGet (entries r.blocks) topic with
  | none => rfl
  | some ps => rfl

theorem OffsetCommitRequest.block_addBlock (r : OffsetCommitRequest) (t : GoString)
    (p off epoch ts : Int) (md : GoString) (t' : GoString) (p' : Int) :
    (r.AddBlockWithLeaderEpoch t p off epoch ts md).block t' p' =
      if t' = t ∧ p' = p then some ⟨off, ts, epoch, md⟩ else r.block t' p' := by
  have hent : (match r.blocks with
      | none => []
      | some b => b) = entries r.blocks := by
    cases r.blocks <;> rfl
  unfold OffsetCommitRequest.AddBlockWithLeaderEpoch OffsetCommitRequest.block
  simp only [hent, entries, Option.getD_some]
  generalize r.blocks.getD [] = bs
  by_cases ht : t' = t
  · subst ht
    rw [mapGet_mapSet_same]
    cases hg : mapGet bs t' with
    | none =>
      simp only [mapGet_mapSet_same, Option.getD_some]
      by_cases hp : p' = p
      · subst hp
        simp [mapGet_mapSet_same]
      · have hp' : ¬ p = p' := fun h => hp h.symm
        simp [hp, hp', mapSet, mapGet]
    | some ps =>
      simp only [hg, Option.getD_some]
      by_cases hp : p' = p
      · subst hp
        simp [mapGet_mapSet_same]
      · simp [hp, mapGet_mapSet_other _ _ _ _ hp]
  · rw [mapGet_mapSet_other _ _ _ _ ht]
    simp only [ht, false_and, if_false]
    cases hg : mapGet bs t with
    | none => simp only [mapGet_mapSet_other _ _ _ _ ht]
    | some ps => rfl

theorem OffsetCommitRequest.offset_error_iff (r : OffsetCommitRequest) (t : GoString) (p : Int) :
    (r.Offset t p).2.2 ≠ none ↔ r.block t p = none := by
  rw [OffsetCommitRequest.offset_of_block]
  cases r.block t p with
  | none => simp
  | some b => simp

theorem OffsetCommitRequest.block_addAll (calls : List AddBlockCall) (r : OffsetCommitRequest)
    (t : GoString) (p : Int) :
    (r.addAll calls).block t p = none ↔
      (r.block t p = none ∧ ∀ c ∈ calls, ¬ (c.topic = t ∧ c.partitionID = p)) := by
  induction calls generalizing r with
  | nil => simp [OffsetCommitRequest.addAll]
  | cons c cs ih =>
    have hstep : r.addAll (c :: cs) =
        (r.AddBlockWithLeaderEpoch c.topic c.partitionID c.offset c.leaderEpoch c.timestamp
          c.metadata).addAll cs := rfl
    rw [hstep, ih, OffsetCommitRequest.block_addBlock]
    by_cases hc : t = c.topic ∧ p = c.partitionID
    · obtain ⟨h1, h2⟩ := hc
      subst h1 h2
      simp
    · have hc' : ¬ (c.topic = t ∧ c.partitionID = p) := fun h => hc ⟨h.1.symm, h.2.symm⟩
      simp only [hc, if_false, List.mem_cons, forall_eq_or_imp, hc', not_false_eq_true, true_and]

/-- C21: the blocks of an OffsetCommitRequest behave as a map keyed by (topic,
partition). After AddBlockWithLeaderEpoch(t, p, off, epoch, ts, md), Offset(t, p)
returns (off, md, no error), whatever was stored for (t, p) before, and Offset at every
other key returns what it returned before. Offset returns an error only as
(0, "", "no such offset"), and after any calls it does so exactly for the keys that had
no block before and were in no call; a fresh request has no block at all. AddBlock is
AddBlockWithLeaderEpoch with leader epoch 0. -/
theorem offset_after_addBlock (r : OffsetCommitRequest) (t : GoString) (p off epoch ts : Int)
    (md : GoString) :
    (r.AddBlockWithLeaderEpoch t p off epoch ts md).Offset t p = (off, md, none) ∧
    (∀ (t' : GoString) (p' : Int), ¬ (t' = t ∧ p' = p) →
      (r.AddBlockWithLeaderEpoch t p off epoch ts md).Offset t' p' = r.Offset t' p') ∧
    (∀ (t' : GoString) (p' : Int), (r.Offset t' p').2.2 ≠ none →
      r.Offset t' p' = (0, [], some "no such offset")) ∧
    (∀ (calls : List AddBlockCall) (t' : GoString) (p' : Int),
      ((r.addAll calls).Offset t' p').2.2 ≠ none ↔
        ((r.Offset t' p').2.2 ≠ none ∧
          ∀ c ∈ calls, ¬ (c.topic = t' ∧ c.partitionID = p'))) ∧
    (∀ (calls : List AddBlockCall) (t' : GoString) (p' : Int),
      ((OffsetCommitRequest.zero.addAll calls).Offset t' p').2.2 ≠ none ↔
        ∀ c ∈ calls, ¬ (c.topic = t' ∧ c.partitionID = p')) ∧
    r.AddBlock t p off ts md = r.AddBlockWithLeaderEpoch t p off 0 ts md := by
  refine ⟨?_, ?_, ?_, ?_, ?_, rfl⟩
  · rw [OffsetCommitRequest.offset_of_block, OffsetCommitRequest.block_addBlock]
    simp
  · intro t' p' hne
    rw [OffsetCommitRequest.offset_of_block, OffsetCommitRequest.block_addBlock, if_neg hne,
      ← OffsetCommitRequest.offset_of_block]
  · intro t' p' herr
    have hb := (OffsetCommitRequest.offset_error_iff r t' p').mp herr
    rw [OffsetCommitRequest.offset_of_block, hb]
  · intro calls t' p'
    rw [OffsetCommitRequest.offset_error_iff, OffsetCommitRequest.offset_error_iff,
      OffsetCommitRequest.block_addAll]
  · intro calls t' p'
    rw [OffsetCommitRequest.offset_error_iff, OffsetCommitRequest.block_addAll]
    have hz : OffsetCommitRequest.zero.block t' p' = none := rfl
    simp only [hz, true_and]

/-- Witness of C21: on the scenario request (topic "t", partition 0, offset 42), a block
added for ("t", 1) is found, the block for ("t", 0) is still found, replacing it gives
the new offset, and ("u", 0) has no block. -/
theorem offset_after_addBlock_witness :
    (OffsetCommitRequest.scenario.AddBlockWithLeaderEpoch [116] 1 7 2 0 [109]).Offset [116] 1
      = (7, [109], none) ∧
    (OffsetCommitRequest.scenario.AddBlockWithLeaderEpoch [116] 1 7 2 0 [109]).Offset [116] 0
      = (42, [], none) ∧
    (OffsetCommitRequest.scenario.AddBlockWithLeaderEpoch [116] 0 9 2 0 [109]).Offset [116] 0
      = (9, [109], none) ∧
    (OffsetCommitRequest.scenario.AddBlockWithLeaderEpoch [116] 1 7 2 0 [109]).Offset [117] 0
      = (0, [], some "no such offset") ∧
    ((OffsetCommitRequest.zero.addAll [⟨[116], 1, 7, 2, 0, [109]⟩]).Offset [117] 0).2.2
      ≠ none :=
  ⟨(offset_after_addBlock OffsetCommitRequest.scenario [116] 1 7 2 0 [109]).1,
    ((offset_after_addBlock OffsetCommitRequest.scenario [116] 1 7 2 0 [109]).2.1 [116] 0
      (by decide)).trans (by decide),
    (offset_after_addBlock OffsetCommitRequest.scenario [116] 0 9 2 0 [109]).1,
    ((offset_after_addBlock OffsetCommitRequest.scenario [116] 1 7 2 0 [109]).2.1 [117] 0
      (by decide)).trans (by decide),
    ((offset_after_addBlock OffsetCommitRequest.zero [116] 1 7 2 0 [109]).2.2.2.2.1
      [⟨[116], 1, 7, 2, 0, [109]⟩] [117] 0).mpr (by decide)⟩

/-! ## OffsetFetchRequest: ZeroPartitions -/

theorem OffsetFetchRequest.encode_prefix_nil (r : OffsetFetchRequest)
    (hv : 2 ≤ r.Version ∧ r.Version ≤ 5) (hg : r.ConsumerGroup.length ≤ 32767)
    (hp : r.partitions = none) :
    r.encode.out =
      (putInt16 r.ConsumerGroup.length).out ++ r.ConsumerGroup ++ [255, 255, 255, 255] := by
  have hvalid : ¬ (r.Version < 0 ∨ r.Version > 7) := by omega
  have h6 : ¬ r.Version ≥ 6 := by omega
  have h7 : ¬ r.Version ≥ 7 := by omega
  have h2 : r.Version ≥ 2 := by omega
  have b1 : (putInt32 (-1)).out = [255, 255, 255, 255] := by decide
  unfold OffsetFetchRequest.encode
  rw [if_neg hvalid]
  simp only [h6, h7, h2, hp, decide_False, Bool.false_eq_true, if_false, and_self, if_true,
    entries, Option.getD_none]
  rw [Enc.seq_cons_out _ (putString_err hg), Enc.seq_cons_out _ (putInt32_err _),
    putString_out hg, b1]
  have htail : (Enc.seq [Enc.forEach ([] : List (GoString × Option (List Int))) (fun tp =>
        Enc.seq [putString tp.1, putInt32Array tp.2, Enc.skip]),
      if r.RequireStable = true ∧ r.Version < 7 then
        Enc.fail (Err.packetEncoding "requireStable is not supported. use version 7 or later")
      else Enc.skip, Enc.skip, Enc.skip]).out = [] := by
    split <;> rfl
  rw [htail]
  simp

theorem OffsetFetchRequest.encode_prefix_empty (r : OffsetFetchRequest)
    (hv : 2 ≤ r.Version ∧ r.Version ≤ 5) (hg : r.ConsumerGroup.length ≤ 32767)
    (hp : r.partitions = some []) :
    r.encode.out =
      (putInt16 r.ConsumerGroup.length).out ++ r.ConsumerGroup ++ [0, 0, 0, 0] := by
  have hvalid : ¬ (r.Version < 0 ∨ r.Version > 7) := by omega
  have h6 : ¬ r.Version ≥ 6 := by omega
  have h7 : ¬ r.Version ≥ 7 := by omega
  have b0 : (putArrayLength 0).out = [0, 0, 0, 0] := by decide
  have e0 : (putArrayLength 0).err = none := by decide
  unfold OffsetFetchRequest.encode
  rw [if_neg hvalid]
  simp only [h6, h7, hp, decide_False, Bool.false_eq_true, if_false, false_and, reduceCtorEq,
    entries, Option.getD_some, List.length_nil]
  rw [Enc.seq_cons_out _ (putString_err hg), Enc.seq_cons_out _ e0,
    putString_out hg, b0]
  have htail : (Enc.seq [Enc.forEach ([] : List (GoString × Option (List Int))) (fun tp =>
        Enc.seq [putString tp.1, putInt32Array tp.2, Enc.skip]),
      if r.RequireStable = true ∧ r.Version < 7 then
        Enc.fail (Err.packetEncoding "requireStable is not supported. use version 7 or later")
      else Enc.skip, Enc.skip, Enc.skip]).out = [] := by
    split <;> rfl
  rw [htail]
  simp

theorem OffsetFetchRequest.fetchRequest_longGroup_encode (n : Nat) (hn : n > 32767) :
    (OffsetFetchRequest.longGroup n).encode.out = [] ∧
    (OffsetFetchRequest.longGroup n).ZeroPartitions.encode.out = [] := by
  have hfail : putString (List.replicate n (0 : Byte))
      = Enc.fail (Err.packetEncoding "string too long") := by
    unfold putString
    rw [List.length_replicate, if_pos hn]
  have hz : (OffsetFetchRequest.longGroup n).ZeroPartitions =
      ⟨2, List.replicate n 0, false, some []⟩ := by
    unfold OffsetFetchRequest.ZeroPartitions OffsetFetchRequest.longGroup
    have h2 : (2 : Int) ≥ 2 := by decide
    rw [if_pos ⟨rfl, h2⟩]
  have hver : ¬ ((2 : Int) < 0 ∨ (2 : Int) > 7) := by decide
  have h6 : ¬ (2 : Int) ≥ 6 := by decide
  constructor
  · unfold OffsetFetchRequest.encode OffsetFetchRequest.longGroup
    simp only [hver, h6, if_false, decide_False, Bool.false_eq_true, hfail]
    rfl
  · rw [hz]
    unfold OffsetFetchRequest.encode
    simp only [hver, h6, if_false, decide_False, Bool.false_eq_true, hfail]
    rfl

/-- Counterexample to C22: the version 2 request for all topics whose consumer group is
32768 bytes long is refused at the group, so neither before nor after ZeroPartitions
is an array prefix written. -/
theorem zeroPartitions_prefix_fails_longGroup :
    (OffsetFetchRequest.longGroup 32768).Version = 2 ∧
    (OffsetFetchRequest.longGroup 32768).partitions = none ∧
    (OffsetFetchRequest.longGroup 32768).encode.out = [] ∧
    (OffsetFetchRequest.longGroup 32768).ZeroPartitions.encode.out = [] :=
  ⟨rfl, rfl, (OffsetFetchRequest.fetchRequest_longGroup_encode 32768 (by omega)).1,
    (OffsetFetchRequest.fetchRequest_longGroup_encode 32768 (by omega)).2⟩

/-- C22 (amended): ZeroPartitions changes a request only when its partitions are nil
and its Version is at least 2; then partitions become a present empty mapping, and in
every case Version, ConsumerGroup and RequireStable are kept. It is idempotent, it
leaves a request that AddPartition was called on as it is, and it never changes the
topic entries. For 2 <= Version <= 5, a request with nil partitions whose consumer
group is at most 32767 bytes long is encoded as the group followed by int32 -1 before
the call and by int32 0 after it. -/
theorem zeroPartitions_effect (r : OffsetFetchRequest) (t : GoString) (p : Int) :
    (r.ZeroPartitions ≠ r → r.partitions = none ∧ r.Version ≥ 2) ∧
    (r.partitions = none → r.Version ≥ 2 → r.ZeroPartitions.partitions = some []) ∧
    (r.ZeroPartitions.Version = r.Version ∧
      r.ZeroPartitions.ConsumerGroup = r.ConsumerGroup ∧
      r.ZeroPartitions.RequireStable = r.RequireStable) ∧
    r.ZeroPartitions.ZeroPartitions = r.ZeroPartitions ∧
    (r.AddPartition t p).ZeroPartitions = r.AddPartition t p ∧
    entries r.ZeroPartitions.partitions = entries r.partitions ∧
    (2 ≤ r.Version → r.Version ≤ 5 → r.partitions = none →
      r.ConsumerGroup.length ≤ 32767 →
      r.encode.out =
        (putInt16 r.ConsumerGroup.length).out ++ r.ConsumerGroup ++ [255, 255, 255, 255] ∧
      r.ZeroPartitions.encode.out =
        (putInt16 r.ConsumerGroup.length).out ++ r.ConsumerGroup ++ [0, 0, 0, 0]) := by
  have hsome : ∀ q : OffsetFetchRequest, q.partitions ≠ none → q.ZeroPartitions = q := by
    intro q hq
    unfold OffsetFetchRequest.ZeroPartitions
    rw [if_neg (fun h => hq h.1)]
  refine ⟨?_, ?_, ?_, ?_, ?_, ?_, ?_⟩
  · intro hne
    by_contra hc
    apply hne
    unfold OffsetFetchRequest.ZeroPartitions
    rw [if_neg hc]
  · intro hp hv
    unfold OffsetFetchRequest.ZeroPartitions
    rw [if_pos ⟨hp, hv⟩]
  · unfold OffsetFetchRequest.ZeroPartitions
    split <;> exact ⟨rfl, rfl, rfl⟩
  · by_cases hc : r.partitions = none ∧ r.Version ≥ 2
    · apply hsome
      unfold OffsetFetchRequest.ZeroPartitions
      rw [if_pos hc]
      simp
    · have hr : r.ZeroPartitions = r := by
        unfold OffsetFetchRequest.ZeroPartitions
        rw [if_neg hc]
      rw [hr, hr]
  · apply hsome
    unfold OffsetFetchRequest.AddPartition
    simp
  · unfold OffsetFetchRequest.ZeroPartitions
    split
    · rename_i hc
      rw [hc.1]
      rfl
    · rfl
  · intro h2 h5 hp hg
    refine ⟨OffsetFetchRequest.encode_prefix_nil r ⟨h2, h5⟩ hg hp, ?_⟩
    have hz : r.ZeroPartitions = { r with partitions := some [] } := by
      unfold OffsetFetchRequest.ZeroPartitions
      rw [if_pos ⟨hp, h2⟩]
    rw [hz]
    exact OffsetFetchRequest.encode_prefix_empty _ ⟨h2, h5⟩ hg rfl

/-- Witness of C22: the version 3 request of group "g" for all topics is written as
00 01 67 ff ff ff ff before ZeroPartitions and as 00 01 67 00 00 00 00 after it; at
version 1 the call changes nothing. -/
theorem zeroPartitions_effect_witness :
    (⟨3, [103], false, none⟩ : OffsetFetchRequest).encode.out
      = [0, 1, 103, 255, 255, 255, 255] ∧
    (⟨3, [103], false, none⟩ : OffsetFetchRequest).ZeroPartitions.encode.out
      = [0, 1, 103, 0, 0, 0, 0] ∧
    (⟨3, [103], false, none⟩ : OffsetFetchRequest).ZeroPartitions.partitions = some [] ∧
    (⟨1, [103], false, none⟩ : OffsetFetchRequest).ZeroPartitions = ⟨1, [103], false, none⟩ :=
  ⟨((zeroPartitions_effect ⟨3, [103], false, none⟩ [] 0).2.2.2.2.2.2 (by decide) (by decide)
      rfl (by decide)).1,
    ((zeroPartitions_effect ⟨3, [103], false, none⟩ [] 0).2.2.2.2.2.2 (by decide) (by decide)
      rfl (by decide)).2,
    (zeroPartitions_effect ⟨3, [103], false, none⟩ [] 0).2.1 rfl (by decide),
    by decide⟩

/-! ## OffsetCommitRequest.decode: repeated topic names -/

theorem weight_mapSet {κ ν : Type} [DecidableEq κ] (w : ν → Nat) (m : List (κ × ν)) (k : κ)
    (v : ν) :
    weight w (mapSet m k v) + ((mapGet m k).map w).getD 0 = weight w m + w v := by
  induction m with
  | nil => simp [mapSet, mapGet, weight]
  | cons e m ih =>
    obtain ⟨k', v'⟩ := e
    by_cases h : k' = k
    · simp only [mapSet, mapGet, h, if_true, weight, List.map_cons, List.sum_cons,
        Option.map_some', Option.getD_some]
      omega
    · simp only [mapSet, mapGet, h, if_false, weight, List.map_cons, List.sum_cons] at ih ⊢
      omega

theorem weight_mapGet_le {κ ν : Type} [DecidableEq κ] (w : ν → Nat) (m : List (κ × ν)) (k : κ) :
    ((mapGet m k).map w).getD 0 ≤ weight w m := by
  induction m with
  | nil => simp [mapGet, weight]
  | cons e m ih =>
    obtain ⟨k', v'⟩ := e
    by_cases h : k' = k
    · simp only [mapGet, h, if_true, weight, List.map_cons, List.sum_cons, Option.map_some',
        Option.getD_some]
      omega
    · simp only [mapGet, h, if_false, weight, List.map_cons, List.sum_cons] at ih ⊢
      omega

theorem assignAll_snoc {κ ν : Type} [DecidableEq κ] (xs : List (κ × ν)) (e : κ × ν) :
    assignAll (xs ++ [e]) = mapSet (assignAll xs) e.1 e.2 := by
  simp [assignAll, List.foldl_append]

theorem weight_snoc {κ ν : Type} (w : ν → Nat) (xs : List (κ × ν)) (e : κ × ν) :
    weight w (xs ++ [e]) = weight w xs + w e.2 := by
  simp [weight]

theorem weight_assignAll_le {κ ν : Type} [DecidableEq κ] (w : ν → Nat) (xs : List (κ × ν)) :
    weight w (assignAll xs) ≤ weight w xs := by
  induction xs using List.reverseRecOn with
  | nil => simp [assignAll, weight]
  | append_singleton xs e ih =>
    have h1 := weight_mapSet w (assignAll xs) e.1 e.2
    rw [assignAll_snoc, weight_snoc]
    omega

theorem mapGet_append {κ ν : Type} [DecidableEq κ] (a b : List (κ × ν)) (k : κ) :
    mapGet (a ++ b) k = (match mapGet a k with
      | some v => some v
      | none => mapGet b k) := by
  induction a with
  | nil => rfl
  | cons e a ih =>
    obtain ⟨k', v'⟩ := e
    by_cases h : k' = k
    · simp [mapGet, h]
    · show mapGet ((k', v') :: (a ++ b)) k = _
      simp only [mapGet, h, if_false]
      exact ih

theorem mapGet_assignAll {κ ν : Type} [DecidableEq κ] (xs : List (κ × ν)) (k : κ) :
    mapGet (assignAll xs) k = mapGet xs.reverse k := by
  induction xs using List.reverseRecOn with
  | nil => rfl
  | append_singleton xs e ih =>
    rw [assignAll_snoc, List.reverse_append, List.reverse_singleton, List.singleton_append]
    by_cases h : e.1 = k
    · subst h
      rw [mapGet_mapSet_same]
      simp [mapGet]
    · rw [mapGet_mapSet_other _ _ _ _ (fun h' => h h'.symm), ih]
      simp [mapGet, h]

theorem noOverwrite_snoc {κ ν : Type} (w : ν → Nat) (xs : List (κ × ν)) (e : κ × ν) :
    NoOverwrite w (xs ++ [e]) ↔
      (NoOverwrite w xs ∧ ∀ e0 ∈ xs, e0.1 = e.1 → w e0.2 = 0) := by
  induction xs with
  | nil => simp [NoOverwrite]
  | cons a xs ih =>
    have hcons : (a :: xs) ++ [e] = a :: (xs ++ [e]) := rfl
    rw [hcons]
    simp only [NoOverwrite, ih, List.map_append, List.map_cons, List.map_nil,
      List.mem_append, List.mem_singleton, List.mem_cons, forall_eq_or_imp, List.not_mem_nil,
      or_false]
    constructor
    · rintro ⟨h1, h2, h3⟩
      exact ⟨⟨fun hm => h1 (Or.inl hm), h2⟩, fun heq => h1 (Or.inr heq), h3⟩
    · rintro ⟨⟨h1, h2⟩, h3, h4⟩
      exact ⟨fun hm => Or.elim hm h1 h3, h2, h4⟩

theorem noOverwrite_last {κ ν : Type} [DecidableEq κ] (w : ν → Nat) (xs : List (κ × ν))
    (h : NoOverwrite w xs) (e0 : κ × ν) (he : e0 ∈ xs) :
    w e0.2 = 0 ∨ mapGet xs.reverse e0.1 = some e0.2 := by
  induction xs with
  | nil => exact absurd he (List.not_mem_nil _)
  | cons a xs ih =>
    obtain ⟨h1, h2⟩ := h
    rw [List.reverse_cons, mapGet_append]
    rcases List.mem_cons.mp he with rfl | hin
    · by_cases hm : e0.1 ∈ xs.map Prod.fst
      · exact Or.inl (h1 hm)
      · right
        have hm' : e0.1 ∉ xs.reverse.map Prod.fst := by
          simpa using hm
        rw [mapGet_eq_none _ _ hm']
        simp [mapGet]
    · rcases ih h2 hin with hz | hg
      · exact Or.inl hz
      · right
        rw [hg]

theorem weight_assignAll_eq_iff {κ ν : Type} [DecidableEq κ] (w : ν → Nat)
    (xs : List (κ × ν)) :
    weight w (assignAll xs) = weight w xs ↔ NoOverwrite w xs := by
  induction xs using List.reverseRecOn with
  | nil => simp [assignAll, weight, NoOverwrite]
  | append_singleton xs e ih =>
    have h1 := weight_mapSet w (assignAll xs) e.1 e.2
    have h2 := weight_mapGet_le w (assignAll xs) e.1
    have h3 := weight_assignAll_le w xs
    rw [assignAll_snoc, weight_snoc, noOverwrite_snoc, ← ih]
    constructor
    · intro heq
      have hw : weight w (assignAll xs) = weight w xs := by omega
      have hold : ((mapGet (assignAll xs) e.1).map w).getD 0 = 0 := by omega
      refine ⟨hw, ?_⟩
      intro e0 he0 hk
      rcases noOverwrite_last w xs (ih.mp hw) e0 he0 with hz | hg
      · exact hz
      · rw [mapGet_assignAll, ← hk, hg] at hold
        simpa using hold
    · rintro ⟨hw, hall⟩
      have hold : ((mapGet (assignAll xs) e.1).map w).getD 0 = 0 := by
        cases hg : mapGet (assignAll xs) e.1 with
        | none => rfl
        | some o =>
          rw [mapGet_assignAll] at hg
          have hmem := mem_of_mapGet _ _ _ hg
          rw [List.mem_reverse] at hmem
          simpa using hall (e.1, o) hmem rfl
      omega

theorem length_eq_weight {κ ν : Type} (xs : List (κ × ν)) :
    xs.length = weight (fun _ => 1) xs := by
  induction xs with
  | nil => rfl
  | cons e xs ih =>
    simp only [List.length_cons, weight, List.map_cons, List.sum_cons] at ih ⊢
    omega

theorem noOverwrite_one_iff {κ ν : Type} (xs : List (κ × ν)) :
    NoOverwrite (fun _ => 1) xs ↔ Keyed xs := by
  induction xs with
  | nil => simp [NoOverwrite, Keyed]
  | cons e xs ih =>
    simp only [NoOverwrite, ih, Keyed, List.map_cons, List.nodup_cons, one_ne_zero, imp_false]

theorem length_assignAll_le {κ ν : Type} [DecidableEq κ] (xs : List (κ × ν)) :
    (assignAll xs).length ≤ xs.length := by
  rw [length_eq_weight, length_eq_weight xs]
  exact weight_assignAll_le _ xs

theorem length_assignAll_eq_iff {κ ν : Type} [DecidableEq κ] (xs : List (κ × ν)) :
    (assignAll xs).length = xs.length ↔ Keyed xs := by
  rw [length_eq_weight, length_eq_weight xs, weight_assignAll_eq_iff, noOverwrite_one_iff]

theorem assignAll_of_keyed {κ ν : Type} [DecidableEq κ] (xs : List (κ × ν)) (h : Keyed xs) :
    assignAll xs = xs := by
  have := foldl_mapSet xs [] (by simpa using h)
  simpa [assignAll] using this

theorem blockCount_inner_le {β : Type}
    (es : List (GoString × List (Int × β))) :
    blockCount (es.map (fun e => (e.1, assignAll e.2))) ≤ blockCount es ∧
    (blockCount (es.map (fun e => (e.1, assignAll e.2))) = blockCount es ↔
      ∀ e ∈ es, Keyed e.2) := by
  induction es with
  | nil => simp [blockCount, weight]
  | cons e es ih =>
    have hle := length_assignAll_le e.2
    have hiff := length_assignAll_eq_iff e.2
    obtain ⟨ih1, ih2⟩ := ih
    simp only [blockCount, weight, List.map_cons, List.sum_cons, List.mem_cons,
      forall_eq_or_imp] at ih1 ih2 ⊢
    refine ⟨by omega, ?_⟩
    rw [← ih2, ← hiff]
    constructor
    · intro h
      constructor <;> omega
    · rintro ⟨h1, h2⟩
      omega

/-- The count of decoded blocks against the count of entries declared on the wire. -/
theorem blockCount_assignAll {β : Type} (es : List (GoString × List (Int × β))) :
    blockCount (assignAll (es.map (fun e => (e.1, assignAll e.2)))) ≤ blockCount es ∧
    (blockCount (assignAll (es.map (fun e => (e.1, assignAll e.2)))) = blockCount es ↔
      ((∀ e ∈ es, Keyed e.2) ∧ NoOverwrite List.length es)) := by
  obtain ⟨h1, h2⟩ := blockCount_inner_le es
  have h3 := weight_assignAll_le List.length (es.map (fun e => (e.1, assignAll e.2)))
  have h4 := weight_assignAll_eq_iff List.length (es.map (fun e => (e.1, assignAll e.2)))
  have hmap : (∀ e ∈ es, Keyed e.2) → es.map (fun e => (e.1, assignAll e.2)) = es := by
    intro hk
    conv_rhs => rw [← List.map_id es]
    apply List.map_congr_left
    intro e he
    rw [assignAll_of_keyed e.2 (hk e he)]
    rfl
  unfold blockCount at *
  refine ⟨by omega, ?_⟩
  constructor
  · intro heq
    have hk := h2.mp (by omega)
    refine ⟨hk, ?_⟩
    have := h4.mp (by omega)
    rwa [hmap hk] at this
  · rintro ⟨hk, hn⟩
    rw [hmap hk]
    exact (weight_assignAll_eq_iff List.length es).mpr hn

theorem mapGet_assignAll_last {κ ν : Type} [DecidableEq κ] (pre post : List (κ × ν))
    (e : κ × ν) (h : e.1 ∉ post.map Prod.fst) :
    mapGet (assignAll (pre ++ e :: post)) e.1 = some e.2 := by
  rw [mapGet_assignAll, List.reverse_append, List.reverse_cons, List.append_assoc,
    mapGet_append, mapGet_eq_none _ _ (by simpa using h)]
  simp [mapGet]

theorem OffsetCommitRequest.decodeTopics_wire (v : Int)
    (ts : List (GoString × List (Int × offsetCommitRequestBlock)))
    (h : ∀ tp ∈ ts, tp.1.length ≤ 32767 ∧ tp.2.length ≤ 2147483647 ∧
      ∀ pb ∈ tp.2, IsInt32 pb.1 ∧ pb.2.Typed ∧ pb.2.metadata.length ≤ 32767 ∧ pb.2.DefaultsAt v)
    (acc : List (GoString × List (Int × offsetCommitRequestBlock))) (rest : List Byte) :
    OffsetCommitRequest.decodeTopics v ts.length
      ((Enc.forEach ts (fun tp => Enc.seq [putString tp.1, putArrayLength tp.2.length,
        Enc.forEach tp.2 (fun pb => Enc.seq [putInt32 pb.1, pb.2.encode v])])).out ++ rest) acc
      = Res.ok (ts.foldl (fun m e => mapSet m e.1 (assignAll e.2)) acc, rest) := by
  induction ts generalizing acc with
  | nil => rfl
  | cons tp ts ih =>
    obtain ⟨hs, hc, hps⟩ := h tp (List.mem_cons_self tp ts)
    have hm : ∀ pb ∈ tp.2, pb.2.metadata.length ≤ 32767 := fun pb hpb => (hps pb hpb).2.2.1
    have ih' := ih (fun y hy => h y (List.mem_cons_of_mem tp hy))
    have hlen := OffsetCommitRequest.partitions_length_le v tp.2 hm
    rw [Enc.forEach_cons_out tp ts (fun tp => Enc.seq [putString tp.1, putArrayLength tp.2.length,
        Enc.forEach tp.2 (fun pb => Enc.seq [putInt32 pb.1, pb.2.encode v])])
      (OffsetCommitRequest.commitRequest_topic_err v tp hs hc hm),
      OffsetCommitRequest.commitRequest_topic_out v tp hs hc hm]
    simp only [List.length_cons, OffsetCommitRequest.decodeTopics, List.append_assoc,
      getString_putString _ hs, bind, Res.bind]
    rw [getArrayLength_putArrayLength _ hc _ (by simp only [List.length_append]; omega)]
    simp only [Int.toNat_ofNat, OffsetCommitRequest.decodePartitions_encode v tp.2 hps,
      List.foldl_cons]
    exact ih' _

theorem assignAll_map_inner {κ ι ν : Type} [DecidableEq κ] [DecidableEq ι]
    (ts : List (κ × List (ι × ν))) :
    ts.foldl (fun m e => mapSet m e.1 (assignAll e.2)) [] =
      assignAll (ts.map (fun e => (e.1, assignAll e.2))) := by
  unfold assignAll
  rw [List.foldl_map]

/-- Decoding a well-formed body whose topic entries may repeat: the decoded blocks are
the result of assigning the entries in order, each with a newly made partition map. -/
theorem OffsetCommitRequest.decode_wire (m : OffsetCommitRequest) (v : Int)
    (hv : 0 ≤ v ∧ v ≤ 7) (hver : m.Version = v) (ht : m.WireTyped) (hs : m.StringsFit)
    (hc : m.CountsFit) (hd : m.DefaultsAt v) :
    ∃ d, OffsetCommitRequest.zero.decode m.encode.out v = Res.ok (d, []) ∧
      entries d.blocks =
        assignAll ((entries m.blocks).map (fun e => (e.1, assignAll e.2))) := by
  subst hver
  obtain ⟨herr, hout⟩ := OffsetCommitRequest.commitRequest_encode_parts m hv hs hc
  obtain ⟨g, gen, cid, gid, ret, ver, blocks⟩ := m
  obtain ⟨hgen, hret, htyped⟩ := ht
  obtain ⟨hg, hcid, hgid, htp⟩ := hs
  obtain ⟨hn, hnp⟩ := hc
  obtain ⟨hd0, hdret, hdgid, hdb⟩ := hd
  simp only at hv hgen hret htyped hg hcid hgid htp hn hnp hd0 hdret hdgid hdb hout
  have hloop := OffsetCommitRequest.decodeTopics_wire ver (entries blocks)
    (fun tp h => ⟨(htp tp h).1, hnp tp h, fun pb hpb =>
      ⟨(htyped tp h pb hpb).1, (htyped tp h pb hpb).2, (htp tp h).2 pb hpb,
        hdb tp h pb hpb⟩⟩) [] []
  have hlen := OffsetCommitRequest.commitRequest_topics_length_le ver (entries blocks)
    (fun tp h => ⟨(htp tp h).1, hnp tp h, (htp tp h).2⟩)
  rw [assignAll_map_inner, List.append_nil] at hloop
  have hcount := getArrayLength_putArrayLength (entries blocks).length hn _ hlen
  rw [hout]
  unfold OffsetCommitRequest.decode
  simp only [List.append_assoc, getString_putString _ hg, bind, Res.bind,
    OffsetCommitRequest.zero]
  have hcases : ver = 0 ∨ ver = 1 ∨ ver = 2 ∨ ver = 3 ∨ ver = 4 ∨ ver = 5 ∨ ver = 6 ∨ ver = 7 := by
    omega
  have hnil : (entries blocks).length = 0 → entries blocks = [] := List.length_eq_zero.mp
  rcases hcases with rfl | rfl | rfl | rfl | rfl | rfl | rfl | rfl
  all_goals
    simp only [Int.reduceGE, Int.reduceLE, Int.reduceLT, and_true, and_false, true_and, false_and,
      if_true, if_false, List.nil_append, List.append_assoc, getInt32_putInt32 _ hgen,
      getString_putString _ hcid, getInt64_putInt64 _ hret,
      getNullableString_putNullableString _ hgid, hcount, not_true_eq_false, not_false_eq_true,
      forall_true_left, ge_iff_le, true_implies, false_implies] at hd0 hdret hdgid ⊢
    clear herr hout hlen htp hnp htyped hdb
    by_cases hz : (entries blocks).length = 0
    · have hz' : ((entries blocks).length : Int) = 0 := by omega
      simp only [hz', if_true]
      rw [hnil hz]
      exact ⟨_, rfl, rfl⟩
    · have hz' : ¬ ((entries blocks).length : Int) = 0 := by omega
      simp only [hz', if_false, Int.toNat_ofNat, hloop]
      exact ⟨_, rfl, rfl⟩

/-- Counterexample to C23: the version 0 body that names topic "t" twice, first without
a partition and then with partition 0, decodes to one block, as many as the wire
declares, although a topic name repeats. -/
theorem decode_repeated_topic_same_count :
    OffsetCommitRequest.repeatedTopic.encode.out =
      [0, 1, 103, 0, 0, 0, 2, 0, 1, 116, 0, 0, 0, 0, 0, 1, 116, 0, 0, 0, 1,
        0, 0, 0, 0, 0, 0, 0, 0, 0, 0, 0, 42, 0, 0] ∧
    OffsetCommitRequest.zero.decode OffsetCommitRequest.repeatedTopic.encode.out 0 =
      Res.ok (⟨[103], 0, [], none, 0, 0, some [([116], [(0, ⟨42, 0, 0, []⟩)])]⟩, []) ∧
    blockCount [(([116] : GoString), [((0 : Int), (⟨42, 0, 0, []⟩ : offsetCommitRequestBlock))])]
      = blockCount (entries OffsetCommitRequest.repeatedTopic.blocks) ∧
    ¬ Keyed (entries OffsetCommitRequest.repeatedTopic.blocks) := by
  refine ⟨by decide, by decide, by decide, ?_⟩
  unfold Keyed
  decide

/-- C23 (amended): for every version v in 0..7 and every well-formed body, whose topic
entries may name a topic or a partition more than once, decode succeeds and reads every
byte; for the last entry with a given topic name the decoded blocks of that topic are
the partitions of that entry alone (a repeated partition id keeping its last block);
the number of decoded blocks is at most the number of partition entries declared on
the wire, and the two are equal if and only if no partition id repeats within a topic
entry and every topic entry whose name occurs again in a later entry declares no
partition. -/
theorem decode_repeated_topics (m : OffsetCommitRequest) (v : Int)
    (hv : 0 ≤ v ∧ v ≤ 7) (hver : m.Version = v) (ht : m.WireTyped) (hs : m.StringsFit)
    (hc : m.CountsFit) (hd : m.DefaultsAt v) :
    ∃ d, OffsetCommitRequest.zero.decode m.encode.out v = Res.ok (d, []) ∧
      (∀ pre e post, entries m.blocks = pre ++ e :: post → e.1 ∉ post.map Prod.fst →
        mapGet (entries d.blocks) e.1 = some (assignAll e.2) ∧
        (∀ p, d.block e.1 p = mapGet e.2.reverse p) ∧
        (Keyed e.2 → mapGet (entries d.blocks) e.1 = some e.2)) ∧
      blockCount (entries d.blocks) ≤ blockCount (entries m.blocks) ∧
      (blockCount (entries d.blocks) = blockCount (entries m.blocks) ↔
        ((∀ e ∈ entries m.blocks, Keyed e.2) ∧ NoOverwrite List.length (entries m.blocks))) := by
  obtain ⟨d, hdec, hblocks⟩ := OffsetCommitRequest.decode_wire m v hv hver ht hs hc hd
  refine ⟨d, hdec, ?_, ?_, ?_⟩
  · intro pre e post hsplit hlast
    have hget : mapGet (entries d.blocks) e.1 = some (assignAll e.2) := by
      rw [hblocks, hsplit, List.map_append, List.map_cons]
      exact mapGet_assignAll_last _ _ (e.1, assignAll e.2) (by
        simpa [List.map_map, Function.comp_def] using hlast)
    refine ⟨hget, ?_, ?_⟩
    · intro p
      unfold OffsetCommitRequest.block
      rw [hget]
      exact mapGet_assignAll e.2 p
    · intro hk
      rw [hget, assignAll_of_keyed e.2 hk]
  · rw [hblocks]
    exact (blockCount_assignAll (entries m.blocks)).1
  · rw [hblocks]
    exact (blockCount_assignAll (entries m.blocks)).2

/-- Witness of C23: the version 0 body that names topic "t" twice, with partition 0
and then with partition 1, is decoded; the decoded request holds partition 1 of "t"
only, one block for the two the wire declares. -/
theorem decode_repeated_topics_witness :
    OffsetCommitRequest.overwrittenTopic.WireTyped ∧
    OffsetCommitRequest.overwrittenTopic.StringsFit ∧
    OffsetCommitRequest.overwrittenTopic.CountsFit ∧
    OffsetCommitRequest.overwrittenTopic.DefaultsAt 0 ∧
    OffsetCommitRequest.zero.decode OffsetCommitRequest.overwrittenTopic.encode.out 0 =
      Res.ok (⟨[103], 0, [], none, 0, 0, some [([116], [(1, ⟨43, 0, 0, []⟩)])]⟩, []) ∧
    blockCount (entries OffsetCommitRequest.overwrittenTopic.blocks) = 2 ∧
    ¬ NoOverwrite List.length (entries OffsetCommitRequest.overwrittenTopic.blocks) ∧
    (∃ d, OffsetCommitRequest.zero.decode OffsetCommitRequest.overwrittenTopic.encode.out 0
        = Res.ok (d, []) ∧
      (∀ pre e post, entries OffsetCommitRequest.overwrittenTopic.blocks = pre ++ e :: post →
        e.1 ∉ post.map Prod.fst →
        mapGet (entries d.blocks) e.1 = some (assignAll e.2) ∧
        (∀ p, d.block e.1 p = mapGet e.2.reverse p) ∧
        (Keyed e.2 → mapGet (entries d.blocks) e.1 = some e.2)) ∧
      blockCount (entries d.blocks) ≤
        blockCount (entries OffsetCommitRequest.overwrittenTopic.blocks) ∧
      (blockCount (entries d.blocks) =
          blockCount (entries OffsetCommitRequest.overwrittenTopic.blocks) ↔
        ((∀ e ∈ entries OffsetCommitRequest.overwrittenTopic.blocks, Keyed e.2) ∧
          NoOverwrite List.length (entries OffsetCommitRequest.overwrittenTopic.blocks)))) :=
  ⟨by decide, by decide, by decide, by decide, by decide, by decide,
    fun h => absurd (h.1 (List.mem_cons_self _ _)) (by decide),
    decode_repeated_topics OffsetCommitRequest.overwrittenTopic 0 (by decide) rfl (by decide)
      (by decide) (by decide) (by decide)⟩

/-! ## Truncated input: decode reads forward only -/

theorem Res.Extends.ok {α : Type} (a : α) (rest ext : List Byte) :
    Res.Extends (Res.ok (a, rest)) (Res.ok (a, rest ++ ext)) ext := by
  refine ⟨by simp, ?_⟩
  intro a' rest' h
  cases h
  rfl

theorem Res.Extends.error {α : Type} (e : Err) (y : Res (α × List Byte)) (ext : List Byte) :
    Res.Extends (Res.error e) y ext := by
  refine ⟨by simp, ?_⟩
  intro a' rest' h
  cases h

theorem Res.Extends.bind {α β : Type} {x y : Res (α × List Byte)} {ext : List Byte}
    (k : α × List Byte → Res (β × List Byte)) (h : Res.Extends x y ext)
    (hk : ∀ a rest, Res.Extends (k (a, rest)) (k (a, rest ++ ext)) ext) :
    Res.Extends (x.bind k) (y.bind k) ext := by
  cases x with
  | ok p =>
    obtain ⟨a, rest⟩ := p
    rw [h.2 a rest rfl]
    exact hk a rest
  | error e => exact Res.Extends.error e _ ext
  | panic => exact absurd rfl h.1

theorem Res.Extends.ite {α : Type} {a a' b b' : Res (α × List Byte)} {ext : List Byte}
    (c : Prop) [Decidable c] (h1 : c → Res.Extends a a' ext) (h2 : ¬ c → Res.Extends b b' ext) :
    Res.Extends (if c then a else b) (if c then a' else b') ext := by
  by_cases hc : c
  · rw [if_pos hc, if_pos hc]
    exact h1 hc
  · rw [if_neg hc, if_neg hc]
    exact h2 hc

theorem getFixed_extends (w : Nat) (pd ext : List Byte) :
    Res.Extends (getFixed w pd) (getFixed w (pd ++ ext)) ext := by
  unfold getFixed
  by_cases h : pd.length < w
  · rw [if_pos h]
    exact Res.Extends.error _ _ ext
  · have h' : ¬ (pd ++ ext).length < w := by
      rw [List.length_append]
      omega
    have hle : w ≤ pd.length := by omega
    rw [if_neg h, if_neg h', List.take_append_of_le_length hle,
      List.drop_append_of_le_length hle]
    exact Res.Extends.ok _ _ ext

theorem getInt16_extends (pd ext : List Byte) :
    Res.Extends (getInt16 pd) (getInt16 (pd ++ ext)) ext := getFixed_extends 2 pd ext

theorem getInt32_extends (pd ext : List Byte) :
    Res.Extends (getInt32 pd) (getInt32 (pd ++ ext)) ext := getFixed_extends 4 pd ext

theorem getInt64_extends (pd ext : List Byte) :
    Res.Extends (getInt64 pd) (getInt64 (pd ++ ext)) ext := getFixed_extends 8 pd ext

theorem getBool_extends (pd ext : List Byte) :
    Res.Extends (getBool pd) (getBool (pd ++ ext)) ext := by
  cases pd with
  | nil => exact Res.Extends.error _ _ ext
  | cons b rest => exact Res.Extends.ok _ _ ext

theorem getRaw_extends (n : Nat) (pd ext : List Byte) :
    Res.Extends (getRaw n pd) (getRaw n (pd ++ ext)) ext := by
  unfold getRaw
  by_cases h : pd.length < n
  · rw [if_pos h]
    exact Res.Extends.error _ _ ext
  · have h' : ¬ (pd ++ ext).length < n := by
      rw [List.length_append]
      omega
    have hle : n ≤ pd.length := by omega
    rw [if_neg h, if_neg h', List.take_append_of_le_length hle,
      List.drop_append_of_le_length hle]
    exact Res.Extends.ok _ _ ext

theorem uvarintRead_extends (fuel : Nat) (pd ext : List Byte) (shift acc : Nat) :
    Res.Extends (uvarintRead fuel pd shift acc) (uvarintRead fuel (pd ++ ext) shift acc) ext := by
  induction fuel generalizing pd shift acc with
  | zero =>
    unfold uvarintRead
    exact Res.Extends.error _ _ ext
  | succ fuel ih =>
    cases pd with
    | nil =>
      unfold uvarintRead
      exact Res.Extends.error _ _ ext
    | cons b rest =>
      simp only [List.cons_append, uvarintRead]
      exact Res.Extends.ite _ (fun _ => Res.Extends.ok _ _ ext) (fun _ => ih rest _ _)

theorem getUVarint_extends (pd ext : List Byte) :
    Res.Extends (getUVarint pd) (getUVarint (pd ++ ext)) ext := by
  have h := uvarintRead_extends 10 pd ext 0 0
  unfold getUVarint
  cases hx : uvarintRead 10 pd 0 0 with
  | ok p =>
    obtain ⟨n, rest⟩ := p
    rw [hx] at h
    rw [h.2 n rest rfl]
    simp only
    exact Res.Extends.ite _ (fun _ => Res.Extends.ok _ _ ext)
      (fun _ => Res.Extends.error _ _ ext)
  | error e => exact Res.Extends.error _ _ ext
  | panic =>
    rw [hx] at h
    exact absurd rfl h.1

theorem getString_extends (pd ext : List Byte) :
    Res.Extends (getString pd) (getString (pd ++ ext)) ext := by
  unfold getString
  refine Res.Extends.bind _ (getInt16_extends pd ext) ?_
  intro n rest
  exact Res.Extends.ite _ (fun _ => Res.Extends.error _ _ ext)
    (fun _ => getRaw_extends _ rest ext)

theorem getNullableString_extends (pd ext : List Byte) :
    Res.Extends (getNullableString pd) (getNullableString (pd ++ ext)) ext := by
  unfold getNullableString
  refine Res.Extends.bind _ (getInt16_extends pd ext) ?_
  intro n rest
  refine Res.Extends.ite _ (fun _ => Res.Extends.ok _ _ ext) (fun _ => ?_)
  refine Res.Extends.ite _ (fun _ => Res.Extends.error _ _ ext) (fun _ => ?_)
  refine Res.Extends.bind _ (getRaw_extends _ rest ext) ?_
  intro s rest'
  exact Res.Extends.ok _ _ ext

theorem getCompactString_extends (pd ext : List Byte) :
    Res.Extends (getCompactString pd) (getCompactString (pd ++ ext)) ext := by
  unfold getCompactString
  refine Res.Extends.bind _ (getUVarint_extends pd ext) ?_
  intro n rest
  exact Res.Extends.ite _ (fun _ => Res.Extends.error _ _ ext)
    (fun _ => getRaw_extends _ rest ext)

theorem getArrayLength_extends (pd ext : List Byte) :
    Res.Extends (getArrayLength pd) (getArrayLength (pd ++ ext)) ext := by
  unfold getArrayLength
  refine Res.Extends.bind _ (getInt32_extends pd ext) ?_
  intro n rest
  show Res.Extends (if n > (rest.length : Int) then Res.error Err.insufficientData
      else Res.ok (n, rest))
    (if n > ((rest ++ ext).length : Int) then Res.error Err.insufficientData
      else Res.ok (n, rest ++ ext)) ext
  by_cases h : n > (rest.length : Int)
  · rw [if_pos h]
    exact Res.Extends.error _ _ ext
  · have h' : ¬ n > ((rest ++ ext).length : Int) := by
      rw [List.length_append]
      push_cast
      omega
    rw [if_neg h, if_neg h']
    exact Res.Extends.ok _ _ ext

theorem getCompactArrayLength_extends (pd ext : List Byte) :
    Res.Extends (getCompactArrayLength pd) (getCompactArrayLength (pd ++ ext)) ext := by
  unfold getCompactArrayLength
  refine Res.Extends.bind _ (getUVarint_extends pd ext) ?_
  intro n rest
  exact Res.Extends.ite _ (fun _ => Res.Extends.ok _ _ ext) (fun _ => Res.Extends.ok _ _ ext)

theorem getInt32s_extends (n : Nat) (pd ext : List Byte) :
    Res.Extends (getInt32s n pd) (getInt32s n (pd ++ ext)) ext := by
  induction n generalizing pd with
  | zero => exact Res.Extends.ok _ _ ext
  | succ n ih =>
    unfold getInt32s
    refine Res.Extends.bind _ (getInt32_extends pd ext) ?_
    intro x rest
    refine Res.Extends.bind _ (ih rest) ?_
    intro xs rest'
    exact Res.Extends.ok _ _ ext

theorem getInt32Array_extends (pd ext : List Byte) :
    Res.Extends (getInt32Array pd) (getInt32Array (pd ++ ext)) ext := by
  unfold getInt32Array
  refine Res.Extends.bind _ (getInt32_extends pd ext) ?_
  intro n rest
  refine Res.Extends.ite _ (fun _ => Res.Extends.error _ _ ext) (fun _ => ?_)
  refine Res.Extends.ite _ (fun _ => Res.Extends.ok _ _ ext) (fun _ => ?_)
  refine Res.Extends.bind _ (getInt32s_extends _ rest ext) ?_
  intro xs rest'
  exact Res.Extends.ok _ _ ext

theorem getCompactInt32Array_extends (pd ext : List Byte) :
    Res.Extends (getCompactInt32Array pd) (getCompactInt32Array (pd ++ ext)) ext := by
  unfold getCompactInt32Array
  refine Res.Extends.bind _ (getUVarint_extends pd ext) ?_
  intro n rest
  refine Res.Extends.bind _ (getInt32s_extends _ rest ext) ?_
  intro xs rest'
  exact Res.Extends.ok _ _ ext

theorem skipTaggedFields_extends (count : Nat) (pd ext : List Byte) :
    Res.Extends (skipTaggedFields count pd) (skipTaggedFields count (pd ++ ext)) ext := by
  induction count generalizing pd with
  | zero => exact Res.Extends.ok _ _ ext
  | succ count ih =>
    unfold skipTaggedFields
    refine Res.Extends.bind _ (getUVarint_extends pd ext) ?_
    intro tag rest
    refine Res.Extends.bind _ (getUVarint_extends rest ext) ?_
    intro len rest'
    refine Res.Extends.bind _ (getRaw_extends _ rest' ext) ?_
    intro payload rest''
    exact ih rest''

theorem getEmptyTaggedFieldArray_extends (pd ext : List Byte) :
    Res.Extends (getEmptyTaggedFieldArray pd) (getEmptyTaggedFieldArray (pd ++ ext)) ext := by
  unfold getEmptyTaggedFieldArray
  refine Res.Extends.bind _ (getUVarint_extends pd ext) ?_
  intro count rest
  refine Res.Extends.bind _ (skipTaggedFields_extends _ rest ext) ?_
  intro u rest'
  exact Res.Extends.ok _ _ ext

theorem offsetCommitRequestBlock.block_decode_extends (b : offsetCommitRequestBlock)
    (pd ext : List Byte) (version : Int) :
    Res.Extends (b.decode pd version) (b.decode (pd ++ ext) version) ext := by
  unfold offsetCommitRequestBlock.decode
  refine Res.Extends.bind _ (getInt64_extends pd ext) ?_
  intro offset rest
  refine Res.Extends.bind _ (Res.Extends.ite _ (fun _ => ?_) (fun _ => Res.Extends.ok _ _ ext)) ?_
  · refine Res.Extends.bind _ (getInt64_extends rest ext) ?_
    intro ts rest'
    exact Res.Extends.ok _ _ ext
  intro b1 rest1
  refine Res.Extends.bind _ (Res.Extends.ite _ (fun _ => ?_) (fun _ => Res.Extends.ok _ _ ext)) ?_
  · refine Res.Extends.bind _ (getInt32_extends rest1 ext) ?_
    intro ep rest'
    exact Res.Extends.ok _ _ ext
  intro b2 rest2
  refine Res.Extends.bind _ (getString_extends rest2 ext) ?_
  intro md rest3
  exact Res.Extends.ok _ _ ext

theorem OffsetCommitRequest.decodePartitions_extends (version : Int) (j : Nat)
    (pd ext : List Byte) (m : List (Int × offsetCommitRequestBlock)) :
    Res.Extends (OffsetCommitRequest.decodePartitions version j pd m)
      (OffsetCommitRequest.decodePartitions version j (pd ++ ext) m) ext := by
  induction j generalizing pd m with
  | zero => exact Res.Extends.ok _ _ ext
  | succ j ih =>
    unfold OffsetCommitRequest.decodePartitions
    refine Res.Extends.bind _ (getInt32_extends pd ext) ?_
    intro partition rest
    refine Res.Extends.bind _
      (offsetCommitRequestBlock.block_decode_extends _ rest ext version) ?_
    intro block rest'
    exact ih rest' _

theorem OffsetCommitRequest.commitRequest_decodeTopics_extends (version : Int) (i : Nat)
    (pd ext : List Byte) (m : List (GoString × List (Int × offsetCommitRequestBlock))) :
    Res.Extends (OffsetCommitRequest.decodeTopics version i pd m)
      (OffsetCommitRequest.decodeTopics version i (pd ++ ext) m) ext := by
  induction i generalizing pd m with
  | zero => exact Res.Extends.ok _ _ ext
  | succ i ih =>
    unfold OffsetCommitRequest.decodeTopics
    refine Res.Extends.bind _ (getString_extends pd ext) ?_
    intro topic rest
    refine Res.Extends.bind _ (getArrayLength_extends rest ext) ?_
    intro count rest1
    refine Res.Extends.bind _
      (OffsetCommitRequest.decodePartitions_extends version _ rest1 ext []) ?_
    intro partitions rest2
    exact ih rest2 _

/-- `OffsetCommitRequest.decode` never panics and reads forward only. -/
theorem OffsetCommitRequest.commitRequest_decode_extends (r : OffsetCommitRequest)
    (pd ext : List Byte) (version : Int) :
    Res.Extends (r.decode pd version) (r.decode (pd ++ ext) version) ext := by
  unfold OffsetCommitRequest.decode
  refine Res.Extends.bind _ (getString_extends pd ext) ?_
  intro group rest
  refine Res.Extends.bind _ (Res.Extends.ite _ (fun _ => ?_) (fun _ => Res.Extends.ok _ _ ext)) ?_
  · refine Res.Extends.bind _ (getInt32_extends rest ext) ?_
    intro gen rest'
    refine Res.Extends.bind _ (getString_extends rest' ext) ?_
    intro cid rest''
    exact Res.Extends.ok _ _ ext
  intro r1 rest1
  refine Res.Extends.bind _ (Res.Extends.ite _ (fun _ => ?_) (fun _ => Res.Extends.ok _ _ ext)) ?_
  · refine Res.Extends.bind _ (getInt64_extends rest1 ext) ?_
    intro ret rest'
    exact Res.Extends.ok _ _ ext
  intro r2 rest2
  refine Res.Extends.bind _ (Res.Extends.ite _ (fun _ => ?_) (fun _ => Res.Extends.ok _ _ ext)) ?_
  · refine Res.Extends.bind _ (getNullableString_extends rest2 ext) ?_
    intro gid rest'
    exact Res.Extends.ok _ _ ext
  intro r3 rest3
  refine Res.Extends.bind _ (getArrayLength_extends rest3 ext) ?_
  intro count rest4
  refine Res.Extends.ite _ (fun _ => Res.Extends.ok _ _ ext) (fun _ => ?_)
  refine Res.Extends.bind _
    (OffsetCommitRequest.commitRequest_decodeTopics_extends _ _ rest4 ext []) ?_
  intro blocks rest5
  exact Res.Extends.ok _ _ ext

theorem Res.Extends.bindRest {α β : Type} {x y : Res (α × List Byte)} {ext : List Byte}
    (k : List Byte → Res (β × List Byte)) (h : Res.Extends x y ext)
    (hk : ∀ rest, Res.Extends (k rest) (k (rest ++ ext)) ext) :
    Res.Extends ((x.bind (fun p => Res.ok p.2)).bind k)
      ((y.bind (fun p => Res.ok p.2)).bind k) ext := by
  cases x with
  | ok p =>
    obtain ⟨a, rest⟩ := p
    rw [h.2 a rest rfl]
    exact hk rest
  | error e => exact Res.Extends.error e _ ext
  | panic => exact absurd rfl h.1

theorem OffsetFetchRequest.fetchRequest_decodeTopics_extends (flex : Bool) (i : Nat)
    (pd ext : List Byte) (m : List (GoString × Option (List Int))) :
    Res.Extends (OffsetFetchRequest.decodeTopics flex i pd m)
      (OffsetFetchRequest.decodeTopics flex i (pd ++ ext) m) ext := by
  induction i generalizing pd m with
  | zero => exact Res.Extends.ok _ _ ext
  | succ i ih =>
    unfold OffsetFetchRequest.decodeTopics
    cases flex
    · simp only [Bool.false_eq_true, if_false]
      refine Res.Extends.bind _ (getString_extends pd ext) ?_
      intro topic rest
      refine Res.Extends.bind _ (getInt32Array_extends rest ext) ?_
      intro partitions rest1
      exact ih rest1 _
    · simp only [if_true]
      refine Res.Extends.bind _ (getCompactString_extends pd ext) ?_
      intro topic rest
      refine Res.Extends.bind _ (getCompactInt32Array_extends rest ext) ?_
      intro partitions rest1
      refine Res.Extends.bindRest _ (getEmptyTaggedFieldArray_extends rest1 ext) ?_
      intro rest2
      exact ih rest2 _

/-- `OffsetFetchRequest.decode` never panics and reads forward only. -/
theorem OffsetFetchRequest.fetchRequest_decode_extends (r : OffsetFetchRequest)
    (pd ext : List Byte) (version : Int) :
    Res.Extends (r.decode pd version) (r.decode (pd ++ ext) version) ext := by
  unfold OffsetFetchRequest.decode
  by_cases h6 : version ≥ 6
  · simp only [h6, decide_True, if_true]
    refine Res.Extends.bind _ (getCompactString_extends pd ext) ?_
    intro group rest
    refine Res.Extends.bind _ (getCompactArrayLength_extends rest ext) ?_
    intro count rest1
    refine Res.Extends.ite _ (fun _ => Res.Extends.ok _ _ ext) (fun _ => ?_)
    refine Res.Extends.bind _
      (OffsetFetchRequest.fetchRequest_decodeTopics_extends _ _ rest1 ext []) ?_
    intro partitions rest2
    refine Res.Extends.bind _
      (Res.Extends.ite _ (fun _ => ?_) (fun _ => Res.Extends.ok _ _ ext)) ?_
    · refine Res.Extends.bind _ (getBool_extends rest2 ext) ?_
      intro stable rest'
      exact Res.Extends.ok _ _ ext
    intro r1 rest3
    refine Res.Extends.bindRest _ (getEmptyTaggedFieldArray_extends rest3 ext) ?_
    intro rest4
    exact Res.Extends.ok _ _ ext
  · simp only [h6, decide_False, Bool.false_eq_true, if_false]
    refine Res.Extends.bind _ (getString_extends pd ext) ?_
    intro group rest
    refine Res.Extends.bind _ (getArrayLength_extends rest ext) ?_
    intro count rest1
    refine Res.Extends.ite _ (fun _ => Res.Extends.ok _ _ ext) (fun _ => ?_)
    refine Res.Extends.bind _
      (OffsetFetchRequest.fetchRequest_decodeTopics_extends _ _ rest1 ext []) ?_
    intro partitions rest2
    refine Res.Extends.bind _
      (Res.Extends.ite _ (fun _ => ?_) (fun _ => Res.Extends.ok _ _ ext)) ?_
    · refine Res.Extends.bind _ (getBool_extends rest2 ext) ?_
      intro stable rest'
      exact Res.Extends.ok _ _ ext
    intro r1 rest3
    exact Res.Extends.ok _ _ ext

/-- A call that reads forward only and reads all of a buffer returns an error on every
shorter prefix of it. -/
theorem Res.Extends.truncated {α : Type} (g : List Byte → Res (α × List Byte))
    (hg : ∀ pd ext, Res.Extends (g pd) (g (pd ++ ext)) ext) (b : List Byte) (a : α)
    (hb : g b = Res.ok (a, [])) (k : Nat) (hk : k < b.length) :
    ∃ e, g (b.take k) = Res.error e := by
  have h := hg (b.take k) (b.drop k)
  rw [List.take_append_drop] at h
  cases hx : g (b.take k) with
  | ok p =>
    obtain ⟨a', rest⟩ := p
    rw [hx] at h
    have h2 := h.2 a' rest rfl
    rw [hb] at h2
    simp only [Res.ok.injEq, Prod.mk.injEq] at h2
    have hnil : b.drop k = [] := (List.append_eq_nil.mp h2.2.symm).2
    have hlen : (b.drop k).length = 0 := by rw [hnil]; rfl
    rw [List.length_drop] at hlen
    omega
  | error e => exact ⟨e, rfl⟩
  | panic =>
    rw [hx] at h
    exact absurd rfl h.1

theorem putNullableString_of_ok {s : Option GoString} (h : (putNullableString s).err = none) :
    OptFits s := by
  cases s with
  | none => exact True.intro
  | some v => exact putString_of_ok h

theorem offsetCommitRequestBlock.block_metadata_of_ok (b : offsetCommitRequestBlock) (v : Int)
    (h : (b.encode v).err = none) : b.metadata.length ≤ 32767 :=
  putString_of_ok (Enc.seq_of_ok _ h _ (by simp))

theorem OffsetCommitRequest.carried_entries (r : OffsetCommitRequest) :
    entries r.carried.blocks = (entries r.blocks).map (fun tp =>
      (tp.1, tp.2.map (fun pb => (pb.1, pb.2.carried r.Version)))) := by
  unfold OffsetCommitRequest.carried
  exact entries_map r.blocks _ rfl

/-- What a successful `encode` tells: the version is supported, and the strings and
counts of the carried fields fit their prefixes. -/
theorem OffsetCommitRequest.carried_fits_of_ok (r : OffsetCommitRequest)
    (h : r.encode.err = none) :
    (0 ≤ r.Version ∧ r.Version ≤ 7) ∧ r.carried.StringsFit ∧ r.carried.CountsFit := by
  have hvalid : ¬ (r.Version < 0 ∨ r.Version > 7) := by
    intro hbad
    unfold OffsetCommitRequest.encode at h
    rw [if_pos hbad] at h
    exact absurd h (by simp [Enc.fail])
  unfold OffsetCommitRequest.encode at h
  rw [if_neg hvalid] at h
  have hall := Enc.seq_of_ok _ h
  simp only [List.mem_cons, List.mem_singleton, forall_eq_or_imp, forall_eq, List.not_mem_nil,
    false_implies, implies_true, and_true] at hall
  obtain ⟨hg, h2, _, h4, h5, h6⟩ := hall
  have hts := Enc.forEach_of_ok _ _ h6
  have htopic : ∀ tp ∈ entries r.blocks, tp.1.length ≤ 32767 ∧ tp.2.length ≤ 2147483647 ∧
      ∀ pb ∈ tp.2, pb.2.metadata.length ≤ 32767 := by
    intro tp htp
    have hall2 := Enc.seq_of_ok _ (hts tp htp)
    simp only [List.mem_cons, List.mem_singleton, forall_eq_or_imp, forall_eq,
      List.not_mem_nil, false_implies, implies_true, and_true] at hall2
    obtain ⟨hname, hcount, hps⟩ := hall2
    refine ⟨putString_of_ok hname, putArrayLength_of_ok hcount, ?_⟩
    intro pb hpb
    have hpb2 := Enc.seq_of_ok _ (Enc.forEach_of_ok _ _ hps pb hpb)
    exact offsetCommitRequestBlock.block_metadata_of_ok pb.2 r.Version (hpb2 _ (by simp))
  refine ⟨by omega, ⟨putString_of_ok hg, ?_, ?_, ?_⟩, ?_, ?_⟩
  · show (if r.Version ≥ 1 then r.ConsumerID else []).length ≤ 32767
    by_cases h1 : r.Version ≥ 1
    · rw [if_pos h1] at h2 ⊢
      exact putString_of_ok (Enc.seq_of_ok _ h2 _ (by simp))
    · rw [if_neg h1]
      decide
  · show OptFits (if r.Version ≥ 7 then r.GroupInstanceId else none)
    by_cases h7 : r.Version ≥ 7
    · rw [if_pos h7] at h4 ⊢
      exact putNullableString_of_ok h4
    · rw [if_neg h7]
      exact True.intro
  · intro tp htp
    rw [OffsetCommitRequest.carried_entries] at htp
    obtain ⟨tp0, htp0, rfl⟩ := List.mem_map.mp htp
    refine ⟨(htopic tp0 htp0).1, ?_⟩
    intro pb hpb
    obtain ⟨pb0, hpb0, rfl⟩ := List.mem_map.mp hpb
    exact (htopic tp0 htp0).2.2 pb0 hpb0
  · rw [OffsetCommitRequest.carried_entries, List.length_map]
    exact putArrayLength_of_ok h5
  · intro tp htp
    rw [OffsetCommitRequest.carried_entries] at htp
    obtain ⟨tp0, htp0, rfl⟩ := List.mem_map.mp htp
    simp only [List.length_map]
    exact (htopic tp0 htp0).2.1

theorem OffsetCommitRequest.carried_wireTyped (r : OffsetCommitRequest) (h : r.WireTyped) :
    r.carried.WireTyped := by
  obtain ⟨hgen, hret, hblocks⟩ := h
  have h032 : IsInt32 0 := by decide
  have h064 : IsInt64 0 := by decide
  refine ⟨?_, ?_, ?_⟩
  · show IsInt32 (if r.Version ≥ 1 then r.ConsumerGroupGeneration else 0)
    split
    · exact hgen
    · exact h032
  · show IsInt64 (if r.Version ≥ 2 ∧ r.Version ≤ 4 then r.RetentionTime else 0)
    split
    · exact hret
    · exact h064
  · intro tp htp pb hpb
    rw [OffsetCommitRequest.carried_entries] at htp
    obtain ⟨tp0, htp0, rfl⟩ := List.mem_map.mp htp
    obtain ⟨pb0, hpb0, rfl⟩ := List.mem_map.mp hpb
    obtain ⟨hp, ho, hts, hep⟩ := hblocks tp0 htp0 pb0 hpb0
    refine ⟨hp, ho, ?_, ?_⟩
    · show IsInt64 (if r.Version = 1 then pb0.2.timestamp else 0)
      split
      · exact hts
      · exact h064
    · show IsInt32 (if r.Version ≥ 6 then pb0.2.committedLeaderEpoch else 0)
      split
      · exact hep
      · exact h032

theorem OffsetCommitRequest.carried_defaultsAt (r : OffsetCommitRequest) :
    r.carried.DefaultsAt r.Version := by
  refine ⟨?_, ?_, ?_, ?_⟩
  · intro h0
    have h1 : ¬ r.Version ≥ 1 := by omega
    constructor
    · show (if r.Version ≥ 1 then r.ConsumerGroupGeneration else 0) = 0
      rw [if_neg h1]
    · show (if r.Version ≥ 1 then r.ConsumerID else []) = []
      rw [if_neg h1]
  · intro h
    show (if r.Version ≥ 2 ∧ r.Version ≤ 4 then r.RetentionTime else 0) = 0
    rw [if_neg h]
  · intro h
    have h7 : ¬ r.Version ≥ 7 := by omega
    show (if r.Version ≥ 7 then r.GroupInstanceId else none) = none
    rw [if_neg h7]
  · intro tp htp pb hpb
    rw [OffsetCommitRequest.carried_entries] at htp
    obtain ⟨tp0, htp0, rfl⟩ := List.mem_map.mp htp
    obtain ⟨pb0, hpb0, rfl⟩ := List.mem_map.mp hpb
    constructor
    · intro h1
      show (if r.Version = 1 then pb0.2.timestamp else 0) = 0
      rw [if_neg h1]
    · intro h6
      have h6' : ¬ r.Version ≥ 6 := by omega
      show (if r.Version ≥ 6 then pb0.2.committedLeaderEpoch else 0) = 0
      rw [if_neg h6']

/-- Decoding what `encode` wrote for a well-formed request, into any receiver: every
byte is read. -/
theorem OffsetCommitRequest.decode_wire_into (m : OffsetCommitRequest) (v : Int)
    (hv : 0 ≤ v ∧ v ≤ 7) (hver : m.Version = v) (ht : m.WireTyped) (hs : m.StringsFit)
    (hc : m.CountsFit) (hd : m.DefaultsAt v) (r0 : OffsetCommitRequest) :
    ∃ d, r0.decode m.encode.out v = Res.ok (d, []) := by
  subst hver
  obtain ⟨herr, hout⟩ := OffsetCommitRequest.commitRequest_encode_parts m hv hs hc
  obtain ⟨g, gen, cid, gid, ret, ver, blocks⟩ := m
  obtain ⟨hgen, hret, htyped⟩ := ht
  obtain ⟨hg, hcid, hgid, htp⟩ := hs
  obtain ⟨hn, hnp⟩ := hc
  obtain ⟨hd0, hdret, hdgid, hdb⟩ := hd
  simp only at hv hgen hret htyped hg hcid hgid htp hn hnp hd0 hdret hdgid hdb hout
  have hloop := OffsetCommitRequest.decodeTopics_wire ver (entries blocks)
    (fun tp h => ⟨(htp tp h).1, hnp tp h, fun pb hpb =>
      ⟨(htyped tp h pb hpb).1, (htyped tp h pb hpb).2, (htp tp h).2 pb hpb,
        hdb tp h pb hpb⟩⟩) [] []
  have hlen := OffsetCommitRequest.commitRequest_topics_length_le ver (entries blocks)
    (fun tp h => ⟨(htp tp h).1, hnp tp h, (htp tp h).2⟩)
  rw [List.append_nil] at hloop
  have hcount := getArrayLength_putArrayLength (entries blocks).length hn _ hlen
  rw [hout]
  unfold OffsetCommitRequest.decode
  simp only [List.append_assoc, getString_putString _ hg, bind, Res.bind]
  have hcases : ver = 0 ∨ ver = 1 ∨ ver = 2 ∨ ver = 3 ∨ ver = 4 ∨ ver = 5 ∨ ver = 6 ∨ ver = 7 := by
    omega
  have hnil : (entries blocks).length = 0 → entries blocks = [] := List.length_eq_zero.mp
  rcases hcases with rfl | rfl | rfl | rfl | rfl | rfl | rfl | rfl
  all_goals
    simp only [Int.reduceGE, Int.reduceLE, Int.reduceLT, and_true, and_false, true_and, false_and,
      if_true, if_false, List.nil_append, List.append_assoc, getInt32_putInt32 _ hgen,
      getString_putString _ hcid, getInt64_putInt64 _ hret,
      getNullableString_putNullableString _ hgid, hcount, not_true_eq_false, not_false_eq_true,
      forall_true_left, ge_iff_le, true_implies, false_implies] at hd0 hdret hdgid ⊢
    clear herr hout hlen htp hnp htyped hdb
    by_cases hz : (entries blocks).length = 0
    · have hz' : ((entries blocks).length : Int) = 0 := by omega
      simp only [hz', if_true]
      rw [hnil hz]
      exact ⟨_, rfl⟩
    · have hz' : ¬ ((entries blocks).length : Int) = 0 := by omega
      simp only [hz', if_false, Int.toNat_ofNat, hloop]
      exact ⟨_, rfl⟩

/-- Whatever `OffsetCommitRequest.encode` writes without an error, `decode` at the same
version reads to the last byte, into any receiver. -/
theorem OffsetCommitRequest.commitRequest_decode_reads_all (m : OffsetCommitRequest)
    (ht : m.WireTyped) (h : m.encode.err = none) (r0 : OffsetCommitRequest) :
    ∃ d, r0.decode m.encode.out m.Version = Res.ok (d, []) := by
  obtain ⟨hv, hs, hc⟩ := OffsetCommitRequest.carried_fits_of_ok m h
  rw [(OffsetCommitRequest.commitRequest_encode_carried m).1]
  exact OffsetCommitRequest.decode_wire_into m.carried m.Version hv rfl
    (OffsetCommitRequest.carried_wireTyped m ht) hs hc
    (OffsetCommitRequest.carried_defaultsAt m) r0

/-- Whatever `OffsetFetchRequest.encode` writes without an error, `decode` at the same
version reads to the last byte, into any receiver. -/
theorem OffsetFetchRequest.fetchRequest_decode_reads_all (m : OffsetFetchRequest)
    (ht : m.Typed) (h : m.encode.err = none) (r0 : OffsetFetchRequest) :
    ∃ d, r0.decode m.encode.out m.Version = Res.ok (d, []) := by
  have he := OffsetFetchRequest.fetchRequest_encodable_of_ok m h
  by_cases h6 : m.Version ≥ 6
  · exact ⟨_, OffsetFetchRequest.decode_encode_flexible m he h6 ht r0⟩
  · exact ⟨_, OffsetFetchRequest.decode_encode_legacy m he (by omega) ht r0⟩

/-- C6: for every version v in 0..7, every OffsetFetchRequest and every
OffsetCommitRequest m with Version = v whose encode succeeds with output b, and every
receiver: decode of b at v succeeds and reads every byte of b, and for every
k < length(b) decode of the first k bytes of b at v returns an error (it neither
succeeds nor panics). This covers the early returns of decode and the flexible versions
6 and 7 with their terminators. -/
theorem requests_decode_truncated (v : Int) (hv : 0 ≤ v ∧ v ≤ 7) :
    (∀ (m r0 : OffsetFetchRequest), m.Version = v → m.Typed → m.encode.err = none →
      (∃ d, r0.decode m.encode.out v = Res.ok (d, [])) ∧
      ∀ k, k < m.encode.out.length →
        ∃ e, r0.decode (m.encode.out.take k) v = Res.error e) ∧
    (∀ (m r0 : OffsetCommitRequest), m.Version = v → m.WireTyped → m.encode.err = none →
      (∃ d, r0.decode m.encode.out v = Res.ok (d, [])) ∧
      ∀ k, k < m.encode.out.length →
        ∃ e, r0.decode (m.encode.out.take k) v = Res.error e) := by
  constructor
  · intro m r0 hver ht herr
    subst hver
    obtain ⟨d, hd⟩ := OffsetFetchRequest.fetchRequest_decode_reads_all m ht herr r0
    refine ⟨⟨d, hd⟩, fun k hk => ?_⟩
    exact Res.Extends.truncated (fun pd => r0.decode pd m.Version)
      (fun pd ext => OffsetFetchRequest.fetchRequest_decode_extends r0 pd ext m.Version)
      m.encode.out d hd k hk
  · intro m r0 hver ht herr
    subst hver
    obtain ⟨d, hd⟩ := OffsetCommitRequest.commitRequest_decode_reads_all m ht herr r0
    refine ⟨⟨d, hd⟩, fun k hk => ?_⟩
    exact Res.Extends.truncated (fun pd => r0.decode pd m.Version)
      (fun pd ext => OffsetCommitRequest.commitRequest_decode_extends r0 pd ext m.Version)
      m.encode.out d hd k hk

/-- Witness of C6: the version 6 request for all topics is written as 02 67 00 00;
decode reads the four bytes, and from the first three it returns the insufficient-data
error; the version 7 commit request of the scenario, cut after 20 of its bytes, is
refused as well. -/
theorem requests_decode_truncated_witness :
    OffsetFetchRequest.allTopics.Typed ∧ OffsetFetchRequest.allTopics.encode.err = none ∧
    OffsetFetchRequest.allTopics.encode.out = [2, 103, 0, 0] ∧
    (∃ d, OffsetFetchRequest.zero.decode OffsetFetchRequest.allTopics.encode.out 6
      = Res.ok (d, [])) ∧
    (∃ e, OffsetFetchRequest.zero.decode (OffsetFetchRequest.allTopics.encode.out.take 3) 6
      = Res.error e) ∧
    OffsetFetchRequest.zero.decode [2, 103, 0] 6 = Res.error Err.insufficientData ∧
    OffsetCommitRequest.scenario.WireTyped ∧ OffsetCommitRequest.scenario.encode.err = none ∧
    (∃ e, OffsetCommitRequest.zero.decode (OffsetCommitRequest.scenario.encode.out.take 20) 7
      = Res.error e) :=
  ⟨by decide, by decide, by decide,
    ((requests_decode_truncated 6 (by decide)).1 OffsetFetchRequest.allTopics
      OffsetFetchRequest.zero rfl (by decide) (by decide)).1,
    ((requests_decode_truncated 6 (by decide)).1 OffsetFetchRequest.allTopics
      OffsetFetchRequest.zero rfl (by decide) (by decide)).2 3 (by decide),
    by decide, by decide, by decide,
    ((requests_decode_truncated 7 (by decide)).2 OffsetCommitRequest.scenario
      OffsetCommitRequest.zero rfl (by decide) (by decide)).2 20 (by decide)⟩

end Sarama
